import Mathlib

/-!
Verification of the scope-aware variable-renaming pass
(src/modifications/renaming/variableRenamer.ts).

The pass is embedded shallowly:
* the syntax tree is the inductive `Renamer.Node`; node identity (JS reference
  equality) is modelled by preorder numbering: every tree node and every
  binding-identifier site receives a distinct `Nat` id, assigned in the fixed
  traversal order that both walks of the source share;
* the mutable object graph (scopes with parent/child links, shared `Variable`
  objects) is modelled by a flat store `Renamer.St`: `scopes` is the list of
  all scopes in creation order (a scope id is its index), `vars` is the heap
  of all `Variable` objects in allocation order (a variable id is its index);
* `Scope` and `Variable` (scope.ts / variable.ts) are not part of the given
  sources; their operations are modelled from the spec, as marked on each
  definition;
* exceptions become `Except Err`.
-/

namespace Renamer

/-- Scope kinds, from the spec's data model (ScopeType in scope.ts). -/
inductive ScopeType where
  | Global
  | Function
  | Other
  deriving DecidableEq, Repr

/-- The fatal conditions the pass can raise (thrown `Error`s in the source). -/
inductive Err where
  | duplicateDeclaration (name : String)
  | scopeAssociationFailure (nodeType : String)
  | nameExhaustion
  deriving DecidableEq, Repr

/-- A declarator/parameter binding: either a plain `BindingIdentifier` or an
opaque destructuring pattern (whose internals the pass never inspects). -/
inductive Binding where
  | bid (name : String)
  | pattern
  deriving DecidableEq, Repr

/-- The syntax-tree node shapes the pass dispatches on.  Unhandled node kinds
are folded into `other`; a `variableDeclaration` keeps its declarator binding
list and the list of initializer subtrees (the walk's enter callback reads only
the bindings; the traversal then descends into the initializers). -/
inductive Node where
  | script (body : List Node)
  | functionDeclaration (name : String) (params : List Binding) (body : List Node)
  | functionExpression (name : Option String) (params : List Binding) (body : List Node)
  | arrowExpression (params : List Binding) (body : List Node)
  | catchClause (binding : Option Binding) (body : List Node)
  | forStatement (body : List Node)
  | blockStatement (body : List Node)
  | variableDeclaration (kind : String) (bindings : List Binding) (inits : List Node)
  | identifierExpression (name : String)
  | other (children : List Node)

/-- A symbol-table entry (class Variable in variable.ts; fields from the
spec's data model).  Declaration/reference sites are stored as node ids. -/
structure Variable where
  name : String
  kind : String
  declarations : List Nat
  references : List Nat
  deriving DecidableEq, Repr

/-- One scope of the scope tree (class Scope in scope.ts; fields from the
spec's data model).  `node` is the id of the syntax-tree node that created the
scope, `parent` an index into the scope store, `table` the name → variable-id
map in insertion order. -/
structure ScopeData where
  node : Nat
  stype : ScopeType
  parent : Option Nat
  table : List (String × Nat)
  deriving DecidableEq, Repr

/-- The pass state shared by both walks: all scopes in creation order, the
heap of all allocated `Variable` objects, and the used-name set
(`usedVariableNames` in the source, kept as a duplicate-free list). -/
structure St where
  scopes : List ScopeData
  vars : List Variable
  usedVariableNames : List String
  deriving DecidableEq, Repr

/-- Modelled from the spec: the set of block-scoped declaration kinds
(variable.ts `blockScopedTypes`); per the spec invariant `isBlockScoped()`
holds iff the kind is let, const or catch-binding. -/
def blockScopedTypes : List String := ["let", "const", "catch-binding"]

/-- Modelled from the spec: `Variable.isBlockScoped` (variable.ts). -/
def Variable.isBlockScoped (v : Variable) : Bool :=
  blockScopedTypes.contains v.kind

def dummyVariable : Variable := ⟨"", "", [], []⟩

def dummyScope : ScopeData := ⟨0, ScopeType.Global, none, []⟩

/-- Fetch a scope from the store (total; out-of-range reads never occur in
reachable states). -/
def getScope (st : St) (sid : Nat) : ScopeData :=
  st.scopes[sid]?.getD dummyScope

/-- Fetch a variable from the heap. -/
def getVar (st : St) (vid : Nat) : Variable :=
  st.vars[vid]?.getD dummyVariable

def setVar (st : St) (vid : Nat) (v : Variable) : St :=
  { st with vars := st.vars.set vid v }

/-- Allocate a fresh `Variable` object (`new Variable(...)` in the source);
returns its heap id. -/
def allocVar (st : St) (v : Variable) : St × Nat :=
  ({ st with vars := st.vars ++ [v] }, st.vars.length)

def setTable (st : St) (sid : Nat) (t : List (String × Nat)) : St :=
  { st with scopes := st.scopes.set sid { getScope st sid with table := t } }

/-- Modelled from the spec: the ascent loop of `Scope.getDeclarationScope`
(scope.ts): while the scope has a parent and is of Other kind, ascend.
Fuel-based; `st.scopes.length` fuel suffices on reachable states where parent
indices decrease. -/
def getDeclarationScopeAux (st : St) : Nat → Nat → Nat
  | 0, sid => sid
  | fuel + 1, sid =>
    let s := getScope st sid
    match s.parent with
    | some p => if s.stype = ScopeType.Other then getDeclarationScopeAux st fuel p else sid
    | none => sid

/-- Modelled from the spec: `Scope.getDeclarationScope(kind)` (scope.ts): for
a block-scoped kind the current scope; for var-like kinds the nearest
enclosing non-Other (Function or Global) scope. -/
def getDeclarationScope (st : St) (sid : Nat) (kind : String) : Nat :=
  if blockScopedTypes.contains kind then sid
  else getDeclarationScopeAux st st.scopes.length sid

/-- Modelled from the spec: the recursion of `Scope.lookupVariable` (scope.ts):
check this scope's table, else ascend to the parent.  Fuel-based. -/
def lookupVariableAux (st : St) : Nat → Nat → String → Option Nat
  | 0, _, _ => none
  | fuel + 1, sid, name =>
    let s := getScope st sid
    match s.table.lookup name with
    | some vid => some vid
    | none =>
      match s.parent with
      | some p => lookupVariableAux st fuel p name
      | none => none

/-- Modelled from the spec: `Scope.lookupVariable(name)` (scope.ts). -/
def lookupVariable (st : St) (sid : Nat) (name : String) : Option Nat :=
  lookupVariableAux st st.scopes.length sid name

/-- Modelled from the spec: `Scope.addVariable(v)` (scope.ts).  The variable
is declared into `getDeclarationScope(v.kind)` (spec 4.2/hoisting); if a
variable of the same name already exists there, the conflict rule of spec 4.1
applies: raise DuplicateDeclaration when either side is block-scoped,
otherwise merge by appending the new variable's declaration sites to the
existing one; else insert fresh. -/
def addVariable (st : St) (sid : Nat) (vid : Nat) : Except Err St :=
  match (getScope st (getDeclarationScope st sid (getVar st vid).kind)).table.lookup
      (getVar st vid).name with
  | some evid =>
    if (getVar st evid).isBlockScoped || (getVar st vid).isBlockScoped then
      Except.error (Err.duplicateDeclaration (getVar st vid).name)
    else
      Except.ok (setVar st evid
        { getVar st evid with
          declarations := (getVar st evid).declarations ++ (getVar st vid).declarations })
  | none =>
    Except.ok (setTable st (getDeclarationScope st sid (getVar st vid).kind)
      ((getScope st (getDeclarationScope st sid (getVar st vid).kind)).table ++
        [((getVar st vid).name, vid)]))

/-- `shouldRename` (variableRenamer.ts line 256): the rename-eligibility
predicate — `name.startsWith('_0x')` — as the character-level prefix check. -/
def shouldRename (name : String) : Bool :=
  "_0x".data.isPrefixOf name.data

/-- `addName` (variableRenamer.ts line 245): record a name as used unless it
matches the rename-eligibility predicate. -/
def addName (st : St) (name : String) : St :=
  if shouldRename name then st
  else if st.usedVariableNames.contains name then st
  else { st with usedVariableNames := st.usedVariableNames ++ [name] }

/-- The constructor's initial state: one Global scope owned by the root node
(id 0), and `usedVariableNames` seeded with the fixed reserved words. -/
def initSt : St :=
  ⟨[⟨0, ScopeType.Global, none, []⟩], [], ["if", "do", "in", "var", "let", "try", "for"]⟩

/-- Scope creation (`new Scope(node, type, scope)` in the source): append a
fresh scope owned by node `nid` with parent `cur` as the last child. -/
def pushScope (st : St) (nid : Nat) (ty : ScopeType) (cur : Nat) : St :=
  { st with scopes := st.scopes ++ [⟨nid, ty, some cur, []⟩] }

/-- The `leave` callback shared by both walks (variableRenamer.ts lines
123-127 and 169-173): pop the scope cursor when leaving the node that owns the
current scope, provided it has a parent. -/
def leaveScope (st : St) (cur : Nat) (nid : Nat) : Nat :=
  let s := getScope st cur
  match s.parent with
  | some p => if s.node = nid then p else cur
  | none => cur

/-- The parameter loop of the function cases (variableRenamer.ts lines 65-73):
each plain-identifier parameter is declared as a var-kind variable of the new
function scope and its name recorded; pattern parameters are skipped (no
break).  `i` is the id of the current parameter node. -/
def addParams : St → Nat → List Binding → Nat → Except Err St
  | st, _, [], _ => Except.ok st
  | st, sid, Binding.pattern :: bs, i => addParams st sid bs (i + 1)
  | st, sid, Binding.bid nm :: bs, i => do
    let st2 ← addVariable (allocVar st ⟨nm, "var", [i], []⟩).1 sid
      (allocVar st ⟨nm, "var", [i], []⟩).2
    addParams (addName st2 nm) sid bs (i + 1)

/-- One declarator of a `VariableDeclaration` (variableRenamer.ts lines
103-117): look the name up in the declaration scope; on a hit either raise
DuplicateDeclaration (block-scoped involvement) or reuse the existing
variable; on a miss create, `addVariable`, `addName`; in both non-error cases
finally push the binding site onto the variable's declarations. -/
def declareBinding (st : St) (sid : Nat) (kind : String) (name : String) (site : Nat) :
    Except Err St :=
  match (getScope st (getDeclarationScope st sid kind)).table.lookup name with
  | some evid =>
    if (getVar st evid).isBlockScoped || blockScopedTypes.contains kind then
      Except.error (Err.duplicateDeclaration (getVar st evid).name)
    else
      Except.ok (setVar st evid
        { getVar st evid with declarations := (getVar st evid).declarations ++ [site] })
  | none => do
    let st2 ← addVariable (allocVar st ⟨name, kind, [], []⟩).1 sid
      (allocVar st ⟨name, kind, [], []⟩).2
    Except.ok (setVar (addName st2 name) st.vars.length
      { getVar (addName st2 name) st.vars.length with
        declarations := (getVar (addName st2 name) st.vars.length).declarations ++ [site] })

/-- The declarator loop of the `VariableDeclaration` case (variableRenamer.ts
lines 98-118): process plain-identifier declarators in order, stopping at the
first destructuring-pattern declarator (`break`).  `i` is the id of the
current declarator's binding node. -/
def processBindings : St → Nat → String → List Binding → Nat → Except Err St
  | st, _, _, [], _ => Except.ok st
  | st, _, _, Binding.pattern :: _, _ => Except.ok st
  | st, sid, kind, Binding.bid nm :: bs, i => do
    let st1 ← declareBinding st sid kind nm i
    processBindings st1 sid kind bs (i + 1)

/-- Number of ids a binding occupies in the preorder numbering (one: the
binding node itself; patterns are opaque leaves). -/
def bindingSize : Binding → Nat := fun _ => 1

mutual

/-- Number of preorder ids a subtree occupies. -/
def sizeN : Node → Nat
  | Node.script body => 1 + sizeL body
  | Node.functionDeclaration _ params body => 1 + 1 + params.length + sizeL body
  | Node.functionExpression name params body =>
    1 + (if name.isSome then 1 else 0) + params.length + sizeL body
  | Node.arrowExpression params body => 1 + params.length + sizeL body
  | Node.catchClause binding body => 1 + (if binding.isSome then 1 else 0) + sizeL body
  | Node.forStatement body => 1 + sizeL body
  | Node.blockStatement body => 1 + sizeL body
  | Node.variableDeclaration _ bindings inits => 1 + bindings.length + sizeL inits
  | Node.identifierExpression _ => 1
  | Node.other children => 1 + sizeL children

def sizeL : List Node → Nat
  | [] => 0
  | n :: ns => sizeN n + sizeL ns

end

mutual

/-- The declaration-collection walk (`collectDeclarations`, variableRenamer.ts
lines 40-129) on one subtree.  Arguments: state, current-scope cursor, the
subtree's first preorder id.  Returns the state, the cursor after this
subtree's `leave`, and the next free id.  The `enter` switch is translated
case by case, including the `FunctionDeclaration` → function-scope and
`CatchClause` → block-scope fallthroughs of the source. -/
def declsN : St → Nat → Nat → Node → Except Err (St × Nat × Nat)
  | st, cur, nid, Node.script body => do
    let (st1, cur1, nid1) ← declsL st cur (nid + 1) body
    Except.ok (st1, leaveScope st1 cur1 nid, nid1)
  | st, cur, nid, Node.functionDeclaration nm params body => do
    let (st1, vid) := allocVar st ⟨nm, "var", [nid + 1], []⟩
    let st2 ← addVariable st1 cur vid
    let st3 := addName st2 nm
    let sid := st3.scopes.length
    let st4 := pushScope st3 nid ScopeType.Function cur
    let st5 ← addParams st4 sid params (nid + 2)
    let (st6, avid) := allocVar st5 ⟨"arguments", "var", [], []⟩
    let st7 ← addVariable st6 sid avid
    let (st8, cur8, nid8) ← declsL st7 sid (nid + 2 + params.length) body
    Except.ok (st8, leaveScope st8 cur8 nid, nid8)
  | st, cur, nid, Node.functionExpression onm params body => do
    let sid := st.scopes.length
    let st1 := pushScope st nid ScopeType.Function cur
    let pstart := nid + 1 + (if onm.isSome then 1 else 0)
    let st3 ←
      match onm with
      | some nm => do
        let (sta, vid) := allocVar st1 ⟨nm, "var", [nid + 1], []⟩
        let stb ← addVariable sta sid vid
        pure (addName stb nm)
      | none => pure st1
    let st4 ← addParams st3 sid params pstart
    let (st5, avid) := allocVar st4 ⟨"arguments", "var", [], []⟩
    let st6 ← addVariable st5 sid avid
    let (st7, cur7, nid7) ← declsL st6 sid (pstart + params.length) body
    Except.ok (st7, leaveScope st7 cur7 nid, nid7)
  | st, cur, nid, Node.arrowExpression params body => do
    let sid := st.scopes.length
    let st1 := pushScope st nid ScopeType.Function cur
    let st2 ← addParams st1 sid params (nid + 1)
    let (st3, cur3, nid3) ← declsL st2 sid (nid + 1 + params.length) body
    Except.ok (st3, leaveScope st3 cur3 nid, nid3)
  | st, cur, nid, Node.catchClause ob body => do
    let st1 ←
      match ob with
      | some (Binding.bid nm) => do
        let (sta, vid) := allocVar st ⟨nm, "let", [nid + 1], []⟩
        let stb ← addVariable sta cur vid
        pure (addName stb nm)
      | some Binding.pattern => pure st
      | none => pure st
    let sid := st1.scopes.length
    let st2 := pushScope st1 nid ScopeType.Other cur
    let bstart := nid + 1 + (if ob.isSome then 1 else 0)
    let (st3, cur3, nid3) ← declsL st2 sid bstart body
    Except.ok (st3, leaveScope st3 cur3 nid, nid3)
  | st, cur, nid, Node.forStatement body => do
    let sid := st.scopes.length
    let st1 := pushScope st nid ScopeType.Other cur
    let (st2, cur2, nid2) ← declsL st1 sid (nid + 1) body
    Except.ok (st2, leaveScope st2 cur2 nid, nid2)
  | st, cur, nid, Node.blockStatement body => do
    let sid := st.scopes.length
    let st1 := pushScope st nid ScopeType.Other cur
    let (st2, cur2, nid2) ← declsL st1 sid (nid + 1) body
    Except.ok (st2, leaveScope st2 cur2 nid, nid2)
  | st, cur, nid, Node.variableDeclaration kind bindings inits => do
    let st1 ← processBindings st cur kind bindings (nid + 1)
    let (st2, cur2, nid2) ← declsL st1 cur (nid + 1 + bindings.length) inits
    Except.ok (st2, leaveScope st2 cur2 nid, nid2)
  | st, cur, nid, Node.identifierExpression _ =>
    Except.ok (st, leaveScope st cur nid, nid + 1)
  | st, cur, nid, Node.other children => do
    let (st1, cur1, nid1) ← declsL st cur (nid + 1) children
    Except.ok (st1, leaveScope st1 cur1 nid, nid1)

def declsL : St → Nat → Nat → List Node → Except Err (St × Nat × Nat)
  | st, cur, nid, [] => Except.ok (st, cur, nid)
  | st, cur, nid, n :: ns => do
    let (st1, cur1, nid1) ← declsN st cur nid n
    declsL st1 cur1 nid1 ns

end

/-- `collectDeclarations` (variableRenamer.ts lines 40-129): run the
declaration walk over the whole tree from the Global scope. -/
def collectDeclarations (t : Node) : Except Err St := do
  let (st, _, _) ← declsN initSt 0 0 t
  Except.ok st

/-- The predicate of the child lookup: scope `c` is a child of `cur` owned by
node `nid`. -/
def childPred (st : St) (cur nid c : Nat) : Bool :=
  ((getScope st c).parent == some cur) && ((getScope st c).node == nid)

/-- The child-scope lookup of the reference walk (variableRenamer.ts line
147): `scope.children.find(s => s.node == node)`; children of `cur` appear in
the store in creation order. -/
def findChildScope (st : St) (cur : Nat) (nid : Nat) : Option Nat :=
  (List.range st.scopes.length).find? (childPred st cur nid)

/-- The scope-re-association step of the reference walk (variableRenamer.ts
lines 141-152). -/
def reenterScope (st : St) (cur : Nat) (nid : Nat) (ty : String) : Except Err Nat :=
  match findChildScope st cur nid with
  | some c => Except.ok c
  | none => Except.error (Err.scopeAssociationFailure ty)

/-- The `IdentifierExpression` case of the reference walk (variableRenamer.ts
lines 155-165): resolve via `lookupVariable`; on failure allocate a fresh
var-kind `Variable` (registered in no scope) and `addName`; in both cases push
the use site onto the variable's references. -/
def recordReference (st : St) (cur : Nat) (nid : Nat) (nm : String) : St :=
  match lookupVariable st cur nm with
  | some vid =>
    let v := getVar st vid
    setVar st vid { v with references := v.references ++ [nid] }
  | none =>
    let (st1, vid) := allocVar st ⟨nm, "var", [], []⟩
    let st2 := addName st1 nm
    let v := getVar st2 vid
    setVar st2 vid { v with references := v.references ++ [nid] }

mutual

/-- The reference-resolution walk (`collectReferences`, variableRenamer.ts
lines 134-175) on one subtree; mirrors the traversal and the scope-cursor
discipline of `declsN` but re-associates with already-built scopes instead of
creating them. -/
def refsN : St → Nat → Nat → Node → Except Err (St × Nat × Nat)
  | st, cur, nid, Node.script body => do
    let (st1, cur1, nid1) ← refsL st cur (nid + 1) body
    Except.ok (st1, leaveScope st1 cur1 nid, nid1)
  | st, cur, nid, Node.functionDeclaration _ params body => do
    let sid ← reenterScope st cur nid "FunctionDeclaration"
    let (st1, cur1, nid1) ← refsL st sid (nid + 2 + params.length) body
    Except.ok (st1, leaveScope st1 cur1 nid, nid1)
  | st, cur, nid, Node.functionExpression onm params body => do
    let sid ← reenterScope st cur nid "FunctionExpression"
    let pstart := nid + 1 + (if onm.isSome then 1 else 0)
    let (st1, cur1, nid1) ← refsL st sid (pstart + params.length) body
    Except.ok (st1, leaveScope st1 cur1 nid, nid1)
  | st, cur, nid, Node.arrowExpression params body => do
    let sid ← reenterScope st cur nid "ArrowExpression"
    let (st1, cur1, nid1) ← refsL st sid (nid + 1 + params.length) body
    Except.ok (st1, leaveScope st1 cur1 nid, nid1)
  | st, cur, nid, Node.catchClause ob body => do
    let sid ← reenterScope st cur nid "CatchClause"
    let bstart := nid + 1 + (if ob.isSome then 1 else 0)
    let (st1, cur1, nid1) ← refsL st sid bstart body
    Except.ok (st1, leaveScope st1 cur1 nid, nid1)
  | st, cur, nid, Node.forStatement body => do
    let sid ← reenterScope st cur nid "ForStatement"
    let (st1, cur1, nid1) ← refsL st sid (nid + 1) body
    Except.ok (st1, leaveScope st1 cur1 nid, nid1)
  | st, cur, nid, Node.blockStatement body => do
    let sid ← reenterScope st cur nid "BlockStatement"
    let (st1, cur1, nid1) ← refsL st sid (nid + 1) body
    Except.ok (st1, leaveScope st1 cur1 nid, nid1)
  | st, cur, nid, Node.variableDeclaration _ bindings inits => do
    let (st1, cur1, nid1) ← refsL st cur (nid + 1 + bindings.length) inits
    Except.ok (st1, leaveScope st1 cur1 nid, nid1)
  | st, cur, nid, Node.identifierExpression nm =>
    let st1 := recordReference st cur nid nm
    Except.ok (st1, leaveScope st1 cur nid, nid + 1)
  | st, cur, nid, Node.other children => do
    let (st1, cur1, nid1) ← refsL st cur (nid + 1) children
    Except.ok (st1, leaveScope st1 cur1 nid, nid1)

def refsL : St → Nat → Nat → List Node → Except Err (St × Nat × Nat)
  | st, cur, nid, [] => Except.ok (st, cur, nid)
  | st, cur, nid, n :: ns => do
    let (st1, cur1, nid1) ← refsN st cur nid n
    refsL st1 cur1 nid1 ns

end

/-- `collectReferences` (variableRenamer.ts lines 134-175). -/
def collectReferences (st : St) (t : Node) : Except Err St := do
  let (st1, _, _) ← refsN st 0 0 t
  Except.ok st1

/-- `ALPHABET` (variableRenamer.ts line 8), as its character list. -/
def ALPHABET : List Char := "abcdefghijklmnopqrstuvwxyz".data

/-- Phase one of `generateNames` (variableRenamer.ts lines 202-206): all
length-1 candidates in alphabet order, excluding used names. -/
def names1 (used : List String) : List String :=
  (ALPHABET.map (fun c => String.mk [c])).filter (fun n => !used.contains n)

/-- Phase two of `generateNames` (lines 207-214): all length-2 candidates via
two nested alphabet loops, excluding used names. -/
def names2 (used : List String) : List String :=
  (ALPHABET.flatMap (fun c1 => ALPHABET.map (fun c2 => String.mk [c1, c2]))).filter
    (fun n => !used.contains n)

/-- Phase three of `generateNames` (lines 215-224): all length-3 candidates
via three nested alphabet loops, excluding used names. -/
def names3 (used : List String) : List String :=
  (ALPHABET.flatMap (fun c1 =>
    ALPHABET.flatMap (fun c2 => ALPHABET.map (fun c3 => String.mk [c1, c2, c3])))).filter
    (fun n => !used.contains n)

/-- `generateNames` (variableRenamer.ts lines 198-227): the `variableNames`
queue, built by the three sequential push phases. -/
def generateNames (used : List String) : List String :=
  names1 used ++ names2 used ++ names3 used

/-- `getVariableName` (variableRenamer.ts lines 233-239): shift the head of
the queue; raise NameExhaustion when empty. -/
def getVariableName : List String → Except Err (String × List String)
  | [] => Except.error Err.nameExhaustion
  | n :: rest => Except.ok (n, rest)

/-- State of the renaming phase: the variable heap, the remaining
`variableNames` queue, and the accumulated site patches (site id ↦ new name)
that `Variable.rename` applies to the tree. -/
structure RSt where
  vars : List Variable
  variableNames : List String
  patches : List (Nat × String)
  deriving DecidableEq, Repr

/-- One entry of a scope's variable table inside `renameVariables`
(variableRenamer.ts lines 183-188): when the entry's key name matches
`shouldRename`, draw the next generated name and apply `Variable.rename`
(modelled from the spec: update the variable's `name` and patch every
recorded declaration and reference site to the new name). -/
def renameEntry (r : RSt) (e : String × Nat) : Except Err RSt :=
  if shouldRename e.1 then do
    let (newName, rest) ← getVariableName r.variableNames
    let v := r.vars[e.2]?.getD dummyVariable
    Except.ok ⟨r.vars.set e.2 { v with name := newName }, rest,
      r.patches ++ (v.declarations ++ v.references).map (fun s => (s, newName))⟩
  else Except.ok r

def renameTable : RSt → List (String × Nat) → Except Err RSt
  | r, [] => Except.ok r
  | r, e :: es => do
    let r1 ← renameEntry r e
    renameTable r1 es

/-- The children of scope `sid` in creation order (`scope.children`). -/
def childScopes (scopes : List ScopeData) (sid : Nat) : List Nat :=
  (List.range scopes.length).filter
    (fun c => (scopes[c]?.getD dummyScope).parent = some sid)

/-- `renameVariables` (variableRenamer.ts lines 182-193) on one scope: rename
the eligible entries of its table, then recurse into its children.  Fuel-based
recursion over the scope tree; fuel `scopes.length + 1` suffices for any
scope store built by `collectDeclarations` (parent indices precede child
indices, so the tree depth is at most the number of scopes). -/
def renameScope (scopes : List ScopeData) : Nat → Nat → RSt → Except Err RSt
  | 0, _, r => Except.ok r
  | fuel + 1, sid, r => do
    let r1 ← renameTable r (scopes[sid]?.getD dummyScope).table
    (childScopes scopes sid).foldlM (fun acc c => renameScope scopes fuel c acc) r1

/-- The renaming phase started from the Global scope (scope id 0). -/
def renameVariables (st : St) (pool : List String) : Except Err RSt :=
  renameScope st.scopes (st.scopes.length + 1) 0 ⟨st.vars, pool, []⟩

/-- Apply the rename patches to one name-bearing site. -/
def patchName (patches : List (Nat × String)) (i : Nat) (nm : String) : String :=
  match patches.lookup i with
  | some n => n
  | none => nm

/-- Apply the rename patches to a parameter/declarator binding list whose
first binding node has id `i`. -/
def patchBindings (patches : List (Nat × String)) : Nat → List Binding → List Binding
  | _, [] => []
  | i, Binding.bid nm :: bs => Binding.bid (patchName patches i nm) :: patchBindings patches (i + 1) bs
  | i, Binding.pattern :: bs => Binding.pattern :: patchBindings patches (i + 1) bs

mutual

/-- Apply the rename patches to a subtree whose root has preorder id `nid`:
the in-place mutation of binding-identifier and identifier-expression nodes
performed by `Variable.rename`, realized as a rebuild of the tree. -/
def patchN (patches : List (Nat × String)) : Nat → Node → Node
  | nid, Node.script body => Node.script (patchL patches (nid + 1) body)
  | nid, Node.functionDeclaration nm params body =>
    Node.functionDeclaration (patchName patches (nid + 1) nm)
      (patchBindings patches (nid + 2) params)
      (patchL patches (nid + 2 + params.length) body)
  | nid, Node.functionExpression onm params body =>
    let pstart := nid + 1 + (if onm.isSome then 1 else 0)
    Node.functionExpression (onm.map (patchName patches (nid + 1)))
      (patchBindings patches pstart params)
      (patchL patches (pstart + params.length) body)
  | nid, Node.arrowExpression params body =>
    Node.arrowExpression (patchBindings patches (nid + 1) params)
      (patchL patches (nid + 1 + params.length) body)
  | nid, Node.catchClause ob body =>
    let bstart := nid + 1 + (if ob.isSome then 1 else 0)
    Node.catchClause
      (ob.map (fun b => match b with
        | Binding.bid nm => Binding.bid (patchName patches (nid + 1) nm)
        | Binding.pattern => Binding.pattern))
      (patchL patches bstart body)
  | nid, Node.forStatement body => Node.forStatement (patchL patches (nid + 1) body)
  | nid, Node.blockStatement body => Node.blockStatement (patchL patches (nid + 1) body)
  | nid, Node.variableDeclaration kind bindings inits =>
    Node.variableDeclaration kind (patchBindings patches (nid + 1) bindings)
      (patchL patches (nid + 1 + bindings.length) inits)
  | nid, Node.identifierExpression nm =>
    Node.identifierExpression (patchName patches nid nm)
  | nid, Node.other children => Node.other (patchL patches (nid + 1) children)

def patchL (patches : List (Nat × String)) : Nat → List Node → List Node
  | _, [] => []
  | nid, n :: ns => patchN patches nid n :: patchL patches (nid + sizeN n) ns

end

/-- `execute` (variableRenamer.ts lines 29-35): the full pass.  On success
the result is the tree with every rename patch applied; any raised condition
aborts the pass. -/
def execute (t : Node) : Except Err Node := do
  let st1 ← collectDeclarations t
  let st2 ← collectReferences st1 t
  let pool := generateNames st2.usedVariableNames
  let r ← renameVariables st2 pool
  Except.ok (patchN r.patches 0 t)

/-! ### Derived syntactic notions used by the specification claims -/

/-- The update `addName` performs on the used-name set alone. -/
def usedAdd (u : List String) (nm : String) : List String :=
  if shouldRename nm then u
  else if u.contains nm then u
  else u ++ [nm]

/-- `d` is the nearest enclosing Function-or-Global scope of `sid`: reachable
from `sid` by parent steps that only cross Other-kind scopes, and itself not
an Other-kind scope with a parent. -/
inductive NearestHoist (st : St) : Nat → Nat → Prop where
  | stop (sid : Nat) :
    ((getScope st sid).stype ≠ ScopeType.Other ∨ (getScope st sid).parent = none) →
    NearestHoist st sid sid
  | step (sid p d : Nat) :
    (getScope st sid).stype = ScopeType.Other → (getScope st sid).parent = some p →
    NearestHoist st p d → NearestHoist st sid d

mutual

/-- All identifier names textually present in a subtree: names of plain
bindings (function names, parameters, catch bindings, declarators — also ones
the collection walk skips) and of identifier expressions. -/
def programNamesN : Node → List String
  | Node.script body => programNamesL body
  | Node.functionDeclaration nm params body =>
    nm :: (params.filterMap (fun b => match b with
      | Binding.bid n => some n
      | Binding.pattern => none)) ++ programNamesL body
  | Node.functionExpression onm params body =>
    (onm.toList) ++ (params.filterMap (fun b => match b with
      | Binding.bid n => some n
      | Binding.pattern => none)) ++ programNamesL body
  | Node.arrowExpression params body =>
    (params.filterMap (fun b => match b with
      | Binding.bid n => some n
      | Binding.pattern => none)) ++ programNamesL body
  | Node.catchClause ob body =>
    (match ob with
      | some (Binding.bid n) => [n]
      | _ => []) ++ programNamesL body
  | Node.forStatement body => programNamesL body
  | Node.blockStatement body => programNamesL body
  | Node.variableDeclaration _ bindings inits =>
    (bindings.filterMap (fun b => match b with
      | Binding.bid n => some n
      | Binding.pattern => none)) ++ programNamesL inits
  | Node.identifierExpression nm => [nm]
  | Node.other children => programNamesL children

def programNamesL : List Node → List String
  | [] => []
  | n :: ns => programNamesN n ++ programNamesL ns

end

/-- Strict lexicographic (alphabetical) order on names, via their character
lists. -/
def nameLt (a b : String) : Prop :=
  List.Lex (· < ·) a.data b.data

/-- The order in which `generateNames` issues names: shorter names strictly
first, alphabetical within one length; in particular the two names differ. -/
def genR (a b : String) : Prop :=
  a ≠ b ∧ (a.length < b.length ∨ (a.length = b.length ∧ nameLt a b))

/-- Issue `n` names by repeated `getVariableName` calls (repeated
`this.getVariableName()` during renaming). -/
def issueN : Nat → List String → Except Err (List String × List String)
  | 0, pool => Except.ok ([], pool)
  | n + 1, pool => do
    let (nm, rest) ← getVariableName pool
    let (ns, rest') ← issueN n rest
    Except.ok (nm :: ns, rest')

/-- Distinct non-root scopes are owned by distinct syntax-tree nodes (the
uniqueness half of the walk invariant, stated on its own for states that are
no longer paired with a counter). -/
def NodesDistinct (st : St) : Prop :=
  ∀ i j, i < j → j < st.scopes.length → ((getScope st i).parent).isSome = true →
    ((getScope st j).parent).isSome = true → (getScope st i).node ≠ (getScope st j).node

/-! ### Declarable sites: the positions the declaration walk reads names from -/

/-- The parameter positions a function case declares (the parameter loop,
variableRenamer.ts lines 65-73): plain-identifier parameters with their
preorder ids; pattern parameters are skipped without stopping the loop. -/
def dsitesP : Nat → List Binding → List (Nat × String)
  | _, [] => []
  | i, Binding.bid nm :: bs => (i, nm) :: dsitesP (i + 1) bs
  | i, Binding.pattern :: bs => dsitesP (i + 1) bs

/-- The declarator positions a `VariableDeclaration` declares (lines 98-118):
plain identifiers up to the first destructuring pattern, where the declarator
loop `break`s. -/
def dsitesD : Nat → List Binding → List (Nat × String)
  | _, [] => []
  | i, Binding.bid nm :: bs => (i, nm) :: dsitesD (i + 1) bs
  | _, Binding.pattern :: _ => []

mutual

/-- All (site id, name) pairs the declaration walk declares inside the subtree
rooted at preorder id `nid`: function-declaration and named
function-expression names, plain parameters, plain catch bindings, and
declarators up to the first pattern. -/
def dsitesN : Nat → Node → List (Nat × String)
  | nid, Node.script body => dsitesL (nid + 1) body
  | nid, Node.functionDeclaration nm params body =>
    (nid + 1, nm) :: (dsitesP (nid + 2) params ++ dsitesL (nid + 2 + params.length) body)
  | nid, Node.functionExpression onm params body =>
    (match onm with
      | some nm => [(nid + 1, nm)]
      | none => []) ++
    (dsitesP (nid + 1 + (if onm.isSome then 1 else 0)) params ++
      dsitesL (nid + 1 + (if onm.isSome then 1 else 0) + params.length) body)
  | nid, Node.arrowExpression params body =>
    dsitesP (nid + 1) params ++ dsitesL (nid + 1 + params.length) body
  | nid, Node.catchClause ob body =>
    (match ob with
      | some (Binding.bid nm) => [(nid + 1, nm)]
      | _ => []) ++
    dsitesL (nid + 1 + (if ob.isSome then 1 else 0)) body
  | nid, Node.forStatement body => dsitesL (nid + 1) body
  | nid, Node.blockStatement body => dsitesL (nid + 1) body
  | nid, Node.variableDeclaration _ bindings inits =>
    dsitesD (nid + 1) bindings ++ dsitesL (nid + 1 + bindings.length) inits
  | _, Node.identifierExpression _ => []
  | nid, Node.other children => dsitesL (nid + 1) children

def dsitesL : Nat → List Node → List (Nat × String)
  | _, [] => []
  | nid, n :: ns => dsitesN nid n ++ dsitesL (nid + sizeN n) ns

end

/-- Scope `sid` is an ancestor-or-self of scope `j` in the scope tree built by
the walks: `j` is reachable from `sid` by descending child edges (equivalently
`sid` by ascending parent edges from `j`). -/
inductive Reaches (scopes : List ScopeData) : Nat → Nat → Prop where
  | here (sid : Nat) : Reaches scopes sid sid
  | up (sid j p : Nat) : (scopes[j]?.getD dummyScope).parent = some p →
    Reaches scopes sid p → Reaches scopes sid j

/-! ### Concrete example programs used by the claims -/

/-- `try {} catch (e) {} try {} catch (e) {}`: two sibling catch clauses, each
with its own block-scoped binding `e`; the program contains no redeclaration
of any block-scoped binding within one scope. -/
def progSiblingCatches : Node :=
  Node.script [Node.other [Node.catchClause (some (Binding.bid "e")) []],
               Node.other [Node.catchClause (some (Binding.bid "e")) []]]

/-- `try {} catch (e) {}`: a single catch clause with a plain identifier
binding.  Preorder ids: script 0, try 1, catchClause 2, binding site 3. -/
def progSingleCatch : Node :=
  Node.script [Node.other [Node.catchClause (some (Binding.bid "e")) []]]

/-- The state `collectDeclarations` produces on `progSingleCatch`. -/
def stSingleCatch : St :=
  ⟨[⟨0, ScopeType.Global, none, [("e", 0)]⟩, ⟨2, ScopeType.Other, some 0, []⟩],
   [⟨"e", "let", [3], []⟩],
   ["if", "do", "in", "var", "let", "try", "for", "e"]⟩

/-- `function f() {}`: a single function declaration.  Preorder ids: script 0,
functionDeclaration 1, name site 2. -/
def progFunctionDecl : Node :=
  Node.script [Node.functionDeclaration "f" [] []]

/-- The state `collectDeclarations` produces on `progFunctionDecl`. -/
def stFunctionDecl : St :=
  ⟨[⟨0, ScopeType.Global, none, [("f", 0)]⟩, ⟨1, ScopeType.Function, some 0, [("arguments", 1)]⟩],
   [⟨"f", "var", [2], []⟩, ⟨"arguments", "var", [], []⟩],
   ["if", "do", "in", "var", "let", "try", "for", "f"]⟩

/-- `x; x`: two uses of an identifier with no declaration anywhere.  Preorder
ids: script 0, the two identifier expressions 1 and 2. -/
def progTwoUses : Node :=
  Node.script [Node.identifierExpression "x", Node.identifierExpression "x"]

/-- The state reached after both walks on `progTwoUses`. -/
def stTwoUses : St :=
  ⟨[⟨0, ScopeType.Global, none, []⟩],
   [⟨"x", "var", [], [1]⟩, ⟨"x", "var", [], [2]⟩],
   ["if", "do", "in", "var", "let", "try", "for", "x"]⟩

/-- `var [p] = …, a = …;`: a declarator bound to a destructuring pattern
followed by a plain declarator `a`; the collection walk's `break` skips `a`,
so `a` is never added to the used-name set. -/
def progPatternSkip : Node :=
  Node.script [Node.variableDeclaration "var" [Binding.pattern, Binding.bid "a"] []]

/-- A one-scope state whose Global scope holds a block-scoped `x`: the
situation after `let x` at the top level (declaration site id 5). -/
def stLetX : St :=
  ⟨[⟨0, ScopeType.Global, none, [("x", 0)]⟩], [⟨"x", "let", [5], []⟩], []⟩

/-- A one-scope state whose Global scope holds a var-kind `x`
(declaration site id 5). -/
def stVarX : St :=
  ⟨[⟨0, ScopeType.Global, none, [("x", 0)]⟩], [⟨"x", "var", [5], []⟩], []⟩

/-- A state with the Global scope and one Other-kind (block) scope under it,
both with empty tables. -/
def stBlock : St :=
  ⟨[⟨0, ScopeType.Global, none, []⟩, ⟨5, ScopeType.Other, some 0, []⟩], [], []⟩

/-- `var x;`: one plain declarator with an ineligible name.  Preorder ids:
script 0, variableDeclaration 1, binding site 2. -/
def progVarDecl : Node := Node.script [Node.variableDeclaration "var" [Binding.bid "x"] []]

/-- The state both walks produce on `progVarDecl`. -/
def stVarDecl : St :=
  ⟨[⟨0, ScopeType.Global, none, [("x", 0)]⟩], [⟨"x", "var", [2], []⟩],
   ["if", "do", "in", "var", "let", "try", "for", "x"]⟩

/-! ### Structural invariants of the walks -/

theorem okBind {ε α β : Type _} (a : α) (f : α → Except ε β) :
    (Except.ok a >>= f : Except ε β) = f a := rfl

theorem errBind {ε α β : Type _} (e : ε) (f : α → Except ε β) :
    (Except.error e >>= f : Except ε β) = Except.error e := rfl

/-- The two states have the same scope skeleton: equally many scopes, and each
scope keeps its owning node, kind and parent (only variable tables differ). -/
structure SameShape (st st' : St) : Prop where
  len : st'.scopes.length = st.scopes.length
  node : ∀ i, (getScope st' i).node = (getScope st i).node
  stype : ∀ i, (getScope st' i).stype = (getScope st i).stype
  parent : ∀ i, (getScope st' i).parent = (getScope st i).parent

/-- `st'` extends `st`: scopes are only appended, and every already existing
scope keeps its owning node, kind and parent. -/
structure StExt (st st' : St) : Prop where
  len : st.scopes.length ≤ st'.scopes.length
  node : ∀ i, i < st.scopes.length → (getScope st' i).node = (getScope st i).node
  stype : ∀ i, i < st.scopes.length → (getScope st' i).stype = (getScope st i).stype
  parent : ∀ i, i < st.scopes.length → (getScope st' i).parent = (getScope st i).parent

/-- Invariant maintained by the walks when the preorder counter is `cnt`:
every non-root scope was created by an already-numbered node (`node < cnt`),
distinct non-root scopes are owned by distinct nodes, and parent indices
precede child indices. -/
structure WalkInv (st : St) (cnt : Nat) : Prop where
  nodeLt : ∀ i, i < st.scopes.length → ((getScope st i).parent).isSome = true →
    (getScope st i).node < cnt
  nodeNe : ∀ i j, i < j → j < st.scopes.length → ((getScope st i).parent).isSome = true →
    ((getScope st j).parent).isSome = true → (getScope st i).node ≠ (getScope st j).node
  parentLt : ∀ i, i < st.scopes.length → ∀ p, (getScope st i).parent = some p → p < i

theorem SameShape.srefl (st : St) : SameShape st st :=
  ⟨rfl, fun _ => rfl, fun _ => rfl, fun _ => rfl⟩

theorem SameShape.strans {st1 st2 st3 : St} (h : SameShape st1 st2) (h' : SameShape st2 st3) :
    SameShape st1 st3 :=
  ⟨h'.len.trans h.len, fun i => (h'.node i).trans (h.node i),
   fun i => (h'.stype i).trans (h.stype i), fun i => (h'.parent i).trans (h.parent i)⟩

theorem SameShape.toExt {st st' : St} (h : SameShape st st') : StExt st st' :=
  ⟨h.len.ge, fun i _ => h.node i, fun i _ => h.stype i, fun i _ => h.parent i⟩

theorem StExt.erefl (st : St) : StExt st st :=
  ⟨le_refl _, fun _ _ => rfl, fun _ _ => rfl, fun _ _ => rfl⟩

theorem StExt.etrans {st1 st2 st3 : St} (h : StExt st1 st2) (h' : StExt st2 st3) :
    StExt st1 st3 :=
  ⟨h.len.trans h'.len,
   fun i hi => (h'.node i (lt_of_lt_of_le hi h.len)).trans (h.node i hi),
   fun i hi => (h'.stype i (lt_of_lt_of_le hi h.len)).trans (h.stype i hi),
   fun i hi => (h'.parent i (lt_of_lt_of_le hi h.len)).trans (h.parent i hi)⟩

theorem WalkInv.mono {st : St} {c c' : Nat} (h : WalkInv st c) (hc : c ≤ c') : WalkInv st c' :=
  ⟨fun i hi hp => lt_of_lt_of_le (h.nodeLt i hi hp) hc, h.nodeNe, h.parentLt⟩

theorem WalkInv.ofShape {st st' : St} {c : Nat} (h : WalkInv st c) (hs : SameShape st st') :
    WalkInv st' c := by
  refine ⟨?_, ?_, ?_⟩
  · intro i hi hp
    rw [hs.len] at hi
    rw [hs.node i]
    exact h.nodeLt i hi (by rwa [hs.parent i] at hp)
  · intro i j hij hj hpi hpj
    rw [hs.len] at hj
    rw [hs.node i, hs.node j]
    exact h.nodeNe i j hij hj (by rwa [hs.parent i] at hpi) (by rwa [hs.parent j] at hpj)
  · intro i hi p hp
    rw [hs.len] at hi
    exact h.parentLt i hi p (by rwa [hs.parent i] at hp)

theorem getScope_scopes_eq {st st' : St} (h : st'.scopes = st.scopes) (i : Nat) :
    getScope st' i = getScope st i := by
  simp [getScope, h]

/-! Preservation of the scope skeleton by the elementary state operations. -/

theorem setVar_scopes (st : St) (vid : Nat) (v : Variable) :
    (setVar st vid v).scopes = st.scopes := rfl

theorem allocVar_scopes (st : St) (v : Variable) :
    (allocVar st v).1.scopes = st.scopes := rfl

theorem addName_scopes (st : St) (nm : String) : (addName st nm).scopes = st.scopes := by
  unfold addName
  split
  · rfl
  · split <;> rfl

theorem addName_vars (st : St) (nm : String) : (addName st nm).vars = st.vars := by
  unfold addName
  split
  · rfl
  · split <;> rfl

theorem sameShape_of_scopes_eq {st st' : St} (h : st'.scopes = st.scopes) :
    SameShape st st' :=
  ⟨by rw [h], fun i => by rw [getScope_scopes_eq h], fun i => by rw [getScope_scopes_eq h],
   fun i => by rw [getScope_scopes_eq h]⟩

theorem getScope_setTable (st : St) (sid : Nat) (t : List (String × Nat)) (i : Nat) :
    getScope (setTable st sid t) i = if i = sid ∧ sid < st.scopes.length
      then { getScope st sid with table := t } else getScope st i := by
  unfold setTable getScope
  simp only
  rcases Nat.lt_or_ge sid st.scopes.length with hlt | hge
  · rcases eq_or_ne i sid with rfl | hne
    · rw [List.getElem?_set_self hlt, if_pos ⟨rfl, hlt⟩]
      rfl
    · rw [List.getElem?_set_ne (Ne.symm hne), if_neg (fun hc => hne hc.1)]
  · rw [List.set_eq_of_length_le hge, if_neg (fun hc => absurd hc.2 (Nat.not_lt.mpr hge))]

theorem allocVar_shape (st : St) (v : Variable) :
    SameShape st { st with vars := st.vars ++ [v] } :=
  sameShape_of_scopes_eq rfl

theorem addName_shape (st : St) (nm : String) : SameShape st (addName st nm) :=
  sameShape_of_scopes_eq (addName_scopes st nm)

theorem setTable_shape (st : St) (sid : Nat) (t : List (String × Nat)) :
    SameShape st (setTable st sid t) := by
  refine ⟨by simp [setTable], ?_, ?_, ?_⟩ <;> intro i <;>
    · rw [getScope_setTable]
      split
      · rename_i h
        rw [h.1]
      · rfl

theorem addVariable_shape {st : St} {sid vid : Nat} {st' : St}
    (h : addVariable st sid vid = Except.ok st') : SameShape st st' := by
  unfold addVariable at h
  split at h
  · split at h
    · cases h
    · cases h
      exact sameShape_of_scopes_eq rfl
  · cases h
    exact setTable_shape _ _ _

theorem declareBinding_shape {st : St} {sid : Nat} {kind name : String} {site : Nat} {st' : St}
    (h : declareBinding st sid kind name site = Except.ok st') : SameShape st st' := by
  unfold declareBinding at h
  split at h
  · split at h
    · cases h
    · cases h
      exact sameShape_of_scopes_eq rfl
  · rcases hadd : addVariable
        (allocVar st ⟨name, kind, [], []⟩).1 sid (allocVar st ⟨name, kind, [], []⟩).2 with _ | stm
    · rw [hadd] at h
      cases h
    · rw [hadd] at h
      cases h
      have h1 : SameShape st (allocVar st ⟨name, kind, [], []⟩).1 :=
        sameShape_of_scopes_eq rfl
      have h2 := addVariable_shape hadd
      refine (h1.strans h2).strans ?_
      exact sameShape_of_scopes_eq (by rw [setVar_scopes, addName_scopes])

theorem processBindings_shape {bs : List Binding} :
    ∀ {st : St} {sid : Nat} {kind : String} {i : Nat} {st' : St},
    processBindings st sid kind bs i = Except.ok st' → SameShape st st' := by
  induction bs with
  | nil => intro st sid kind i st' h; cases h; exact SameShape.srefl _
  | cons b bs ih =>
    intro st sid kind i st' h
    cases b with
    | pattern => cases h; exact SameShape.srefl _
    | bid nm =>
      unfold processBindings at h
      rcases hd : declareBinding st sid kind nm i with _ | st1
      · rw [hd] at h; cases h
      · rw [hd] at h
        rw [okBind] at h
        exact (declareBinding_shape hd).strans (ih h)

theorem addParams_shape {ps : List Binding} :
    ∀ {st : St} {sid i : Nat} {st' : St},
    addParams st sid ps i = Except.ok st' → SameShape st st' := by
  induction ps with
  | nil => intro st sid i st' h; cases h; exact SameShape.srefl _
  | cons b ps ih =>
    intro st sid i st' h
    cases b with
    | pattern => exact ih h
    | bid nm =>
      unfold addParams at h
      rcases hadd : addVariable (allocVar st ⟨nm, "var", [i], []⟩).1 sid
          (allocVar st ⟨nm, "var", [i], []⟩).2 with _ | st2
      · rw [hadd] at h; cases h
      · rw [hadd] at h
        rw [okBind] at h
        have h1 : SameShape st (allocVar st ⟨nm, "var", [i], []⟩).1 :=
          sameShape_of_scopes_eq rfl
        have h2 := addVariable_shape hadd
        have h3 : SameShape (allocVar st ⟨nm, "var", [i], []⟩).1 st2 := h2
        exact ((h1.strans h3).strans (sameShape_of_scopes_eq (addName_scopes _ _))).strans (ih h)


/-! ### Small auxiliary lemmas -/

theorem lookup_mem_keys {l : List (String × Nat)} {a : String} {b : Nat}
    (h : l.lookup a = some b) : a ∈ l.map Prod.fst := by
  induction l with
  | nil => cases h
  | cons e l ih =>
    rw [List.lookup] at h
    rcases hb : (a == e.1) with _ | _
    · rw [hb] at h
      exact List.mem_cons_of_mem _ (ih h)
    · have : a = e.1 := by simpa using hb
      simp [this]

theorem concat_set_last {α : Type _} (xs : List α) (a b : α) :
    (xs ++ [a]).set xs.length b = xs ++ [b] := by
  induction xs with
  | nil => rfl
  | cons x xs ih => simp [List.set, ih]

theorem addName_eq (st : St) (nm : String) :
    addName st nm = { st with usedVariableNames := usedAdd st.usedVariableNames nm } := by
  unfold addName usedAdd
  split
  · rfl
  · split <;> rfl

theorem lookupVariableAux_congr {st st' : St} (h : st'.scopes = st.scopes) :
    ∀ fuel sid nm, lookupVariableAux st' fuel sid nm = lookupVariableAux st fuel sid nm := by
  intro fuel
  induction fuel with
  | zero => intro sid nm; rfl
  | succ fuel ih =>
    intro sid nm
    unfold lookupVariableAux
    rw [getScope_scopes_eq h]
    rcases hl : List.lookup nm (getScope st sid).table with _ | vid
    · simp only [hl]
      rcases hp : (getScope st sid).parent with _ | p
      · simp only [hp]
      · simp only [hp]
        exact ih p nm
    · simp only [hl]

theorem lookupVariable_congr {st st' : St} (h : st'.scopes = st.scopes) (sid : Nat)
    (nm : String) : lookupVariable st' sid nm = lookupVariable st sid nm := by
  unfold lookupVariable
  rw [h, lookupVariableAux_congr h]

/-! ### Claims -/

/-- C1 (code_bug): the program `try {} catch (e) {} try {} catch (e) {}`
contains no block-scoped redeclaration — each catch clause has its own
binding, scoped to that clause — yet `execute` raises DuplicateDeclaration
instead of completing: the walk declares each caught binding in the scope
that is current *before* it creates the clause's scope (the `CatchClause` case
falls through into the scope-creating case only after calling `addVariable`),
so both bindings land in the same enclosing scope and collide. -/
theorem c1_execute_fails_on_sibling_catches :
    execute progSiblingCatches = Except.error (Err.duplicateDeclaration "e") := rfl

/-- C5 (code_bug): for `try {} catch (e) {}`, the declaration-collection walk
records the caught binding `e` in the *enclosing* (Global) scope's table,
while the scope it creates for the catch clause (owning node id 2, the
`catchClause` node) ends with an empty table — the binding is declared before
the clause's scope exists, contradicting the claim that it is declared inside
the new scope created for the clause. -/
theorem c5_catch_binding_lands_in_enclosing_scope :
    collectDeclarations progSingleCatch = Except.ok stSingleCatch ∧
    (getScope stSingleCatch 0).table = [("e", 0)] ∧
    getScope stSingleCatch 1 = ⟨2, ScopeType.Other, some 0, []⟩ :=
  ⟨rfl, rfl, rfl⟩

/-- C4 (counterexample): processing `function f() {}` *does* open a new scope
for the FunctionDeclaration node itself: after declaration collection there
are two scopes, and the second is a Function-kind scope whose owning node is
id 1 — precisely the `functionDeclaration` node of `progFunctionDecl` (the
fallthrough into the FunctionExpression/ArrowExpression case creates it, and
`arguments` is declared inside it).  This refutes the claim's assertion that
no new scope is opened for the declaration node. -/
theorem c4_counterexample_scope_created :
    collectDeclarations progFunctionDecl = Except.ok stFunctionDecl ∧
    stFunctionDecl.scopes.length = 2 ∧
    getScope stFunctionDecl 1 = ⟨1, ScopeType.Function, some 0, [("arguments", 1)]⟩ :=
  ⟨rfl, rfl, rfl⟩

/-- C3 (counterexample): running both walks over `x; x` (two uses of an
undeclared identifier) leaves the Global scope's variable table empty — the
implicit-global Variable is never registered in any scope — and allocates
*two* distinct var-kind Variable objects named `x`, one per use, each holding
only its own reference site.  This refutes both the registered-in-Global-scope
part and the reuse part of the claim. -/
theorem c3_counterexample_implicit_global_duplicated :
    collectDeclarations progTwoUses = Except.ok initSt ∧
    collectReferences initSt progTwoUses = Except.ok stTwoUses ∧
    stTwoUses.scopes = [⟨0, ScopeType.Global, none, []⟩] ∧
    stTwoUses.vars = [⟨"x", "var", [], [1]⟩, ⟨"x", "var", [], [2]⟩] :=
  ⟨rfl, rfl, rfl, rfl⟩

/-- C3 (amended): an identifier use that `lookupVariable` fails to resolve
allocates a fresh var-kind Variable that records just this reference and is
registered in no scope (the scope stores are untouched); its name is added to
the used-name set only via `addName` (hence not when it matches the
rename-eligibility prefix); and the name still fails to resolve afterwards, so
every later unresolved use of the same name allocates yet another Variable. -/
theorem c3_amended_unresolved_use (st : St) (cur nid : Nat) (nm : String)
    (h : lookupVariable st cur nm = none) :
    recordReference st cur nid nm =
      { scopes := st.scopes, vars := st.vars ++ [⟨nm, "var", [], [nid]⟩],
        usedVariableNames := usedAdd st.usedVariableNames nm } ∧
    lookupVariable (recordReference st cur nid nm) cur nm = none := by
  have hmain : recordReference st cur nid nm =
      { scopes := st.scopes, vars := st.vars ++ [⟨nm, "var", [], [nid]⟩],
        usedVariableNames := usedAdd st.usedVariableNames nm } := by
    unfold recordReference
    rw [h]
    simp only [allocVar]
    rw [addName_eq]
    unfold setVar getVar
    simp only [List.getElem?_concat_length, Option.getD_some, concat_set_last]
    rfl
  refine ⟨hmain, ?_⟩
  have hc := @lookupVariable_congr st
    { scopes := st.scopes, vars := st.vars ++ [⟨nm, "var", [], [nid]⟩],
      usedVariableNames := usedAdd st.usedVariableNames nm } rfl cur nm
  rw [hmain, hc, h]

/-- C3 (amended) witness at a concrete unresolved use. -/
theorem c3_amended_unresolved_use_witness :
    recordReference initSt 0 7 "console" =
      { scopes := initSt.scopes, vars := [⟨"console", "var", [], [7]⟩],
        usedVariableNames := usedAdd initSt.usedVariableNames "console" } ∧
    lookupVariable (recordReference initSt 0 7 "console") 0 "console" = none :=
  c3_amended_unresolved_use initSt 0 7 "console" rfl

/-- C6 (confirmed): when a declarator's name already has an entry in its
declaration scope (`getDeclarationScope(kind)`), the walk raises
DuplicateDeclaration exactly when the existing variable is block-scoped or the
new declaration kind is block-scoped — so a second `let x` in the same block
scope aborts — and otherwise (both var-like, e.g. `var x` twice in one
function scope) it succeeds by appending the new declaration site to the
existing Variable, creating no new Variable. -/
theorem c6_conflict_rule (st : St) (cur : Nat) (kind nm : String) (site evid : Nat)
    (hl : (getScope st (getDeclarationScope st cur kind)).table.lookup nm = some evid) :
    (((getVar st evid).isBlockScoped || blockScopedTypes.contains kind) = true →
      declareBinding st cur kind nm site =
        Except.error (Err.duplicateDeclaration (getVar st evid).name)) ∧
    (((getVar st evid).isBlockScoped || blockScopedTypes.contains kind) = false →
      declareBinding st cur kind nm site = Except.ok (setVar st evid
        { getVar st evid with declarations := (getVar st evid).declarations ++ [site] })) := by
  unfold declareBinding
  simp only [hl]
  constructor
  · intro hb
    simp only [hb, if_true]
  · intro hb
    simp only [hb, Bool.false_eq_true, if_false]

/-- C6 witness: a second `let x` in the same scope errors; a second `var x`
in the same scope merges by appending the new site. -/
theorem c6_conflict_rule_witness :
    declareBinding stLetX 0 "let" "x" 9 = Except.error (Err.duplicateDeclaration "x") ∧
    declareBinding stVarX 0 "var" "x" 9 = Except.ok (setVar stVarX 0
      { getVar stVarX 0 with declarations := (getVar stVarX 0).declarations ++ [9] }) :=
  ⟨(c6_conflict_rule stLetX 0 "let" "x" 9 0 rfl).1 rfl,
   (c6_conflict_rule stVarX 0 "var" "x" 9 0 rfl).2 rfl⟩

/-- C10 (confirmed): the declarator loop of a variable-declaration statement
stops at the first destructuring-pattern declarator: whatever declarators
follow it — plain identifiers included — the outcome is identical to the
statement truncated right after the pattern declarator, so none of them is
declared into any scope or added to the used-name set. -/
theorem c10_break_on_pattern (st : St) (sid : Nat) (kind : String)
    (bs post : List Binding) (i : Nat) :
    processBindings st sid kind (bs ++ Binding.pattern :: post) i =
    processBindings st sid kind (bs ++ [Binding.pattern]) i := by
  induction bs generalizing st i with
  | nil => rfl
  | cons b bs ih =>
    cases b with
    | pattern => rfl
    | bid nm =>
      rw [List.cons_append, List.cons_append]
      unfold processBindings
      cases hd : declareBinding st sid kind nm i with
      | error e => rfl
      | ok st1 =>
        rw [okBind, okBind]
        exact ih st1 (i + 1)


/-! ### Scope-push lemmas and the declaration-walk invariant theorem -/

theorem getScope_pushScope_old (st : St) (nid : Nat) (ty : ScopeType) (cur i : Nat)
    (h : i < st.scopes.length) : getScope (pushScope st nid ty cur) i = getScope st i := by
  unfold pushScope getScope
  simp only
  rw [List.getElem?_append_left h]

theorem getScope_pushScope_new (st : St) (nid : Nat) (ty : ScopeType) (cur : Nat) :
    getScope (pushScope st nid ty cur) st.scopes.length = ⟨nid, ty, some cur, []⟩ := by
  unfold pushScope getScope
  simp only
  rw [List.getElem?_concat_length]
  rfl

theorem pushScope_length (st : St) (nid : Nat) (ty : ScopeType) (cur : Nat) :
    (pushScope st nid ty cur).scopes.length = st.scopes.length + 1 := by
  simp [pushScope]

theorem getScope_default (st : St) (i : Nat) (h : st.scopes.length ≤ i) :
    getScope st i = dummyScope := by
  unfold getScope
  rw [List.getElem?_eq_none h]
  rfl

theorem pushScope_ext (st : St) (nid : Nat) (ty : ScopeType) (cur : Nat) :
    StExt st (pushScope st nid ty cur) := by
  refine ⟨by simp [pushScope], ?_, ?_, ?_⟩ <;> intro i hi <;>
    rw [getScope_pushScope_old st nid ty cur i hi]

theorem pushScope_inv {st : St} {nid cur : Nat} (ty : ScopeType)
    (h : WalkInv st nid) (hcur : cur < st.scopes.length) :
    WalkInv (pushScope st nid ty cur) (nid + 1) := by
  have hlen := pushScope_length st nid ty cur
  refine ⟨?_, ?_, ?_⟩
  · intro i hi hp
    rw [hlen] at hi
    rcases Nat.lt_or_ge i st.scopes.length with hil | hig
    · rw [getScope_pushScope_old st nid ty cur i hil]
      rw [getScope_pushScope_old st nid ty cur i hil] at hp
      exact Nat.lt_succ_of_lt (h.nodeLt i hil hp)
    · have : i = st.scopes.length := by omega
      subst this
      rw [getScope_pushScope_new]
      exact Nat.lt_succ_self nid
  · intro i j hij hj hpi hpj
    rw [hlen] at hj
    rcases Nat.lt_or_ge j st.scopes.length with hjl | hjg
    · have hil : i < st.scopes.length := lt_trans hij hjl
      rw [getScope_pushScope_old st nid ty cur i hil,
          getScope_pushScope_old st nid ty cur j hjl]
      rw [getScope_pushScope_old st nid ty cur i hil] at hpi
      rw [getScope_pushScope_old st nid ty cur j hjl] at hpj
      exact h.nodeNe i j hij hjl hpi hpj
    · have hje : j = st.scopes.length := by omega
      subst hje
      have hil : i < st.scopes.length := hij
      rw [getScope_pushScope_old st nid ty cur i hil, getScope_pushScope_new]
      rw [getScope_pushScope_old st nid ty cur i hil] at hpi
      exact Nat.ne_of_lt (h.nodeLt i hil hpi)
  · intro i hi p hp
    rw [hlen] at hi
    rcases Nat.lt_or_ge i st.scopes.length with hil | hig
    · rw [getScope_pushScope_old st nid ty cur i hil] at hp
      exact h.parentLt i hil p hp
    · have : i = st.scopes.length := by omega
      subst this
      rw [getScope_pushScope_new] at hp
      cases hp
      exact hcur

theorem sizeN_pos (n : Node) : 1 ≤ sizeN n := by
  cases n <;> simp [sizeN] <;> omega

theorem bind_ok_iff {ε α β : Type _} {e : Except ε α} {f : α → Except ε β} {b : β} :
    (e >>= f) = Except.ok b ↔ ∃ a, e = Except.ok a ∧ f a = Except.ok b := by
  cases e with
  | error err =>
    rw [errBind]
    constructor
    · intro h; cases h
    · rintro ⟨a, ha, _⟩; cases ha
  | ok a =>
    rw [okBind]
    constructor
    · intro h; exact ⟨a, rfl, h⟩
    · rintro ⟨a', ha, hf⟩
      cases ha
      exact hf

/-- The `leave` callback does not pop at a node that does not own the current
scope: the cursor scope predates the node (its owning node id is smaller). -/
theorem leaveScope_old {st st' : St} {cur nid : Nat} (hinv : WalkInv st nid)
    (hcur : cur < st.scopes.length) (hmid : SameShape st stMid) (hext : StExt stMid st') :
    leaveScope st' cur nid = cur := by
  have hcur' : cur < stMid.scopes.length := by rw [hmid.len]; exact hcur
  unfold leaveScope
  simp only
  rcases hp : (getScope st' cur).parent with _ | p
  · rfl
  · have hpm : (getScope st cur).parent = some p := by
      rw [← hmid.parent cur, ← hext.parent cur hcur']
      exact hp
    have hnode : (getScope st cur).node < nid :=
      hinv.nodeLt cur hcur (by rw [hpm]; rfl)
    have hne : (getScope st' cur).node ≠ nid := by
      rw [hext.node cur hcur', hmid.node cur]
      omega
    show (if (getScope st' cur).node = nid then p else cur) = cur
    rw [if_neg hne]

/-- The `leave` callback pops the scope owned by the node being left. -/
theorem leaveScope_pop {st' : St} {sid cur nid : Nat}
    (hnode : (getScope st' sid).node = nid) (hparent : (getScope st' sid).parent = some cur) :
    leaveScope st' sid nid = cur := by
  unfold leaveScope
  simp only
  rw [hparent]
  show (if (getScope st' sid).node = nid then cur else sid) = cur
  rw [if_pos hnode]

/-- Invariant and cursor facts for the children of a freshly pushed scope:
`stPre` is the state after the enter steps preceding the push, `stPost` the
state after the steps following it. -/
theorem creating_setup {st stPre stPost : St} {cur nid : Nat} {ty : ScopeType}
    (hinv : WalkInv st nid) (hcur : cur < st.scopes.length)
    (hpre : SameShape st stPre) (hpost : SameShape (pushScope stPre nid ty cur) stPost) :
    WalkInv stPost (nid + 1) ∧ st.scopes.length < stPost.scopes.length := by
  have h1 : WalkInv stPre nid := hinv.ofShape hpre
  have h2 : cur < stPre.scopes.length := by rw [hpre.len]; exact hcur
  have h3 : WalkInv (pushScope stPre nid ty cur) (nid + 1) := pushScope_inv ty h1 h2
  have h4 : WalkInv stPost (nid + 1) := h3.ofShape hpost
  refine ⟨h4.ofShape (SameShape.srefl stPost), ?_⟩
  rw [hpost.len, pushScope_length, hpre.len]
  omega

/-- After the children of a freshly pushed scope are processed, `leave`
restores the cursor to the parent, and the final state extends the initial
one. -/
theorem creating_finish {st stPre stPost st8 : St} {cur nid : Nat} {ty : ScopeType}
    (hcur : cur < st.scopes.length)
    (hpre : SameShape st stPre) (hpost : SameShape (pushScope stPre nid ty cur) stPost)
    (hext : StExt stPost st8) :
    leaveScope st8 st.scopes.length nid = cur ∧ StExt st st8 := by
  have hlen : st.scopes.length < stPost.scopes.length := by
    rw [hpost.len, pushScope_length, hpre.len]
    omega
  have hidx : getScope (pushScope stPre nid ty cur) st.scopes.length =
      (⟨nid, ty, some cur, []⟩ : ScopeData) := by
    have := getScope_pushScope_new stPre nid ty cur
    rwa [hpre.len] at this
  have hnode : (getScope st8 st.scopes.length).node = nid := by
    rw [hext.node _ hlen, hpost.node, hidx]
  have hparent : (getScope st8 st.scopes.length).parent = some cur := by
    rw [hext.parent _ hlen, hpost.parent, hidx]
  refine ⟨leaveScope_pop hnode hparent, ?_⟩
  exact ((hpre.toExt.etrans (pushScope_ext stPre nid ty cur)).etrans hpost.toExt).etrans hext

mutual

/-- The declaration-collection walk on one subtree: when it succeeds, the
cursor is restored by the node's `leave`, the preorder counter advances by the
subtree's size, the walk invariant is maintained, and existing scopes keep
their skeleton. -/
theorem declsN_spec (n : Node) :
    ∀ (st : St) (cur nid : Nat) (out : St × Nat × Nat),
    declsN st cur nid n = Except.ok out → WalkInv st nid → cur < st.scopes.length →
    out.2.1 = cur ∧ out.2.2 = nid + sizeN n ∧ WalkInv out.1 out.2.2 ∧ StExt st out.1 := by
  cases n with
  | script body =>
    intro st cur nid out h hinv hcur
    simp only [declsN, bind_ok_iff] at h
    obtain ⟨⟨st1, cur1, nid1⟩, hL, h⟩ := h
    simp only [Except.ok.injEq] at h
    subst h
    obtain ⟨hc1, hn1, hw1, hx1⟩ :=
      declsL_spec body st cur (nid + 1) (st1, cur1, nid1) hL (hinv.mono (by omega)) hcur
    subst hc1
    refine ⟨leaveScope_old hinv hcur (SameShape.srefl st) hx1, ?_, hw1, hx1⟩
    simp only [sizeN] at hn1 ⊢
    omega
  | functionDeclaration nm params body =>
    intro st cur nid out h hinv hcur
    simp only [declsN, allocVar, bind_ok_iff] at h
    obtain ⟨st2, h2, h⟩ := h
    obtain ⟨st5, h5, h⟩ := h
    obtain ⟨st7, h7, h⟩ := h
    obtain ⟨⟨st8, cur8, nid8⟩, h8, h⟩ := h
    simp only [Except.ok.injEq] at h
    subst h
    have hsh1 : SameShape st { st with vars := st.vars ++ [⟨nm, "var", [nid + 1], []⟩] } :=
      allocVar_shape st ⟨nm, "var", [nid + 1], []⟩
    have hsh2 : SameShape st (addName st2 nm) :=
      (hsh1.strans (addVariable_shape h2)).strans (addName_shape st2 nm)
    have hsh5 : SameShape (pushScope (addName st2 nm) nid ScopeType.Function cur) st5 :=
      addParams_shape h5
    have hsh7 : SameShape (pushScope (addName st2 nm) nid ScopeType.Function cur) st7 :=
      hsh5.strans ((allocVar_shape st5 ⟨"arguments", "var", [], []⟩).strans (addVariable_shape h7))
    obtain ⟨hwc, hlenc⟩ := creating_setup hinv hcur hsh2 hsh7
    have hcurc : (addName st2 nm).scopes.length = st.scopes.length := hsh2.len
    rw [hcurc] at h8
    obtain ⟨hc8, hn8, hw8, hx8⟩ :=
      declsL_spec body st7 st.scopes.length (nid + 2 + params.length) (st8, cur8, nid8) h8
        (hwc.mono (by omega)) hlenc
    subst hc8
    obtain ⟨hleave, hext⟩ := creating_finish hcur hsh2 hsh7 hx8
    refine ⟨hleave, ?_, hw8, hext⟩
    simp only [sizeN] at hn8 ⊢
    omega
  | functionExpression onm params body =>
    intro st cur nid out h hinv hcur
    cases onm with
    | none =>
      simp only [declsN, allocVar, bind_ok_iff, Option.isSome_none, Bool.false_eq_true,
        if_false, pure, Except.pure] at h
      obtain ⟨st3, h3, h⟩ := h
      obtain ⟨st4, h4, h⟩ := h
      obtain ⟨st6, h6, h⟩ := h
      obtain ⟨⟨st7, cur7, nid7⟩, h7, h⟩ := h
      simp only [Except.ok.injEq] at h h3
      subst h
      subst h3
      have hsh4 : SameShape (pushScope st nid ScopeType.Function cur) st4 := addParams_shape h4
      have hsh6 : SameShape (pushScope st nid ScopeType.Function cur) st6 :=
        (hsh4.strans (allocVar_shape st4 ⟨"arguments", "var", [], []⟩)).strans
          (addVariable_shape h6)
      obtain ⟨hwc, hlenc⟩ :=
        creating_setup hinv hcur (SameShape.srefl st) hsh6
      obtain ⟨hc7, hn7, hw7, hx7⟩ :=
        declsL_spec body st6 st.scopes.length (nid + 1 + 0 + params.length) (st7, cur7, nid7)
          (by simpa using h7) (hwc.mono (by omega)) hlenc
      subst hc7
      obtain ⟨hleave, hext⟩ := creating_finish hcur (SameShape.srefl st) hsh6 hx7
      refine ⟨hleave, ?_, hw7, hext⟩
      simp only [sizeN, Option.isSome_none, Bool.false_eq_true, if_false] at hn7 ⊢
      omega
    | some nm =>
      simp only [declsN, allocVar, bind_ok_iff, Option.isSome_some, if_true, pure,
        Except.pure] at h
      obtain ⟨stb, hb, h⟩ := h
      obtain ⟨st3, h3, h⟩ := h
      obtain ⟨st4, h4, h⟩ := h
      obtain ⟨st6, h6, h⟩ := h
      obtain ⟨⟨st7, cur7, nid7⟩, h7, h⟩ := h
      simp only [Except.ok.injEq] at h h3
      subst h
      subst h3
      have hshb : SameShape (pushScope st nid ScopeType.Function cur) (addName stb nm) :=
        ((allocVar_shape (pushScope st nid ScopeType.Function cur)
            ⟨nm, "var", [nid + 1], []⟩).strans (addVariable_shape hb)).strans
          (addName_shape stb nm)
      have hsh6 : SameShape (pushScope st nid ScopeType.Function cur) st6 :=
        ((hshb.strans (addParams_shape h4)).strans
          (allocVar_shape st4 ⟨"arguments", "var", [], []⟩)).strans (addVariable_shape h6)
      obtain ⟨hwc, hlenc⟩ :=
        creating_setup hinv hcur (SameShape.srefl st) hsh6
      obtain ⟨hc7, hn7, hw7, hx7⟩ :=
        declsL_spec body st6 st.scopes.length (nid + 1 + 1 + params.length) (st7, cur7, nid7)
          (by simpa using h7) (hwc.mono (by omega)) hlenc
      subst hc7
      obtain ⟨hleave, hext⟩ := creating_finish hcur (SameShape.srefl st) hsh6 hx7
      refine ⟨hleave, ?_, hw7, hext⟩
      simp only [sizeN, Option.isSome_some, eq_self_iff_true, if_true] at hn7 ⊢
      omega
  | arrowExpression params body =>
    intro st cur nid out h hinv hcur
    simp only [declsN, bind_ok_iff] at h
    obtain ⟨st2, h2, h⟩ := h
    obtain ⟨⟨st3, cur3, nid3⟩, h3, h⟩ := h
    simp only [Except.ok.injEq] at h
    subst h
    have hsh2 : SameShape (pushScope st nid ScopeType.Function cur) st2 := addParams_shape h2
    obtain ⟨hwc, hlenc⟩ := creating_setup hinv hcur (SameShape.srefl st) hsh2
    obtain ⟨hc3, hn3, hw3, hx3⟩ :=
      declsL_spec body st2 st.scopes.length (nid + 1 + params.length) (st3, cur3, nid3) h3
        (hwc.mono (by omega)) hlenc
    subst hc3
    obtain ⟨hleave, hext⟩ := creating_finish hcur (SameShape.srefl st) hsh2 hx3
    refine ⟨hleave, ?_, hw3, hext⟩
    simp only [sizeN] at hn3 ⊢
    omega
  | catchClause ob body =>
    intro st cur nid out h hinv hcur
    have hmain : ∀ (stPre : St), SameShape st stPre →
        ∀ (bstart : Nat), nid + 1 ≤ bstart →
        ∀ (st3 : St) (cur3 nid3 : Nat),
        declsL (pushScope stPre nid ScopeType.Other cur) stPre.scopes.length bstart body =
          Except.ok (st3, cur3, nid3) →
        (st3, leaveScope st3 cur3 nid, nid3) = out →
        out.2.1 = cur ∧ out.2.2 = bstart + sizeL body ∧ WalkInv out.1 out.2.2 ∧
          StExt st out.1 := by
      intro stPre hpre bstart hb st3 cur3 nid3 h3 hout
      subst hout
      obtain ⟨hwc0, hlenc⟩ := creating_setup hinv hcur hpre (SameShape.srefl _)
      have hwc := hwc0.mono hb
      rw [hpre.len] at h3
      obtain ⟨hc3, hn3, hw3, hx3⟩ :=
        declsL_spec body (pushScope stPre nid ScopeType.Other cur) st.scopes.length bstart
          (st3, cur3, nid3) h3 hwc hlenc
      subst hc3
      obtain ⟨hleave, hext⟩ := creating_finish hcur hpre (SameShape.srefl _) hx3
      exact ⟨hleave, hn3, hw3, hext⟩
    cases ob with
    | none =>
      simp only [declsN, pure, Except.pure, okBind, bind_ok_iff] at h
      obtain ⟨⟨st3, cur3, nid3⟩, h3, hout⟩ := h
      simp only [Except.ok.injEq] at hout
      have := hmain st (SameShape.srefl st) _ (by omega) st3 cur3 nid3 h3 hout
      refine ⟨this.1, ?_, this.2.2⟩
      have h2 := this.2.1
      simp only [sizeN, Option.isSome_none, Bool.false_eq_true, if_false] at h2 ⊢
      omega
    | some b =>
      cases b with
      | pattern =>
        simp only [declsN, pure, Except.pure, okBind, bind_ok_iff] at h
        obtain ⟨⟨st3, cur3, nid3⟩, h3, hout⟩ := h
        simp only [Except.ok.injEq] at hout
        have := hmain st (SameShape.srefl st) _ (by omega) st3 cur3 nid3 h3 hout
        refine ⟨this.1, ?_, this.2.2⟩
        have h2 := this.2.1
        simp only [sizeN, Option.isSome_some, eq_self_iff_true, if_true] at h2 ⊢
        omega
      | bid nm =>
        simp only [declsN, allocVar, bind_ok_iff, pure, Except.pure] at h
        obtain ⟨stb, hb, h⟩ := h
        obtain ⟨stc, hc, h⟩ := h
        simp only [Except.ok.injEq] at hc
        subst hc
        obtain ⟨⟨st3, cur3, nid3⟩, h3, hout⟩ := h
        simp only [Except.ok.injEq] at hout
        have hshb : SameShape st (addName stb nm) :=
          ((allocVar_shape st ⟨nm, "let", [nid + 1], []⟩).strans (addVariable_shape hb)).strans
            (addName_shape stb nm)
        have := hmain (addName stb nm) hshb _ (by omega) st3 cur3 nid3 h3 hout
        refine ⟨this.1, ?_, this.2.2⟩
        have h2 := this.2.1
        simp only [sizeN, Option.isSome_some, eq_self_iff_true, if_true] at h2 ⊢
        omega
  | forStatement body =>
    intro st cur nid out h hinv hcur
    simp only [declsN, bind_ok_iff] at h
    obtain ⟨⟨st2, cur2, nid2⟩, h2, h⟩ := h
    simp only [Except.ok.injEq] at h
    subst h
    obtain ⟨hwc, hlenc⟩ :=
      creating_setup hinv hcur (SameShape.srefl st) (SameShape.srefl _)
    obtain ⟨hc2, hn2, hw2, hx2⟩ :=
      declsL_spec body (pushScope st nid ScopeType.Other cur) st.scopes.length (nid + 1)
        (st2, cur2, nid2) h2 hwc hlenc
    subst hc2
    obtain ⟨hleave, hext⟩ := creating_finish hcur (SameShape.srefl st) (SameShape.srefl _) hx2
    refine ⟨hleave, ?_, hw2, hext⟩
    simp only [sizeN] at hn2 ⊢
    omega
  | blockStatement body =>
    intro st cur nid out h hinv hcur
    simp only [declsN, bind_ok_iff] at h
    obtain ⟨⟨st2, cur2, nid2⟩, h2, h⟩ := h
    simp only [Except.ok.injEq] at h
    subst h
    obtain ⟨hwc, hlenc⟩ :=
      creating_setup hinv hcur (SameShape.srefl st) (SameShape.srefl _)
    obtain ⟨hc2, hn2, hw2, hx2⟩ :=
      declsL_spec body (pushScope st nid ScopeType.Other cur) st.scopes.length (nid + 1)
        (st2, cur2, nid2) h2 hwc hlenc
    subst hc2
    obtain ⟨hleave, hext⟩ := creating_finish hcur (SameShape.srefl st) (SameShape.srefl _) hx2
    refine ⟨hleave, ?_, hw2, hext⟩
    simp only [sizeN] at hn2 ⊢
    omega
  | variableDeclaration kind bindings inits =>
    intro st cur nid out h hinv hcur
    simp only [declsN, bind_ok_iff] at h
    obtain ⟨st1, h1, h⟩ := h
    obtain ⟨⟨st2, cur2, nid2⟩, h2, h⟩ := h
    simp only [Except.ok.injEq] at h
    subst h
    have hsh1 : SameShape st st1 := processBindings_shape h1
    obtain ⟨hc2, hn2, hw2, hx2⟩ :=
      declsL_spec inits st1 cur (nid + 1 + bindings.length) (st2, cur2, nid2) h2
        ((hinv.ofShape hsh1).mono (by omega)) (by rw [hsh1.len]; exact hcur)
    subst hc2
    refine ⟨leaveScope_old hinv hcur hsh1 hx2, ?_, hw2, hsh1.toExt.etrans hx2⟩
    simp only [sizeN] at hn2 ⊢
    omega
  | identifierExpression nm =>
    intro st cur nid out h hinv hcur
    simp only [declsN, Except.ok.injEq] at h
    subst h
    refine ⟨leaveScope_old hinv hcur (SameShape.srefl st) (StExt.erefl st), rfl,
      hinv.mono (by simp [sizeN]), StExt.erefl st⟩
  | other children =>
    intro st cur nid out h hinv hcur
    simp only [declsN, bind_ok_iff] at h
    obtain ⟨⟨st1, cur1, nid1⟩, hL, h⟩ := h
    simp only [Except.ok.injEq] at h
    subst h
    obtain ⟨hc1, hn1, hw1, hx1⟩ :=
      declsL_spec children st cur (nid + 1) (st1, cur1, nid1) hL (hinv.mono (by omega)) hcur
    subst hc1
    refine ⟨leaveScope_old hinv hcur (SameShape.srefl st) hx1, ?_, hw1, hx1⟩
    simp only [sizeN] at hn1 ⊢
    omega
termination_by 2 * sizeN n
decreasing_by all_goals (simp only [sizeN, sizeL]; omega)

theorem declsL_spec (ns : List Node) :
    ∀ (st : St) (cur nid : Nat) (out : St × Nat × Nat),
    declsL st cur nid ns = Except.ok out → WalkInv st nid → cur < st.scopes.length →
    out.2.1 = cur ∧ out.2.2 = nid + sizeL ns ∧ WalkInv out.1 out.2.2 ∧ StExt st out.1 := by
  cases ns with
  | nil =>
    intro st cur nid out h hinv hcur
    simp only [declsL, Except.ok.injEq] at h
    subst h
    exact ⟨rfl, by simp [sizeL], hinv, StExt.erefl st⟩
  | cons n ns =>
    intro st cur nid out h hinv hcur
    simp only [declsL, bind_ok_iff] at h
    obtain ⟨⟨st1, cur1, nid1⟩, h1, h2⟩ := h
    obtain ⟨hc1, hn1, hw1, hx1⟩ := declsN_spec n st cur nid (st1, cur1, nid1) h1 hinv hcur
    simp only at hc1 hn1 hw1 hx1
    rw [hc1, hn1] at h2
    rw [hn1] at hw1
    obtain ⟨hc2, hn2, hw2, hx2⟩ := declsL_spec ns st1 cur (nid + sizeN n) out h2 hw1
      (Nat.lt_of_lt_of_le hcur hx1.len)
    refine ⟨hc2, ?_, hw2, hx1.etrans hx2⟩
    simp only [sizeL]
    omega
termination_by 2 * sizeL ns + 1
decreasing_by
  all_goals simp only [sizeN, sizeL]
  all_goals (try omega)
  all_goals (have hsz := sizeN_pos head; omega)

end

/-! ### The reference walk mirrors the declaration walk (claim C8) -/

theorem recordReference_scopes (st : St) (cur nid : Nat) (nm : String) :
    (recordReference st cur nid nm).scopes = st.scopes := by
  unfold recordReference
  rcases lookupVariable st cur nm with _ | vid
  · simp only [allocVar]
    rw [setVar_scopes, addName_scopes]
  · rw [setVar_scopes]

theorem leaveScope_congr {st st' : St} (h : st'.scopes = st.scopes) (cur nid : Nat) :
    leaveScope st' cur nid = leaveScope st cur nid := by
  unfold leaveScope
  rw [getScope_scopes_eq h]

theorem WalkInv.distinct {st : St} {c : Nat} (h : WalkInv st c) : NodesDistinct st :=
  h.nodeNe

theorem findChildScope_eq {rs F : St} (hsc : rs.scopes = F.scopes) {cur nid L : Nat}
    (hd : NodesDistinct F) (hL : L < F.scopes.length)
    (hnode : (getScope F L).node = nid) (hparent : (getScope F L).parent = some cur) :
    findChildScope rs cur nid = some L := by
  have hgs : ∀ i, getScope rs i = getScope F i := getScope_scopes_eq hsc
  have hpredL : childPred rs cur nid L = true := by
    simp [childPred, hgs, hnode, hparent]
  rcases hf : findChildScope rs cur nid with _ | c
  · exfalso
    unfold findChildScope at hf
    have hmem : L ∈ List.range rs.scopes.length := by
      rw [hsc]
      exact List.mem_range.mpr hL
    exact absurd hpredL (by simpa using List.find?_eq_none.mp hf L hmem)
  · unfold findChildScope at hf
    have hpred := List.find?_some hf
    have hcmem := List.mem_of_find?_eq_some hf
    have hclt : c < F.scopes.length := by
      rw [← hsc]
      exact List.mem_range.mp hcmem
    have hcp : (getScope F c).parent = some cur ∧ (getScope F c).node = nid := by
      have := hpred
      simp [childPred, hgs] at this
      exact this
    rcases lt_trichotomy c L with hlt | heq | hgt
    · exfalso
      exact hd c L hlt hL (by rw [hcp.1]; rfl) (by rw [hparent]; rfl)
        (by rw [hcp.2, hnode])
    · rw [heq]
    · exfalso
      exact hd L c hgt hclt (by rw [hparent]; rfl) (by rw [hcp.1]; rfl)
        (by rw [hnode, hcp.2])

/-- The facts needed to re-enter a freshly created scope during the reference
walk: the scope the declaration walk created at index `st.scopes.length`
keeps its owning node and parent in any later state `F`. -/
theorem reenter_created {st stPre stPost F : St} {cur nid : Nat} {ty : ScopeType}
    (hpre : SameShape st stPre) (hpost : SameShape (pushScope stPre nid ty cur) stPost)
    (hext : StExt stPost F) :
    st.scopes.length < F.scopes.length ∧
    (getScope F st.scopes.length).node = nid ∧
    (getScope F st.scopes.length).parent = some cur := by
  have hlen : st.scopes.length < stPost.scopes.length := by
    rw [hpost.len, pushScope_length, hpre.len]
    omega
  have hidx : getScope (pushScope stPre nid ty cur) st.scopes.length =
      (⟨nid, ty, some cur, []⟩ : ScopeData) := by
    have := getScope_pushScope_new stPre nid ty cur
    rwa [hpre.len] at this
  refine ⟨lt_of_lt_of_le hlen hext.len, ?_, ?_⟩
  · rw [hext.node _ hlen, hpost.node, hidx]
  · rw [hext.parent _ hlen, hpost.parent, hidx]

mutual

/-- The reference walk succeeds on any subtree the declaration walk processed,
follows the same cursor path, and leaves the scope store untouched.  `F` is
any state whose scope store extends the declaration walk's output (in
particular the final declaration state itself), `rs` the reference walk's
current state sharing that store. -/
theorem refsN_sim (n : Node) :
    ∀ (st : St) (cur nid : Nat) (dout : St × Nat × Nat) (F rs : St),
    declsN st cur nid n = Except.ok dout → WalkInv st nid → cur < st.scopes.length →
    StExt dout.1 F → NodesDistinct F → rs.scopes = F.scopes →
    ∃ rout : St × Nat × Nat, refsN rs cur nid n = Except.ok rout ∧
      rout.1.scopes = F.scopes ∧ rout.2.1 = cur ∧ rout.2.2 = nid + sizeN n := by
  cases n with
  | script body =>
    intro st cur nid dout F rs h hinv hcur hF hd hsc
    simp only [declsN, bind_ok_iff] at h
    obtain ⟨⟨st1, cur1, nid1⟩, hL, h⟩ := h
    simp only [Except.ok.injEq] at h
    subst h
    obtain ⟨hc1, hn1, hw1, hx1⟩ :=
      declsL_spec body st cur (nid + 1) (st1, cur1, nid1) hL (hinv.mono (by omega)) hcur
    simp only at hc1 hn1
    
    obtain ⟨⟨rs1, rcur1, rnid1⟩, hr, hrs1, hrc, hrn⟩ :=
      refsL_sim body st cur (nid + 1) _ F rs hL (hinv.mono (by omega)) hcur
        hF hd hsc
    simp only at hrs1 hrc hrn
    rw [hrc] at hr
    refine ⟨(rs1, leaveScope rs1 cur nid, rnid1), ?_, hrs1, ?_, ?_⟩
    · simp only [refsN, hr, okBind]
    · simp only
      rw [leaveScope_congr hrs1]
      exact leaveScope_old hinv hcur (SameShape.srefl st) (hx1.etrans hF)
    · simp only [sizeN]
      omega
  | functionDeclaration nm params body =>
    intro st cur nid dout F rs h hinv hcur hF hd hsc
    simp only [declsN, allocVar, bind_ok_iff] at h
    obtain ⟨st2, h2, h⟩ := h
    obtain ⟨st5, h5, h⟩ := h
    obtain ⟨st7, h7, h⟩ := h
    obtain ⟨⟨st8, cur8, nid8⟩, h8, h⟩ := h
    simp only [Except.ok.injEq] at h
    subst h
    have hsh2 : SameShape st (addName st2 nm) :=
      ((allocVar_shape st ⟨nm, "var", [nid + 1], []⟩).strans (addVariable_shape h2)).strans
        (addName_shape st2 nm)
    have hsh7 : SameShape (pushScope (addName st2 nm) nid ScopeType.Function cur) st7 :=
      (addParams_shape h5).strans
        ((allocVar_shape st5 ⟨"arguments", "var", [], []⟩).strans (addVariable_shape h7))
    obtain ⟨hwc, hlenc⟩ := creating_setup hinv hcur hsh2 hsh7
    have hcurc : (addName st2 nm).scopes.length = st.scopes.length := hsh2.len
    rw [hcurc] at h8
    obtain ⟨hc8, hn8, hw8, hx8⟩ :=
      declsL_spec body st7 st.scopes.length (nid + 2 + params.length) (st8, cur8, nid8) h8
        (hwc.mono (by omega)) hlenc
    simp only at hc8 hn8
    
    obtain ⟨hLlt, hLnode, hLparent⟩ := reenter_created hsh2 hsh7 (hx8.etrans hF)
    have hfind := findChildScope_eq hsc hd hLlt hLnode hLparent
    obtain ⟨⟨rs1, rcur1, rnid1⟩, hr, hrs1, hrc, hrn⟩ :=
      refsL_sim body st7 st.scopes.length (nid + 2 + params.length) _ F rs h8
        (hwc.mono (by omega)) hlenc hF hd hsc
    simp only at hrs1 hrc hrn
    rw [hrc] at hr
    refine ⟨(rs1, leaveScope rs1 st.scopes.length nid, rnid1), ?_, hrs1, ?_, ?_⟩
    · simp only [refsN, reenterScope, hfind, okBind, hr]
    · simp only
      rw [leaveScope_congr hrs1]
      exact leaveScope_pop hLnode hLparent
    · simp only [sizeN]
      omega
  | functionExpression onm params body =>
    intro st cur nid dout F rs h hinv hcur hF hd hsc
    cases onm with
    | none =>
      simp only [declsN, allocVar, bind_ok_iff, Option.isSome_none, Bool.false_eq_true,
        if_false, pure, Except.pure] at h
      obtain ⟨st3, h3, h⟩ := h
      obtain ⟨st4, h4, h⟩ := h
      obtain ⟨st6, h6, h⟩ := h
      obtain ⟨⟨st7, cur7, nid7⟩, h7, h⟩ := h
      simp only [Except.ok.injEq] at h h3
      subst h
      subst h3
      have hsh6 : SameShape (pushScope st nid ScopeType.Function cur) st6 :=
        ((addParams_shape h4).strans (allocVar_shape st4 ⟨"arguments", "var", [], []⟩)).strans
          (addVariable_shape h6)
      obtain ⟨hwc, hlenc⟩ := creating_setup hinv hcur (SameShape.srefl st) hsh6
      obtain ⟨hc7, hn7, hw7, hx7⟩ :=
        declsL_spec body st6 st.scopes.length (nid + 1 + 0 + params.length) (st7, cur7, nid7)
          h7 (hwc.mono (by omega)) hlenc
      simp only at hc7 hn7
      
      obtain ⟨hLlt, hLnode, hLparent⟩ :=
        reenter_created (SameShape.srefl st) hsh6 (hx7.etrans hF)
      have hfind := findChildScope_eq hsc hd hLlt hLnode hLparent
      obtain ⟨⟨rs1, rcur1, rnid1⟩, hr, hrs1, hrc, hrn⟩ :=
        refsL_sim body st6 st.scopes.length (nid + 1 + 0 + params.length) (st7, cur7, nid7)
          F rs h7 (hwc.mono (by omega)) hlenc hF hd hsc
      simp only at hrs1 hrc hrn
      rw [hrc] at hr
      refine ⟨(rs1, leaveScope rs1 st.scopes.length nid, rnid1), ?_, hrs1, ?_, ?_⟩
      · simp only [refsN, reenterScope, hfind, okBind, Option.isSome_none, Bool.false_eq_true,
          if_false, hr]
      · simp only
        rw [leaveScope_congr hrs1]
        exact leaveScope_pop hLnode hLparent
      · simp only [sizeN, Option.isSome_none, Bool.false_eq_true, if_false]
        omega
    | some nm =>
      simp only [declsN, allocVar, bind_ok_iff, Option.isSome_some, if_true, pure,
        Except.pure] at h
      obtain ⟨stb, hb, h⟩ := h
      obtain ⟨st3, h3, h⟩ := h
      obtain ⟨st4, h4, h⟩ := h
      obtain ⟨st6, h6, h⟩ := h
      obtain ⟨⟨st7, cur7, nid7⟩, h7, h⟩ := h
      simp only [Except.ok.injEq] at h h3
      subst h
      subst h3
      have hshb : SameShape (pushScope st nid ScopeType.Function cur) (addName stb nm) :=
        ((allocVar_shape (pushScope st nid ScopeType.Function cur)
            ⟨nm, "var", [nid + 1], []⟩).strans (addVariable_shape hb)).strans
          (addName_shape stb nm)
      have hsh6 : SameShape (pushScope st nid ScopeType.Function cur) st6 :=
        ((hshb.strans (addParams_shape h4)).strans
          (allocVar_shape st4 ⟨"arguments", "var", [], []⟩)).strans (addVariable_shape h6)
      obtain ⟨hwc, hlenc⟩ := creating_setup hinv hcur (SameShape.srefl st) hsh6
      obtain ⟨hc7, hn7, hw7, hx7⟩ :=
        declsL_spec body st6 st.scopes.length (nid + 1 + 1 + params.length) (st7, cur7, nid7)
          h7 (hwc.mono (by omega)) hlenc
      simp only at hc7 hn7
      
      obtain ⟨hLlt, hLnode, hLparent⟩ :=
        reenter_created (SameShape.srefl st) hsh6 (hx7.etrans hF)
      have hfind := findChildScope_eq hsc hd hLlt hLnode hLparent
      obtain ⟨⟨rs1, rcur1, rnid1⟩, hr, hrs1, hrc, hrn⟩ :=
        refsL_sim body st6 st.scopes.length (nid + 1 + 1 + params.length) (st7, cur7, nid7)
          F rs h7 (hwc.mono (by omega)) hlenc hF hd hsc
      simp only at hrs1 hrc hrn
      rw [hrc] at hr
      refine ⟨(rs1, leaveScope rs1 st.scopes.length nid, rnid1), ?_, hrs1, ?_, ?_⟩
      · simp only [refsN, reenterScope, hfind, okBind, Option.isSome_some, if_true, hr]
      · simp only
        rw [leaveScope_congr hrs1]
        exact leaveScope_pop hLnode hLparent
      · simp only [sizeN, Option.isSome_some, eq_self_iff_true, if_true]
        omega
  | arrowExpression params body =>
    intro st cur nid dout F rs h hinv hcur hF hd hsc
    simp only [declsN, bind_ok_iff] at h
    obtain ⟨st2, h2, h⟩ := h
    obtain ⟨⟨st3, cur3, nid3⟩, h3, h⟩ := h
    simp only [Except.ok.injEq] at h
    subst h
    have hsh2 : SameShape (pushScope st nid ScopeType.Function cur) st2 := addParams_shape h2
    obtain ⟨hwc, hlenc⟩ := creating_setup hinv hcur (SameShape.srefl st) hsh2
    obtain ⟨hc3, hn3, hw3, hx3⟩ :=
      declsL_spec body st2 st.scopes.length (nid + 1 + params.length) (st3, cur3, nid3) h3
        (hwc.mono (by omega)) hlenc
    simp only at hc3 hn3
    
    obtain ⟨hLlt, hLnode, hLparent⟩ :=
      reenter_created (SameShape.srefl st) hsh2 (hx3.etrans hF)
    have hfind := findChildScope_eq hsc hd hLlt hLnode hLparent
    obtain ⟨⟨rs1, rcur1, rnid1⟩, hr, hrs1, hrc, hrn⟩ :=
      refsL_sim body st2 st.scopes.length (nid + 1 + params.length) _ F rs h3
        (hwc.mono (by omega)) hlenc hF hd hsc
    simp only at hrs1 hrc hrn
    rw [hrc] at hr
    refine ⟨(rs1, leaveScope rs1 st.scopes.length nid, rnid1), ?_, hrs1, ?_, ?_⟩
    · simp only [refsN, reenterScope, hfind, okBind, hr]
    · simp only
      rw [leaveScope_congr hrs1]
      exact leaveScope_pop hLnode hLparent
    · simp only [sizeN]
      omega
  | catchClause ob body =>
    intro st cur nid dout F rs h hinv hcur hF hd hsc
    have hmain : ∀ (stPre : St), SameShape st stPre →
        ∀ (bstart : Nat), nid + 1 ≤ bstart →
        ∀ (st3 : St) (cur3 nid3 : Nat),
        declsL (pushScope stPre nid ScopeType.Other cur) stPre.scopes.length bstart body =
          Except.ok (st3, cur3, nid3) →
        (st3, leaveScope st3 cur3 nid, nid3) = dout →
        ∃ (rs1 : St) (rnid1 : Nat),
          refsL rs st.scopes.length bstart body = Except.ok (rs1, st.scopes.length, rnid1) ∧
          rs1.scopes = F.scopes ∧ rnid1 = bstart + sizeL body ∧
          leaveScope rs1 st.scopes.length nid = cur ∧
          findChildScope rs cur nid = some st.scopes.length := by
      intro stPre hpre bstart hb st3 cur3 nid3 h3 hout
      obtain ⟨hwc0, hlenc⟩ := creating_setup hinv hcur hpre (SameShape.srefl _)
      have hwc := hwc0.mono hb
      rw [hpre.len] at h3
      obtain ⟨hc3, hn3, hw3, hx3⟩ :=
        declsL_spec body (pushScope stPre nid ScopeType.Other cur) st.scopes.length bstart
          (st3, cur3, nid3) h3 hwc hlenc
      simp only at hc3 hn3
      
      have hx3' : StExt st3 F := by
        have : dout.1 = st3 := by rw [← hout]
        rw [← this]
        exact hF
      obtain ⟨hLlt, hLnode, hLparent⟩ := reenter_created hpre (SameShape.srefl _) (hx3.etrans hx3')
      have hfind := findChildScope_eq hsc hd hLlt hLnode hLparent
      obtain ⟨⟨rs1, rcur1, rnid1⟩, hr, hrs1, hrc, hrn⟩ :=
        refsL_sim body (pushScope stPre nid ScopeType.Other cur) st.scopes.length bstart
          (st3, cur3, nid3) F rs h3 hwc hlenc hx3' hd hsc
      simp only at hrs1 hrc hrn
      rw [hrc] at hr
      refine ⟨rs1, rnid1, ?_, hrs1, hrn, ?_, hfind⟩
      · exact hr
      · rw [leaveScope_congr hrs1]
        exact leaveScope_pop hLnode hLparent
    cases ob with
    | none =>
      simp only [declsN, pure, Except.pure, okBind, bind_ok_iff] at h
      obtain ⟨⟨st3, cur3, nid3⟩, h3, hout⟩ := h
      simp only [Except.ok.injEq] at hout
      obtain ⟨rs1, rnid1, hr, hrs1, hrn, hleave, hfind⟩ :=
        hmain st (SameShape.srefl st) _ (by omega) st3 cur3 nid3 h3 hout
      refine ⟨(rs1, leaveScope rs1 st.scopes.length nid, rnid1), ?_, hrs1, ?_, ?_⟩
      · simp only [refsN, reenterScope, hfind, okBind, hr]
      · simpa using hleave
      · simp only [sizeN, Option.isSome_none, Bool.false_eq_true, if_false] at hrn ⊢
        omega
    | some b =>
      cases b with
      | pattern =>
        simp only [declsN, pure, Except.pure, okBind, bind_ok_iff] at h
        obtain ⟨⟨st3, cur3, nid3⟩, h3, hout⟩ := h
        simp only [Except.ok.injEq] at hout
        obtain ⟨rs1, rnid1, hr, hrs1, hrn, hleave, hfind⟩ :=
          hmain st (SameShape.srefl st) _ (by omega) st3 cur3 nid3 h3 hout
        refine ⟨(rs1, leaveScope rs1 st.scopes.length nid, rnid1), ?_, hrs1, ?_, ?_⟩
        · simp only [refsN, reenterScope, hfind, okBind, hr]
        · simpa using hleave
        · simp only [sizeN, Option.isSome_some, eq_self_iff_true, if_true] at hrn ⊢
          omega
      | bid nm =>
        simp only [declsN, allocVar, bind_ok_iff, pure, Except.pure] at h
        obtain ⟨stb, hb, h⟩ := h
        obtain ⟨stc, hc, h⟩ := h
        simp only [Except.ok.injEq] at hc
        subst hc
        obtain ⟨⟨st3, cur3, nid3⟩, h3, hout⟩ := h
        simp only [Except.ok.injEq] at hout
        have hshb : SameShape st (addName stb nm) :=
          ((allocVar_shape st ⟨nm, "let", [nid + 1], []⟩).strans (addVariable_shape hb)).strans
            (addName_shape stb nm)
        obtain ⟨rs1, rnid1, hr, hrs1, hrn, hleave, hfind⟩ :=
          hmain (addName stb nm) hshb _ (by omega) st3 cur3 nid3 h3 hout
        refine ⟨(rs1, leaveScope rs1 st.scopes.length nid, rnid1), ?_, hrs1, ?_, ?_⟩
        · simp only [refsN, reenterScope, hfind, okBind, hr]
        · simpa using hleave
        · simp only [sizeN, Option.isSome_some, eq_self_iff_true, if_true] at hrn ⊢
          omega
  | forStatement body =>
    intro st cur nid dout F rs h hinv hcur hF hd hsc
    simp only [declsN, bind_ok_iff] at h
    obtain ⟨⟨st2, cur2, nid2⟩, h2, h⟩ := h
    simp only [Except.ok.injEq] at h
    subst h
    obtain ⟨hwc, hlenc⟩ := creating_setup hinv hcur (SameShape.srefl st) (SameShape.srefl _)
    obtain ⟨hc2, hn2, hw2, hx2⟩ :=
      declsL_spec body (pushScope st nid ScopeType.Other cur) st.scopes.length (nid + 1)
        (st2, cur2, nid2) h2 hwc hlenc
    simp only at hc2 hn2
    
    obtain ⟨hLlt, hLnode, hLparent⟩ :=
      reenter_created (SameShape.srefl st) (SameShape.srefl _) (hx2.etrans hF)
    have hfind := findChildScope_eq hsc hd hLlt hLnode hLparent
    obtain ⟨⟨rs1, rcur1, rnid1⟩, hr, hrs1, hrc, hrn⟩ :=
      refsL_sim body (pushScope st nid ScopeType.Other cur) st.scopes.length (nid + 1)
        (st2, cur2, nid2) F rs h2 hwc hlenc hF hd hsc
    simp only at hrs1 hrc hrn
    rw [hrc] at hr
    refine ⟨(rs1, leaveScope rs1 st.scopes.length nid, rnid1), ?_, hrs1, ?_, ?_⟩
    · simp only [refsN, reenterScope, hfind, okBind, hr]
    · simp only
      rw [leaveScope_congr hrs1]
      exact leaveScope_pop hLnode hLparent
    · simp only [sizeN]
      omega
  | blockStatement body =>
    intro st cur nid dout F rs h hinv hcur hF hd hsc
    simp only [declsN, bind_ok_iff] at h
    obtain ⟨⟨st2, cur2, nid2⟩, h2, h⟩ := h
    simp only [Except.ok.injEq] at h
    subst h
    obtain ⟨hwc, hlenc⟩ := creating_setup hinv hcur (SameShape.srefl st) (SameShape.srefl _)
    obtain ⟨hc2, hn2, hw2, hx2⟩ :=
      declsL_spec body (pushScope st nid ScopeType.Other cur) st.scopes.length (nid + 1)
        (st2, cur2, nid2) h2 hwc hlenc
    simp only at hc2 hn2
    
    obtain ⟨hLlt, hLnode, hLparent⟩ :=
      reenter_created (SameShape.srefl st) (SameShape.srefl _) (hx2.etrans hF)
    have hfind := findChildScope_eq hsc hd hLlt hLnode hLparent
    obtain ⟨⟨rs1, rcur1, rnid1⟩, hr, hrs1, hrc, hrn⟩ :=
      refsL_sim body (pushScope st nid ScopeType.Other cur) st.scopes.length (nid + 1)
        (st2, cur2, nid2) F rs h2 hwc hlenc hF hd hsc
    simp only at hrs1 hrc hrn
    rw [hrc] at hr
    refine ⟨(rs1, leaveScope rs1 st.scopes.length nid, rnid1), ?_, hrs1, ?_, ?_⟩
    · simp only [refsN, reenterScope, hfind, okBind, hr]
    · simp only
      rw [leaveScope_congr hrs1]
      exact leaveScope_pop hLnode hLparent
    · simp only [sizeN]
      omega
  | variableDeclaration kind bindings inits =>
    intro st cur nid dout F rs h hinv hcur hF hd hsc
    simp only [declsN, bind_ok_iff] at h
    obtain ⟨st1, h1, h⟩ := h
    obtain ⟨⟨st2, cur2, nid2⟩, h2, h⟩ := h
    simp only [Except.ok.injEq] at h
    subst h
    have hsh1 : SameShape st st1 := processBindings_shape h1
    obtain ⟨hc2, hn2, hw2, hx2⟩ :=
      declsL_spec inits st1 cur (nid + 1 + bindings.length) (st2, cur2, nid2) h2
        ((hinv.ofShape hsh1).mono (by omega)) (by rw [hsh1.len]; exact hcur)
    simp only at hc2 hn2
    
    obtain ⟨⟨rs1, rcur1, rnid1⟩, hr, hrs1, hrc, hrn⟩ :=
      refsL_sim inits st1 cur (nid + 1 + bindings.length) _ F rs h2
        ((hinv.ofShape hsh1).mono (by omega)) (by rw [hsh1.len]; exact hcur) hF hd hsc
    simp only at hrs1 hrc hrn
    rw [hrc] at hr
    refine ⟨(rs1, leaveScope rs1 cur nid, rnid1), ?_, hrs1, ?_, ?_⟩
    · simp only [refsN, hr, okBind]
    · simp only
      rw [leaveScope_congr hrs1]
      exact leaveScope_old hinv hcur (SameShape.srefl st) ((hsh1.toExt.etrans hx2).etrans hF)
    · simp only [sizeN]
      omega
  | identifierExpression nm =>
    intro st cur nid dout F rs h hinv hcur hF hd hsc
    have hsc1 : (recordReference rs cur nid nm).scopes = F.scopes := by
      rw [recordReference_scopes, hsc]
    refine ⟨(recordReference rs cur nid nm,
      leaveScope (recordReference rs cur nid nm) cur nid, nid + 1), rfl, hsc1, ?_, ?_⟩
    · simp only
      rw [leaveScope_congr hsc1]
      exact leaveScope_old hinv hcur (SameShape.srefl st) (by
        simp only [declsN, Except.ok.injEq] at h
        have hde : dout.1 = st := by rw [← h]
        rw [← hde]
        exact hF)
    · simp [sizeN]
  | other children =>
    intro st cur nid dout F rs h hinv hcur hF hd hsc
    simp only [declsN, bind_ok_iff] at h
    obtain ⟨⟨st1, cur1, nid1⟩, hL, h⟩ := h
    simp only [Except.ok.injEq] at h
    subst h
    obtain ⟨hc1, hn1, hw1, hx1⟩ :=
      declsL_spec children st cur (nid + 1) (st1, cur1, nid1) hL (hinv.mono (by omega)) hcur
    simp only at hc1 hn1
    
    obtain ⟨⟨rs1, rcur1, rnid1⟩, hr, hrs1, hrc, hrn⟩ :=
      refsL_sim children st cur (nid + 1) _ F rs hL (hinv.mono (by omega)) hcur
        hF hd hsc
    simp only at hrs1 hrc hrn
    rw [hrc] at hr
    refine ⟨(rs1, leaveScope rs1 cur nid, rnid1), ?_, hrs1, ?_, ?_⟩
    · simp only [refsN, hr, okBind]
    · simp only
      rw [leaveScope_congr hrs1]
      exact leaveScope_old hinv hcur (SameShape.srefl st) (hx1.etrans hF)
    · simp only [sizeN]
      omega
termination_by 2 * sizeN n
decreasing_by all_goals (simp only [sizeN, sizeL]; omega)

theorem refsL_sim (ns : List Node) :
    ∀ (st : St) (cur nid : Nat) (dout : St × Nat × Nat) (F rs : St),
    declsL st cur nid ns = Except.ok dout → WalkInv st nid → cur < st.scopes.length →
    StExt dout.1 F → NodesDistinct F → rs.scopes = F.scopes →
    ∃ rout : St × Nat × Nat, refsL rs cur nid ns = Except.ok rout ∧
      rout.1.scopes = F.scopes ∧ rout.2.1 = cur ∧ rout.2.2 = nid + sizeL ns := by
  cases ns with
  | nil =>
    intro st cur nid dout F rs h hinv hcur hF hd hsc
    exact ⟨(rs, cur, nid), rfl, hsc, rfl, by simp [sizeL]⟩
  | cons n ns =>
    intro st cur nid dout F rs h hinv hcur hF hd hsc
    simp only [declsL, bind_ok_iff] at h
    obtain ⟨⟨st1, cur1, nid1⟩, h1, h2⟩ := h
    obtain ⟨hc1, hn1, hw1, hx1⟩ := declsN_spec n st cur nid (st1, cur1, nid1) h1 hinv hcur
    simp only at hc1 hn1 hw1 hx1
    rw [hc1, hn1] at h2
    rw [hn1] at hw1
    obtain ⟨hc2, hn2, hw2, hx2⟩ := declsL_spec ns st1 cur (nid + sizeN n) dout h2 hw1
      (Nat.lt_of_lt_of_le hcur hx1.len)
    obtain ⟨⟨rs1, rcur1, rnid1⟩, hr1, hrs1, hrc1, hrn1⟩ :=
      refsN_sim n st cur nid (st1, cur1, nid1) F rs h1 hinv hcur (hx2.etrans hF) hd hsc
    simp only at hrs1 hrc1 hrn1
    rw [hrc1, hrn1] at hr1
    obtain ⟨⟨rs2, rcur2, rnid2⟩, hr2, hrs2, hrc2, hrn2⟩ :=
      refsL_sim ns st1 cur (nid + sizeN n) dout F rs1 h2 hw1
        (Nat.lt_of_lt_of_le hcur hx1.len) hF hd hrs1
    simp only at hrs2 hrc2 hrn2
    rw [hrc2] at hr2
    refine ⟨(rs2, cur, rnid2), ?_, hrs2, rfl, ?_⟩
    · simp only [refsL, hr1, okBind, hr2]
    · simp only [sizeL]
      omega
termination_by 2 * sizeL ns + 1
decreasing_by
  all_goals simp only [sizeN, sizeL]
  all_goals (try omega)
  all_goals (have hsz := sizeN_pos head; omega)

end

theorem initSt_inv : WalkInv initSt 0 := by
  refine ⟨?_, ?_, ?_⟩
  · intro i hi hp
    have hi0 : i = 0 := by
      simpa [initSt] using hi
    subst hi0
    simp [getScope, initSt] at hp
  · intro i j hij hj hpi hpj
    have hj0 : j = 0 := by
      simpa [initSt] using hj
    omega
  · intro i hi p hp
    have hi0 : i = 0 := by
      simpa [initSt] using hi
    subst hi0
    simp [getScope, initSt] at hp

theorem initSt_cur : 0 < initSt.scopes.length := by
  simp [initSt]

/-- C8 (confirmed): whenever the declaration-collection walk completes on a
tree, the reference-resolution walk on the same unmodified tree also
completes: every scope-creating node it enters finds the child scope the
first walk built for exactly that node (matching owning-node identity under
the current cursor), so the ScopeAssociationFailure branch is never taken. -/
theorem c8_reference_walk_succeeds (t : Node) (st : St)
    (h : collectDeclarations t = Except.ok st) :
    ∃ st', collectReferences st t = Except.ok st' := by
  unfold collectDeclarations at h
  simp only [bind_ok_iff] at h
  obtain ⟨⟨st1, cur1, nid1⟩, hD, hok⟩ := h
  simp only [Except.ok.injEq] at hok
  subst hok
  obtain ⟨hc, hn, hw, hx⟩ := declsN_spec t initSt 0 0 (st1, cur1, nid1) hD initSt_inv initSt_cur
  simp only at hw
  obtain ⟨rout, hr, hrs, hrc, hrn⟩ :=
    refsN_sim t initSt 0 0 (st1, cur1, nid1) st1 st1 hD initSt_inv initSt_cur
      (StExt.erefl st1) hw.distinct rfl
  refine ⟨rout.1, ?_⟩
  unfold collectReferences
  rcases rout with ⟨rst, rcur, rnid⟩
  simp only [hr, okBind]

/-- C8 witness at a concrete program. -/
theorem c8_reference_walk_succeeds_witness :
    ∃ st', collectReferences stFunctionDecl progFunctionDecl = Except.ok st' :=
  c8_reference_walk_succeeds progFunctionDecl stFunctionDecl rfl

/-! ### Hoisting characterization (claims C2 and C4) -/

theorem getDeclarationScopeAux_bounds (st : St)
    (hP : ∀ i, i < st.scopes.length → ∀ p, (getScope st i).parent = some p → p < i) :
    ∀ fuel sid, sid < st.scopes.length →
      getDeclarationScopeAux st fuel sid ≤ sid ∧
      getDeclarationScopeAux st fuel sid < st.scopes.length := by
  intro fuel
  induction fuel with
  | zero => exact fun sid h => ⟨le_refl _, h⟩
  | succ fuel ih =>
    intro sid hs
    unfold getDeclarationScopeAux
    rcases hp : (getScope st sid).parent with _ | p
    · simp only [hp]
      exact ⟨le_refl _, hs⟩
    · simp only [hp]
      split
      · have hplt : p < sid := hP sid hs p hp
        obtain ⟨h1, h2⟩ := ih p (lt_trans hplt hs)
        exact ⟨le_trans h1 (le_of_lt hplt), h2⟩
      · exact ⟨le_refl _, hs⟩

theorem getDeclarationScopeAux_nearest (st : St)
    (hP : ∀ i, i < st.scopes.length → ∀ p, (getScope st i).parent = some p → p < i) :
    ∀ fuel sid, sid < fuel → sid < st.scopes.length →
      NearestHoist st sid (getDeclarationScopeAux st fuel sid) := by
  intro fuel
  induction fuel with
  | zero => omega
  | succ fuel ih =>
    intro sid hf hs
    unfold getDeclarationScopeAux
    rcases hp : (getScope st sid).parent with _ | p
    · simp only [hp]
      exact NearestHoist.stop sid (Or.inr hp)
    · simp only [hp]
      split
      · rename_i hty
        have hplt : p < sid := hP sid hs p hp
        exact NearestHoist.step sid p _ hty hp (ih p (by omega) (lt_trans hplt hs))
      · rename_i hty
        exact NearestHoist.stop sid (Or.inl hty)

theorem blockScoped_var : blockScopedTypes.contains "var" = false := by decide

theorem getDeclarationScope_nonblock (st : St) (sid : Nat) {kind : String}
    (hk : blockScopedTypes.contains kind = false) :
    getDeclarationScope st sid kind = getDeclarationScopeAux st st.scopes.length sid := by
  unfold getDeclarationScope
  rw [hk]
  simp

theorem getDeclarationScope_block (st : St) (sid : Nat) {kind : String}
    (hk : blockScopedTypes.contains kind = true) :
    getDeclarationScope st sid kind = sid := by
  unfold getDeclarationScope
  rw [hk]
  simp

theorem NearestHoist.not_other {st : St} {sid d : Nat} (h : NearestHoist st sid d)
    (hG : ∀ i, (getScope st i).parent = none → (getScope st i).stype ≠ ScopeType.Other) :
    (getScope st d).stype ≠ ScopeType.Other := by
  induction h with
  | stop s hstop =>
    rcases hstop with h1 | h2
    · exact h1
    · exact hG s h2
  | step s p d _ _ _ ih => exact ih

theorem getVar_concat (st : St) (v : Variable) :
    getVar { st with vars := st.vars ++ [v] } st.vars.length = v := by
  unfold getVar
  simp only
  rw [List.getElem?_concat_length]
  rfl

theorem getDeclarationScopeAux_congr {st st' : St} (h : st'.scopes = st.scopes) :
    ∀ fuel sid, getDeclarationScopeAux st' fuel sid = getDeclarationScopeAux st fuel sid := by
  intro fuel
  induction fuel with
  | zero => intro sid; rfl
  | succ fuel ih =>
    intro sid
    unfold getDeclarationScopeAux
    rw [getScope_scopes_eq h]
    rcases hp : (getScope st sid).parent with _ | p
    · simp only [hp]
    · simp only [hp]
      split
      · exact ih p
      · rfl

theorem getDeclarationScope_congr {st st' : St} (h : st'.scopes = st.scopes) (sid : Nat)
    (kind : String) : getDeclarationScope st' sid kind = getDeclarationScope st sid kind := by
  unfold getDeclarationScope
  rw [h, getDeclarationScopeAux_congr h]

theorem addVariable_mem_keys {st st' : St} {sid vid : Nat}
    (h : addVariable st sid vid = Except.ok st')
    (hd : getDeclarationScope st sid (getVar st vid).kind < st.scopes.length) :
    (getVar st vid).name ∈
      ((getScope st' (getDeclarationScope st sid (getVar st vid).kind)).table.map Prod.fst) := by
  unfold addVariable at h
  split at h
  · rename_i evid hl
    split at h
    · cases h
    · cases h
      rw [getScope_scopes_eq (setVar_scopes _ _ _)]
      exact lookup_mem_keys hl
  · rename_i hl
    cases h
    rw [getScope_setTable, if_pos ⟨rfl, hd⟩]
    simp

/-- C2 (confirmed, spec-modelled): a declarator processed by the collection
walk is declared into `getDeclarationScope(kind)`: for a non-block-scoped kind
(`var`) that scope is the nearest enclosing non-Other scope — reached from the
current scope by parent steps crossing only Other-kind (block) scopes, and
itself never an Other-kind scope, hence never the enclosing block scope — and
for a block-scoped kind (`let`/`const`) it is the current scope itself;
whenever `declareBinding` succeeds, the declarator's name has an entry in that
scope's table. -/
theorem c2_declaration_scope (st st' : St) (cur : Nat) (kind nm : String) (site : Nat)
    (hP : ∀ i, i < st.scopes.length → ∀ p, (getScope st i).parent = some p → p < i)
    (hG : ∀ i, (getScope st i).parent = none → (getScope st i).stype ≠ ScopeType.Other)
    (hcur : cur < st.scopes.length)
    (hok : declareBinding st cur kind nm site = Except.ok st') :
    (blockScopedTypes.contains kind = false →
      NearestHoist st cur (getDeclarationScope st cur kind) ∧
      (getScope st (getDeclarationScope st cur kind)).stype ≠ ScopeType.Other) ∧
    (blockScopedTypes.contains kind = true → getDeclarationScope st cur kind = cur) ∧
    nm ∈ ((getScope st' (getDeclarationScope st cur kind)).table.map Prod.fst) := by
  have hdlt : getDeclarationScope st cur kind < st.scopes.length := by
    unfold getDeclarationScope
    split
    · exact hcur
    · exact (getDeclarationScopeAux_bounds st hP st.scopes.length cur hcur).2
  refine ⟨?_, ?_, ?_⟩
  · intro hk
    rw [getDeclarationScope_nonblock st cur hk]
    have hnear := getDeclarationScopeAux_nearest st hP st.scopes.length cur hcur hcur
    exact ⟨hnear, hnear.not_other hG⟩
  · intro hk
    exact getDeclarationScope_block st cur hk
  · unfold declareBinding at hok
    rcases hl : (getScope st (getDeclarationScope st cur kind)).table.lookup nm with _ | evid
    · simp only [hl, bind_ok_iff] at hok
      obtain ⟨st2, h2, hok⟩ := hok
      simp only [Except.ok.injEq] at hok
      subst hok
      have hv : getVar (allocVar st ⟨nm, kind, [], []⟩).1 (allocVar st ⟨nm, kind, [], []⟩).2 =
          (⟨nm, kind, [], []⟩ : Variable) := getVar_concat st _
      have hcongr : getDeclarationScope (allocVar st ⟨nm, kind, [], []⟩).1 cur kind =
          getDeclarationScope st cur kind :=
        @getDeclarationScope_congr st (allocVar st ⟨nm, kind, [], []⟩).1 rfl cur kind
      have hmem := addVariable_mem_keys h2 (by rw [hv, hcongr]; simpa [allocVar] using hdlt)
      rw [hv, hcongr] at hmem
      have hsc : (setVar (addName st2 nm) st.vars.length
          { getVar (addName st2 nm) st.vars.length with
            declarations := (getVar (addName st2 nm) st.vars.length).declarations ++ [site]
            }).scopes = st2.scopes := by
        rw [setVar_scopes, addName_scopes]
      rw [getScope_scopes_eq hsc]
      exact hmem
    · simp only [hl] at hok
      split at hok
      · cases hok
      · cases hok
        rw [getScope_scopes_eq (setVar_scopes _ _ _)]
        exact lookup_mem_keys hl

/-- C2 witness: `var x` declared from inside a block scope lands in the table
of the Global scope (the nearest non-Other ancestor), not the block scope;
`let y` declared there lands in the block scope itself. -/
theorem c2_declaration_scope_witness :
    (blockScopedTypes.contains "var" = false →
      NearestHoist stBlock 1 (getDeclarationScope stBlock 1 "var") ∧
      (getScope stBlock (getDeclarationScope stBlock 1 "var")).stype ≠ ScopeType.Other) ∧
    (blockScopedTypes.contains "var" = true → getDeclarationScope stBlock 1 "var" = 1) ∧
    "x" ∈ ((getScope (setVar (addName
        (setTable ⟨stBlock.scopes, [⟨"x", "var", [], []⟩], []⟩ 0 [("x", 0)]) "x") 0
        ⟨"x", "var", [9], []⟩) (getDeclarationScope stBlock 1 "var")).table.map Prod.fst) := by
  have h := c2_declaration_scope stBlock
    (setVar (addName (setTable ⟨stBlock.scopes, [⟨"x", "var", [], []⟩], []⟩ 0 [("x", 0)]) "x") 0
      ⟨"x", "var", [9], []⟩) 1 "var" "x" 9
    (by
      intro i hi p hp
      rcases i with _ | i
      · simp [getScope, stBlock] at hp
      · rcases i with _ | n
        · simp [getScope, stBlock] at hp
          omega
        · rw [getScope_default _ _ (by show 2 ≤ n + 2; omega)] at hp
          simp [dummyScope] at hp)
    (by
      intro i hp
      rcases i with _ | i
      · simp [getScope, stBlock, dummyScope]
      · rcases i with _ | n
        · simp [getScope, stBlock] at hp
        · rw [getScope_default _ _ (by show 2 ≤ n + 2; omega)]
          simp [dummyScope])
    (by show 1 < 2; omega)
    rfl
  exact h

theorem created_scope_fields {st stPre stPost F : St} {cur nid : Nat} {ty : ScopeType}
    (hpre : SameShape st stPre) (hpost : SameShape (pushScope stPre nid ty cur) stPost)
    (hext : StExt stPost F) :
    st.scopes.length < F.scopes.length ∧
    (getScope F st.scopes.length).node = nid ∧
    (getScope F st.scopes.length).stype = ty ∧
    (getScope F st.scopes.length).parent = some cur := by
  have hlen : st.scopes.length < stPost.scopes.length := by
    rw [hpost.len, pushScope_length, hpre.len]
    omega
  have hidx : getScope (pushScope stPre nid ty cur) st.scopes.length =
      (⟨nid, ty, some cur, []⟩ : ScopeData) := by
    have := getScope_pushScope_new stPre nid ty cur
    rwa [hpre.len] at this
  refine ⟨lt_of_lt_of_le hlen hext.len, ?_, ?_, ?_⟩
  · rw [hext.node _ hlen, hpost.node, hidx]
  · rw [hext.stype _ hlen, hpost.stype, hidx]
  · rw [hext.parent _ hlen, hpost.parent, hidx]

/-- C4 (amended, proved): when the declaration walk processes a
FunctionDeclaration node, it DOES create a new Function-kind scope owned by
the declaration node itself (the fallthrough into the function-expression
case), with the entry scope as parent; and the function's own name is added
beforehand as a var-kind Variable by `addVariable` called from the scope
current at entry, which registers it in `getDeclarationScope(cur, var)` — the
nearest enclosing Function/Global scope — not inside the new scope. -/
theorem c4_amended_function_declaration (st : St) (cur nid : Nat) (nm : String)
    (params : List Binding) (body : List Node) (out : St × Nat × Nat)
    (hinv : WalkInv st nid) (hcur : cur < st.scopes.length)
    (h : declsN st cur nid (Node.functionDeclaration nm params body) = Except.ok out) :
    (st.scopes.length < out.1.scopes.length ∧
     (getScope out.1 st.scopes.length).node = nid ∧
     (getScope out.1 st.scopes.length).stype = ScopeType.Function ∧
     (getScope out.1 st.scopes.length).parent = some cur) ∧
    ∃ st2, addVariable (allocVar st ⟨nm, "var", [nid + 1], []⟩).1 cur
        (allocVar st ⟨nm, "var", [nid + 1], []⟩).2 = Except.ok st2 ∧
      nm ∈ ((getScope st2 (getDeclarationScope st cur "var")).table.map Prod.fst) := by
  simp only [declsN, allocVar, bind_ok_iff] at h
  obtain ⟨st2, h2, h⟩ := h
  obtain ⟨st5, h5, h⟩ := h
  obtain ⟨st7, h7, h⟩ := h
  obtain ⟨⟨st8, cur8, nid8⟩, h8, h⟩ := h
  simp only [Except.ok.injEq] at h
  subst h
  have hsh2 : SameShape st (addName st2 nm) :=
    ((allocVar_shape st ⟨nm, "var", [nid + 1], []⟩).strans (addVariable_shape h2)).strans
      (addName_shape st2 nm)
  have hsh7 : SameShape (pushScope (addName st2 nm) nid ScopeType.Function cur) st7 :=
    (addParams_shape h5).strans
      ((allocVar_shape st5 ⟨"arguments", "var", [], []⟩).strans (addVariable_shape h7))
  obtain ⟨hwc, hlenc⟩ := creating_setup hinv hcur hsh2 hsh7
  have hcurc : (addName st2 nm).scopes.length = st.scopes.length := hsh2.len
  rw [hcurc] at h8
  obtain ⟨hc8, hn8, hw8, hx8⟩ :=
    declsL_spec body st7 st.scopes.length (nid + 2 + params.length) (st8, cur8, nid8) h8
      (hwc.mono (by omega)) hlenc
  constructor
  · exact created_scope_fields hsh2 hsh7 hx8
  · refine ⟨st2, by simpa [allocVar] using h2, ?_⟩
    have hdlt : getDeclarationScope st cur "var" < st.scopes.length := by
      rw [getDeclarationScope_nonblock st cur blockScoped_var]
      exact (getDeclarationScopeAux_bounds st hinv.parentLt st.scopes.length cur hcur).2
    have hv : getVar { st with vars := st.vars ++ [⟨nm, "var", [nid + 1], []⟩] }
        st.vars.length = (⟨nm, "var", [nid + 1], []⟩ : Variable) := getVar_concat st _
    have hcongr : getDeclarationScope { st with vars := st.vars ++ [⟨nm, "var", [nid + 1], []⟩]
        } cur "var" = getDeclarationScope st cur "var" :=
      @getDeclarationScope_congr st { st with vars := st.vars ++ [⟨nm, "var", [nid + 1], []⟩] }
        rfl cur "var"
    have hmem := addVariable_mem_keys h2 (by rw [hv, hcongr]; exact hdlt)
    rw [hv, hcongr] at hmem
    exact hmem

/-- C4 (amended) witness: `function f() {}` at the top level. -/
theorem c4_amended_function_declaration_witness :
    (1 < stFunctionDecl.scopes.length ∧
     (getScope stFunctionDecl 1).node = 1 ∧
     (getScope stFunctionDecl 1).stype = ScopeType.Function ∧
     (getScope stFunctionDecl 1).parent = some 0) ∧
    ∃ st2, addVariable (allocVar initSt ⟨"f", "var", [2], []⟩).1 0
        (allocVar initSt ⟨"f", "var", [2], []⟩).2 = Except.ok st2 ∧
      "f" ∈ ((getScope st2 (getDeclarationScope initSt 0 "var")).table.map Prod.fst) :=
  c4_amended_function_declaration initSt 0 1 "f" [] [] (stFunctionDecl, 0, 3)
    (initSt_inv.mono (by omega)) initSt_cur rfl

/-! ### Name generation (claim C7) -/

theorem ALPHABET_pairwise : List.Pairwise (· < ·) ALPHABET := by decide

theorem lex_irrefl : ∀ (l : List Char), ¬ List.Lex (· < ·) l l := by
  intro l
  induction l with
  | nil => intro h; cases h
  | cons c l ih =>
    intro h
    cases h with
    | cons h1 => exact ih h1
    | rel h1 => exact lt_irrefl c h1

theorem nameLt_irrefl (s : String) : ¬ nameLt s s :=
  lex_irrefl s.data

theorem base1_pairwise : List.Pairwise nameLt (ALPHABET.map (fun c => String.mk [c])) := by
  rw [List.pairwise_map]
  exact ALPHABET_pairwise.imp (fun h => List.Lex.rel h)

theorem base2_pairwise :
    List.Pairwise nameLt (ALPHABET.flatMap (fun c1 => ALPHABET.map (fun c2 =>
      String.mk [c1, c2]))) := by
  rw [List.pairwise_flatMap]
  constructor
  · intro c1 _
    rw [List.pairwise_map]
    exact ALPHABET_pairwise.imp (fun h => List.Lex.cons (List.Lex.rel h))
  · refine ALPHABET_pairwise.imp ?_
    intro c1 c1' h x hx y hy
    obtain ⟨c2, _, rfl⟩ := List.mem_map.mp hx
    obtain ⟨c2', _, rfl⟩ := List.mem_map.mp hy
    exact List.Lex.rel h

theorem base3_pairwise :
    List.Pairwise nameLt (ALPHABET.flatMap (fun c1 => ALPHABET.flatMap (fun c2 =>
      ALPHABET.map (fun c3 => String.mk [c1, c2, c3])))) := by
  rw [List.pairwise_flatMap]
  constructor
  · intro c1 _
    rw [List.pairwise_flatMap]
    constructor
    · intro c2 _
      rw [List.pairwise_map]
      exact ALPHABET_pairwise.imp (fun h => List.Lex.cons (List.Lex.cons (List.Lex.rel h)))
    · refine ALPHABET_pairwise.imp ?_
      intro c2 c2' h x hx y hy
      obtain ⟨c3, _, rfl⟩ := List.mem_map.mp hx
      obtain ⟨c3', _, rfl⟩ := List.mem_map.mp hy
      exact List.Lex.cons (List.Lex.rel h)
  · refine ALPHABET_pairwise.imp ?_
    intro c1 c1' h x hx y hy
    obtain ⟨c2, _, hx2⟩ := List.mem_flatMap.mp hx
    obtain ⟨c3, _, rfl⟩ := List.mem_map.mp hx2
    obtain ⟨c2', _, hy2⟩ := List.mem_flatMap.mp hy
    obtain ⟨c3', _, rfl⟩ := List.mem_map.mp hy2
    exact List.Lex.rel h

theorem mem_base1_length {s : String}
    (h : s ∈ ALPHABET.map (fun c => String.mk [c])) : s.length = 1 := by
  obtain ⟨c, _, rfl⟩ := List.mem_map.mp h
  rfl

theorem mem_base2_length {s : String}
    (h : s ∈ ALPHABET.flatMap (fun c1 => ALPHABET.map (fun c2 => String.mk [c1, c2]))) :
    s.length = 2 := by
  obtain ⟨c1, _, hx⟩ := List.mem_flatMap.mp h
  obtain ⟨c2, _, rfl⟩ := List.mem_map.mp hx
  rfl

theorem mem_base3_length {s : String}
    (h : s ∈ ALPHABET.flatMap (fun c1 => ALPHABET.flatMap (fun c2 =>
      ALPHABET.map (fun c3 => String.mk [c1, c2, c3])))) : s.length = 3 := by
  obtain ⟨c1, _, hx⟩ := List.mem_flatMap.mp h
  obtain ⟨c2, _, hy⟩ := List.mem_flatMap.mp hx
  obtain ⟨c3, _, rfl⟩ := List.mem_map.mp hy
  rfl

theorem pairwise_genR_of_lex {l : List String} {k : Nat} (hp : List.Pairwise nameLt l)
    (hl : ∀ s ∈ l, s.length = k) : List.Pairwise genR l := by
  refine hp.imp_of_mem ?_
  intro a b ha hb hab
  refine ⟨?_, Or.inr ⟨by rw [hl a ha, hl b hb], hab⟩⟩
  intro he
  subst he
  exact nameLt_irrefl a hab

theorem pairwise_genR_append {l1 l2 : List String} (h1 : List.Pairwise genR l1)
    (h2 : List.Pairwise genR l2) (hcross : ∀ a ∈ l1, ∀ b ∈ l2, a.length < b.length) :
    List.Pairwise genR (l1 ++ l2) := by
  rw [List.pairwise_append]
  refine ⟨h1, h2, ?_⟩
  intro a ha b hb
  refine ⟨?_, Or.inl (hcross a ha b hb)⟩
  intro he
  subst he
  exact lt_irrefl a.length (hcross a ha a hb)

/-- The generated name queue is strictly ordered by length, alphabetically
within each length, and in particular duplicate-free. -/
theorem generateNames_pairwise (used : List String) :
    List.Pairwise genR (generateNames used) := by
  unfold generateNames names1 names2 names3
  refine pairwise_genR_append (pairwise_genR_append ?_ ?_ ?_) ?_ ?_
  · exact pairwise_genR_of_lex (base1_pairwise.filter _)
      (fun s hs => mem_base1_length (List.mem_of_mem_filter hs))
  · exact pairwise_genR_of_lex (base2_pairwise.filter _)
      (fun s hs => mem_base2_length (List.mem_of_mem_filter hs))
  · intro a ha b hb
    rw [mem_base1_length (List.mem_of_mem_filter ha),
      mem_base2_length (List.mem_of_mem_filter hb)]
    omega
  · exact pairwise_genR_of_lex (base3_pairwise.filter _)
      (fun s hs => mem_base3_length (List.mem_of_mem_filter hs))
  · intro a ha b hb
    rw [mem_base3_length (List.mem_of_mem_filter hb)]
    rcases List.mem_append.mp ha with ha1 | ha2
    · rw [mem_base1_length (List.mem_of_mem_filter ha1)]
      omega
    · rw [mem_base2_length (List.mem_of_mem_filter ha2)]
      omega

/-- No generated name is in the used-name set the generator was given. -/
theorem generateNames_not_used (used : List String) :
    ∀ n ∈ generateNames used, used.contains n = false := by
  intro n hn
  unfold generateNames names1 names2 names3 at hn
  have hfilter : ∀ {l : List String}, n ∈ l.filter (fun m => !used.contains m) →
      used.contains n = false := by
    intro l hl
    have := (List.mem_filter.mp hl).2
    simpa using this
  rcases List.mem_append.mp hn with h12 | h3
  · rcases List.mem_append.mp h12 with h1 | h2
    · exact hfilter h1
    · exact hfilter h2
  · exact hfilter h3

theorem issueN_take : ∀ (N : Nat) (pool : List String), N ≤ pool.length →
    issueN N pool = Except.ok (pool.take N, pool.drop N) := by
  intro N
  induction N with
  | zero =>
    intro pool h
    simp [issueN]
  | succ N ih =>
    intro pool h
    cases pool with
    | nil => simp at h
    | cons a pool =>
      have hlen : N ≤ pool.length := by
        simpa using Nat.le_of_succ_le_succ h
      simp [issueN, getVariableName, okBind, ih pool hlen]

/-- C7 (counterexample): for the program `var [p] = …, a = …;` the break on
the destructuring declarator leaves `a` outside the used-name set, so the
very first name the generator yields is `a` — a name textually present in the
original program — refuting the claim that no generated name equals a name
already present in the program. -/
theorem c7_counterexample_generated_name_in_program :
    collectDeclarations progPatternSkip = Except.ok initSt ∧
    collectReferences initSt progPatternSkip = Except.ok initSt ∧
    (generateNames initSt.usedVariableNames).head? = some "a" ∧
    "a" ∈ programNamesN progPatternSkip :=
  ⟨rfl, rfl, rfl, by decide⟩

/-- C7 (amended): requesting `N` names from the generated queue yields `N`
strings that are pairwise distinct, strictly ordered by length with
alphabetical order inside each length (so each name is issued at most once),
and none of which lies in the used-name set the generator was seeded with —
the reserved words plus every name `addName` recorded during collection;
names the collection walk never recorded (e.g. bindings inside or after a
destructuring pattern) are not excluded. -/
theorem c7_amended_name_generation (used : List String) (N : Nat)
    (hN : N ≤ (generateNames used).length) :
    issueN N (generateNames used) =
      Except.ok ((generateNames used).take N, (generateNames used).drop N) ∧
    ((generateNames used).take N).length = N ∧
    List.Pairwise genR ((generateNames used).take N) ∧
    ∀ n ∈ (generateNames used).take N, used.contains n = false := by
  refine ⟨issueN_take N _ hN, ?_, ?_, ?_⟩
  · rw [List.length_take]
    omega
  · exact (generateNames_pairwise used).sublist (List.take_sublist N _)
  · intro n hn
    exact generateNames_not_used used n (List.take_subset N _ hn)

/-- C7 (amended) witness: two names issued against the used set `{"x"}`. -/
theorem c7_amended_name_generation_witness :
    issueN 2 (generateNames ["x"]) =
      Except.ok ((generateNames ["x"]).take 2, (generateNames ["x"]).drop 2) ∧
    ((generateNames ["x"]).take 2).length = 2 ∧
    List.Pairwise genR ((generateNames ["x"]).take 2) ∧
    ∀ n ∈ (generateNames ["x"]).take 2, (["x"] : List String).contains n = false :=
  c7_amended_name_generation ["x"] 2 (by
    have h1 : 2 ≤ (names1 ["x"]).length := by decide
    refine le_trans h1 ?_
    unfold generateNames
    rw [List.length_append, List.length_append]
    omega)

/-! ### Renaming leaves the declarable-site structure in place (toward C9) -/

theorem patchBindings_length (p : List (Nat × String)) :
    ∀ (i : Nat) (bs : List Binding), (patchBindings p i bs).length = bs.length := by
  intro i bs
  induction bs generalizing i with
  | nil => rfl
  | cons b bs ih => cases b <;> simp [patchBindings, ih]

mutual

theorem sizeN_patch (n : Node) : ∀ (p : List (Nat × String)) (nid : Nat),
    sizeN (patchN p nid n) = sizeN n := by
  cases n with
  | script body => intro p nid; simp [patchN, sizeN, sizeL_patch body]
  | functionDeclaration nm params body =>
    intro p nid
    simp [patchN, sizeN, sizeL_patch body, patchBindings_length]
  | functionExpression onm params body =>
    intro p nid
    rcases onm with _ | nm <;>
      simp [patchN, sizeN, sizeL_patch body, patchBindings_length, Option.map]
  | arrowExpression params body =>
    intro p nid
    simp [patchN, sizeN, sizeL_patch body, patchBindings_length]
  | catchClause ob body =>
    intro p nid
    rcases ob with _ | b
    · simp [patchN, sizeN, sizeL_patch body]
    · cases b <;> simp [patchN, sizeN, sizeL_patch body, Option.map]
  | forStatement body => intro p nid; simp [patchN, sizeN, sizeL_patch body]
  | blockStatement body => intro p nid; simp [patchN, sizeN, sizeL_patch body]
  | variableDeclaration kind bindings inits =>
    intro p nid
    simp [patchN, sizeN, sizeL_patch inits, patchBindings_length]
  | identifierExpression nm => intro p nid; simp [patchN, sizeN]
  | other children => intro p nid; simp [patchN, sizeN, sizeL_patch children]
termination_by 2 * sizeN n
decreasing_by all_goals (simp only [sizeN, sizeL]; omega)

theorem sizeL_patch (ns : List Node) : ∀ (p : List (Nat × String)) (nid : Nat),
    sizeL (patchL p nid ns) = sizeL ns := by
  cases ns with
  | nil => intro p nid; rfl
  | cons n ns =>
    intro p nid
    simp [patchL, sizeL, sizeN_patch n, sizeL_patch ns]
termination_by 2 * sizeL ns + 1
decreasing_by
  all_goals simp only [sizeN, sizeL]
  all_goals (try omega)
  all_goals (have hsz := sizeN_pos head; omega)

end

theorem dsitesP_patch (p : List (Nat × String)) :
    ∀ (i : Nat) (bs : List Binding),
    dsitesP i (patchBindings p i bs) =
      (dsitesP i bs).map (fun q => (q.1, patchName p q.1 q.2)) := by
  intro i bs
  induction bs generalizing i with
  | nil => rfl
  | cons b bs ih => cases b <;> simp [patchBindings, dsitesP, ih]

theorem dsitesD_patch (p : List (Nat × String)) :
    ∀ (i : Nat) (bs : List Binding),
    dsitesD i (patchBindings p i bs) =
      (dsitesD i bs).map (fun q => (q.1, patchName p q.1 q.2)) := by
  intro i bs
  induction bs generalizing i with
  | nil => rfl
  | cons b bs ih => cases b <;> simp [patchBindings, dsitesD, ih]

mutual

theorem dsitesN_patch (n : Node) : ∀ (p : List (Nat × String)) (nid : Nat),
    dsitesN nid (patchN p nid n) =
      (dsitesN nid n).map (fun q => (q.1, patchName p q.1 q.2)) := by
  cases n with
  | script body => intro p nid; simp [patchN, dsitesN, dsitesL_patch body]
  | functionDeclaration nm params body =>
    intro p nid
    simp [patchN, dsitesN, dsitesL_patch body, dsitesP_patch, patchBindings_length]
  | functionExpression onm params body =>
    intro p nid
    rcases onm with _ | nm <;>
      simp [patchN, dsitesN, dsitesL_patch body, dsitesP_patch, patchBindings_length,
        Option.map]
  | arrowExpression params body =>
    intro p nid
    simp [patchN, dsitesN, dsitesL_patch body, dsitesP_patch, patchBindings_length]
  | catchClause ob body =>
    intro p nid
    rcases ob with _ | b
    · simp [patchN, dsitesN, dsitesL_patch body]
    · cases b <;> simp [patchN, dsitesN, dsitesL_patch body, Option.map]
  | forStatement body => intro p nid; simp [patchN, dsitesN, dsitesL_patch body]
  | blockStatement body => intro p nid; simp [patchN, dsitesN, dsitesL_patch body]
  | variableDeclaration kind bindings inits =>
    intro p nid
    simp [patchN, dsitesN, dsitesL_patch inits, dsitesD_patch, patchBindings_length]
  | identifierExpression nm => intro p nid; simp [patchN, dsitesN]
  | other children => intro p nid; simp [patchN, dsitesN, dsitesL_patch children]
termination_by 2 * sizeN n
decreasing_by all_goals (simp only [sizeN, sizeL]; omega)

theorem dsitesL_patch (ns : List Node) : ∀ (p : List (Nat × String)) (nid : Nat),
    dsitesL nid (patchL p nid ns) =
      (dsitesL nid ns).map (fun q => (q.1, patchName p q.1 q.2)) := by
  cases ns with
  | nil => intro p nid; rfl
  | cons n ns =>
    intro p nid
    simp [patchL, dsitesL, sizeN_patch n, dsitesN_patch n, dsitesL_patch ns]
termination_by 2 * sizeL ns + 1
decreasing_by
  all_goals simp only [sizeN, sizeL]
  all_goals (try omega)
  all_goals (have hsz := sizeN_pos head; omega)

end

theorem alphabet_not_underscore : ∀ c ∈ ALPHABET, ('_' == c) = false := by decide

/-- Generated names never match the rename-eligibility prefix: every candidate
starts with an alphabet letter, not an underscore. -/
theorem shouldRename_alpha_cons {c : Char} (rest : List Char) (hc : c ∈ ALPHABET) :
    shouldRename (String.mk (c :: rest)) = false := by
  simp [shouldRename, List.isPrefixOf, alphabet_not_underscore c hc]

theorem generateNames_not_eligible (used : List String) :
    ∀ nm ∈ generateNames used, shouldRename nm = false := by
  intro nm hm
  unfold generateNames at hm
  rcases List.mem_append.mp hm with hm | hm3
  · rcases List.mem_append.mp hm with hm1 | hm2
    · obtain ⟨hb, _⟩ := List.mem_filter.mp hm1
      obtain ⟨c, hc, rfl⟩ := List.mem_map.mp hb
      exact shouldRename_alpha_cons [] hc
    · obtain ⟨hb, _⟩ := List.mem_filter.mp hm2
      obtain ⟨c1, hc1, hx⟩ := List.mem_flatMap.mp hb
      obtain ⟨c2, _, rfl⟩ := List.mem_map.mp hx
      exact shouldRename_alpha_cons [c2] hc1
  · obtain ⟨hb, _⟩ := List.mem_filter.mp hm3
    obtain ⟨c1, hc1, hx⟩ := List.mem_flatMap.mp hb
    obtain ⟨c2, _, hy⟩ := List.mem_flatMap.mp hx
    obtain ⟨c3, _, rfl⟩ := List.mem_map.mp hy
    exact shouldRename_alpha_cons [c2, c3] hc1

/-! ### Coherence of the symbol tables built by the declaration walk (toward C9) -/

theorem getVar_setVar (st : St) (vid : Nat) (v : Variable) (w : Nat) :
    getVar (setVar st vid v) w =
      if w = vid ∧ vid < st.vars.length then v else getVar st w := by
  unfold setVar getVar
  simp only
  rcases Nat.lt_or_ge vid st.vars.length with hlt | hge
  · rcases eq_or_ne w vid with rfl | hne
    · rw [List.getElem?_set_self hlt, if_pos ⟨rfl, hlt⟩]
      rfl
    · rw [List.getElem?_set_ne (Ne.symm hne), if_neg (fun hc => hne hc.1)]
  · rw [List.set_eq_of_length_le hge, if_neg (fun hc => absurd hc.2 (Nat.not_lt.mpr hge))]

theorem getVar_append_lt (st : St) (v : Variable) {w : Nat} (hw : w < st.vars.length) :
    getVar { st with vars := st.vars ++ [v] } w = getVar st w := by
  unfold getVar
  simp only
  rw [List.getElem?_append_left hw]

theorem getVar_default (st : St) {w : Nat} (hw : st.vars.length ≤ w) :
    getVar st w = dummyVariable := by
  unfold getVar
  rw [List.getElem?_eq_none hw]
  rfl

theorem getVar_vars_eq {st st' : St} (h : st'.vars = st.vars) (w : Nat) :
    getVar st' w = getVar st w := by
  simp [getVar, h]

theorem lookup_mem {l : List (String × Nat)} {a : String} {b : Nat}
    (h : l.lookup a = some b) : (a, b) ∈ l := by
  induction l with
  | nil => cases h
  | cons e l ih =>
    rw [List.lookup] at h
    rcases hb : (a == e.1) with _ | _
    · rw [hb] at h
      exact List.mem_cons_of_mem _ (ih h)
    · have ha : a = e.1 := by simpa using hb
      rw [hb] at h
      simp only [Option.some.injEq] at h
      subst h
      subst ha
      simp

/-- Table coherence maintained by the declaration walk: every table entry
points at an allocated variable whose heap name equals the entry's key, and
every non-root scope has a parent. -/
structure DeclInv (st : St) : Prop where
  keyLt : ∀ i, ∀ e ∈ (getScope st i).table, e.2 < st.vars.length
  keyName : ∀ i, ∀ e ∈ (getScope st i).table, (getVar st e.2).name = e.1
  rooted : ∀ i, 0 < i → i < st.scopes.length → ((getScope st i).parent).isSome = true

/-- `st'` grows out of `st` during declaration collection: variables are only
allocated, table entries and declaration sites only added, and every new table
key is either `arguments` or a name read off a declarable site in `S`. -/
structure Grow (st st' : St) (S : List (Nat × String)) : Prop where
  vlen : st.vars.length ≤ st'.vars.length
  tmono : ∀ i, ∀ e ∈ (getScope st i).table, e ∈ (getScope st' i).table
  dmono : ∀ w s, s ∈ (getVar st w).declarations → s ∈ (getVar st' w).declarations
  keyNew : ∀ i, ∀ e ∈ (getScope st' i).table,
    e ∈ (getScope st i).table ∨ e.1 = "arguments" ∨ ∃ s, (s, e.1) ∈ S

/-- Every declarable site of `S` is recorded: some scope's table maps the
site's name to a variable holding the site among its declarations. -/
def Covers (st : St) (S : List (Nat × String)) : Prop :=
  ∀ q ∈ S, ∃ i vid, (q.2, vid) ∈ (getScope st i).table ∧ q.1 ∈ (getVar st vid).declarations

theorem Grow.grefl (st : St) (S : List (Nat × String)) : Grow st st S :=
  ⟨le_refl _, fun _ _ he => he, fun _ _ hs => hs, fun _ _ he => Or.inl he⟩

theorem Grow.gtrans {st st1 st' : St} {S : List (Nat × String)}
    (h : Grow st st1 S) (h' : Grow st1 st' S) : Grow st st' S := by
  refine ⟨h.vlen.trans h'.vlen, fun i e he => h'.tmono i e (h.tmono i e he),
    fun w s hs => h'.dmono w s (h.dmono w s hs), ?_⟩
  intro i e he
  rcases h'.keyNew i e he with h1 | h2 | h3
  · rcases h.keyNew i e h1 with g1 | g2 | g3
    · exact Or.inl g1
    · exact Or.inr (Or.inl g2)
    · exact Or.inr (Or.inr g3)
  · exact Or.inr (Or.inl h2)
  · exact Or.inr (Or.inr h3)

theorem Grow.widen {st st' : St} {S S' : List (Nat × String)}
    (h : Grow st st' S) (hs : ∀ q ∈ S, q ∈ S') : Grow st st' S' := by
  refine ⟨h.vlen, h.tmono, h.dmono, ?_⟩
  intro i e he
  rcases h.keyNew i e he with h1 | h2 | h3
  · exact Or.inl h1
  · exact Or.inr (Or.inl h2)
  · obtain ⟨s, hm⟩ := h3
    exact Or.inr (Or.inr ⟨s, hs _ hm⟩)

theorem Covers_nil (st : St) : Covers st [] := by
  intro q hq
  cases hq

theorem Covers_append {st : St} {S1 S2 : List (Nat × String)}
    (h1 : Covers st S1) (h2 : Covers st S2) : Covers st (S1 ++ S2) := by
  intro q hq
  rcases List.mem_append.mp hq with hm | hm
  · exact h1 q hm
  · exact h2 q hm

theorem Covers_persist {st st' : St} {S S' : List (Nat × String)}
    (h : Covers st S) (hg : Grow st st' S') : Covers st' S := by
  intro q hq
  obtain ⟨i, vid, he, hd⟩ := h q hq
  exact ⟨i, vid, hg.tmono i _ he, hg.dmono vid _ hd⟩

theorem DeclInv_congr {st st' : St} (hs : st'.scopes = st.scopes) (hv : st'.vars = st.vars)
    (h : DeclInv st) : DeclInv st' := by
  refine ⟨?_, ?_, ?_⟩
  · intro i e he
    rw [getScope_scopes_eq hs] at he
    rw [hv]
    exact h.keyLt i e he
  · intro i e he
    rw [getScope_scopes_eq hs] at he
    rw [getVar_vars_eq hv]
    exact h.keyName i e he
  · intro i h0 hi
    rw [hs] at hi
    rw [getScope_scopes_eq hs]
    exact h.rooted i h0 hi

theorem Grow_congr {st st' : St} (hs : st'.scopes = st.scopes) (hv : st'.vars = st.vars)
    (S : List (Nat × String)) : Grow st st' S := by
  refine ⟨by rw [hv], ?_, ?_, ?_⟩
  · intro i e he
    rw [getScope_scopes_eq hs]
    exact he
  · intro w s hsx
    rw [getVar_vars_eq hv]
    exact hsx
  · intro i e he
    rw [getScope_scopes_eq hs] at he
    exact Or.inl he

theorem DeclInv_alloc {st : St} (v : Variable) (h : DeclInv st) :
    DeclInv { st with vars := st.vars ++ [v] } := by
  refine ⟨?_, ?_, h.rooted⟩
  · intro i e he
    have := h.keyLt i e he
    simp only [List.length_append, List.length_cons, List.length_nil]
    omega
  · intro i e he
    rw [getVar_append_lt st v (h.keyLt i e he)]
    exact h.keyName i e he

theorem Grow_alloc (st : St) (v : Variable) (S : List (Nat × String)) :
    Grow st { st with vars := st.vars ++ [v] } S := by
  refine ⟨by simp, fun _ _ he => he, ?_, fun i e he => Or.inl he⟩
  intro w s hs
  rcases Nat.lt_or_ge w st.vars.length with hlt | hge
  · rw [getVar_append_lt st v hlt]
    exact hs
  · rw [getVar_default st hge] at hs
    cases hs

theorem DeclInv_push {st : St} (nid : Nat) (ty : ScopeType) (cur : Nat) (h : DeclInv st) :
    DeclInv (pushScope st nid ty cur) := by
  have hlen := pushScope_length st nid ty cur
  refine ⟨?_, ?_, ?_⟩
  · intro i e he
    rcases Nat.lt_or_ge i st.scopes.length with hlt | hge
    · rw [getScope_pushScope_old st nid ty cur i hlt] at he
      exact h.keyLt i e he
    · rcases Nat.eq_or_lt_of_le hge with rfl | hgt
      · rw [getScope_pushScope_new st nid ty cur] at he
        cases he
      · rw [getScope_default _ i (by omega)] at he
        cases he
  · intro i e he
    rcases Nat.lt_or_ge i st.scopes.length with hlt | hge
    · rw [getScope_pushScope_old st nid ty cur i hlt] at he
      exact h.keyName i e he
    · rcases Nat.eq_or_lt_of_le hge with rfl | hgt
      · rw [getScope_pushScope_new st nid ty cur] at he
        cases he
      · rw [getScope_default _ i (by omega)] at he
        cases he
  · intro i h0 hi
    rw [hlen] at hi
    rcases Nat.lt_or_ge i st.scopes.length with hlt | hge
    · rw [getScope_pushScope_old st nid ty cur i hlt]
      exact h.rooted i h0 hlt
    · have : i = st.scopes.length := by omega
      subst this
      rw [getScope_pushScope_new st nid ty cur]
      rfl

theorem Grow_push (st : St) (nid : Nat) (ty : ScopeType) (cur : Nat)
    (S : List (Nat × String)) : Grow st (pushScope st nid ty cur) S := by
  refine ⟨le_refl _, ?_, fun _ _ hs => hs, ?_⟩
  · intro i e he
    rcases Nat.lt_or_ge i st.scopes.length with hlt | hge
    · rw [getScope_pushScope_old st nid ty cur i hlt]
      exact he
    · rw [getScope_default st i hge] at he
      cases he
  · intro i e he
    rcases Nat.lt_or_ge i st.scopes.length with hlt | hge
    · rw [getScope_pushScope_old st nid ty cur i hlt] at he
      exact Or.inl he
    · rcases Nat.eq_or_lt_of_le hge with rfl | hgt
      · rw [getScope_pushScope_new st nid ty cur] at he
        cases he
      · rw [getScope_default _ i (by rw [pushScope_length]; omega)] at he
        cases he

theorem getDeclarationScope_lt {st : St}
    (hP : ∀ i, i < st.scopes.length → ∀ p, (getScope st i).parent = some p → p < i)
    {sid : Nat} (hs : sid < st.scopes.length) (kind : String) :
    getDeclarationScope st sid kind < st.scopes.length := by
  unfold getDeclarationScope
  split
  · exact hs
  · exact (getDeclarationScopeAux_bounds st hP st.scopes.length sid hs).2

/-- Effect of one `addVariable` on tables and heap: tables only gain the new
variable's key, declaration sites persist, and afterwards the variable's name
maps (in the declaration scope) to a variable holding all its declaration
sites — the existing one on a merge, itself on a fresh insert. -/
theorem addVariable_coh {st : St} {sid vid : Nat} {st' : St}
    (h : addVariable st sid vid = Except.ok st')
    (hP : ∀ i, i < st.scopes.length → ∀ p, (getScope st i).parent = some p → p < i)
    (hs : sid < st.scopes.length)
    (hvid : vid < st.vars.length)
    (hinv : DeclInv st) :
    DeclInv st' ∧ st'.scopes.length = st.scopes.length ∧ st'.vars.length = st.vars.length ∧
    (∀ i, ∀ e ∈ (getScope st i).table, e ∈ (getScope st' i).table) ∧
    (∀ w s, s ∈ (getVar st w).declarations → s ∈ (getVar st' w).declarations) ∧
    (∀ i, ∀ e ∈ (getScope st' i).table,
      e ∈ (getScope st i).table ∨ e = ((getVar st vid).name, vid)) ∧
    (∃ rvid, ((getVar st vid).name, rvid) ∈
        (getScope st' (getDeclarationScope st sid (getVar st vid).kind)).table ∧
      ∀ s, s ∈ (getVar st vid).declarations → s ∈ (getVar st' rvid).declarations) := by
  have hdlt : getDeclarationScope st sid (getVar st vid).kind < st.scopes.length :=
    getDeclarationScope_lt hP hs _
  unfold addVariable at h
  split at h
  · rename_i evid hl
    split at h
    · cases h
    · cases h
      have hmem := lookup_mem hl
      have hevid : evid < st.vars.length := hinv.keyLt _ _ hmem
      have hsc : ∀ i, getScope (setVar st evid
          { getVar st evid with
            declarations := (getVar st evid).declarations ++ (getVar st vid).declarations }) i =
          getScope st i :=
        fun i => getScope_scopes_eq (setVar_scopes _ _ _) i
      have hgv : ∀ w, getVar (setVar st evid
          { getVar st evid with
            declarations := (getVar st evid).declarations ++ (getVar st vid).declarations }) w =
          if w = evid ∧ evid < st.vars.length then
            { getVar st evid with
              declarations := (getVar st evid).declarations ++ (getVar st vid).declarations }
          else getVar st w := getVar_setVar st evid _
      refine ⟨⟨?_, ?_, ?_⟩, by rw [setVar_scopes], by simp [setVar], ?_, ?_, ?_, ?_⟩
      · intro i e he
        rw [hsc] at he
        simp only [setVar, List.length_set]
        exact hinv.keyLt i e he
      · intro i e he
        rw [hsc] at he
        rw [hgv]
        split
        · rename_i hc
          have hkn := hinv.keyName i e he
          rw [hc.1] at hkn
          simpa using hkn
        · exact hinv.keyName i e he
      · intro i h0 hi
        rw [setVar_scopes] at hi
        rw [hsc]
        exact hinv.rooted i h0 hi
      · intro i e he
        rw [hsc]
        exact he
      · intro w s hsx
        rw [hgv]
        split
        · rename_i hc
          rw [hc.1] at hsx
          simp only
          exact List.mem_append_left _ hsx
        · exact hsx
      · intro i e he
        rw [hsc] at he
        exact Or.inl he
      · refine ⟨evid, ?_, ?_⟩
        · rw [hsc]
          exact hmem
        · intro s hsx
          rw [hgv]
          rw [if_pos ⟨rfl, hevid⟩]
          simp only
          exact List.mem_append_right _ hsx
  · rename_i hl
    cases h
    have hset : ∀ i, getScope (setTable st (getDeclarationScope st sid (getVar st vid).kind)
        ((getScope st (getDeclarationScope st sid (getVar st vid).kind)).table ++
          [((getVar st vid).name, vid)])) i =
        if i = getDeclarationScope st sid (getVar st vid).kind ∧
            getDeclarationScope st sid (getVar st vid).kind < st.scopes.length then
          { getScope st (getDeclarationScope st sid (getVar st vid).kind) with
            table := (getScope st (getDeclarationScope st sid (getVar st vid).kind)).table ++
              [((getVar st vid).name, vid)] }
        else getScope st i :=
      getScope_setTable st _ _
    have hvars : ∀ w, getVar (setTable st (getDeclarationScope st sid (getVar st vid).kind)
        ((getScope st (getDeclarationScope st sid (getVar st vid).kind)).table ++
          [((getVar st vid).name, vid)])) w = getVar st w := fun w => rfl
    refine ⟨⟨?_, ?_, ?_⟩, by simp [setTable], rfl, ?_, ?_, ?_, ?_⟩
    · intro i e he
      rw [hset] at he
      split at he
      · rename_i hc
        simp only at he
        rcases List.mem_append.mp he with hm | hm
        · exact hinv.keyLt _ _ hm
        · simp only [List.mem_singleton] at hm
          subst hm
          exact hvid
      · exact hinv.keyLt i e he
    · intro i e he
      rw [hvars]
      rw [hset] at he
      split at he
      · rename_i hc
        simp only at he
        rcases List.mem_append.mp he with hm | hm
        · exact hinv.keyName _ _ hm
        · simp only [List.mem_singleton] at hm
          subst hm
          rfl
      · exact hinv.keyName i e he
    · intro i h0 hi
      simp only [setTable, List.length_set] at hi
      rw [hset]
      split
      · rename_i hc
        simp only
        exact hinv.rooted _ (by omega) (by omega)
      · exact hinv.rooted i h0 hi
    · intro i e he
      rw [hset]
      split
      · rename_i hc
        simp only
        rw [hc.1] at he
        exact List.mem_append_left _ he
      · exact he
    · intro w s hsx
      rw [hvars]
      exact hsx
    · intro i e he
      rw [hset] at he
      split at he
      · simp only at he
        rcases List.mem_append.mp he with hm | hm
        · rename_i hc
          rw [hc.1]
          exact Or.inl hm
        · simp only [List.mem_singleton] at hm
          exact Or.inr hm
      · exact Or.inl he
    · refine ⟨vid, ?_, ?_⟩
      · rw [hset]
        rw [if_pos ⟨rfl, hdlt⟩]
        simp
      · intro s hsx
        rw [hvars]
        exact hsx

/-- Effect of one `declareBinding` on tables and heap: tables only gain the
declarator's name as a key, sites persist, and afterwards some table maps the
name to a variable holding the binding site. -/
theorem declareBinding_coh {st : St} {sid : Nat} {kind nm : String} {site : Nat} {st' : St}
    (h : declareBinding st sid kind nm site = Except.ok st')
    (hP : ∀ i, i < st.scopes.length → ∀ p, (getScope st i).parent = some p → p < i)
    (hs : sid < st.scopes.length)
    (hinv : DeclInv st) :
    DeclInv st' ∧ st'.scopes.length = st.scopes.length ∧
    st.vars.length ≤ st'.vars.length ∧
    (∀ i, ∀ e ∈ (getScope st i).table, e ∈ (getScope st' i).table) ∧
    (∀ w s, s ∈ (getVar st w).declarations → s ∈ (getVar st' w).declarations) ∧
    (∀ i, ∀ e ∈ (getScope st' i).table, e ∈ (getScope st i).table ∨ e.1 = nm) ∧
    (∃ i vid, (nm, vid) ∈ (getScope st' i).table ∧ site ∈ (getVar st' vid).declarations) := by
  have hdlt : getDeclarationScope st sid kind < st.scopes.length :=
    getDeclarationScope_lt hP hs kind
  unfold declareBinding at h
  rcases hl : (getScope st (getDeclarationScope st sid kind)).table.lookup nm with _ | evid
  · -- fresh insert
    simp only [hl, bind_ok_iff] at h
    obtain ⟨st2, h2, h⟩ := h
    simp only [Except.ok.injEq] at h
    have hv := getVar_concat st (⟨nm, kind, [], []⟩ : Variable)
    have hcongr : getDeclarationScope (allocVar st ⟨nm, kind, [], []⟩).1 sid kind =
        getDeclarationScope st sid kind :=
      @getDeclarationScope_congr st (allocVar st ⟨nm, kind, [], []⟩).1 rfl sid kind
    have hgs : ∀ i, getScope (allocVar st ⟨nm, kind, [], []⟩).1 i = getScope st i :=
      fun i => getScope_scopes_eq rfl i
    unfold addVariable at h2
    simp only [allocVar] at h2 hv hcongr hgs
    rw [hv] at h2
    simp only [hcongr, hgs, hl, Except.ok.injEq] at h2
    -- facts about the intermediate state st2
    have hA1 : ∀ i, getScope st2 i =
        if i = getDeclarationScope st sid kind then
          { getScope st (getDeclarationScope st sid kind) with
            table := (getScope st (getDeclarationScope st sid kind)).table ++
              [(nm, st.vars.length)] }
        else getScope st i := by
      intro i
      rw [← h2, getScope_setTable]
      rcases eq_or_ne i (getDeclarationScope st sid kind) with rfl | hne
      · rw [if_pos ⟨rfl, hdlt⟩, if_pos rfl, hgs]
      · rw [if_neg (fun hc => hne hc.1), if_neg hne]
        exact hgs i
    have hA2 : ∀ w, getVar st2 w =
        getVar { st with vars := st.vars ++ [⟨nm, kind, [], []⟩] } w := by
      intro w
      rw [← h2]
      rfl
    have hA3 : st2.vars.length = st.vars.length + 1 := by
      rw [← h2]
      simp [setTable]
    have hA4 : st2.scopes.length = st.scopes.length := by
      rw [← h2]
      simp [setTable]
    -- facts about the final state st'
    have hVL : getVar (addName st2 nm) st.vars.length = (⟨nm, kind, [], []⟩ : Variable) := by
      rw [getVar_vars_eq (addName_vars _ _), hA2]
      exact hv
    have hTab : ∀ i, getScope st' i =
        if i = getDeclarationScope st sid kind then
          { getScope st (getDeclarationScope st sid kind) with
            table := (getScope st (getDeclarationScope st sid kind)).table ++
              [(nm, st.vars.length)] }
        else getScope st i := by
      intro i
      rw [← h, getScope_scopes_eq (setVar_scopes _ _ _),
        getScope_scopes_eq (addName_scopes _ _), hA1]
    have hVarF : ∀ w, getVar st' w =
        if w = st.vars.length then (⟨nm, kind, [site], []⟩ : Variable) else getVar st w := by
      intro w
      rw [← h, getVar_setVar]
      have hlen : (addName st2 nm).vars.length = st.vars.length + 1 := by
        rw [addName_vars, hA3]
      rcases eq_or_ne w st.vars.length with rfl | hne
      · rw [if_pos ⟨rfl, by omega⟩, if_pos rfl, hVL]
        simp
      · rw [if_neg (fun hc => hne hc.1), if_neg hne]
        rw [getVar_vars_eq (addName_vars _ _), hA2]
        rcases Nat.lt_or_ge w st.vars.length with hlt | hge
        · exact getVar_append_lt st _ hlt
        · have hge2 : ({ st with vars := st.vars ++ [(⟨nm, kind, [], []⟩ : Variable)] } :
              St).vars.length ≤ w := by
            simp only [List.length_append, List.length_cons, List.length_nil]
            omega
          rw [getVar_default st (by omega), getVar_default _ hge2]
    have hSlen : st'.scopes.length = st.scopes.length := by
      rw [← h, setVar_scopes, addName_scopes, hA4]
    have hVlen : st'.vars.length = st.vars.length + 1 := by
      rw [← h]
      simp only [setVar, List.length_set, addName_vars]
      exact hA3
    refine ⟨⟨?_, ?_, ?_⟩, hSlen, by omega, ?_, ?_, ?_, ?_⟩
    · intro i e he
      rw [hTab] at he
      rw [hVlen]
      split at he
      · simp only at he
        rcases List.mem_append.mp he with hm | hm
        · have := hinv.keyLt _ _ hm
          omega
        · simp only [List.mem_singleton] at hm
          subst hm
          omega
      · have := hinv.keyLt i e he
        omega
    · intro i e he
      rw [hTab] at he
      rw [hVarF]
      split at he
      · simp only at he
        rcases List.mem_append.mp he with hm | hm
        · have hm2 := hinv.keyName _ _ hm
          have hm3 := hinv.keyLt _ _ hm
          rw [if_neg (by omega)]
          exact hm2
        · simp only [List.mem_singleton] at hm
          subst hm
          rw [if_pos rfl]
      · have hm2 := hinv.keyName i e he
        have hm3 := hinv.keyLt i e he
        rw [if_neg (by omega)]
        exact hm2
    · intro i h0 hi
      rw [hSlen] at hi
      rw [hTab]
      split
      · rename_i hc
        rw [hc] at h0 hi
        have hr := hinv.rooted _ h0 hi
        simpa using hr
      · exact hinv.rooted i h0 hi
    · intro i e he
      rw [hTab]
      split
      · rename_i hc
        simp only
        rw [hc] at he
        exact List.mem_append_left _ he
      · exact he
    · intro w s hsx
      rw [hVarF]
      rcases eq_or_ne w st.vars.length with rfl | hne
      · rw [getVar_default st (le_refl _)] at hsx
        cases hsx
      · rw [if_neg hne]
        exact hsx
    · intro i e he
      rw [hTab] at he
      split at he
      · simp only at he
        rcases List.mem_append.mp he with hm | hm
        · rename_i hc
          rw [hc]
          exact Or.inl hm
        · simp only [List.mem_singleton] at hm
          subst hm
          exact Or.inr rfl
      · exact Or.inl he
    · refine ⟨getDeclarationScope st sid kind, st.vars.length, ?_, ?_⟩
      · rw [hTab, if_pos rfl]
        simp
      · rw [hVarF, if_pos rfl]
        simp
  · -- merge with the existing variable
    simp only [hl] at h
    split at h
    · cases h
    · cases h
      have hmem := lookup_mem hl
      have hevid : evid < st.vars.length := hinv.keyLt _ _ hmem
      have hsc : ∀ i, getScope (setVar st evid
          { getVar st evid with
            declarations := (getVar st evid).declarations ++ [site] }) i = getScope st i :=
        fun i => getScope_scopes_eq (setVar_scopes _ _ _) i
      have hgv := getVar_setVar st evid
        { getVar st evid with declarations := (getVar st evid).declarations ++ [site] }
      refine ⟨⟨?_, ?_, ?_⟩, by rw [setVar_scopes], by simp [setVar], ?_, ?_, ?_, ?_⟩
      · intro i e he
        rw [hsc] at he
        simp only [setVar, List.length_set]
        exact hinv.keyLt i e he
      · intro i e he
        rw [hsc] at he
        rw [hgv]
        split
        · rename_i hc
          have hkn := hinv.keyName i e he
          rw [hc.1] at hkn
          simpa using hkn
        · exact hinv.keyName i e he
      · intro i h0 hi
        rw [setVar_scopes] at hi
        rw [hsc]
        exact hinv.rooted i h0 hi
      · intro i e he
        rw [hsc]
        exact he
      · intro w s hsx
        rw [hgv]
        split
        · rename_i hc
          rw [hc.1] at hsx
          simp only
          exact List.mem_append_left _ hsx
        · exact hsx
      · intro i e he
        rw [hsc] at he
        exact Or.inl he
      · refine ⟨getDeclarationScope st sid kind, evid, ?_, ?_⟩
        · rw [hsc]
          exact hmem
        · rw [hgv, if_pos ⟨rfl, hevid⟩]
          simp

theorem parentLt_of_shape {st st' : St} (hsh : SameShape st st')
    (hP : ∀ i, i < st.scopes.length → ∀ p, (getScope st i).parent = some p → p < i) :
    ∀ i, i < st'.scopes.length → ∀ p, (getScope st' i).parent = some p → p < i := by
  intro i hi p hp
  rw [hsh.len] at hi
  rw [hsh.parent] at hp
  exact hP i hi p hp

/-- Coherence effect of the declarator loop: tables gain only keys read off
the processed declarator sites, and each processed site ends up covered. -/
theorem processBindings_coh {bs : List Binding} :
    ∀ {st : St} {sid : Nat} {kind : String} {i : Nat} {st' : St},
    processBindings st sid kind bs i = Except.ok st' →
    (∀ j, j < st.scopes.length → ∀ p, (getScope st j).parent = some p → p < j) →
    sid < st.scopes.length →
    DeclInv st →
    DeclInv st' ∧ st'.scopes.length = st.scopes.length ∧
    Grow st st' (dsitesD i bs) ∧ Covers st' (dsitesD i bs) := by
  induction bs with
  | nil =>
    intro st sid kind i st' h hP hsid hinv
    cases h
    exact ⟨hinv, rfl, Grow.grefl _ _, Covers_nil _⟩
  | cons b bs ih =>
    intro st sid kind i st' h hP hsid hinv
    cases b with
    | pattern =>
      cases h
      exact ⟨hinv, rfl, Grow.grefl _ _, Covers_nil _⟩
    | bid nm =>
      unfold processBindings at h
      rcases hd : declareBinding st sid kind nm i with _ | st1
      · rw [hd] at h
        cases h
      · rw [hd] at h
        rw [okBind] at h
        obtain ⟨hinv1, hslen1, hvlen1, htm1, hdm1, hkn1, hcov1⟩ :=
          declareBinding_coh hd hP hsid hinv
        have hsh1 := declareBinding_shape hd
        obtain ⟨hinv', hslen', hg', hcov'⟩ :=
          ih h (parentLt_of_shape hsh1 hP) (by omega) hinv1
        have hg1 : Grow st st1 (dsitesD i (Binding.bid nm :: bs)) := by
          refine ⟨hvlen1, htm1, hdm1, ?_⟩
          intro j e he
          rcases hkn1 j e he with hm | hm
          · exact Or.inl hm
          · refine Or.inr (Or.inr ⟨i, ?_⟩)
            rw [hm]
            simp [dsitesD]
        have hg2 : Grow st1 st' (dsitesD i (Binding.bid nm :: bs)) :=
          hg'.widen (by intro q hq; simp [dsitesD]; right; simpa using hq)
        refine ⟨hinv', by omega, hg1.gtrans hg2, ?_⟩
        intro q hq
        simp only [dsitesD, List.mem_cons] at hq
        rcases hq with rfl | hq
        · obtain ⟨j, vid, hje, hjd⟩ := hcov1
          exact ⟨j, vid, hg2.tmono j _ hje, hg2.dmono vid _ hjd⟩
        · exact hcov' q hq

/-- Coherence effect of the parameter loop: tables gain only keys read off the
plain parameter sites, and each plain parameter site ends up covered. -/
theorem addParams_coh {ps : List Binding} :
    ∀ {st : St} {sid i : Nat} {st' : St},
    addParams st sid ps i = Except.ok st' →
    (∀ j, j < st.scopes.length → ∀ p, (getScope st j).parent = some p → p < j) →
    sid < st.scopes.length →
    DeclInv st →
    DeclInv st' ∧ st'.scopes.length = st.scopes.length ∧
    Grow st st' (dsitesP i ps) ∧ Covers st' (dsitesP i ps) := by
  induction ps with
  | nil =>
    intro st sid i st' h hP hsid hinv
    cases h
    exact ⟨hinv, rfl, Grow.grefl _ _, Covers_nil _⟩
  | cons b ps ih =>
    intro st sid i st' h hP hsid hinv
    cases b with
    | pattern =>
      obtain ⟨hinv', hslen', hg', hcov'⟩ := ih h hP hsid hinv
      exact ⟨hinv', hslen', hg'.widen (by intro q hq; simpa [dsitesP] using hq),
        by intro q hq; exact hcov' q (by simpa [dsitesP] using hq)⟩
    | bid nm =>
      unfold addParams at h
      rcases hadd : addVariable (allocVar st ⟨nm, "var", [i], []⟩).1 sid
          (allocVar st ⟨nm, "var", [i], []⟩).2 with _ | st2
      · rw [hadd] at h
        cases h
      · rw [hadd] at h
        rw [okBind] at h
        have hv : getVar (allocVar st ⟨nm, "var", [i], []⟩).1
            (allocVar st ⟨nm, "var", [i], []⟩).2 = (⟨nm, "var", [i], []⟩ : Variable) :=
          getVar_concat st _
        have hPA : ∀ j, j < (allocVar st ⟨nm, "var", [i], []⟩).1.scopes.length → ∀ p,
            (getScope (allocVar st ⟨nm, "var", [i], []⟩).1 j).parent = some p → p < j :=
          parentLt_of_shape (sameShape_of_scopes_eq rfl) hP
        have hvidA : (allocVar st ⟨nm, "var", [i], []⟩).2 <
            (allocVar st ⟨nm, "var", [i], []⟩).1.vars.length := by
          simp [allocVar]
        obtain ⟨hinv2, hslen2, hvlen2, htm2, hdm2, hkn2, rvid, hre, hrd⟩ :=
          addVariable_coh hadd hPA hsid hvidA (DeclInv_alloc _ hinv)
        rw [hv] at hkn2 hre hrd
        simp only at hkn2 hre hrd
        have hsh2 : SameShape st st2 :=
          (allocVar_shape st _).strans (addVariable_shape hadd)
        have hsh3 : SameShape st (addName st2 nm) :=
          hsh2.strans (addName_shape st2 nm)
        obtain ⟨hinv', hslen', hg', hcov'⟩ :=
          ih h (parentLt_of_shape hsh3 hP)
            (by rw [hsh3.len]; exact hsid)
            (DeclInv_congr (addName_scopes _ _) (addName_vars _ _) hinv2)
        -- growth from st to st2
        have hgA : Grow st (allocVar st ⟨nm, "var", [i], []⟩).1
            (dsitesP i (Binding.bid nm :: ps)) := Grow_alloc st _ _
        have hg2 : Grow (allocVar st ⟨nm, "var", [i], []⟩).1 st2
            (dsitesP i (Binding.bid nm :: ps)) := by
          refine ⟨by omega, htm2, hdm2, ?_⟩
          intro j e he
          rcases hkn2 j e he with hm | hm
          · exact Or.inl hm
          · refine Or.inr (Or.inr ⟨i, ?_⟩)
            rw [hm]
            simp [dsitesP]
        have hg3 : Grow st2 (addName st2 nm) (dsitesP i (Binding.bid nm :: ps)) :=
          Grow_congr (addName_scopes _ _) (addName_vars _ _) _
        have hg4 : Grow (addName st2 nm) st' (dsitesP i (Binding.bid nm :: ps)) :=
          hg'.widen (by intro q hq; simp [dsitesP]; right; simpa using hq)
        refine ⟨hinv', by rw [hslen', addName_scopes, hslen2]; rfl, ?_, ?_⟩
        · exact ((hgA.gtrans hg2).gtrans hg3).gtrans hg4
        · intro q hq
          simp only [dsitesP, List.mem_cons] at hq
          rcases hq with rfl | hq
          · refine ⟨getDeclarationScope (allocVar st ⟨nm, "var", [i], []⟩).1 sid "var", rvid,
              (hg3.gtrans hg4).tmono _ _ hre, (hg3.gtrans hg4).dmono _ _ (hrd i ?_)⟩
            simp
          · exact hcov' q hq

mutual

/-- Coherence of the declaration walk on one subtree: the table invariant is
maintained, the state grows by exactly the subtree's declarable-site names
(plus `arguments` keys), and every declarable site of the subtree ends up
covered by a table entry. -/
theorem declsN_coh (n : Node) :
    ∀ (st : St) (cur nid : Nat) (out : St × Nat × Nat),
    declsN st cur nid n = Except.ok out → WalkInv st nid → cur < st.scopes.length →
    DeclInv st →
    DeclInv out.1 ∧ Grow st out.1 (dsitesN nid n) ∧ Covers out.1 (dsitesN nid n) := by
  cases n with
  | script body =>
    intro st cur nid out h hinv hcur hdinv
    simp only [declsN, bind_ok_iff] at h
    obtain ⟨⟨st1, cur1, nid1⟩, hL, h⟩ := h
    simp only [Except.ok.injEq] at h
    subst h
    simp only [dsitesN]
    exact declsL_coh body st cur (nid + 1) (st1, cur1, nid1) hL (hinv.mono (by omega))
      hcur hdinv
  | functionDeclaration nm params body =>
    intro st cur nid out h hinv hcur hdinv
    simp only [declsN, allocVar, bind_ok_iff] at h
    obtain ⟨st2, h2, h⟩ := h
    obtain ⟨st5, h5, h⟩ := h
    obtain ⟨st7, h7, h⟩ := h
    obtain ⟨⟨st8, cur8, nid8⟩, h8, h⟩ := h
    simp only [Except.ok.injEq] at h
    subst h
    -- the prologue: allocate the function's variable and declare it from `cur`
    have hv : getVar { st with vars := st.vars ++ [⟨nm, "var", [nid + 1], []⟩] }
        st.vars.length = (⟨nm, "var", [nid + 1], []⟩ : Variable) := getVar_concat st _
    obtain ⟨hinv2, hslen2, hvlen2, htm2, hdm2, hkn2, rvid, hre, hrd⟩ :=
      addVariable_coh h2 (parentLt_of_shape (sameShape_of_scopes_eq rfl) hinv.parentLt)
        hcur (by simp) (DeclInv_alloc _ hdinv)
    rw [hv] at hkn2 hre hrd
    simp only at hkn2 hre hrd
    have hsh1 : SameShape st { st with vars := st.vars ++ [⟨nm, "var", [nid + 1], []⟩] } :=
      allocVar_shape st ⟨nm, "var", [nid + 1], []⟩
    have hsh2 : SameShape st (addName st2 nm) :=
      (hsh1.strans (addVariable_shape h2)).strans (addName_shape st2 nm)
    have hdinv3 : DeclInv (addName st2 nm) :=
      DeclInv_congr (addName_scopes _ _) (addName_vars _ _) hinv2
    -- the new function scope and its parameters
    have hw4 : WalkInv (pushScope (addName st2 nm) nid ScopeType.Function cur) (nid + 1) :=
      pushScope_inv _ (hinv.ofShape hsh2) (by rw [hsh2.len]; exact hcur)
    obtain ⟨hinv5, hslen5, hg5, hcov5⟩ :=
      addParams_coh h5 hw4.parentLt (by rw [pushScope_length]; omega)
        (DeclInv_push _ _ _ hdinv3)
    have hsh5 : SameShape (pushScope (addName st2 nm) nid ScopeType.Function cur) st5 :=
      addParams_shape h5
    -- the `arguments` variable
    obtain ⟨hinv7, hslen7, hvlen7, htm7, hdm7, hkn7, _⟩ :=
      addVariable_coh h7
        (parentLt_of_shape (hsh5.strans (allocVar_shape st5 ⟨"arguments", "var", [], []⟩))
          (pushScope_inv _ (hinv.ofShape hsh2) (by rw [hsh2.len]; exact hcur)).parentLt)
        (by rw [(hsh5.strans (allocVar_shape st5 ⟨"arguments", "var", [], []⟩)).len,
              pushScope_length]; omega)
        (by simp) (DeclInv_alloc _ hinv5)
    have hva : getVar { st5 with vars := st5.vars ++ [⟨"arguments", "var", [], []⟩] }
        st5.vars.length = (⟨"arguments", "var", [], []⟩ : Variable) := getVar_concat st5 _
    rw [hva] at hkn7
    simp only at hkn7
    -- the body
    have hsh7 : SameShape (pushScope (addName st2 nm) nid ScopeType.Function cur) st7 :=
      hsh5.strans ((allocVar_shape st5 ⟨"arguments", "var", [], []⟩).strans
        (addVariable_shape h7))
    obtain ⟨hwc, hlenc⟩ := creating_setup hinv hcur hsh2 hsh7
    have hcurc : (addName st2 nm).scopes.length = st.scopes.length := hsh2.len
    rw [hcurc] at h8
    obtain ⟨hinvF, hgF, hcovF⟩ :=
      declsL_coh body st7 st.scopes.length (nid + 2 + params.length) (st8, cur8, nid8) h8
        (hwc.mono (by omega)) hlenc hinv7
    -- assemble
    simp only [dsitesN]
    have hmemP : ∀ q ∈ dsitesP (nid + 2) params,
        q ∈ (nid + 1, nm) ::
          (dsitesP (nid + 2) params ++ dsitesL (nid + 2 + params.length) body) := by
      intro q hq
      exact List.mem_cons_of_mem _ (List.mem_append_left _ hq)
    have hmemB : ∀ q ∈ dsitesL (nid + 2 + params.length) body,
        q ∈ (nid + 1, nm) ::
          (dsitesP (nid + 2) params ++ dsitesL (nid + 2 + params.length) body) := by
      intro q hq
      exact List.mem_cons_of_mem _ (List.mem_append_right _ hq)
    have g1 : Grow st { st with vars := st.vars ++ [⟨nm, "var", [nid + 1], []⟩] } _ :=
      Grow_alloc st ⟨nm, "var", [nid + 1], []⟩ ((nid + 1, nm) ::
        (dsitesP (nid + 2) params ++ dsitesL (nid + 2 + params.length) body))
    have g2 : Grow { st with vars := st.vars ++ [⟨nm, "var", [nid + 1], []⟩] } st2
        ((nid + 1, nm) ::
          (dsitesP (nid + 2) params ++ dsitesL (nid + 2 + params.length) body)) := by
      refine ⟨hvlen2.ge, htm2, hdm2, ?_⟩
      intro j e he
      rcases hkn2 j e he with hm | hm
      · exact Or.inl hm
      · refine Or.inr (Or.inr ⟨nid + 1, ?_⟩)
        rw [hm]
        exact List.mem_cons_self _ _
    have g3 : Grow st2 (addName st2 nm) _ :=
      Grow_congr (addName_scopes _ _) (addName_vars _ _) ((nid + 1, nm) ::
        (dsitesP (nid + 2) params ++ dsitesL (nid + 2 + params.length) body))
    have g4 : Grow (addName st2 nm)
        (pushScope (addName st2 nm) nid ScopeType.Function cur) _ :=
      Grow_push (addName st2 nm) nid ScopeType.Function cur ((nid + 1, nm) ::
        (dsitesP (nid + 2) params ++ dsitesL (nid + 2 + params.length) body))
    have g5 := hg5.widen hmemP
    have g6 : Grow st5 { st5 with vars := st5.vars ++ [⟨"arguments", "var", [], []⟩] } _ :=
      Grow_alloc st5 ⟨"arguments", "var", [], []⟩ ((nid + 1, nm) ::
        (dsitesP (nid + 2) params ++ dsitesL (nid + 2 + params.length) body))
    have g7 : Grow { st5 with vars := st5.vars ++ [⟨"arguments", "var", [], []⟩] } st7
        ((nid + 1, nm) ::
          (dsitesP (nid + 2) params ++ dsitesL (nid + 2 + params.length) body)) := by
      refine ⟨hvlen7.ge, htm7, hdm7, ?_⟩
      intro j e he
      rcases hkn7 j e he with hm | hm
      · exact Or.inl hm
      · refine Or.inr (Or.inl ?_)
        rw [hm]
    have g8 := hgF.widen hmemB
    have gPost : Grow st2 st8 ((nid + 1, nm) ::
        (dsitesP (nid + 2) params ++ dsitesL (nid + 2 + params.length) body)) :=
      ((((g3.gtrans g4).gtrans g5).gtrans g6).gtrans g7).gtrans g8
    refine ⟨hinvF, ((g1.gtrans g2).gtrans gPost), ?_⟩
    intro q hq
    rcases List.mem_cons.mp hq with rfl | hq
    · exact ⟨_, rvid, gPost.tmono _ _ hre, gPost.dmono _ _ (hrd _ (by simp))⟩
    rcases List.mem_append.mp hq with hq | hq
    · have hc := hcov5 q hq
      obtain ⟨j, vid, hje, hjd⟩ := hc
      exact ⟨j, vid, ((g6.gtrans g7).gtrans g8).tmono _ _ hje,
        ((g6.gtrans g7).gtrans g8).dmono _ _ hjd⟩
    · exact hcovF q hq
  | functionExpression onm params body =>
    intro st cur nid out h hinv hcur hdinv
    cases onm with
    | none =>
      simp only [declsN, allocVar, bind_ok_iff, Option.isSome_none, Bool.false_eq_true,
        if_false, pure, Except.pure] at h
      obtain ⟨st3, h3, h⟩ := h
      obtain ⟨st4, h4, h⟩ := h
      obtain ⟨st6, h6, h⟩ := h
      obtain ⟨⟨st7, cur7, nid7⟩, h7, h⟩ := h
      simp only [Except.ok.injEq] at h h3
      subst h
      subst h3
      have hw1 : WalkInv (pushScope st nid ScopeType.Function cur) (nid + 1) :=
        pushScope_inv _ hinv hcur
      obtain ⟨hinv4, hslen4, hg4, hcov4⟩ :=
        addParams_coh h4 hw1.parentLt (by rw [pushScope_length]; omega)
          (DeclInv_push _ _ _ hdinv)
      have hsh4 : SameShape (pushScope st nid ScopeType.Function cur) st4 :=
        addParams_shape h4
      obtain ⟨hinv6, hslen6, hvlen6, htm6, hdm6, hkn6, _⟩ :=
        addVariable_coh h6
          (parentLt_of_shape (hsh4.strans (allocVar_shape st4 ⟨"arguments", "var", [], []⟩))
            hw1.parentLt)
          (by rw [(hsh4.strans (allocVar_shape st4 ⟨"arguments", "var", [], []⟩)).len,
                pushScope_length]; omega)
          (by simp) (DeclInv_alloc _ hinv4)
      have hva : getVar { st4 with vars := st4.vars ++ [⟨"arguments", "var", [], []⟩] }
          st4.vars.length = (⟨"arguments", "var", [], []⟩ : Variable) := getVar_concat st4 _
      rw [hva] at hkn6
      simp only at hkn6
      have hsh6 : SameShape (pushScope st nid ScopeType.Function cur) st6 :=
        (hsh4.strans (allocVar_shape st4 ⟨"arguments", "var", [], []⟩)).strans
          (addVariable_shape h6)
      obtain ⟨hwc, hlenc⟩ := creating_setup hinv hcur (SameShape.srefl st) hsh6
      obtain ⟨hinvF, hgF, hcovF⟩ :=
        declsL_coh body st6 st.scopes.length (nid + 1 + 0 + params.length) (st7, cur7, nid7)
          (by simpa using h7) (hwc.mono (by omega)) hlenc hinv6
      simp only [dsitesN, Option.isSome_none, Bool.false_eq_true, if_false,
        List.nil_append]
      have hmemP : ∀ q ∈ dsitesP (nid + 1 + 0) params,
          q ∈ dsitesP (nid + 1 + 0) params ++ dsitesL (nid + 1 + 0 + params.length) body :=
        fun q hq => List.mem_append_left _ hq
      have hmemB : ∀ q ∈ dsitesL (nid + 1 + 0 + params.length) body,
          q ∈ dsitesP (nid + 1 + 0) params ++ dsitesL (nid + 1 + 0 + params.length) body :=
        fun q hq => List.mem_append_right _ hq
      have g1 : Grow st (pushScope st nid ScopeType.Function cur) _ :=
        Grow_push st nid ScopeType.Function cur
          (dsitesP (nid + 1 + 0) params ++ dsitesL (nid + 1 + 0 + params.length) body)
      have g2 := (hg4.widen hmemP)
      have g3 : Grow st4 { st4 with vars := st4.vars ++ [⟨"arguments", "var", [], []⟩] } _ :=
        Grow_alloc st4 ⟨"arguments", "var", [], []⟩
          (dsitesP (nid + 1 + 0) params ++ dsitesL (nid + 1 + 0 + params.length) body)
      have g4 : Grow { st4 with vars := st4.vars ++ [⟨"arguments", "var", [], []⟩] } st6
          (dsitesP (nid + 1 + 0) params ++ dsitesL (nid + 1 + 0 + params.length) body) := by
        refine ⟨hvlen6.ge, htm6, hdm6, ?_⟩
        intro j e he
        rcases hkn6 j e he with hm | hm
        · exact Or.inl hm
        · refine Or.inr (Or.inl ?_)
          rw [hm]
      have g5 := hgF.widen hmemB
      refine ⟨hinvF, (((g1.gtrans g2).gtrans g3).gtrans g4).gtrans g5, ?_⟩
      intro q hq
      rcases List.mem_append.mp hq with hq | hq
      · obtain ⟨j, vid, hje, hjd⟩ := hcov4 q hq
        exact ⟨j, vid, ((g3.gtrans g4).gtrans g5).tmono _ _ hje,
          ((g3.gtrans g4).gtrans g5).dmono _ _ hjd⟩
      · exact hcovF q hq
    | some nm =>
      simp only [declsN, allocVar, bind_ok_iff, Option.isSome_some, if_true, pure,
        Except.pure] at h
      obtain ⟨stb, hb, h⟩ := h
      obtain ⟨st3, h3, h⟩ := h
      obtain ⟨st4, h4, h⟩ := h
      obtain ⟨st6, h6, h⟩ := h
      obtain ⟨⟨st7, cur7, nid7⟩, h7, h⟩ := h
      simp only [Except.ok.injEq] at h h3
      subst h
      subst h3
      have hw1 : WalkInv (pushScope st nid ScopeType.Function cur) (nid + 1) :=
        pushScope_inv _ hinv hcur
      -- the function expression's own name, declared inside the new scope
      have hv : getVar { pushScope st nid ScopeType.Function cur with
          vars := (pushScope st nid ScopeType.Function cur).vars ++
            [⟨nm, "var", [nid + 1], []⟩] } (pushScope st nid ScopeType.Function cur).vars.length
          = (⟨nm, "var", [nid + 1], []⟩ : Variable) := getVar_concat _ _
      obtain ⟨hinvb, hslenb, hvlenb, htmb, hdmb, hknb, rvid, hre, hrd⟩ :=
        addVariable_coh hb (parentLt_of_shape (sameShape_of_scopes_eq rfl) hw1.parentLt)
          (by rw [pushScope_length]; omega) (by simp) (DeclInv_alloc _ (DeclInv_push _ _ _ hdinv))
      rw [hv] at hknb hre hrd
      simp only at hknb hre hrd
      have hshb : SameShape (pushScope st nid ScopeType.Function cur) (addName stb nm) :=
        ((allocVar_shape (pushScope st nid ScopeType.Function cur)
            ⟨nm, "var", [nid + 1], []⟩).strans (addVariable_shape hb)).strans
          (addName_shape stb nm)
      have hdinvb : DeclInv (addName stb nm) :=
        DeclInv_congr (addName_scopes _ _) (addName_vars _ _) hinvb
      obtain ⟨hinv4, hslen4, hg4, hcov4⟩ :=
        addParams_coh h4 (parentLt_of_shape hshb hw1.parentLt)
          (by rw [hshb.len, pushScope_length]; omega) hdinvb
      have hsh4 : SameShape (pushScope st nid ScopeType.Function cur) st4 :=
        hshb.strans (addParams_shape h4)
      obtain ⟨hinv6, hslen6, hvlen6, htm6, hdm6, hkn6, _⟩ :=
        addVariable_coh h6
          (parentLt_of_shape (hsh4.strans (allocVar_shape st4 ⟨"arguments", "var", [], []⟩))
            hw1.parentLt)
          (by rw [(hsh4.strans (allocVar_shape st4 ⟨"arguments", "var", [], []⟩)).len,
                pushScope_length]; omega)
          (by simp) (DeclInv_alloc _ hinv4)
      have hva : getVar { st4 with vars := st4.vars ++ [⟨"arguments", "var", [], []⟩] }
          st4.vars.length = (⟨"arguments", "var", [], []⟩ : Variable) := getVar_concat st4 _
      rw [hva] at hkn6
      simp only at hkn6
      have hsh6 : SameShape (pushScope st nid ScopeType.Function cur) st6 :=
        (hsh4.strans (allocVar_shape st4 ⟨"arguments", "var", [], []⟩)).strans
          (addVariable_shape h6)
      obtain ⟨hwc, hlenc⟩ := creating_setup hinv hcur (SameShape.srefl st) hsh6
      obtain ⟨hinvF, hgF, hcovF⟩ :=
        declsL_coh body st6 st.scopes.length (nid + 1 + 1 + params.length) (st7, cur7, nid7)
          (by simpa using h7) (hwc.mono (by omega)) hlenc hinv6
      simp only [dsitesN, Option.isSome_some, if_true]
      have hmemP : ∀ q ∈ dsitesP (nid + 1 + 1) params,
          q ∈ [(nid + 1, nm)] ++ (dsitesP (nid + 1 + 1) params ++
            dsitesL (nid + 1 + 1 + params.length) body) :=
        fun q hq => List.mem_append_right _ (List.mem_append_left _ hq)
      have hmemB : ∀ q ∈ dsitesL (nid + 1 + 1 + params.length) body,
          q ∈ [(nid + 1, nm)] ++ (dsitesP (nid + 1 + 1) params ++
            dsitesL (nid + 1 + 1 + params.length) body) :=
        fun q hq => List.mem_append_right _ (List.mem_append_right _ hq)
      have g1 : Grow st (pushScope st nid ScopeType.Function cur) _ :=
        Grow_push st nid ScopeType.Function cur ([(nid + 1, nm)] ++
          (dsitesP (nid + 1 + 1) params ++ dsitesL (nid + 1 + 1 + params.length) body))
      have g2 : Grow (pushScope st nid ScopeType.Function cur)
          { pushScope st nid ScopeType.Function cur with
            vars := (pushScope st nid ScopeType.Function cur).vars ++
              [⟨nm, "var", [nid + 1], []⟩] } _ :=
        Grow_alloc (pushScope st nid ScopeType.Function cur) ⟨nm, "var", [nid + 1], []⟩
          ([(nid + 1, nm)] ++ (dsitesP (nid + 1 + 1) params ++
            dsitesL (nid + 1 + 1 + params.length) body))
      have g3 : Grow { pushScope st nid ScopeType.Function cur with
          vars := (pushScope st nid ScopeType.Function cur).vars ++
            [⟨nm, "var", [nid + 1], []⟩] } stb
          ([(nid + 1, nm)] ++ (dsitesP (nid + 1 + 1) params ++
            dsitesL (nid + 1 + 1 + params.length) body)) := by
        refine ⟨hvlenb.ge, htmb, hdmb, ?_⟩
        intro j e he
        rcases hknb j e he with hm | hm
        · exact Or.inl hm
        · refine Or.inr (Or.inr ⟨nid + 1, ?_⟩)
          rw [hm]
          simp
      have g4 : Grow stb (addName stb nm) _ :=
        Grow_congr (addName_scopes _ _) (addName_vars _ _) ([(nid + 1, nm)] ++
          (dsitesP (nid + 1 + 1) params ++ dsitesL (nid + 1 + 1 + params.length) body))
      have g5 := hg4.widen hmemP
      have g6 : Grow st4 { st4 with vars := st4.vars ++ [⟨"arguments", "var", [], []⟩] } _ :=
        Grow_alloc st4 ⟨"arguments", "var", [], []⟩ ([(nid + 1, nm)] ++
          (dsitesP (nid + 1 + 1) params ++ dsitesL (nid + 1 + 1 + params.length) body))
      have g7 : Grow { st4 with vars := st4.vars ++ [⟨"arguments", "var", [], []⟩] } st6
          ([(nid + 1, nm)] ++ (dsitesP (nid + 1 + 1) params ++
            dsitesL (nid + 1 + 1 + params.length) body)) := by
        refine ⟨hvlen6.ge, htm6, hdm6, ?_⟩
        intro j e he
        rcases hkn6 j e he with hm | hm
        · exact Or.inl hm
        · refine Or.inr (Or.inl ?_)
          rw [hm]
      have g8 := hgF.widen hmemB
      have gPost : Grow stb st7 ([(nid + 1, nm)] ++ (dsitesP (nid + 1 + 1) params ++
          dsitesL (nid + 1 + 1 + params.length) body)) :=
        ((((g4.gtrans g5).gtrans g6).gtrans g7).gtrans g8)
      refine ⟨hinvF, ((g1.gtrans g2).gtrans g3).gtrans gPost, ?_⟩
      intro q hq
      rcases List.mem_append.mp hq with hq | hq
      · rcases List.mem_singleton.mp hq with rfl
        exact ⟨_, rvid, gPost.tmono _ _ hre, gPost.dmono _ _ (hrd _ (by simp))⟩
      rcases List.mem_append.mp hq with hq | hq
      · obtain ⟨j, vid, hje, hjd⟩ := hcov4 q hq
        exact ⟨j, vid, ((g6.gtrans g7).gtrans g8).tmono _ _ hje,
          ((g6.gtrans g7).gtrans g8).dmono _ _ hjd⟩
      · exact hcovF q hq
  | arrowExpression params body =>
    intro st cur nid out h hinv hcur hdinv
    simp only [declsN, bind_ok_iff] at h
    obtain ⟨st2, h2, h⟩ := h
    obtain ⟨⟨st3, cur3, nid3⟩, h3, h⟩ := h
    simp only [Except.ok.injEq] at h
    subst h
    have hw1 : WalkInv (pushScope st nid ScopeType.Function cur) (nid + 1) :=
      pushScope_inv _ hinv hcur
    obtain ⟨hinv2, hslen2, hg2, hcov2⟩ :=
      addParams_coh h2 hw1.parentLt (by rw [pushScope_length]; omega)
        (DeclInv_push _ _ _ hdinv)
    have hsh2 : SameShape (pushScope st nid ScopeType.Function cur) st2 := addParams_shape h2
    obtain ⟨hwc, hlenc⟩ := creating_setup hinv hcur (SameShape.srefl st) hsh2
    obtain ⟨hinvF, hgF, hcovF⟩ :=
      declsL_coh body st2 st.scopes.length (nid + 1 + params.length) (st3, cur3, nid3) h3
        (hwc.mono (by omega)) hlenc hinv2
    simp only [dsitesN]
    have g1 : Grow st (pushScope st nid ScopeType.Function cur) _ :=
      Grow_push st nid ScopeType.Function cur
        (dsitesP (nid + 1) params ++ dsitesL (nid + 1 + params.length) body)
    have g2 : Grow (pushScope st nid ScopeType.Function cur) st2
        (dsitesP (nid + 1) params ++ dsitesL (nid + 1 + params.length) body) :=
      hg2.widen (fun q hq => List.mem_append_left _ hq)
    have g3 := hgF.widen (fun q hq => List.mem_append_right
      (dsitesP (nid + 1) params) hq)
    refine ⟨hinvF, (g1.gtrans g2).gtrans g3, ?_⟩
    intro q hq
    rcases List.mem_append.mp hq with hq | hq
    · obtain ⟨j, vid, hje, hjd⟩ := hcov2 q hq
      exact ⟨j, vid, g3.tmono _ _ hje, g3.dmono _ _ hjd⟩
    · exact hcovF q hq
  | catchClause ob body =>
    intro st cur nid out h hinv hcur hdinv
    have hmain : ∀ (stPre : St), SameShape st stPre → DeclInv stPre →
        ∀ (bstart : Nat), nid + 1 ≤ bstart →
        ∀ (st3 : St) (cur3 nid3 : Nat),
        declsL (pushScope stPre nid ScopeType.Other cur) stPre.scopes.length bstart body =
          Except.ok (st3, cur3, nid3) →
        (st3, leaveScope st3 cur3 nid, nid3) = out →
        DeclInv out.1 ∧ Grow stPre out.1 (dsitesL bstart body) ∧
          Covers out.1 (dsitesL bstart body) := by
      intro stPre hpre hdpre bstart hb st3 cur3 nid3 h3 hout
      subst hout
      obtain ⟨hwc0, hlenc⟩ := creating_setup hinv hcur hpre (SameShape.srefl _)
      rw [hpre.len] at h3
      obtain ⟨hinvF, hgF, hcovF⟩ :=
        declsL_coh body (pushScope stPre nid ScopeType.Other cur) st.scopes.length bstart
          (st3, cur3, nid3) h3 (hwc0.mono hb) hlenc (DeclInv_push _ _ _ hdpre)
      exact ⟨hinvF, (Grow_push stPre nid ScopeType.Other cur _).gtrans hgF, hcovF⟩
    cases ob with
    | none =>
      simp only [declsN, pure, Except.pure, okBind, bind_ok_iff] at h
      obtain ⟨⟨st3, cur3, nid3⟩, h3, hout⟩ := h
      simp only [Except.ok.injEq] at hout
      have hm := hmain st (SameShape.srefl st) hdinv _ (by omega) st3 cur3 nid3 h3 hout
      simp only [dsitesN, List.nil_append]
      exact hm
    | some b =>
      cases b with
      | pattern =>
        simp only [declsN, pure, Except.pure, okBind, bind_ok_iff] at h
        obtain ⟨⟨st3, cur3, nid3⟩, h3, hout⟩ := h
        simp only [Except.ok.injEq] at hout
        have hm := hmain st (SameShape.srefl st) hdinv _ (by omega) st3 cur3 nid3 h3 hout
        simp only [dsitesN, List.nil_append, Option.isSome_some, if_true]
        simpa using hm
      | bid nm =>
        simp only [declsN, allocVar, bind_ok_iff, pure, Except.pure] at h
        obtain ⟨stb, hb, h⟩ := h
        obtain ⟨stc, hc, h⟩ := h
        simp only [Except.ok.injEq] at hc
        subst hc
        obtain ⟨⟨st3, cur3, nid3⟩, h3, hout⟩ := h
        simp only [Except.ok.injEq] at hout
        have hv : getVar { st with vars := st.vars ++ [⟨nm, "let", [nid + 1], []⟩] }
            st.vars.length = (⟨nm, "let", [nid + 1], []⟩ : Variable) := getVar_concat st _
        obtain ⟨hinvb, hslenb, hvlenb, htmb, hdmb, hknb, rvid, hre, hrd⟩ :=
          addVariable_coh hb (parentLt_of_shape (sameShape_of_scopes_eq rfl) hinv.parentLt)
            hcur (by simp) (DeclInv_alloc _ hdinv)
        rw [hv] at hknb hre hrd
        simp only at hknb hre hrd
        have hshb : SameShape st (addName stb nm) :=
          ((allocVar_shape st ⟨nm, "let", [nid + 1], []⟩).strans (addVariable_shape hb)).strans
            (addName_shape stb nm)
        have hdinvb : DeclInv (addName stb nm) :=
          DeclInv_congr (addName_scopes _ _) (addName_vars _ _) hinvb
        have hm := hmain (addName stb nm) hshb hdinvb _ (by omega) st3 cur3 nid3 h3 hout
        obtain ⟨hinvF, hgF, hcovF⟩ := hm
        simp only [dsitesN, Option.isSome_some, if_true]
        have g1 : Grow st { st with vars := st.vars ++ [⟨nm, "let", [nid + 1], []⟩] } _ :=
          Grow_alloc st ⟨nm, "let", [nid + 1], []⟩ ([(nid + 1, nm)] ++
            dsitesL (nid + 1 + 1) body)
        have g2 : Grow { st with vars := st.vars ++ [⟨nm, "let", [nid + 1], []⟩] } stb
            ([(nid + 1, nm)] ++ dsitesL (nid + 1 + 1) body) := by
          refine ⟨hvlenb.ge, htmb, hdmb, ?_⟩
          intro j e he
          rcases hknb j e he with hm2 | hm2
          · exact Or.inl hm2
          · refine Or.inr (Or.inr ⟨nid + 1, ?_⟩)
            rw [hm2]
            simp
        have g3 : Grow stb (addName stb nm) _ :=
          Grow_congr (addName_scopes _ _) (addName_vars _ _) ([(nid + 1, nm)] ++
            dsitesL (nid + 1 + 1) body)
        have g4 := hgF.widen (fun q hq => List.mem_append_right [(nid + 1, nm)] hq)
        have gPost : Grow stb out.1 ([(nid + 1, nm)] ++ dsitesL (nid + 1 + 1) body) :=
          g3.gtrans g4
        refine ⟨hinvF, (g1.gtrans g2).gtrans gPost, ?_⟩
        intro q hq
        rcases List.mem_append.mp hq with hq | hq
        · rcases List.mem_singleton.mp hq with rfl
          exact ⟨_, rvid, gPost.tmono _ _ hre, gPost.dmono _ _ (hrd _ (by simp))⟩
        · exact hcovF q hq
  | forStatement body =>
    intro st cur nid out h hinv hcur hdinv
    simp only [declsN, bind_ok_iff] at h
    obtain ⟨⟨st2, cur2, nid2⟩, h2, h⟩ := h
    simp only [Except.ok.injEq] at h
    subst h
    obtain ⟨hwc, hlenc⟩ :=
      creating_setup hinv hcur (SameShape.srefl st) (SameShape.srefl _)
    obtain ⟨hinvF, hgF, hcovF⟩ :=
      declsL_coh body (pushScope st nid ScopeType.Other cur) st.scopes.length (nid + 1)
        (st2, cur2, nid2) h2 hwc hlenc (DeclInv_push _ _ _ hdinv)
    simp only [dsitesN]
    exact ⟨hinvF, (Grow_push st nid ScopeType.Other cur _).gtrans hgF, hcovF⟩
  | blockStatement body =>
    intro st cur nid out h hinv hcur hdinv
    simp only [declsN, bind_ok_iff] at h
    obtain ⟨⟨st2, cur2, nid2⟩, h2, h⟩ := h
    simp only [Except.ok.injEq] at h
    subst h
    obtain ⟨hwc, hlenc⟩ :=
      creating_setup hinv hcur (SameShape.srefl st) (SameShape.srefl _)
    obtain ⟨hinvF, hgF, hcovF⟩ :=
      declsL_coh body (pushScope st nid ScopeType.Other cur) st.scopes.length (nid + 1)
        (st2, cur2, nid2) h2 hwc hlenc (DeclInv_push _ _ _ hdinv)
    simp only [dsitesN]
    exact ⟨hinvF, (Grow_push st nid ScopeType.Other cur _).gtrans hgF, hcovF⟩
  | variableDeclaration kind bindings inits =>
    intro st cur nid out h hinv hcur hdinv
    simp only [declsN, bind_ok_iff] at h
    obtain ⟨st1, h1, h⟩ := h
    obtain ⟨⟨st2, cur2, nid2⟩, h2, h⟩ := h
    simp only [Except.ok.injEq] at h
    subst h
    obtain ⟨hinv1, hslen1, hg1, hcov1⟩ :=
      processBindings_coh h1 hinv.parentLt hcur hdinv
    have hsh1 : SameShape st st1 := processBindings_shape h1
    obtain ⟨hinvF, hgF, hcovF⟩ :=
      declsL_coh inits st1 cur (nid + 1 + bindings.length) (st2, cur2, nid2) h2
        ((hinv.ofShape hsh1).mono (by omega)) (by rw [hsh1.len]; exact hcur) hinv1
    simp only [dsitesN]
    have g1 := hg1.widen (fun q hq =>
      List.mem_append_left (dsitesL (nid + 1 + bindings.length) inits) hq)
    have g2 := hgF.widen (fun q hq =>
      List.mem_append_right (dsitesD (nid + 1) bindings) hq)
    refine ⟨hinvF, g1.gtrans g2, ?_⟩
    intro q hq
    rcases List.mem_append.mp hq with hq | hq
    · obtain ⟨j, vid, hje, hjd⟩ := hcov1 q hq
      exact ⟨j, vid, g2.tmono _ _ hje, g2.dmono _ _ hjd⟩
    · exact hcovF q hq
  | identifierExpression nm =>
    intro st cur nid out h hinv hcur hdinv
    simp only [declsN, Except.ok.injEq] at h
    subst h
    exact ⟨hdinv, Grow.grefl _ _, Covers_nil _⟩
  | other children =>
    intro st cur nid out h hinv hcur hdinv
    simp only [declsN, bind_ok_iff] at h
    obtain ⟨⟨st1, cur1, nid1⟩, hL, h⟩ := h
    simp only [Except.ok.injEq] at h
    subst h
    simp only [dsitesN]
    exact declsL_coh children st cur (nid + 1) (st1, cur1, nid1) hL (hinv.mono (by omega))
      hcur hdinv
termination_by 2 * sizeN n
decreasing_by all_goals (simp only [sizeN, sizeL]; omega)

theorem declsL_coh (ns : List Node) :
    ∀ (st : St) (cur nid : Nat) (out : St × Nat × Nat),
    declsL st cur nid ns = Except.ok out → WalkInv st nid → cur < st.scopes.length →
    DeclInv st →
    DeclInv out.1 ∧ Grow st out.1 (dsitesL nid ns) ∧ Covers out.1 (dsitesL nid ns) := by
  cases ns with
  | nil =>
    intro st cur nid out h hinv hcur hdinv
    simp only [declsL, Except.ok.injEq] at h
    subst h
    exact ⟨hdinv, Grow.grefl _ _, Covers_nil _⟩
  | cons n ns =>
    intro st cur nid out h hinv hcur hdinv
    simp only [declsL, bind_ok_iff] at h
    obtain ⟨⟨st1, cur1, nid1⟩, h1, h2⟩ := h
    obtain ⟨hc1, hn1, hw1, hx1⟩ := declsN_spec n st cur nid (st1, cur1, nid1) h1 hinv hcur
    simp only at hc1 hn1 hw1 hx1
    obtain ⟨hinv1, hg1, hcov1⟩ := declsN_coh n st cur nid (st1, cur1, nid1) h1 hinv hcur hdinv
    simp only at hinv1 hg1 hcov1
    rw [hc1, hn1] at h2
    rw [hn1] at hw1
    obtain ⟨hinvF, hgF, hcovF⟩ := declsL_coh ns st1 cur (nid + sizeN n) out h2 hw1
      (Nat.lt_of_lt_of_le hcur hx1.len) hinv1
    simp only [dsitesL]
    have g1 := hg1.widen (fun q hq =>
      List.mem_append_left (dsitesL (nid + sizeN n) ns) hq)
    have g2 := hgF.widen (fun q hq =>
      List.mem_append_right (dsitesN nid n) hq)
    refine ⟨hinvF, g1.gtrans g2, ?_⟩
    intro q hq
    rcases List.mem_append.mp hq with hq | hq
    · obtain ⟨j, vid, hje, hjd⟩ := hcov1 q hq
      exact ⟨j, vid, g2.tmono _ _ hje, g2.dmono _ _ hjd⟩
    · exact hcovF q hq
termination_by 2 * sizeL ns + 1
decreasing_by
  all_goals simp only [sizeN, sizeL]
  all_goals (try omega)
  all_goals (have hsz := sizeN_pos head; omega)

end

/-! ### The reference walk preserves tables, names, kinds and declarations -/

/-- What the reference walk leaves untouched: the scope store (hence every
table), and the name, kind and declaration sites of every existing variable. -/
structure RefsPres (st st' : St) : Prop where
  scopes : st'.scopes = st.scopes
  vlen : st.vars.length ≤ st'.vars.length
  keep : ∀ w, w < st.vars.length →
    (getVar st' w).name = (getVar st w).name ∧
    (getVar st' w).kind = (getVar st w).kind ∧
    (getVar st' w).declarations = (getVar st w).declarations

theorem RefsPres.prefl (st : St) : RefsPres st st :=
  ⟨rfl, le_refl _, fun _ _ => ⟨rfl, rfl, rfl⟩⟩

theorem RefsPres.pcomp {st st1 st' : St} (h : RefsPres st st1) (h' : RefsPres st1 st') :
    RefsPres st st' := by
  refine ⟨h'.scopes.trans h.scopes, h.vlen.trans h'.vlen, ?_⟩
  intro w hw
  have hv := h.vlen
  obtain ⟨a1, a2, a3⟩ := h.keep w hw
  obtain ⟨b1, b2, b3⟩ := h'.keep w (by omega)
  exact ⟨b1.trans a1, b2.trans a2, b3.trans a3⟩

theorem recordReference_pres (st : St) (cur nid : Nat) (nm : String) :
    RefsPres st (recordReference st cur nid nm) := by
  unfold recordReference
  rcases lookupVariable st cur nm with _ | vid
  · simp only [allocVar]
    refine ⟨?_, ?_, ?_⟩
    · rw [setVar_scopes, addName_scopes]
    · simp only [setVar, List.length_set, addName_vars, List.length_append]
      omega
    · intro w hw
      rw [getVar_setVar]
      rw [if_neg (fun hc => by rw [addName_vars] at hc; omega)]
      rw [getVar_vars_eq (addName_vars _ _), getVar_append_lt st _ hw]
      exact ⟨rfl, rfl, rfl⟩
  · refine ⟨by rw [setVar_scopes], by simp [setVar], ?_⟩
    intro w hw
    rw [getVar_setVar]
    split
    · rename_i hc
      rw [hc.1]
      exact ⟨rfl, rfl, rfl⟩
    · exact ⟨rfl, rfl, rfl⟩

mutual

/-- The reference walk only appends reference sites and fresh (orphan)
variables: scope tables and each existing variable's name, kind and
declaration sites are exactly preserved. -/
theorem refsN_pres (n : Node) : ∀ (st : St) (cur nid : Nat) (out : St × Nat × Nat),
    refsN st cur nid n = Except.ok out → RefsPres st out.1 := by
  cases n with
  | script body =>
    intro st cur nid out h
    simp only [refsN, bind_ok_iff] at h
    obtain ⟨⟨st1, cur1, nid1⟩, hL, h⟩ := h
    simp only [Except.ok.injEq] at h
    subst h
    exact refsL_pres body st cur (nid + 1) (st1, cur1, nid1) hL
  | functionDeclaration nm params body =>
    intro st cur nid out h
    simp only [refsN, bind_ok_iff] at h
    obtain ⟨sid, hsid, h⟩ := h
    obtain ⟨⟨st1, cur1, nid1⟩, hL, h⟩ := h
    simp only [Except.ok.injEq] at h
    subst h
    exact refsL_pres body st sid (nid + 2 + params.length) (st1, cur1, nid1) hL
  | functionExpression onm params body =>
    intro st cur nid out h
    simp only [refsN, bind_ok_iff] at h
    obtain ⟨sid, hsid, h⟩ := h
    obtain ⟨⟨st1, cur1, nid1⟩, hL, h⟩ := h
    simp only [Except.ok.injEq] at h
    subst h
    exact refsL_pres body st sid _ (st1, cur1, nid1) hL
  | arrowExpression params body =>
    intro st cur nid out h
    simp only [refsN, bind_ok_iff] at h
    obtain ⟨sid, hsid, h⟩ := h
    obtain ⟨⟨st1, cur1, nid1⟩, hL, h⟩ := h
    simp only [Except.ok.injEq] at h
    subst h
    exact refsL_pres body st sid (nid + 1 + params.length) (st1, cur1, nid1) hL
  | catchClause ob body =>
    intro st cur nid out h
    simp only [refsN, bind_ok_iff] at h
    obtain ⟨sid, hsid, h⟩ := h
    obtain ⟨⟨st1, cur1, nid1⟩, hL, h⟩ := h
    simp only [Except.ok.injEq] at h
    subst h
    exact refsL_pres body st sid _ (st1, cur1, nid1) hL
  | forStatement body =>
    intro st cur nid out h
    simp only [refsN, bind_ok_iff] at h
    obtain ⟨sid, hsid, h⟩ := h
    obtain ⟨⟨st1, cur1, nid1⟩, hL, h⟩ := h
    simp only [Except.ok.injEq] at h
    subst h
    exact refsL_pres body st sid (nid + 1) (st1, cur1, nid1) hL
  | blockStatement body =>
    intro st cur nid out h
    simp only [refsN, bind_ok_iff] at h
    obtain ⟨sid, hsid, h⟩ := h
    obtain ⟨⟨st1, cur1, nid1⟩, hL, h⟩ := h
    simp only [Except.ok.injEq] at h
    subst h
    exact refsL_pres body st sid (nid + 1) (st1, cur1, nid1) hL
  | variableDeclaration kind bindings inits =>
    intro st cur nid out h
    simp only [refsN, bind_ok_iff] at h
    obtain ⟨⟨st1, cur1, nid1⟩, hL, h⟩ := h
    simp only [Except.ok.injEq] at h
    subst h
    exact refsL_pres inits st cur (nid + 1 + bindings.length) (st1, cur1, nid1) hL
  | identifierExpression nm =>
    intro st cur nid out h
    simp only [refsN, Except.ok.injEq] at h
    subst h
    exact recordReference_pres st cur nid nm
  | other children =>
    intro st cur nid out h
    simp only [refsN, bind_ok_iff] at h
    obtain ⟨⟨st1, cur1, nid1⟩, hL, h⟩ := h
    simp only [Except.ok.injEq] at h
    subst h
    exact refsL_pres children st cur (nid + 1) (st1, cur1, nid1) hL
termination_by 2 * sizeN n
decreasing_by all_goals (simp only [sizeN, sizeL]; omega)

theorem refsL_pres (ns : List Node) : ∀ (st : St) (cur nid : Nat) (out : St × Nat × Nat),
    refsL st cur nid ns = Except.ok out → RefsPres st out.1 := by
  cases ns with
  | nil =>
    intro st cur nid out h
    simp only [refsL, Except.ok.injEq] at h
    subst h
    exact RefsPres.prefl st
  | cons n ns =>
    intro st cur nid out h
    simp only [refsL, bind_ok_iff] at h
    obtain ⟨⟨st1, cur1, nid1⟩, h1, h2⟩ := h
    exact (refsN_pres n st cur nid (st1, cur1, nid1) h1).pcomp
      (refsL_pres ns st1 cur1 nid1 out h2)
termination_by 2 * sizeL ns + 1
decreasing_by
  all_goals simp only [sizeN, sizeL]
  all_goals (try omega)
  all_goals (have hsz := sizeN_pos head; omega)

end

/-! ### Analysis of the renaming phase (toward C9) -/

theorem lookup_isSome_of_mem {l : List (Nat × String)} {s : Nat} {v : String}
    (h : (s, v) ∈ l) : (l.lookup s).isSome = true := by
  induction l with
  | nil => cases h
  | cons e l ih =>
    rw [List.lookup]
    rcases hb : (s == e.1) with _ | _
    · rcases List.mem_cons.mp h with rfl | hm
      · simp at hb
      · exact ih hm
    · rfl

theorem lookup_append_isSome_left {l1 l2 : List (Nat × String)} {s : Nat}
    (h : (l1.lookup s).isSome = true) : ((l1 ++ l2).lookup s).isSome = true := by
  induction l1 with
  | nil => cases h
  | cons e l1 ih =>
    rw [List.cons_append, List.lookup]
    rw [List.lookup] at h
    rcases hb : (s == e.1) with _ | _
    · rw [hb] at h
      exact ih h
    · rfl

theorem lookup_mem_pair {l : List (Nat × String)} {s : Nat} {v : String}
    (h : l.lookup s = some v) : (s, v) ∈ l := by
  induction l with
  | nil => cases h
  | cons e l ih =>
    rw [List.lookup] at h
    rcases hb : (s == e.1) with _ | _
    · rw [hb] at h
      exact List.mem_cons_of_mem _ (ih h)
    · have hs : s = e.1 := by simpa using hb
      rw [hb] at h
      simp only [Option.some.injEq] at h
      subst h
      subst hs
      simp

theorem getD_set (l : List Variable) (i : Nat) (v : Variable) (w : Nat) :
    ((l.set i v)[w]?.getD dummyVariable) =
      if w = i ∧ i < l.length then v else l[w]?.getD dummyVariable := by
  rcases Nat.lt_or_ge i l.length with hlt | hge
  · rcases eq_or_ne w i with rfl | hne
    · rw [List.getElem?_set_self hlt, if_pos ⟨rfl, hlt⟩]
      rfl
    · rw [List.getElem?_set_ne (Ne.symm hne), if_neg (fun hc => hne hc.1)]
  · rw [List.set_eq_of_length_le hge, if_neg (fun hc => absurd hc.2 (Nat.not_lt.mpr hge))]

/-- What one step of the renaming phase guarantees: the name pool only
shrinks, patches are only appended and their replacement names are drawn from
the pool, variable count and site lists are untouched, and a name can change
only for a variable that some scope's table maps under an eligible key. -/
structure RFacts (scopes : List ScopeData) (r r' : RSt) : Prop where
  pool : ∀ nm ∈ r'.variableNames, nm ∈ r.variableNames
  patches : ∃ ext, r'.patches = r.patches ++ ext ∧ ∀ p ∈ ext, p.2 ∈ r.variableNames
  vlen : r'.vars.length = r.vars.length
  sites : ∀ vid : Nat, (r'.vars[vid]?.getD dummyVariable).declarations =
      (r.vars[vid]?.getD dummyVariable).declarations ∧
    (r'.vars[vid]?.getD dummyVariable).references =
      (r.vars[vid]?.getD dummyVariable).references
  change : ∀ vid : Nat, (r'.vars[vid]?.getD dummyVariable).name ≠
      (r.vars[vid]?.getD dummyVariable).name →
    ∃ i : Nat, ∃ e ∈ (scopes[i]?.getD dummyScope).table, e.2 = vid ∧ shouldRename e.1 = true

theorem RFacts.rfrefl (scopes : List ScopeData) (r : RSt) : RFacts scopes r r :=
  ⟨fun _ hm => hm, ⟨[], by simp, fun _ hm => by cases hm⟩, rfl, fun _ => ⟨rfl, rfl⟩,
   fun _ hne => absurd rfl hne⟩

theorem RFacts.rcomp {scopes : List ScopeData} {r r1 r' : RSt}
    (h : RFacts scopes r r1) (h' : RFacts scopes r1 r') : RFacts scopes r r' := by
  refine ⟨fun nm hm => h.pool nm (h'.pool nm hm), ?_, h'.vlen.trans h.vlen, ?_, ?_⟩
  · obtain ⟨e1, he1, hv1⟩ := h.patches
    obtain ⟨e2, he2, hv2⟩ := h'.patches
    refine ⟨e1 ++ e2, by rw [he2, he1, List.append_assoc], ?_⟩
    intro p hp
    rcases List.mem_append.mp hp with hp | hp
    · exact hv1 p hp
    · exact h.pool _ (hv2 p hp)
  · intro vid
    obtain ⟨a1, a2⟩ := h.sites vid
    obtain ⟨b1, b2⟩ := h'.sites vid
    exact ⟨b1.trans a1, b2.trans a2⟩
  · intro vid hne
    rcases eq_or_ne ((r1.vars[vid]?.getD dummyVariable).name)
        ((r.vars[vid]?.getD dummyVariable).name) with he | hne1
    · exact h'.change vid (by rw [he]; exact hne)
    · exact h.change vid hne1

theorem renameEntry_facts {r r' : RSt} {e : String × Nat}
    (h : renameEntry r e = Except.ok r') :
    (∀ nm ∈ r'.variableNames, nm ∈ r.variableNames) ∧
    (∃ ext, r'.patches = r.patches ++ ext ∧ ∀ p ∈ ext, p.2 ∈ r.variableNames) ∧
    r'.vars.length = r.vars.length ∧
    (∀ vid : Nat, (r'.vars[vid]?.getD dummyVariable).declarations =
        (r.vars[vid]?.getD dummyVariable).declarations ∧
      (r'.vars[vid]?.getD dummyVariable).references =
        (r.vars[vid]?.getD dummyVariable).references) ∧
    (∀ vid : Nat, (r'.vars[vid]?.getD dummyVariable).name ≠
        (r.vars[vid]?.getD dummyVariable).name → e.2 = vid ∧ shouldRename e.1 = true) ∧
    (shouldRename e.1 = true →
      ∀ s ∈ (r.vars[e.2]?.getD dummyVariable).declarations ++
        (r.vars[e.2]?.getD dummyVariable).references,
      (r'.patches.lookup s).isSome = true) := by
  unfold renameEntry at h
  split at h
  · rename_i hpred
    rcases hpool : r.variableNames with _ | ⟨n, rest⟩
    · rw [hpool] at h
      cases h
    · rw [hpool] at h
      simp only [getVariableName, okBind, Except.ok.injEq] at h
      subst h
      refine ⟨?_, ?_, by simp, ?_, ?_, ?_⟩
      · intro nm hm
        exact List.mem_cons_of_mem _ hm
      · refine ⟨((r.vars[e.2]?.getD dummyVariable).declarations ++
          (r.vars[e.2]?.getD dummyVariable).references).map (fun s => (s, n)), rfl, ?_⟩
        intro p hp
        obtain ⟨s, _, rfl⟩ := List.mem_map.mp hp
        simp
      · intro vid
        rw [getD_set]
        split
        · rename_i hc
          rw [hc.1]
          exact ⟨rfl, rfl⟩
        · exact ⟨rfl, rfl⟩
      · intro vid hne
        rw [getD_set] at hne
        split at hne
        · rename_i hc
          exact ⟨hc.1.symm, hpred⟩
        · exact absurd rfl hne
      · intro _ s hs
        apply lookup_isSome_of_mem (v := n)
        exact List.mem_append_right _ (List.mem_map.mpr ⟨s, hs, rfl⟩)
  · rename_i hpred
    simp only [Except.ok.injEq] at h
    subst h
    refine ⟨fun _ hm => hm, ⟨[], by simp, fun _ hm => by cases hm⟩, rfl,
      fun _ => ⟨rfl, rfl⟩, fun _ hne => absurd rfl hne, ?_⟩
    intro hp
    exact absurd hp hpred

theorem renameEntry_rfacts {scopes : List ScopeData} {r r' : RSt} {e : String × Nat}
    (h : renameEntry r e = Except.ok r')
    (hmem : ∃ i : Nat, e ∈ (scopes[i]?.getD dummyScope).table) : RFacts scopes r r' := by
  obtain ⟨hpool, hpat, hvlen, hsites, hchange, _⟩ := renameEntry_facts h
  refine ⟨hpool, hpat, hvlen, hsites, ?_⟩
  intro vid hne
  obtain ⟨hv, hp⟩ := hchange vid hne
  obtain ⟨i, hi⟩ := hmem
  exact ⟨i, e, hi, hv, hp⟩

theorem renameTable_facts {scopes : List ScopeData} : ∀ {es : List (String × Nat)}
    {r r' : RSt}, renameTable r es = Except.ok r' →
    (∀ e ∈ es, ∃ i : Nat, e ∈ (scopes[i]?.getD dummyScope).table) →
    RFacts scopes r r' := by
  intro es
  induction es with
  | nil =>
    intro r r' h _
    simp only [renameTable, Except.ok.injEq] at h
    subst h
    exact RFacts.rfrefl scopes r
  | cons e es ih =>
    intro r r' h hmem
    simp only [renameTable, bind_ok_iff] at h
    obtain ⟨r1, h1, h2⟩ := h
    exact (renameEntry_rfacts h1 (hmem e (List.mem_cons_self _ _))).rcomp
      (ih h2 (fun e2 he2 => hmem e2 (List.mem_cons_of_mem _ he2)))

theorem renameTable_patches_ext : ∀ {es : List (String × Nat)} {r r' : RSt},
    renameTable r es = Except.ok r' → ∃ ext, r'.patches = r.patches ++ ext := by
  intro es
  induction es with
  | nil =>
    intro r r' h
    simp only [renameTable, Except.ok.injEq] at h
    subst h
    exact ⟨[], by simp⟩
  | cons e es ih =>
    intro r r' h
    simp only [renameTable, bind_ok_iff] at h
    obtain ⟨r1, h1, h2⟩ := h
    obtain ⟨_, hpat, _, _, _, _⟩ := renameEntry_facts h1
    obtain ⟨e1, he1, _⟩ := hpat
    obtain ⟨e2, he2⟩ := ih h2
    exact ⟨e1 ++ e2, by rw [he2, he1, List.append_assoc]⟩

/-- Every eligible entry processed by `renameTable` gets all its variable's
recorded sites patched. -/
theorem renameTable_covers : ∀ {es : List (String × Nat)} {r r' : RSt},
    renameTable r es = Except.ok r' →
    ∀ e ∈ es, shouldRename e.1 = true →
    ∀ s ∈ (r.vars[e.2]?.getD dummyVariable).declarations ++
      (r.vars[e.2]?.getD dummyVariable).references,
    (r'.patches.lookup s).isSome = true := by
  intro es
  induction es with
  | nil =>
    intro r r' h e he
    cases he
  | cons e0 es ih =>
    intro r r' h e he hpred s hs
    simp only [renameTable, bind_ok_iff] at h
    obtain ⟨r1, h1, h2⟩ := h
    obtain ⟨_, _, _, hsites1, _, hcov1⟩ := renameEntry_facts h1
    rcases List.mem_cons.mp he with rfl | hmem
    · have hc := hcov1 hpred s hs
      obtain ⟨ext, hext⟩ := renameTable_patches_ext h2
      rw [hext]
      exact lookup_append_isSome_left hc
    · refine ih h2 e hmem hpred s ?_
      rw [(hsites1 e.2).1, (hsites1 e.2).2]
      exact hs

theorem renameScope_facts (scopes : List ScopeData) :
    ∀ (fuel sid : Nat) (r r' : RSt),
    renameScope scopes fuel sid r = Except.ok r' → RFacts scopes r r' := by
  intro fuel
  induction fuel with
  | zero =>
    intro sid r r' h
    simp only [renameScope, Except.ok.injEq] at h
    subst h
    exact RFacts.rfrefl scopes r
  | succ fuel ih =>
    intro sid r r' h
    have hfold : ∀ (cs : List Nat) (r1 r2 : RSt),
        List.foldlM (fun acc c => renameScope scopes fuel c acc) r1 cs = Except.ok r2 →
        RFacts scopes r1 r2 := by
      intro cs
      induction cs with
      | nil =>
        intro r1 r2 hf
        simp only [List.foldlM_nil, pure, Except.pure, Except.ok.injEq] at hf
        subst hf
        exact RFacts.rfrefl scopes r1
      | cons c cs ihc =>
        intro r1 r2 hf
        rw [List.foldlM_cons, bind_ok_iff] at hf
        obtain ⟨racc, hacc, hrest⟩ := hf
        exact (ih c r1 racc hacc).rcomp (ihc racc r2 hrest)
    unfold renameScope at h
    rw [bind_ok_iff] at h
    obtain ⟨r1, h1, h2⟩ := h
    exact (@renameTable_facts scopes _ _ _ h1 (fun e he => ⟨sid, he⟩)).rcomp
      (hfold _ r1 r' h2)

theorem foldlM_rename_facts (scopes : List ScopeData) (fuel : Nat) :
    ∀ (cs : List Nat) (r1 r2 : RSt),
    List.foldlM (fun acc c => renameScope scopes fuel c acc) r1 cs = Except.ok r2 →
    RFacts scopes r1 r2 := by
  intro cs
  induction cs with
  | nil =>
    intro r1 r2 hf
    simp only [List.foldlM_nil, pure, Except.pure, Except.ok.injEq] at hf
    subst hf
    exact RFacts.rfrefl scopes r1
  | cons c cs ihc =>
    intro r1 r2 hf
    rw [List.foldlM_cons, bind_ok_iff] at hf
    obtain ⟨racc, hacc, hrest⟩ := hf
    exact (renameScope_facts scopes fuel c r1 racc hacc).rcomp (ihc racc r2 hrest)

theorem foldlM_rename_mem (scopes : List ScopeData) (fuel : Nat) :
    ∀ (cs : List Nat) (r1 r2 : RSt),
    List.foldlM (fun acc c => renameScope scopes fuel c acc) r1 cs = Except.ok r2 →
    ∀ c ∈ cs, ∃ rin rout, renameScope scopes fuel c rin = Except.ok rout ∧
      (∀ vid : Nat, (rin.vars[vid]?.getD dummyVariable).declarations =
          (r1.vars[vid]?.getD dummyVariable).declarations ∧
        (rin.vars[vid]?.getD dummyVariable).references =
          (r1.vars[vid]?.getD dummyVariable).references) ∧
      (∃ ext, r2.patches = rout.patches ++ ext) := by
  intro cs
  induction cs with
  | nil =>
    intro r1 r2 hf c hc
    cases hc
  | cons c0 cs ihc =>
    intro r1 r2 hf c hc
    rw [List.foldlM_cons, bind_ok_iff] at hf
    obtain ⟨racc, hacc, hrest⟩ := hf
    rcases List.mem_cons.mp hc with rfl | hc
    · obtain ⟨ext, hext, _⟩ := (foldlM_rename_facts scopes fuel cs racc r2 hrest).patches
      exact ⟨r1, racc, hacc, fun _ => ⟨rfl, rfl⟩, ext, hext⟩
    · obtain ⟨rin, rout, hok, hsites, hext⟩ := ihc racc r2 hrest c hc
      have hfacc := renameScope_facts scopes fuel c0 r1 racc hacc
      refine ⟨rin, rout, hok, ?_, hext⟩
      intro vid
      obtain ⟨a1, a2⟩ := hsites vid
      obtain ⟨b1, b2⟩ := hfacc.sites vid
      exact ⟨a1.trans b1, a2.trans b2⟩

theorem reaches_up_lt {scopes : List ScopeData} {j p : Nat}
    (hp : (scopes[j]?.getD dummyScope).parent = some p) : j < scopes.length := by
  by_contra hge
  rw [List.getElem?_eq_none (by omega)] at hp
  simp [dummyScope] at hp

theorem reaches_le {scopes : List ScopeData}
    (hP : ∀ i, i < scopes.length → ∀ p, (scopes[i]?.getD dummyScope).parent = some p → p < i) :
    ∀ {a b : Nat}, Reaches scopes a b → a ≤ b := by
  intro a b h
  induction h with
  | here => exact le_refl _
  | up j p hp hre ihp =>
    have hj := reaches_up_lt hp
    have := hP j hj p hp
    omega

theorem reaches_split {scopes : List ScopeData} : ∀ {sid j : Nat},
    Reaches scopes sid j → j ≠ sid →
    ∃ c, c < scopes.length ∧ (scopes[c]?.getD dummyScope).parent = some sid ∧
      Reaches scopes c j := by
  intro sid j h
  induction h with
  | here => intro hne; exact absurd rfl hne
  | up j p hp hre ihp =>
    intro _
    rcases eq_or_ne p sid with rfl | hps
    · exact ⟨j, reaches_up_lt hp, hp, Reaches.here j⟩
    · obtain ⟨c, hc1, hc2, hc3⟩ := ihp hps
      exact ⟨c, hc1, hc2, Reaches.up c j p hp hc3⟩

theorem reaches_root {scopes : List ScopeData}
    (hP : ∀ i, i < scopes.length → ∀ p, (scopes[i]?.getD dummyScope).parent = some p → p < i)
    (hrooted : ∀ i, 0 < i → i < scopes.length →
      ((scopes[i]?.getD dummyScope).parent).isSome = true) :
    ∀ j, j < scopes.length → Reaches scopes 0 j := by
  intro j
  induction j using Nat.strong_induction_on with
  | _ j ih =>
    intro hj
    rcases Nat.eq_zero_or_pos j with rfl | hpos
    · exact Reaches.here 0
    · have hs := hrooted j hpos hj
      rcases hp : (scopes[j]?.getD dummyScope).parent with _ | p
      · rw [hp] at hs
        cases hs
      · have hplt := hP j hj p hp
        exact Reaches.up 0 j p hp (ih p hplt (by omega))

theorem mem_childScopes {scopes : List ScopeData} {c sid : Nat}
    (h1 : c < scopes.length) (h2 : (scopes[c]?.getD dummyScope).parent = some sid) :
    c ∈ childScopes scopes sid := by
  unfold childScopes
  rw [List.mem_filter]
  refine ⟨List.mem_range.mpr h1, ?_⟩
  simp [h2]

/-- Every eligible table entry of every scope reachable from the start scope
(within the fuel bound) gets all its variable's sites patched. -/
theorem renameScope_covers (scopes : List ScopeData)
    (hP : ∀ i, i < scopes.length → ∀ p, (scopes[i]?.getD dummyScope).parent = some p → p < i) :
    ∀ (fuel sid : Nat) (r r' : RSt),
    renameScope scopes fuel sid r = Except.ok r' →
    ∀ j, Reaches scopes sid j → j - sid < fuel →
    ∀ e ∈ (scopes[j]?.getD dummyScope).table, shouldRename e.1 = true →
    ∀ s ∈ (r.vars[e.2]?.getD dummyVariable).declarations ++
      (r.vars[e.2]?.getD dummyVariable).references,
    (r'.patches.lookup s).isSome = true := by
  intro fuel
  induction fuel with
  | zero =>
    intro sid r r' h j hre hfu
    exact absurd hfu (Nat.not_lt_zero _)
  | succ fuel ih =>
    intro sid r r' h j hre hfu e he hpred s hs
    unfold renameScope at h
    rw [bind_ok_iff] at h
    obtain ⟨r1, h1, h2⟩ := h
    rcases eq_or_ne j sid with rfl | hne
    · have hc := renameTable_covers h1 e he hpred s hs
      obtain ⟨ext, hext, _⟩ := (foldlM_rename_facts scopes fuel _ r1 r' h2).patches
      rw [hext]
      exact lookup_append_isSome_left hc
    · obtain ⟨c, hclen, hcp, hcre⟩ := reaches_split hre hne
      obtain ⟨rin, rout, hok, hsites, ext, hext⟩ :=
        foldlM_rename_mem scopes fuel _ r1 r' h2 c (mem_childScopes hclen hcp)
      have hslt : sid < c := hP c hclen sid hcp
      have hjge : c ≤ j := reaches_le hP hcre
      have hs1 := (@renameTable_facts scopes _ _ _ h1 (fun e2 he2 => ⟨sid, he2⟩)).sites e.2
      have hs' : s ∈ (rin.vars[e.2]?.getD dummyVariable).declarations ++
          (rin.vars[e.2]?.getD dummyVariable).references := by
        obtain ⟨ha, hb⟩ := hsites e.2
        rw [ha, hb, hs1.1, hs1.2]
        exact hs
      have hcov := ih c rin rout hok j hcre (by omega) e he hpred s hs'
      rw [hext]
      exact lookup_append_isSome_left hcov

theorem renameTable_id {r : RSt} : ∀ {es : List (String × Nat)},
    (∀ e ∈ es, shouldRename e.1 = false) → renameTable r es = Except.ok r := by
  intro es
  induction es with
  | nil => intro _; rfl
  | cons e es ihc =>
    intro hall
    have he : renameEntry r e = Except.ok r := by
      unfold renameEntry
      rw [hall e (List.mem_cons_self _ _)]
      rfl
    simp only [renameTable, he, okBind]
    exact ihc (fun e2 he2 => hall e2 (List.mem_cons_of_mem _ he2))

/-- When no table key anywhere matches the eligibility predicate, the whole
renaming phase is the identity: nothing is drawn from the pool, no patch is
recorded, no error is raised. -/
theorem renameScope_id (scopes : List ScopeData)
    (hall : ∀ i : Nat, ∀ e ∈ (scopes[i]?.getD dummyScope).table, shouldRename e.1 = false) :
    ∀ (fuel sid : Nat) (r : RSt), renameScope scopes fuel sid r = Except.ok r := by
  intro fuel
  induction fuel with
  | zero => intro sid r; rfl
  | succ fuel ihc =>
    intro sid r
    have hfold : ∀ (cs : List Nat) (racc : RSt),
        List.foldlM (fun acc c => renameScope scopes fuel c acc) racc cs =
          Except.ok racc := by
      intro cs
      induction cs with
      | nil => intro racc; rfl
      | cons c cs ihf =>
        intro racc
        rw [List.foldlM_cons, ihc c racc, okBind]
        exact ihf racc
    show (do
      let r1 ← renameTable r (scopes[sid]?.getD dummyScope).table
      (childScopes scopes sid).foldlM (fun acc c => renameScope scopes fuel c acc) r1) =
        Except.ok r
    rw [renameTable_id (hall sid), okBind]
    exact hfold _ r

theorem patchBindings_nil : ∀ (i : Nat) (bs : List Binding), patchBindings [] i bs = bs := by
  intro i bs
  induction bs generalizing i with
  | nil => rfl
  | cons b bs ihb => cases b <;> simp [patchBindings, patchName, ihb]

mutual

/-- Applying an empty patch list is the identity on the tree. -/
theorem patchN_nil (n : Node) : ∀ (nid : Nat), patchN [] nid n = n := by
  cases n with
  | script body => intro nid; simp [patchN, patchL_nil body]
  | functionDeclaration nm params body =>
    intro nid
    simp [patchN, patchL_nil body, patchBindings_nil, patchName]
  | functionExpression onm params body =>
    intro nid
    rcases onm with _ | nm <;>
      simp [patchN, patchL_nil body, patchBindings_nil, patchName, Option.map]
  | arrowExpression params body =>
    intro nid
    simp [patchN, patchL_nil body, patchBindings_nil]
  | catchClause ob body =>
    intro nid
    rcases ob with _ | b
    · simp [patchN, patchL_nil body]
    · cases b <;> simp [patchN, patchL_nil body, patchName, Option.map]
  | forStatement body => intro nid; simp [patchN, patchL_nil body]
  | blockStatement body => intro nid; simp [patchN, patchL_nil body]
  | variableDeclaration kind bindings inits =>
    intro nid
    simp [patchN, patchL_nil inits, patchBindings_nil]
  | identifierExpression nm => intro nid; simp [patchN, patchName]
  | other children => intro nid; simp [patchN, patchL_nil children]
termination_by 2 * sizeN n
decreasing_by all_goals (simp only [sizeN, sizeL]; omega)

theorem patchL_nil (ns : List Node) : ∀ (nid : Nat), patchL [] nid ns = ns := by
  cases ns with
  | nil => intro nid; rfl
  | cons n ns =>
    intro nid
    simp [patchL, patchN_nil n, patchL_nil ns]
termination_by 2 * sizeL ns + 1
decreasing_by
  all_goals simp only [sizeN, sizeL]
  all_goals (try omega)
  all_goals (have hsz := sizeN_pos head; omega)

end

/-! ### C9: eligibility and idempotence of the full pass -/

theorem initSt_tables : ∀ i : Nat, (getScope initSt i).table = [] := by
  intro i
  rcases i with _ | i
  · rfl
  · rw [getScope_default]
    · rfl
    · show 1 ≤ i + 1
      omega

theorem initSt_declInv : DeclInv initSt := by
  refine ⟨?_, ?_, ?_⟩
  · intro i e he
    rw [initSt_tables i] at he
    cases he
  · intro i e he
    rw [initSt_tables i] at he
    cases he
  · intro i h0 hi
    have hlen : initSt.scopes.length = 1 := rfl
    rw [hlen] at hi
    exact absurd h0 (by omega)

/-- C9: through a full pass (declaration collection `h1`, reference resolution
`h2`, renaming `h3`, patch application `h4`), (i) every variable whose name
does not match the rename-eligibility predicate keeps its original name,
(ii) every generated name fails the eligibility predicate, and (iii) running
the pass a second time on the renamed tree renames no further variable: any
completed second `execute` returns the tree unchanged — its symbol tables key
every variable by an ineligible name (a pool name or an untouched original),
so its renaming phase draws nothing and patches nothing. -/
theorem c9_eligibility_idempotence (t t' : Node) (st1 st2 : St) (rst : RSt)
    (h1 : collectDeclarations t = Except.ok st1)
    (h2 : collectReferences st1 t = Except.ok st2)
    (h3 : renameVariables st2 (generateNames st2.usedVariableNames) = Except.ok rst)
    (h4 : t' = patchN rst.patches 0 t) :
    (∀ vid : Nat, shouldRename ((st2.vars[vid]?.getD dummyVariable).name) = false →
      (rst.vars[vid]?.getD dummyVariable).name = (st2.vars[vid]?.getD dummyVariable).name) ∧
    (∀ nm ∈ generateNames st2.usedVariableNames, shouldRename nm = false) ∧
    (∀ t'' : Node, execute t' = Except.ok t'' → t'' = t') := by
  -- unpack the first pass
  simp only [collectDeclarations, bind_ok_iff] at h1
  obtain ⟨⟨s1, c1, n1⟩, hdw, h1⟩ := h1
  simp only [Except.ok.injEq] at h1
  subst h1
  obtain ⟨hc1, hn1, hw1, hx1⟩ := declsN_spec t initSt 0 0 (s1, c1, n1) hdw initSt_inv initSt_cur
  simp only at hc1 hn1 hw1 hx1
  obtain ⟨hdinv1, hg1, hcov1⟩ := declsN_coh t initSt 0 0 (s1, c1, n1) hdw initSt_inv
    initSt_cur initSt_declInv
  simp only at hdinv1 hg1 hcov1
  simp only [collectReferences, bind_ok_iff] at h2
  obtain ⟨⟨s2, c2, n2⟩, hrw, h2⟩ := h2
  simp only [Except.ok.injEq] at h2
  subst h2
  have hpres : RefsPres s1 s2 := refsN_pres t s1 0 0 (s2, c2, n2) hrw
  unfold renameVariables at h3
  have hrf := renameScope_facts s2.scopes (s2.scopes.length + 1) 0
    ⟨s2.vars, generateNames s2.usedVariableNames, []⟩ rst h3
  -- parent and rootedness facts carried over to the post-reference state
  rw [hn1] at hw1
  have hPP : ∀ i, i < s2.scopes.length → ∀ p,
      (s2.scopes[i]?.getD dummyScope).parent = some p → p < i := by
    intro i hi p hp
    rw [hpres.scopes] at hi hp
    exact hw1.parentLt i hi p hp
  have hroot : ∀ i, 0 < i → i < s2.scopes.length →
      ((s2.scopes[i]?.getD dummyScope).parent).isSome = true := by
    intro i h0 hi
    rw [hpres.scopes] at hi ⊢
    exact hdinv1.rooted i h0 hi
  refine ⟨?_, generateNames_not_eligible _, ?_⟩
  · -- part 1: ineligible variables keep their heap names
    intro vid hpred
    by_contra hne
    obtain ⟨i, e, he, hev, hep⟩ := hrf.change vid hne
    have he1 : e ∈ (getScope s1 i).table := by
      rw [← getScope_scopes_eq hpres.scopes]
      exact he
    have hlt := hdinv1.keyLt i e he1
    have hnm := hdinv1.keyName i e he1
    have hkeep := (hpres.keep e.2 hlt).1
    rw [hev] at hkeep hnm
    have hpred2 : shouldRename ((getVar s2 vid).name) = false := hpred
    rw [hkeep, hnm] at hpred2
    rw [hep] at hpred2
    simp at hpred2
  · -- part 3: a completed second run returns the tree unchanged
    intro t'' hex
    simp only [execute, bind_ok_iff] at hex
    obtain ⟨st1', hd', hex⟩ := hex
    obtain ⟨st2', hr', hex⟩ := hex
    obtain ⟨r', hren', hex⟩ := hex
    simp only [Except.ok.injEq] at hex
    subst hex
    simp only [collectDeclarations, bind_ok_iff] at hd'
    obtain ⟨⟨s1', c1', n1'⟩, hdw', hd'⟩ := hd'
    simp only [Except.ok.injEq] at hd'
    subst hd'
    obtain ⟨hdinv1', hg1', hcov1'⟩ := declsN_coh t' initSt 0 0 (s1', c1', n1') hdw' initSt_inv
      initSt_cur initSt_declInv
    simp only at hdinv1' hg1' hcov1'
    simp only [collectReferences, bind_ok_iff] at hr'
    obtain ⟨⟨s2', c2', n2'⟩, hrw', hr'⟩ := hr'
    simp only [Except.ok.injEq] at hr'
    subst hr'
    have hpres' : RefsPres s1' s2' := refsN_pres t' s1' 0 0 (s2', c2', n2') hrw'
    -- every table key of the second pass fails the eligibility predicate
    have hfail : ∀ i : Nat, ∀ e ∈ (s2'.scopes[i]?.getD dummyScope).table,
        shouldRename e.1 = false := by
      intro i e he
      have he1 : e ∈ (getScope s1' i).table := by
        rw [← getScope_scopes_eq hpres'.scopes]
        exact he
      rcases hg1'.keyNew i e he1 with hm | hm | ⟨s, hm⟩
      · rw [initSt_tables i] at hm
        cases hm
      · rw [hm]
        decide
      · rw [h4, dsitesN_patch] at hm
        obtain ⟨q0, hmem0, heq⟩ := List.mem_map.mp hm
        obtain ⟨s0, nm0⟩ := q0
        simp only [Prod.mk.injEq] at heq
        obtain ⟨hs0, hv0⟩ := heq
        rcases hb : shouldRename e.1 with _ | _
        · rfl
        · exfalso
          unfold patchName at hv0
          rcases hlk : rst.patches.lookup s0 with _ | v
          · rw [hlk] at hv0
            simp only at hv0
            -- unpatched: the name is the original eligible one, yet its site is covered
            obtain ⟨i2, vid2, hent, hdecl⟩ := hcov1 (s0, nm0) hmem0
            have hvlt := hdinv1.keyLt i2 _ hent
            have hent2 : (nm0, vid2) ∈ (getScope s2 i2).table := by
              rw [getScope_scopes_eq hpres.scopes]
              exact hent
            have hdecl2 : s0 ∈ (getVar s2 vid2).declarations := by
              rw [(hpres.keep vid2 hvlt).2.2]
              exact hdecl
            have hi2 : i2 < s2.scopes.length := by
              by_contra hge
              rw [getScope_default s2 i2 (by omega)] at hent2
              cases hent2
            have hreach := reaches_root hPP hroot i2 hi2
            have hpred0 : shouldRename nm0 = true := by
              rw [← hv0] at hb
              exact hb
            have hcovd := renameScope_covers s2.scopes hPP (s2.scopes.length + 1) 0
              ⟨s2.vars, generateNames s2.usedVariableNames, []⟩ rst h3 i2 hreach
              (by omega) (nm0, vid2) hent2 hpred0 s0
              (List.mem_append_left _ hdecl2)
            rw [hlk] at hcovd
            cases hcovd
          · rw [hlk] at hv0
            simp only at hv0
            have hvmem : (s0, v) ∈ rst.patches := lookup_mem_pair hlk
            obtain ⟨ext, hext, hvals⟩ := hrf.patches
            rw [hext] at hvmem
            simp only [List.nil_append] at hvmem
            have hv2 := hvals _ hvmem
            have hvne := generateNames_not_eligible s2.usedVariableNames v hv2
            rw [← hv0] at hb
            rw [hvne] at hb
            cases hb
    -- with no eligible key, the second renaming phase is the identity
    unfold renameVariables at hren'
    have hid := renameScope_id s2'.scopes hfail (s2'.scopes.length + 1) 0
      ⟨s2'.vars, generateNames s2'.usedVariableNames, []⟩
    rw [hid] at hren'
    simp only [Except.ok.injEq] at hren'
    rw [← hren']
    exact patchN_nil t' 0

/-- C9 witness: the concrete one-declarator program `var x;`. -/
theorem c9_eligibility_idempotence_witness :
    (∀ vid : Nat, shouldRename ((stVarDecl.vars[vid]?.getD dummyVariable).name) = false →
      (((⟨stVarDecl.vars, generateNames stVarDecl.usedVariableNames, []⟩ :
        RSt).vars[vid]?.getD dummyVariable)).name =
        (stVarDecl.vars[vid]?.getD dummyVariable).name) ∧
    (∀ nm ∈ generateNames stVarDecl.usedVariableNames, shouldRename nm = false) ∧
    (∀ t'' : Node, execute progVarDecl = Except.ok t'' → t'' = progVarDecl) :=
  c9_eligibility_idempotence progVarDecl progVarDecl stVarDecl stVarDecl
    ⟨stVarDecl.vars, generateNames stVarDecl.usedVariableNames, []⟩ rfl rfl rfl rfl

/-! ### Further list and scope-tree lemmas (toward full idempotence) -/

theorem lookup_append_some {l1 l2 : List (Nat × String)} {s : Nat} {v : String}
    (h : l1.lookup s = some v) : ((l1 ++ l2).lookup s) = some v := by
  induction l1 with
  | nil => cases h
  | cons e l1 ih =>
    rw [List.cons_append, List.lookup]
    rw [List.lookup] at h
    rcases hb : (s == e.1) with _ | _
    · rw [hb] at h
      exact ih h
    · rw [hb] at h
      exact h

theorem lookup_append_none {l1 l2 : List (Nat × String)} {s : Nat}
    (h : l1.lookup s = none) : ((l1 ++ l2).lookup s) = l2.lookup s := by
  induction l1 with
  | nil => rfl
  | cons e l1 ih =>
    rw [List.cons_append, List.lookup]
    rw [List.lookup] at h
    rcases hb : (s == e.1) with _ | _
    · rw [hb] at h
      exact ih h
    · rw [hb] at h
      cases h

theorem lookup_map_const {ss : List Nat} {s : Nat} {v : String} (h : s ∈ ss) :
    ((ss.map (fun x => (x, v))).lookup s) = some v := by
  induction ss with
  | nil => cases h
  | cons x ss ih =>
    rw [List.map_cons, List.lookup]
    rcases hb : (s == x) with _ | _
    · rcases List.mem_cons.mp h with rfl | hm
      · simp at hb
      · exact ih hm
    · rfl

theorem lookup_none_of_keys {l : List (Nat × String)} {s : Nat}
    (h : ∀ e ∈ l, s ≠ e.1) : l.lookup s = none := by
  induction l with
  | nil => rfl
  | cons e l ih =>
    rw [List.lookup]
    rcases hb : (s == e.1) with _ | _
    · exact ih (fun e2 he2 => h e2 (List.mem_cons_of_mem _ he2))
    · have : s = e.1 := by simpa using hb
      exact absurd this (h e (List.mem_cons_self _ _))

theorem contains_append_left {u : List String} (v : List String) {x : String}
    (h : u.contains x = true) : ((u ++ v).contains x) = true := by
  have hm : x ∈ u := by simpa using h
  simp [List.mem_append, hm]

theorem reaches_trans {scopes : List ScopeData} : ∀ {a b c : Nat},
    Reaches scopes a b → Reaches scopes b c → Reaches scopes a c := by
  intro a b c hab hbc
  induction hbc with
  | here => exact hab
  | up j p hp hre ih => exact Reaches.up a j p hp ih

theorem reaches_child {scopes : List ScopeData} {sid c : Nat}
    (hp : (scopes[c]?.getD dummyScope).parent = some sid) : Reaches scopes sid c :=
  Reaches.up sid c sid hp (Reaches.here sid)

/-- Ancestors of a scope are totally ordered: the parent chain is a single
path. -/
theorem reaches_linear {scopes : List ScopeData} : ∀ {a j : Nat},
    Reaches scopes a j → ∀ {b : Nat}, Reaches scopes b j →
    Reaches scopes a b ∨ Reaches scopes b a := by
  intro a j ha
  induction ha with
  | here =>
    intro b hb
    exact Or.inr hb
  | up j p hp hra ih =>
    intro b hb
    rcases hb with _ | ⟨_, p2, hp2, hrb⟩
    · exact Or.inl (Reaches.up a j p hp hra)
    · rw [hp] at hp2
      simp only [Option.some.injEq] at hp2
      subst hp2
      exact ih hrb

/-- No proper descendant of a scope is a sibling of that scope. -/
theorem reaches_sibling_absurd {scopes : List ScopeData}
    (hP : ∀ i, i < scopes.length → ∀ p, (scopes[i]?.getD dummyScope).parent = some p → p < i)
    {sid x y : Nat}
    (hx : (scopes[x]?.getD dummyScope).parent = some sid)
    (hy : (scopes[y]?.getD dummyScope).parent = some sid)
    (hxy : x ≠ y) (hr : Reaches scopes x y) : False := by
  rcases hr with _ | ⟨_, p, hp, hrp⟩
  · exact hxy rfl
  · rw [hy] at hp
    simp only [Option.some.injEq] at hp
    subst hp
    have h1 := reaches_le hP hrp
    have h2 := hP x (reaches_up_lt hx) sid hx
    omega

/-- Subtrees under distinct children of one scope are disjoint. -/
theorem siblings_disjoint {scopes : List ScopeData}
    (hP : ∀ i, i < scopes.length → ∀ p, (scopes[i]?.getD dummyScope).parent = some p → p < i)
    {sid c c' j : Nat}
    (hc : (scopes[c]?.getD dummyScope).parent = some sid)
    (hc' : (scopes[c']?.getD dummyScope).parent = some sid)
    (hne : c ≠ c') (h1 : Reaches scopes c j) (h2 : Reaches scopes c' j) : False := by
  rcases reaches_linear h1 h2 with h | h
  · exact reaches_sibling_absurd hP hc hc' hne h
  · exact reaches_sibling_absurd hP hc' hc (Ne.symm hne) h

/-! ### Sharper invariants of the declaration walk (toward full idempotence) -/

/-- `v` is registered in some scope's table. -/
def TableVid (st : St) (v : Nat) : Prop :=
  ∃ i : Nat, ∃ e ∈ (getScope st i).table, e.2 = v

/-- The second layer of walk invariants: per-table key uniqueness, global
one-entry-per-variable, site bounds and disjointness across registered
variables, empty reference lists (during declaration collection), and
registration of ineligible keys in the used-name set. -/
structure DeclInv2 (st : St) (cnt : Nat) : Prop where
  keyND : ∀ i : Nat, ((getScope st i).table.map Prod.fst).Nodup
  vidU : ∀ i j : Nat, ∀ e1 ∈ (getScope st i).table, ∀ e2 ∈ (getScope st j).table,
    e1.2 = e2.2 → i = j ∧ e1 = e2
  siteLt : ∀ vid : Nat, ∀ s ∈ (getVar st vid).declarations ++ (getVar st vid).references,
    s < cnt
  siteDisj : ∀ u w : Nat, TableVid st u → TableVid st w → u ≠ w →
    ∀ s, s ∈ (getVar st u).declarations ++ (getVar st u).references →
    s ∉ (getVar st w).declarations ++ (getVar st w).references
  refsNil : ∀ vid : Nat, (getVar st vid).references = []
  keyU : ∀ i : Nat, ∀ e ∈ (getScope st i).table, shouldRename e.1 = false →
    e.1 = "arguments" ∨ st.usedVariableNames.contains e.1 = true

theorem DeclInv2.cmono {st : St} {cnt cnt' : Nat} (h : DeclInv2 st cnt) (hc : cnt ≤ cnt') :
    DeclInv2 st cnt' := by
  refine ⟨h.keyND, h.vidU, ?_, h.siteDisj, h.refsNil, h.keyU⟩
  intro vid s hs
  have := h.siteLt vid s hs
  omega

theorem tableVid_congr {st st' : St} (hs : st'.scopes = st.scopes) {u : Nat}
    (h : TableVid st' u) : TableVid st u := by
  obtain ⟨i, e, he, hv⟩ := h
  rw [getScope_scopes_eq hs] at he
  exact ⟨i, e, he, hv⟩

theorem usedAdd_contains {u : List String} {nm : String} (h : shouldRename nm = false) :
    (usedAdd u nm).contains nm = true := by
  unfold usedAdd
  rw [h]
  simp only [Bool.false_eq_true, if_false]
  split
  · rename_i hc
    exact hc
  · simp

theorem usedAdd_mono {u : List String} {nm x : String}
    (h : u.contains x = true) : (usedAdd u nm).contains x = true := by
  unfold usedAdd
  split
  · exact h
  · split
    · exact h
    · exact contains_append_left _ h

theorem lookup_none_keys {l : List (String × Nat)} {a : String}
    (h : l.lookup a = none) : ∀ e ∈ l, a ≠ e.1 := by
  induction l with
  | nil => intro e he; cases he
  | cons e0 l ih =>
    rw [List.lookup] at h
    rcases hb : (a == e0.1) with _ | _
    · rw [hb] at h
      intro e he
      rcases List.mem_cons.mp he with rfl | hm
      · intro hc
        rw [hc] at hb
        simp at hb
      · exact ih h e hm
    · rw [hb] at h
      cases h

/-- Congruence for the second invariant layer under operations that keep
scopes and variables and only grow the used-name set. -/
theorem DeclInv2_mongr {st st' : St} (hs : st'.scopes = st.scopes) (hv : st'.vars = st.vars)
    (hu : ∀ x : String, st.usedVariableNames.contains x = true →
      st'.usedVariableNames.contains x = true)
    {cnt : Nat} (h : DeclInv2 st cnt) : DeclInv2 st' cnt := by
  refine ⟨?_, ?_, ?_, ?_, ?_, ?_⟩
  · intro i
    rw [getScope_scopes_eq hs]
    exact h.keyND i
  · intro i j e1 he1 e2 he2 hv12
    rw [getScope_scopes_eq hs] at he1 he2
    exact h.vidU i j e1 he1 e2 he2 hv12
  · intro vid s hsx
    rw [getVar_vars_eq hv] at hsx
    exact h.siteLt vid s hsx
  · intro u w hu2 hw2 hne s hsx
    rw [getVar_vars_eq hv] at hsx ⊢
    exact h.siteDisj u w (tableVid_congr hs hu2) (tableVid_congr hs hw2) hne s hsx
  · intro vid
    rw [getVar_vars_eq hv]
    exact h.refsNil vid
  · intro i e he hp
    rw [getScope_scopes_eq hs] at he
    rcases h.keyU i e he hp with hm | hm
    · exact Or.inl hm
    · exact Or.inr (hu _ hm)

theorem DeclInv2_alloc {st : St} {v : Variable} (hr : v.references = [])
    {cnt : Nat} (hd : ∀ s ∈ v.declarations, s < cnt)
    (hinv : DeclInv st) (h : DeclInv2 st cnt) :
    DeclInv2 { st with vars := st.vars ++ [v] } cnt := by
  have htv : ∀ u : Nat, TableVid { st with vars := st.vars ++ [v] } u →
      TableVid st u ∧ u < st.vars.length := by
    intro u hu
    obtain ⟨i, e, he, hv2⟩ := hu
    rw [getScope_scopes_eq rfl] at he
    exact ⟨⟨i, e, he, hv2⟩, by rw [← hv2]; exact hinv.keyLt i e he⟩
  refine ⟨?_, ?_, ?_, ?_, ?_, ?_⟩
  · intro i
    rw [getScope_scopes_eq rfl]
    exact h.keyND i
  · intro i j e1 he1 e2 he2 hv12
    rw [getScope_scopes_eq rfl] at he1 he2
    exact h.vidU i j e1 he1 e2 he2 hv12
  · intro vid s hsx
    rcases Nat.lt_or_ge vid st.vars.length with hlt | hge
    · rw [getVar_append_lt st v hlt] at hsx
      exact h.siteLt vid s hsx
    · rcases Nat.eq_or_lt_of_le hge with rfl | hgt
      · rw [getVar_concat] at hsx
        rw [hr] at hsx
        simp only [List.append_nil] at hsx
        exact hd s hsx
      · have hge2 : ({ st with vars := st.vars ++ [v] } : St).vars.length ≤ vid := by
          simp only [List.length_append, List.length_cons, List.length_nil]
          omega
        rw [getVar_default _ hge2] at hsx
        cases hsx
  · intro u w hu2 hw2 hne s hsx
    obtain ⟨hu3, hul⟩ := htv u hu2
    obtain ⟨hw3, hwl⟩ := htv w hw2
    rw [getVar_append_lt st v hul] at hsx
    rw [getVar_append_lt st v hwl]
    exact h.siteDisj u w hu3 hw3 hne s hsx
  · intro vid
    rcases Nat.lt_or_ge vid st.vars.length with hlt | hge
    · rw [getVar_append_lt st v hlt]
      exact h.refsNil vid
    · rcases Nat.eq_or_lt_of_le hge with rfl | hgt
      · rw [getVar_concat]
        exact hr
      · have hge2 : ({ st with vars := st.vars ++ [v] } : St).vars.length ≤ vid := by
          simp only [List.length_append, List.length_cons, List.length_nil]
          omega
        rw [getVar_default _ hge2]
        rfl
  · intro i e he hp
    rw [getScope_scopes_eq rfl] at he
    exact h.keyU i e he hp

theorem DeclInv2_push {st : St} (nid : Nat) (ty : ScopeType) (cur : Nat)
    {cnt : Nat} (h : DeclInv2 st cnt) : DeclInv2 (pushScope st nid ty cur) cnt := by
  have htab : ∀ i : Nat, (getScope (pushScope st nid ty cur) i).table = (getScope st i).table := by
    intro i
    rcases Nat.lt_or_ge i st.scopes.length with hlt | hge
    · rw [getScope_pushScope_old st nid ty cur i hlt]
    · rcases Nat.eq_or_lt_of_le hge with rfl | hgt
      · rw [getScope_pushScope_new st nid ty cur, getScope_default st _ (le_refl _)]
        rfl
      · rw [getScope_default _ i (by rw [pushScope_length]; omega),
          getScope_default st i (by omega)]
  have htv : ∀ u : Nat, TableVid (pushScope st nid ty cur) u → TableVid st u := by
    intro u hu
    obtain ⟨i, e, he, hv2⟩ := hu
    rw [htab] at he
    exact ⟨i, e, he, hv2⟩
  refine ⟨?_, ?_, h.siteLt, ?_, h.refsNil, ?_⟩
  · intro i
    rw [htab]
    exact h.keyND i
  · intro i j e1 he1 e2 he2 hv12
    rw [htab] at he1 he2
    exact h.vidU i j e1 he1 e2 he2 hv12
  · intro u w hu2 hw2 hne s hsx
    exact h.siteDisj u w (htv u hu2) (htv w hw2) hne s hsx
  · intro i e he hp
    rw [htab] at he
    exact h.keyU i e he hp

/-- `DeclInv2` with the registration obligation relaxed for one name that a
subsequent `addName` will record. -/
structure DeclInv2m (st : St) (cnt : Nat) (nm : String) : Prop where
  keyND : ∀ i : Nat, ((getScope st i).table.map Prod.fst).Nodup
  vidU : ∀ i j : Nat, ∀ e1 ∈ (getScope st i).table, ∀ e2 ∈ (getScope st j).table,
    e1.2 = e2.2 → i = j ∧ e1 = e2
  siteLt : ∀ vid : Nat, ∀ s ∈ (getVar st vid).declarations ++ (getVar st vid).references,
    s < cnt
  siteDisj : ∀ u w : Nat, TableVid st u → TableVid st w → u ≠ w →
    ∀ s, s ∈ (getVar st u).declarations ++ (getVar st u).references →
    s ∉ (getVar st w).declarations ++ (getVar st w).references
  refsNil : ∀ vid : Nat, (getVar st vid).references = []
  keyU : ∀ i : Nat, ∀ e ∈ (getScope st i).table, shouldRename e.1 = false →
    e.1 = "arguments" ∨ st.usedVariableNames.contains e.1 = true ∨ e.1 = nm

theorem addName_contains_self {st : St} {nm : String} (h : shouldRename nm = false) :
    (addName st nm).usedVariableNames.contains nm = true := by
  unfold addName
  rw [h]
  simp only [Bool.false_eq_true, if_false]
  split
  · rename_i hc
    exact hc
  · simp

theorem addName_used_mono {st : St} {nm x : String}
    (h : st.usedVariableNames.contains x = true) :
    (addName st nm).usedVariableNames.contains x = true := by
  unfold addName
  split
  · exact h
  · split
    · exact h
    · exact contains_append_left _ h

theorem DeclInv2.toM {st : St} {cnt : Nat} (h : DeclInv2 st cnt) (nm : String) :
    DeclInv2m st cnt nm :=
  ⟨h.keyND, h.vidU, h.siteLt, h.siteDisj, h.refsNil,
   fun i e he hp => (h.keyU i e he hp).imp id Or.inl⟩

theorem DeclInv2m_close {st : St} {cnt : Nat} {nm : String} (h : DeclInv2m st cnt nm) :
    DeclInv2 (addName st nm) cnt := by
  have hs : (addName st nm).scopes = st.scopes := addName_scopes st nm
  have hv : (addName st nm).vars = st.vars := addName_vars st nm
  refine ⟨?_, ?_, ?_, ?_, ?_, ?_⟩
  · intro i
    rw [getScope_scopes_eq hs]
    exact h.keyND i
  · intro i j e1 he1 e2 he2 hv12
    rw [getScope_scopes_eq hs] at he1 he2
    exact h.vidU i j e1 he1 e2 he2 hv12
  · intro vid s hsx
    rw [getVar_vars_eq hv] at hsx
    exact h.siteLt vid s hsx
  · intro u w hu2 hw2 hne s hsx
    rw [getVar_vars_eq hv] at hsx ⊢
    exact h.siteDisj u w (tableVid_congr hs hu2) (tableVid_congr hs hw2) hne s hsx
  · intro vid
    rw [getVar_vars_eq hv]
    exact h.refsNil vid
  · intro i e he hp
    rw [getScope_scopes_eq hs] at he
    rcases h.keyU i e he hp with h1 | h1 | h1
    · exact Or.inl h1
    · exact Or.inr (addName_used_mono h1)
    · rw [h1]
      exact Or.inr (addName_contains_self (by rwa [h1] at hp))

theorem DeclInv2m_close_arguments {st : St} {cnt : Nat} (h : DeclInv2m st cnt "arguments") :
    DeclInv2 st cnt :=
  ⟨h.keyND, h.vidU, h.siteLt, h.siteDisj, h.refsNil,
   fun i e he hp => (h.keyU i e he hp).elim Or.inl
     (fun h2 => h2.elim Or.inr (fun h3 => Or.inl h3))⟩

/-- Effect of `addVariable` on the second invariant layer, for a
freshly-allocated variable whose declaration sites are new.  The registration
obligation for the variable's name is deferred to the caller's `addName`. -/
theorem addVariable_coh2 {st : St} {sid : Nat} {v : Variable} {st' : St}
    (h : addVariable { st with vars := st.vars ++ [v] } sid st.vars.length = Except.ok st')
    (hP : ∀ i, i < st.scopes.length → ∀ p, (getScope st i).parent = some p → p < i)
    (hs : sid < st.scopes.length)
    (hinv : DeclInv st)
    {cnt cnt' : Nat} (hinv2 : DeclInv2 st cnt) (hc : cnt ≤ cnt')
    (hvd : ∀ s ∈ v.declarations, cnt ≤ s ∧ s < cnt')
    (hvr : v.references = []) :
    DeclInv2m st' cnt' v.name ∧ st'.usedVariableNames = st.usedVariableNames := by
  have hdlt : getDeclarationScope st sid v.kind < st.scopes.length :=
    getDeclarationScope_lt hP hs v.kind
  have hv : getVar { st with vars := st.vars ++ [v] } st.vars.length = v := getVar_concat st v
  have hgs : ∀ i, getScope { st with vars := st.vars ++ [v] } i = getScope st i :=
    fun i => getScope_scopes_eq rfl i
  have hcongr : getDeclarationScope { st with vars := st.vars ++ [v] } sid v.kind =
      getDeclarationScope st sid v.kind :=
    @getDeclarationScope_congr st { st with vars := st.vars ++ [v] } rfl sid v.kind
  unfold addVariable at h
  rw [hv] at h
  rcases hl : (getScope st (getDeclarationScope st sid v.kind)).table.lookup v.name
    with _ | evid
  · -- fresh insert into the declaration scope's table
    simp only [hcongr, hgs, hl, Except.ok.injEq] at h
    have hTab : ∀ i, getScope st' i =
        if i = getDeclarationScope st sid v.kind then
          { getScope st (getDeclarationScope st sid v.kind) with
            table := (getScope st (getDeclarationScope st sid v.kind)).table ++
              [(v.name, st.vars.length)] }
        else getScope st i := by
      intro i
      rw [← h, getScope_setTable]
      rcases eq_or_ne i (getDeclarationScope st sid v.kind) with rfl | hne
      · rw [if_pos ⟨rfl, hdlt⟩, if_pos rfl, hgs]
      · rw [if_neg (fun hc2 => hne hc2.1), if_neg hne]
        exact hgs i
    have hVar : ∀ w, getVar st' w = getVar { st with vars := st.vars ++ [v] } w := by
      intro w
      rw [← h]
      rfl
    have hused : st'.usedVariableNames = st.usedVariableNames := by
      rw [← h]
      rfl
    have hMem : ∀ (i : Nat) (e : String × Nat), e ∈ (getScope st' i).table →
        e ∈ (getScope st i).table ∨
        (i = getDeclarationScope st sid v.kind ∧ e = (v.name, st.vars.length)) := by
      intro i e he
      rw [hTab] at he
      split at he
      · rename_i hc2
        subst hc2
        simp only at he
        rcases List.mem_append.mp he with hm | hm
        · exact Or.inl hm
        · simp only [List.mem_singleton] at hm
          exact Or.inr ⟨rfl, hm⟩
      · exact Or.inl he
    have hTV : ∀ u : Nat, TableVid st' u → TableVid st u ∨ u = st.vars.length := by
      intro u hu
      obtain ⟨i, e, he, hv2⟩ := hu
      rcases hMem i e he with hm | ⟨hi, hee⟩
      · exact Or.inl ⟨i, e, hm, hv2⟩
      · right
        rw [← hv2, hee]
    refine ⟨⟨?_, ?_, ?_, ?_, ?_, ?_⟩, hused⟩
    · intro i
      rw [hTab]
      split
      · simp only [List.map_append, List.map_cons, List.map_nil]
        rw [List.nodup_append]
        refine ⟨hinv2.keyND _, List.nodup_singleton _, ?_⟩
        intro a ha hb
        simp only [List.mem_singleton] at hb
        subst hb
        obtain ⟨e, hemem, hefst⟩ := List.mem_map.mp ha
        exact (lookup_none_keys hl e hemem) hefst.symm
      · exact hinv2.keyND i
    · intro i j e1 he1 e2 he2 hv12
      rcases hMem i e1 he1 with hm1 | ⟨hi, he1e⟩
      · rcases hMem j e2 he2 with hm2 | ⟨hj, he2e⟩
        · exact hinv2.vidU i j e1 hm1 e2 hm2 hv12
        · have h1 := hinv.keyLt i e1 hm1
          have h2 : e1.2 = st.vars.length := by rw [hv12, he2e]
          exact absurd h2 (Nat.ne_of_lt h1)
      · rcases hMem j e2 he2 with hm2 | ⟨hj, he2e⟩
        · have h1 := hinv.keyLt j e2 hm2
          have h2 : e2.2 = st.vars.length := by rw [← hv12, he1e]
          exact absurd h2 (Nat.ne_of_lt h1)
        · exact ⟨by rw [hi, hj], by rw [he1e, he2e]⟩
    · intro vid s hsx
      rw [hVar] at hsx
      rcases Nat.lt_or_ge vid st.vars.length with hlt | hge
      · rw [getVar_append_lt st v hlt] at hsx
        have := hinv2.siteLt vid s hsx
        omega
      · rcases Nat.eq_or_lt_of_le hge with rfl | hgt
        · rw [hv, hvr] at hsx
          simp only [List.append_nil] at hsx
          exact (hvd s hsx).2
        · have hge2 : ({ st with vars := st.vars ++ [v] } : St).vars.length ≤ vid := by
            simp only [List.length_append, List.length_cons, List.length_nil]
            omega
          rw [getVar_default _ hge2] at hsx
          cases hsx
    · intro u w hu2 hw2 hne s hsx
      rw [hVar] at hsx ⊢
      rcases hTV u hu2 with hu4 | rfl
      · obtain ⟨iu, eu, heu, hvu⟩ := hu4
        have hul : u < st.vars.length := by
          have := hinv.keyLt iu eu heu
          omega
        rw [getVar_append_lt st v hul] at hsx
        rcases hTV w hw2 with hw4 | rfl
        · obtain ⟨iw, ew, hew, hvw⟩ := hw4
          have hwl : w < st.vars.length := by
            have := hinv.keyLt iw ew hew
            omega
          rw [getVar_append_lt st v hwl]
          exact hinv2.siteDisj u w ⟨iu, eu, heu, hvu⟩ ⟨iw, ew, hew, hvw⟩ hne s hsx
        · rw [hv, hvr]
          simp only [List.append_nil]
          intro hc2
          have h1 := (hvd s hc2).1
          have h2 := hinv2.siteLt u s hsx
          omega
      · rw [hv, hvr] at hsx
        simp only [List.append_nil] at hsx
        rcases hTV w hw2 with hw4 | rfl
        · obtain ⟨iw, ew, hew, hvw⟩ := hw4
          have hwl : w < st.vars.length := by
            have := hinv.keyLt iw ew hew
            omega
          rw [getVar_append_lt st v hwl]
          intro hc2
          have h1 := (hvd s hsx).1
          have h2 := hinv2.siteLt w s hc2
          omega
        · exact absurd rfl hne
    · intro vid
      rw [hVar]
      rcases Nat.lt_or_ge vid st.vars.length with hlt | hge
      · rw [getVar_append_lt st v hlt]
        exact hinv2.refsNil vid
      · rcases Nat.eq_or_lt_of_le hge with rfl | hgt
        · rw [hv]
          exact hvr
        · have hge2 : ({ st with vars := st.vars ++ [v] } : St).vars.length ≤ vid := by
            simp only [List.length_append, List.length_cons, List.length_nil]
            omega
          rw [getVar_default _ hge2]
          rfl
    · intro i e he hp
      rw [hused]
      rcases hMem i e he with hm | ⟨hi, hee⟩
      · rcases hinv2.keyU i e hm hp with h1 | h1
        · exact Or.inl h1
        · exact Or.inr (Or.inl h1)
      · right
        right
        rw [hee]
  · -- merge with an existing same-name variable of the declaration scope
    simp only [hcongr, hgs, hl] at h
    have hmem := lookup_mem hl
    have hevid : evid < st.vars.length := hinv.keyLt _ _ hmem
    have hevid2 : evid < ({ st with vars := st.vars ++ [v] } : St).vars.length := by
      simp only [List.length_append, List.length_cons, List.length_nil]
      omega
    have hA : getVar { st with vars := st.vars ++ [v] } evid = getVar st evid :=
      getVar_append_lt st v hevid
    rw [hA] at h
    split at h
    · cases h
    · simp only [Except.ok.injEq] at h
      have hsc : ∀ i, getScope st' i = getScope st i := by
        intro i
        rw [← h, getScope_scopes_eq (setVar_scopes _ _ _)]
        exact hgs i
      have hused : st'.usedVariableNames = st.usedVariableNames := by
        rw [← h]
        rfl
      have hgv : ∀ w2 : Nat, getVar st' w2 =
          if w2 = evid then
            { getVar st evid with
              declarations := (getVar st evid).declarations ++ v.declarations }
          else getVar { st with vars := st.vars ++ [v] } w2 := by
        intro w2
        rw [← h, getVar_setVar]
        rcases eq_or_ne w2 evid with rfl | hne
        · rw [if_pos ⟨rfl, hevid2⟩, if_pos rfl]
        · rw [if_neg (fun hc2 => hne hc2.1), if_neg hne]
      have hTV : ∀ u : Nat, TableVid st' u → TableVid st u ∧ u < st.vars.length := by
        intro u hu
        obtain ⟨i, e, he, hv2⟩ := hu
        rw [hsc] at he
        refine ⟨⟨i, e, he, hv2⟩, ?_⟩
        have := hinv.keyLt i e he
        omega
      have hsites : ∀ s : Nat,
          s ∈ (getVar st' evid).declarations ++ (getVar st' evid).references →
          s ∈ (getVar st evid).declarations ++ (getVar st evid).references ∨
            s ∈ v.declarations := by
        intro s hsx
        rw [hgv, if_pos rfl] at hsx
        simp only at hsx
        rcases List.mem_append.mp hsx with hm | hm
        · rcases List.mem_append.mp hm with hm2 | hm2
          · exact Or.inl (List.mem_append_left _ hm2)
          · exact Or.inr hm2
        · exact Or.inl (List.mem_append_right _ hm)
      have hother : ∀ w2 : Nat, w2 ≠ evid → w2 < st.vars.length →
          getVar st' w2 = getVar st w2 := by
        intro w2 hne hlt
        rw [hgv, if_neg hne]
        exact getVar_append_lt st v hlt
      refine ⟨⟨?_, ?_, ?_, ?_, ?_, ?_⟩, hused⟩
      · intro i
        rw [hsc]
        exact hinv2.keyND i
      · intro i j e1 he1 e2 he2 hv12
        rw [hsc] at he1 he2
        exact hinv2.vidU i j e1 he1 e2 he2 hv12
      · intro vid s hsx
        rcases eq_or_ne vid evid with rfl | hne
        · rcases hsites s hsx with hm | hm
          · have := hinv2.siteLt vid s hm
            omega
          · exact (hvd s hm).2
        · rw [hgv, if_neg hne] at hsx
          rcases Nat.lt_or_ge vid st.vars.length with hlt | hge
          · rw [getVar_append_lt st v hlt] at hsx
            have := hinv2.siteLt vid s hsx
            omega
          · rcases Nat.eq_or_lt_of_le hge with rfl | hgt
            · rw [hv, hvr] at hsx
              simp only [List.append_nil] at hsx
              exact (hvd s hsx).2
            · have hge2 : ({ st with vars := st.vars ++ [v] } : St).vars.length ≤ vid := by
                simp only [List.length_append, List.length_cons, List.length_nil]
                omega
              rw [getVar_default _ hge2] at hsx
              cases hsx
      · intro u w hu2 hw2 hne s hsx
        obtain ⟨hu3, hul⟩ := hTV u hu2
        obtain ⟨hw3, hwl⟩ := hTV w hw2
        rcases eq_or_ne u evid with rfl | hneu
        · rcases eq_or_ne w u with rfl | hnew
          · exact absurd rfl hne
          · rw [hother w hnew hwl]
            rcases hsites s hsx with hm | hm
            · exact hinv2.siteDisj u w hu3 hw3 hne s hm
            · intro hc2
              have h1 := (hvd s hm).1
              have h2 := hinv2.siteLt w s hc2
              omega
        · rw [hother u hneu hul] at hsx
          rcases eq_or_ne w evid with rfl | hnew
          · intro hc2
            rcases hsites s hc2 with hm | hm
            · exact hinv2.siteDisj u w hu3 hw3 hne s hsx hm
            · have h1 := (hvd s hm).1
              have h2 := hinv2.siteLt u s hsx
              omega
          · rw [hother w hnew hwl]
            exact hinv2.siteDisj u w hu3 hw3 hne s hsx
      · intro vid
        rcases eq_or_ne vid evid with rfl | hne
        · rw [hgv, if_pos rfl]
          exact hinv2.refsNil vid
        · rw [hgv, if_neg hne]
          rcases Nat.lt_or_ge vid st.vars.length with hlt | hge
          · rw [getVar_append_lt st v hlt]
            exact hinv2.refsNil vid
          · rcases Nat.eq_or_lt_of_le hge with rfl | hgt
            · rw [hv]
              exact hvr
            · have hge2 : ({ st with vars := st.vars ++ [v] } : St).vars.length ≤ vid := by
                simp only [List.length_append, List.length_cons, List.length_nil]
                omega
              rw [getVar_default _ hge2]
              rfl
      · intro i e he hp
        rw [hsc] at he
        rw [hused]
        rcases hinv2.keyU i e he hp with h1 | h1
        · exact Or.inl h1
        · exact Or.inr (Or.inl h1)

/-- Appending a fresh site (at or beyond the current counter) to one
variable's declarations preserves the second invariant layer. -/
theorem DeclInv2_pushSite {B : St} {w site : Nat} {cnt cnt' : Nat}
    (hinv2 : DeclInv2 B cnt) (h1 : cnt ≤ site) (h2 : site < cnt') :
    DeclInv2 (setVar B w { getVar B w with
      declarations := (getVar B w).declarations ++ [site] }) cnt' := by
  have hsc : ∀ i, getScope (setVar B w { getVar B w with
      declarations := (getVar B w).declarations ++ [site] }) i = getScope B i :=
    fun i => getScope_scopes_eq (setVar_scopes _ _ _) i
  have hgv := getVar_setVar B w
    { getVar B w with declarations := (getVar B w).declarations ++ [site] }
  have hdec : ∀ z : Nat, ∀ s2, s2 ∈ (getVar (setVar B w { getVar B w with
      declarations := (getVar B w).declarations ++ [site] }) z).declarations ++
      (getVar (setVar B w { getVar B w with
      declarations := (getVar B w).declarations ++ [site] }) z).references →
      s2 ∈ (getVar B z).declarations ++ (getVar B z).references ∨ s2 = site := by
    intro z s2 hs2
    rw [hgv] at hs2
    split at hs2
    · rename_i hc
      simp only at hs2
      rcases List.mem_append.mp hs2 with hm | hm
      · rcases List.mem_append.mp hm with hm2 | hm2
        · rw [hc.1]
          exact Or.inl (List.mem_append_left _ hm2)
        · simp only [List.mem_singleton] at hm2
          exact Or.inr hm2
      · rw [hc.1]
        exact Or.inl (List.mem_append_right _ hm)
    · exact Or.inl hs2
  refine ⟨?_, ?_, ?_, ?_, ?_, ?_⟩
  · intro i
    rw [hsc]
    exact hinv2.keyND i
  · intro i j e1 he1 e2 he2 hv12
    rw [hsc] at he1 he2
    exact hinv2.vidU i j e1 he1 e2 he2 hv12
  · intro vid s hsx
    rcases hdec vid s hsx with hm | rfl
    · have := hinv2.siteLt vid s hm
      omega
    · exact h2
  · intro u w2 hu2 hw2 hne s hsx
    have htc : ∀ z : Nat, TableVid (setVar B w { getVar B w with
        declarations := (getVar B w).declarations ++ [site] }) z → TableVid B z := by
      intro z hz
      obtain ⟨i, e, he, hv2⟩ := hz
      rw [hsc] at he
      exact ⟨i, e, he, hv2⟩
    intro hc
    rcases hdec u s hsx with hmu | rfl
    · rcases hdec w2 s hc with hmw | rfl
      · exact hinv2.siteDisj u w2 (htc u hu2) (htc w2 hw2) hne s hmu hmw
      · have := hinv2.siteLt u s hmu
        omega
    · rcases hdec w2 s hc with hmw | heq
      · have := hinv2.siteLt w2 s hmw
        omega
      · -- both memberships are at the new site: then both variables are `w`
        have hwu : u = w := by
          by_contra hneu
          rcases hdec u s hsx with hmu2 | _
          · have := hinv2.siteLt u s hmu2
            omega
          · -- the new site only lives at `w`
            rw [hgv] at hsx
            rw [if_neg (fun hc2 => hneu hc2.1)] at hsx
            have := hinv2.siteLt u s hsx
            omega
        have hww : w2 = w := by
          by_contra hnew
          rw [hgv] at hc
          rw [if_neg (fun hc2 => hnew hc2.1)] at hc
          have := hinv2.siteLt w2 s hc
          omega
        rw [hwu, hww] at hne
        exact hne rfl
  · intro vid
    rw [hgv]
    split
    · exact hinv2.refsNil w
    · exact hinv2.refsNil vid
  · intro i e he hp
    rw [hsc] at he
    exact hinv2.keyU i e he hp

/-- `declareBinding` preserves the second invariant layer when the declared
site is fresh. -/
theorem declareBinding_coh2 {st : St} {sid : Nat} {kind nm : String} {site : Nat} {st' : St}
    (h : declareBinding st sid kind nm site = Except.ok st')
    (hP : ∀ i, i < st.scopes.length → ∀ p, (getScope st i).parent = some p → p < i)
    (hs : sid < st.scopes.length)
    (hinv : DeclInv st)
    {cnt cnt' : Nat} (hinv2 : DeclInv2 st cnt) (h1 : cnt ≤ site) (h2 : site < cnt') :
    DeclInv2 st' cnt' := by
  unfold declareBinding at h
  rcases hl : (getScope st (getDeclarationScope st sid kind)).table.lookup nm with _ | evid
  · simp only [hl, bind_ok_iff] at h
    obtain ⟨st2, h2x, h⟩ := h
    simp only [Except.ok.injEq] at h
    have h2y : addVariable { st with vars := st.vars ++ [(⟨nm, kind, [], []⟩ : Variable)] }
        sid st.vars.length = Except.ok st2 := h2x
    obtain ⟨hm2, hused2⟩ := addVariable_coh2 h2y hP hs hinv hinv2 (le_refl cnt)
      (fun s hs2 => absurd hs2 (List.not_mem_nil s)) rfl
    have hcl : DeclInv2 (addName st2 nm) cnt := DeclInv2m_close hm2
    rw [← h]
    exact DeclInv2_pushSite hcl h1 h2
  · simp only [hl] at h
    split at h
    · cases h
    · simp only [Except.ok.injEq] at h
      rw [← h]
      exact DeclInv2_pushSite hinv2 h1 h2

/-- The declarator loop preserves the second invariant layer. -/
theorem processBindings_coh2 {bs : List Binding} :
    ∀ {st : St} {sid : Nat} {kind : String} {i : Nat} {st' : St} {cnt cnt' : Nat},
    processBindings st sid kind bs i = Except.ok st' →
    (∀ j, j < st.scopes.length → ∀ p, (getScope st j).parent = some p → p < j) →
    sid < st.scopes.length →
    DeclInv st → DeclInv2 st cnt →
    cnt ≤ i → i + bs.length ≤ cnt' →
    DeclInv2 st' cnt' := by
  induction bs with
  | nil =>
    intro st sid kind i st' cnt cnt' h hP hsid hinv hinv2 hci hic
    cases h
    exact hinv2.cmono (by omega)
  | cons b bs ih =>
    intro st sid kind i st' cnt cnt' h hP hsid hinv hinv2 hci hic
    cases b with
    | pattern =>
      cases h
      exact hinv2.cmono (by simp only [List.length_cons] at hic; omega)
    | bid nm =>
      unfold processBindings at h
      rcases hd : declareBinding st sid kind nm i with _ | st1
      · rw [hd] at h
        cases h
      · rw [hd] at h
        rw [okBind] at h
        obtain ⟨hinv1, hslen1, hvlen1, htm1, hdm1, hkn1, hcov1⟩ :=
          declareBinding_coh hd hP hsid hinv
        have hsh1 := declareBinding_shape hd
        have hinv21 : DeclInv2 st1 (i + 1) :=
          declareBinding_coh2 hd hP hsid hinv hinv2 hci (by omega)
        simp only [List.length_cons] at hic
        exact ih h (parentLt_of_shape hsh1 hP) (by omega) hinv1 hinv21 (by omega) (by omega)

/-- The parameter loop preserves the second invariant layer. -/
theorem addParams_coh2 {ps : List Binding} :
    ∀ {st : St} {sid i : Nat} {st' : St} {cnt cnt' : Nat},
    addParams st sid ps i = Except.ok st' →
    (∀ j, j < st.scopes.length → ∀ p, (getScope st j).parent = some p → p < j) →
    sid < st.scopes.length →
    DeclInv st → DeclInv2 st cnt →
    cnt ≤ i → i + ps.length ≤ cnt' →
    DeclInv2 st' cnt' := by
  induction ps with
  | nil =>
    intro st sid i st' cnt cnt' h hP hsid hinv hinv2 hci hic
    cases h
    exact hinv2.cmono (by omega)
  | cons b ps ih =>
    intro st sid i st' cnt cnt' h hP hsid hinv hinv2 hci hic
    cases b with
    | pattern =>
      simp only [List.length_cons] at hic
      exact ih h hP hsid hinv hinv2 (by omega) (by omega)
    | bid nm =>
      unfold addParams at h
      rcases hadd : addVariable (allocVar st ⟨nm, "var", [i], []⟩).1 sid
          (allocVar st ⟨nm, "var", [i], []⟩).2 with _ | st2
      · rw [hadd] at h
        cases h
      · rw [hadd] at h
        rw [okBind] at h
        simp only [List.length_cons] at hic
        have hPA : ∀ j, j < (allocVar st ⟨nm, "var", [i], []⟩).1.scopes.length → ∀ p,
            (getScope (allocVar st ⟨nm, "var", [i], []⟩).1 j).parent = some p → p < j :=
          parentLt_of_shape (sameShape_of_scopes_eq rfl) hP
        have hvidA : (allocVar st ⟨nm, "var", [i], []⟩).2 <
            (allocVar st ⟨nm, "var", [i], []⟩).1.vars.length := by
          simp [allocVar]
        obtain ⟨hinvA, -, -, -, -, -, -⟩ :=
          addVariable_coh hadd hPA hsid hvidA (DeclInv_alloc _ hinv)
        have hadd2 : addVariable { st with vars := st.vars ++
            [(⟨nm, "var", [i], []⟩ : Variable)] } sid st.vars.length = Except.ok st2 := hadd
        obtain ⟨hm2, hused2⟩ := @addVariable_coh2 st sid ⟨nm, "var", [i], []⟩ st2 hadd2
          hP hsid hinv cnt (i + 1) hinv2 (by omega)
          (by
            intro s hs2
            simp only [List.mem_singleton] at hs2
            subst hs2
            exact ⟨hci, by omega⟩) rfl
        have hinv22 : DeclInv2 (addName st2 nm) (i + 1) := DeclInv2m_close hm2
        have hsh2 : SameShape st st2 :=
          (allocVar_shape st _).strans (addVariable_shape hadd)
        have hsh3 : SameShape st (addName st2 nm) :=
          hsh2.strans (addName_shape st2 nm)
        exact ih h (parentLt_of_shape hsh3 hP) (by rw [hsh3.len]; exact hsid)
          (DeclInv_congr (addName_scopes _ _) (addName_vars _ _) hinvA) hinv22
          (by omega) (by omega)

mutual

/-- The declaration walk maintains the second invariant layer: at entry the
counter bounds all recorded sites, at exit the advanced counter does. -/
theorem declsN_coh2 (n : Node) :
    ∀ (st : St) (cur nid : Nat) (out : St × Nat × Nat),
    declsN st cur nid n = Except.ok out → WalkInv st nid → cur < st.scopes.length →
    DeclInv st → DeclInv2 st nid →
    DeclInv2 out.1 (nid + sizeN n) := by
  cases n with
  | script body =>
    intro st cur nid out h hinv hcur hdinv hdinv2
    simp only [declsN, bind_ok_iff] at h
    obtain ⟨⟨st1, cur1, nid1⟩, hL, h⟩ := h
    simp only [Except.ok.injEq] at h
    subst h
    have hres := declsL_coh2 body st cur (nid + 1) (st1, cur1, nid1) hL
      (hinv.mono (by omega)) hcur hdinv (hdinv2.cmono (by omega))
    simp only at hres
    exact hres.cmono (by simp only [sizeN]; omega)
  | functionDeclaration nm params body =>
    intro st cur nid out h hinv hcur hdinv hdinv2
    simp only [declsN, allocVar, bind_ok_iff] at h
    obtain ⟨st2, h2, h⟩ := h
    obtain ⟨st5, h5, h⟩ := h
    obtain ⟨st7, h7, h⟩ := h
    obtain ⟨⟨st8, cur8, nid8⟩, h8, h⟩ := h
    simp only [Except.ok.injEq] at h
    subst h
    obtain ⟨hinv2, hslen2, hvlen2, htm2, hdm2, hkn2, -⟩ :=
      addVariable_coh h2 (parentLt_of_shape (sameShape_of_scopes_eq rfl) hinv.parentLt)
        hcur (by simp) (DeclInv_alloc _ hdinv)
    have hsh2 : SameShape st (addName st2 nm) :=
      ((allocVar_shape st ⟨nm, "var", [nid + 1], []⟩).strans (addVariable_shape h2)).strans
        (addName_shape st2 nm)
    have hdinv3 : DeclInv (addName st2 nm) :=
      DeclInv_congr (addName_scopes _ _) (addName_vars _ _) hinv2
    obtain ⟨hm2, -⟩ := @addVariable_coh2 st cur ⟨nm, "var", [nid + 1], []⟩ st2 h2
      hinv.parentLt hcur hdinv nid (nid + 2) hdinv2 (by omega)
      (by
        intro s hs2
        simp only [List.mem_singleton] at hs2
        subst hs2
        exact ⟨by omega, by omega⟩) rfl
    have hd4 : DeclInv2 (pushScope (addName st2 nm) nid ScopeType.Function cur) (nid + 2) :=
      DeclInv2_push _ _ _ (DeclInv2m_close hm2)
    have hw4 : WalkInv (pushScope (addName st2 nm) nid ScopeType.Function cur) (nid + 1) :=
      pushScope_inv _ (hinv.ofShape hsh2) (by rw [hsh2.len]; exact hcur)
    obtain ⟨hinv5, hslen5, hg5, hcov5⟩ :=
      addParams_coh h5 hw4.parentLt (by rw [pushScope_length]; omega)
        (DeclInv_push _ _ _ hdinv3)
    have hd5 : DeclInv2 st5 (nid + 2 + params.length) :=
      addParams_coh2 h5 hw4.parentLt (by rw [pushScope_length]; omega)
        (DeclInv_push _ _ _ hdinv3) hd4 (le_refl _) (by omega)
    have hsh5 : SameShape (pushScope (addName st2 nm) nid ScopeType.Function cur) st5 :=
      addParams_shape h5
    obtain ⟨hinv7, hslen7, hvlen7, htm7, hdm7, hkn7, -⟩ :=
      addVariable_coh h7
        (parentLt_of_shape (hsh5.strans (allocVar_shape st5 ⟨"arguments", "var", [], []⟩))
          hw4.parentLt)
        (by rw [(hsh5.strans (allocVar_shape st5 ⟨"arguments", "var", [], []⟩)).len,
              pushScope_length]; omega)
        (by simp) (DeclInv_alloc _ hinv5)
    obtain ⟨hm7, -⟩ := @addVariable_coh2 st5 ((addName st2 nm).scopes.length)
      ⟨"arguments", "var", [], []⟩ st7 h7 (parentLt_of_shape hsh5 hw4.parentLt)
      (by rw [hsh5.len, pushScope_length]; omega) hinv5
      (nid + 2 + params.length) (nid + 2 + params.length) hd5 (le_refl _)
      (fun s hs2 => absurd hs2 (List.not_mem_nil s)) rfl
    have hd7 : DeclInv2 st7 (nid + 2 + params.length) := DeclInv2m_close_arguments hm7
    have hsh7 : SameShape (pushScope (addName st2 nm) nid ScopeType.Function cur) st7 :=
      hsh5.strans ((allocVar_shape st5 ⟨"arguments", "var", [], []⟩).strans
        (addVariable_shape h7))
    obtain ⟨hwc, hlenc⟩ := creating_setup hinv hcur hsh2 hsh7
    have hcurc : (addName st2 nm).scopes.length = st.scopes.length := hsh2.len
    rw [hcurc] at h8
    have hresF := declsL_coh2 body st7 st.scopes.length (nid + 2 + params.length)
      (st8, cur8, nid8) h8 (hwc.mono (by omega)) hlenc hinv7 hd7
    simp only at hresF
    exact hresF.cmono (by simp only [sizeN]; omega)
  | functionExpression onm params body =>
    intro st cur nid out h hinv hcur hdinv hdinv2
    cases onm with
    | none =>
      simp only [declsN, allocVar, bind_ok_iff, Option.isSome_none, Bool.false_eq_true,
        if_false, pure, Except.pure] at h
      obtain ⟨st3, h3, h⟩ := h
      obtain ⟨st4, h4, h⟩ := h
      obtain ⟨st6, h6, h⟩ := h
      obtain ⟨⟨st7, cur7, nid7⟩, h7, h⟩ := h
      simp only [Except.ok.injEq] at h h3
      subst h
      subst h3
      have hw1 : WalkInv (pushScope st nid ScopeType.Function cur) (nid + 1) :=
        pushScope_inv _ hinv hcur
      obtain ⟨hinv4, hslen4, hg4, hcov4⟩ :=
        addParams_coh h4 hw1.parentLt (by rw [pushScope_length]; omega)
          (DeclInv_push _ _ _ hdinv)
      have hd4 : DeclInv2 st4 (nid + 1 + 0 + params.length) :=
        addParams_coh2 h4 hw1.parentLt (by rw [pushScope_length]; omega)
          (DeclInv_push _ _ _ hdinv) (DeclInv2_push _ _ _ hdinv2) (by omega) (le_refl _)
      have hsh4 : SameShape (pushScope st nid ScopeType.Function cur) st4 :=
        addParams_shape h4
      obtain ⟨hinv6, hslen6, hvlen6, htm6, hdm6, hkn6, -⟩ :=
        addVariable_coh h6
          (parentLt_of_shape (hsh4.strans (allocVar_shape st4 ⟨"arguments", "var", [], []⟩))
            hw1.parentLt)
          (by rw [(hsh4.strans (allocVar_shape st4 ⟨"arguments", "var", [], []⟩)).len,
                pushScope_length]; omega)
          (by simp) (DeclInv_alloc _ hinv4)
      obtain ⟨hm6, -⟩ := @addVariable_coh2 st4 st.scopes.length
        ⟨"arguments", "var", [], []⟩ st6 h6 (parentLt_of_shape hsh4 hw1.parentLt)
        (by rw [hsh4.len, pushScope_length]; omega) hinv4
        (nid + 1 + 0 + params.length) (nid + 1 + 0 + params.length) hd4 (le_refl _)
        (fun s hs2 => absurd hs2 (List.not_mem_nil s)) rfl
      have hd6 : DeclInv2 st6 (nid + 1 + 0 + params.length) := DeclInv2m_close_arguments hm6
      have hsh6 : SameShape (pushScope st nid ScopeType.Function cur) st6 :=
        (hsh4.strans (allocVar_shape st4 ⟨"arguments", "var", [], []⟩)).strans
          (addVariable_shape h6)
      obtain ⟨hwc, hlenc⟩ := creating_setup hinv hcur (SameShape.srefl st) hsh6
      have hresF := declsL_coh2 body st6 st.scopes.length (nid + 1 + 0 + params.length)
        (st7, cur7, nid7) (by simpa using h7) (hwc.mono (by omega)) hlenc hinv6 hd6
      simp only at hresF
      exact hresF.cmono (by
        simp only [sizeN, Option.isSome_none, Bool.false_eq_true, if_false]
        omega)
    | some nm =>
      simp only [declsN, allocVar, bind_ok_iff, Option.isSome_some, if_true, pure,
        Except.pure] at h
      obtain ⟨stb, hb, h⟩ := h
      obtain ⟨st3, h3, h⟩ := h
      obtain ⟨st4, h4, h⟩ := h
      obtain ⟨st6, h6, h⟩ := h
      obtain ⟨⟨st7, cur7, nid7⟩, h7, h⟩ := h
      simp only [Except.ok.injEq] at h h3
      subst h
      subst h3
      have hw1 : WalkInv (pushScope st nid ScopeType.Function cur) (nid + 1) :=
        pushScope_inv _ hinv hcur
      obtain ⟨hinvb, hslenb, hvlenb, htmb, hdmb, hknb, -⟩ :=
        addVariable_coh hb (parentLt_of_shape (sameShape_of_scopes_eq rfl) hw1.parentLt)
          (by rw [pushScope_length]; omega) (by simp)
          (DeclInv_alloc _ (DeclInv_push _ _ _ hdinv))
      have hshb : SameShape (pushScope st nid ScopeType.Function cur) (addName stb nm) :=
        ((allocVar_shape (pushScope st nid ScopeType.Function cur)
            ⟨nm, "var", [nid + 1], []⟩).strans (addVariable_shape hb)).strans
          (addName_shape stb nm)
      have hdinvb : DeclInv (addName stb nm) :=
        DeclInv_congr (addName_scopes _ _) (addName_vars _ _) hinvb
      obtain ⟨hmb, -⟩ := @addVariable_coh2 (pushScope st nid ScopeType.Function cur)
        st.scopes.length ⟨nm, "var", [nid + 1], []⟩ stb hb hw1.parentLt
        (by rw [pushScope_length]; omega) (DeclInv_push _ _ _ hdinv) nid (nid + 1 + 1)
        (DeclInv2_push _ _ _ hdinv2) (by omega)
        (by
          intro s hs2
          simp only [List.mem_singleton] at hs2
          subst hs2
          exact ⟨by omega, by omega⟩) rfl
      have hdb : DeclInv2 (addName stb nm) (nid + 1 + 1) := DeclInv2m_close hmb
      obtain ⟨hinv4, hslen4, hg4, hcov4⟩ :=
        addParams_coh h4 (parentLt_of_shape hshb hw1.parentLt)
          (by rw [hshb.len, pushScope_length]; omega) hdinvb
      have hd4 : DeclInv2 st4 (nid + 1 + 1 + params.length) :=
        addParams_coh2 h4 (parentLt_of_shape hshb hw1.parentLt)
          (by rw [hshb.len, pushScope_length]; omega) hdinvb hdb (by omega) (by omega)
      have hsh4 : SameShape (pushScope st nid ScopeType.Function cur) st4 :=
        hshb.strans (addParams_shape h4)
      obtain ⟨hinv6, hslen6, hvlen6, htm6, hdm6, hkn6, -⟩ :=
        addVariable_coh h6
          (parentLt_of_shape (hsh4.strans (allocVar_shape st4 ⟨"arguments", "var", [], []⟩))
            hw1.parentLt)
          (by rw [(hsh4.strans (allocVar_shape st4 ⟨"arguments", "var", [], []⟩)).len,
                pushScope_length]; omega)
          (by simp) (DeclInv_alloc _ hinv4)
      obtain ⟨hm6, -⟩ := @addVariable_coh2 st4 st.scopes.length
        ⟨"arguments", "var", [], []⟩ st6 h6 (parentLt_of_shape hsh4 hw1.parentLt)
        (by rw [hsh4.len, pushScope_length]; omega) hinv4
        (nid + 1 + 1 + params.length) (nid + 1 + 1 + params.length) hd4 (le_refl _)
        (fun s hs2 => absurd hs2 (List.not_mem_nil s)) rfl
      have hd6 : DeclInv2 st6 (nid + 1 + 1 + params.length) := DeclInv2m_close_arguments hm6
      have hsh6 : SameShape (pushScope st nid ScopeType.Function cur) st6 :=
        (hsh4.strans (allocVar_shape st4 ⟨"arguments", "var", [], []⟩)).strans
          (addVariable_shape h6)
      obtain ⟨hwc, hlenc⟩ := creating_setup hinv hcur (SameShape.srefl st) hsh6
      have hresF := declsL_coh2 body st6 st.scopes.length (nid + 1 + 1 + params.length)
        (st7, cur7, nid7) (by simpa using h7) (hwc.mono (by omega)) hlenc hinv6 hd6
      simp only at hresF
      exact hresF.cmono (by simp only [sizeN, Option.isSome_some, if_true]; omega)
  | arrowExpression params body =>
    intro st cur nid out h hinv hcur hdinv hdinv2
    simp only [declsN, bind_ok_iff] at h
    obtain ⟨st2, h2, h⟩ := h
    obtain ⟨⟨st3, cur3, nid3⟩, h3, h⟩ := h
    simp only [Except.ok.injEq] at h
    subst h
    have hw1 : WalkInv (pushScope st nid ScopeType.Function cur) (nid + 1) :=
      pushScope_inv _ hinv hcur
    obtain ⟨hinv2, hslen2, hg2, hcov2⟩ :=
      addParams_coh h2 hw1.parentLt (by rw [pushScope_length]; omega)
        (DeclInv_push _ _ _ hdinv)
    have hd2 : DeclInv2 st2 (nid + 1 + params.length) :=
      addParams_coh2 h2 hw1.parentLt (by rw [pushScope_length]; omega)
        (DeclInv_push _ _ _ hdinv) (DeclInv2_push _ _ _ hdinv2) (by omega) (le_refl _)
    have hsh2 : SameShape (pushScope st nid ScopeType.Function cur) st2 := addParams_shape h2
    obtain ⟨hwc, hlenc⟩ := creating_setup hinv hcur (SameShape.srefl st) hsh2
    have hresF := declsL_coh2 body st2 st.scopes.length (nid + 1 + params.length)
      (st3, cur3, nid3) h3 (hwc.mono (by omega)) hlenc hinv2 hd2
    simp only at hresF
    exact hresF.cmono (by simp only [sizeN]; omega)
  | catchClause ob body =>
    intro st cur nid out h hinv hcur hdinv hdinv2
    have hmain2 : ∀ (stPre : St), SameShape st stPre → DeclInv stPre →
        ∀ (bstart : Nat), nid + 1 ≤ bstart → DeclInv2 stPre bstart →
        ∀ (st3 : St) (cur3 nid3 : Nat),
        declsL (pushScope stPre nid ScopeType.Other cur) stPre.scopes.length bstart body =
          Except.ok (st3, cur3, nid3) →
        (st3, leaveScope st3 cur3 nid, nid3) = out →
        DeclInv2 out.1 (bstart + sizeL body) := by
      intro stPre hpre hdpre bstart hb hd2 st3 cur3 nid3 h3 hout
      subst hout
      obtain ⟨hwc0, hlenc⟩ := creating_setup hinv hcur hpre (SameShape.srefl _)
      rw [hpre.len] at h3
      have hres := declsL_coh2 body (pushScope stPre nid ScopeType.Other cur)
        st.scopes.length bstart (st3, cur3, nid3) h3 (hwc0.mono hb) hlenc
        (DeclInv_push _ _ _ hdpre) (DeclInv2_push _ _ _ hd2)
      exact hres
    cases ob with
    | none =>
      simp only [declsN, pure, Except.pure, okBind, bind_ok_iff] at h
      obtain ⟨⟨st3, cur3, nid3⟩, h3, hout⟩ := h
      simp only [Except.ok.injEq] at hout
      have hm := hmain2 st (SameShape.srefl st) hdinv _ (by omega)
        (hdinv2.cmono (by omega)) st3 cur3 nid3 h3 hout
      exact hm.cmono (by
        simp only [sizeN, Option.isSome_none, Bool.false_eq_true, if_false]
        omega)
    | some b =>
      cases b with
      | pattern =>
        simp only [declsN, pure, Except.pure, okBind, bind_ok_iff] at h
        obtain ⟨⟨st3, cur3, nid3⟩, h3, hout⟩ := h
        simp only [Except.ok.injEq] at hout
        have hm := hmain2 st (SameShape.srefl st) hdinv _ (by omega)
          (hdinv2.cmono (by omega)) st3 cur3 nid3 h3 hout
        exact hm.cmono (by simp only [sizeN, Option.isSome_some, if_true]; omega)
      | bid nm =>
        simp only [declsN, allocVar, bind_ok_iff, pure, Except.pure] at h
        obtain ⟨stb, hb, h⟩ := h
        obtain ⟨stc, hc, h⟩ := h
        simp only [Except.ok.injEq] at hc
        subst hc
        obtain ⟨⟨st3, cur3, nid3⟩, h3, hout⟩ := h
        simp only [Except.ok.injEq] at hout
        obtain ⟨hinvb, hslenb, hvlenb, htmb, hdmb, hknb, -⟩ :=
          addVariable_coh hb (parentLt_of_shape (sameShape_of_scopes_eq rfl) hinv.parentLt)
            hcur (by simp) (DeclInv_alloc _ hdinv)
        have hshb : SameShape st (addName stb nm) :=
          ((allocVar_shape st ⟨nm, "let", [nid + 1], []⟩).strans
            (addVariable_shape hb)).strans (addName_shape stb nm)
        have hdinvb : DeclInv (addName stb nm) :=
          DeclInv_congr (addName_scopes _ _) (addName_vars _ _) hinvb
        obtain ⟨hmb, -⟩ := @addVariable_coh2 st cur ⟨nm, "let", [nid + 1], []⟩ stb hb
          hinv.parentLt hcur hdinv nid (nid + 1 + 1) hdinv2 (by omega)
          (by
            intro s hs2
            simp only [List.mem_singleton] at hs2
            subst hs2
            exact ⟨by omega, by omega⟩) rfl
        have hdb : DeclInv2 (addName stb nm) (nid + 1 + 1) := DeclInv2m_close hmb
        have hm := hmain2 (addName stb nm) hshb hdinvb _ (by omega) hdb
          st3 cur3 nid3 h3 hout
        exact hm.cmono (by simp only [sizeN, Option.isSome_some, if_true]; omega)
  | forStatement body =>
    intro st cur nid out h hinv hcur hdinv hdinv2
    simp only [declsN, bind_ok_iff] at h
    obtain ⟨⟨st2, cur2, nid2⟩, h2, h⟩ := h
    simp only [Except.ok.injEq] at h
    subst h
    obtain ⟨hwc, hlenc⟩ :=
      creating_setup hinv hcur (SameShape.srefl st) (SameShape.srefl _)
    have hres := declsL_coh2 body (pushScope st nid ScopeType.Other cur) st.scopes.length
      (nid + 1) (st2, cur2, nid2) h2 hwc hlenc (DeclInv_push _ _ _ hdinv)
      (DeclInv2_push _ _ _ (hdinv2.cmono (by omega)))
    simp only at hres
    exact hres.cmono (by simp only [sizeN]; omega)
  | blockStatement body =>
    intro st cur nid out h hinv hcur hdinv hdinv2
    simp only [declsN, bind_ok_iff] at h
    obtain ⟨⟨st2, cur2, nid2⟩, h2, h⟩ := h
    simp only [Except.ok.injEq] at h
    subst h
    obtain ⟨hwc, hlenc⟩ :=
      creating_setup hinv hcur (SameShape.srefl st) (SameShape.srefl _)
    have hres := declsL_coh2 body (pushScope st nid ScopeType.Other cur) st.scopes.length
      (nid + 1) (st2, cur2, nid2) h2 hwc hlenc (DeclInv_push _ _ _ hdinv)
      (DeclInv2_push _ _ _ (hdinv2.cmono (by omega)))
    simp only at hres
    exact hres.cmono (by simp only [sizeN]; omega)
  | variableDeclaration kind bindings inits =>
    intro st cur nid out h hinv hcur hdinv hdinv2
    simp only [declsN, bind_ok_iff] at h
    obtain ⟨st1, h1, h⟩ := h
    obtain ⟨⟨st2, cur2, nid2⟩, h2, h⟩ := h
    simp only [Except.ok.injEq] at h
    subst h
    obtain ⟨hinv1, hslen1, hg1, hcov1⟩ :=
      processBindings_coh h1 hinv.parentLt hcur hdinv
    have hsh1 : SameShape st st1 := processBindings_shape h1
    have hd1 : DeclInv2 st1 (nid + 1 + bindings.length) :=
      processBindings_coh2 h1 hinv.parentLt hcur hdinv hdinv2 (by omega) (by omega)
    have hres := declsL_coh2 inits st1 cur (nid + 1 + bindings.length) (st2, cur2, nid2) h2
      ((hinv.ofShape hsh1).mono (by omega)) (by rw [hsh1.len]; exact hcur) hinv1 hd1
    simp only at hres
    exact hres.cmono (by simp only [sizeN]; omega)
  | identifierExpression nm =>
    intro st cur nid out h hinv hcur hdinv hdinv2
    simp only [declsN, Except.ok.injEq] at h
    subst h
    exact hdinv2.cmono (by simp only [sizeN]; omega)
  | other children =>
    intro st cur nid out h hinv hcur hdinv hdinv2
    simp only [declsN, bind_ok_iff] at h
    obtain ⟨⟨st1, cur1, nid1⟩, hL, h⟩ := h
    simp only [Except.ok.injEq] at h
    subst h
    have hres := declsL_coh2 children st cur (nid + 1) (st1, cur1, nid1) hL
      (hinv.mono (by omega)) hcur hdinv (hdinv2.cmono (by omega))
    simp only at hres
    exact hres.cmono (by simp only [sizeN]; omega)
termination_by 2 * sizeN n
decreasing_by all_goals (simp only [sizeN, sizeL]; omega)

theorem declsL_coh2 (ns : List Node) :
    ∀ (st : St) (cur nid : Nat) (out : St × Nat × Nat),
    declsL st cur nid ns = Except.ok out → WalkInv st nid → cur < st.scopes.length →
    DeclInv st → DeclInv2 st nid →
    DeclInv2 out.1 (nid + sizeL ns) := by
  cases ns with
  | nil =>
    intro st cur nid out h hinv hcur hdinv hdinv2
    simp only [declsL, Except.ok.injEq] at h
    subst h
    exact hdinv2.cmono (by simp only [sizeL]; omega)
  | cons n ns =>
    intro st cur nid out h hinv hcur hdinv hdinv2
    simp only [declsL, bind_ok_iff] at h
    obtain ⟨⟨st1, cur1, nid1⟩, h1, h2⟩ := h
    obtain ⟨hc1, hn1, hw1, hx1⟩ := declsN_spec n st cur nid (st1, cur1, nid1) h1 hinv hcur
    simp only at hc1 hn1 hw1 hx1
    obtain ⟨hinv1, hg1, hcov1⟩ := declsN_coh n st cur nid (st1, cur1, nid1) h1 hinv hcur hdinv
    simp only at hinv1 hg1 hcov1
    have hd1 := declsN_coh2 n st cur nid (st1, cur1, nid1) h1 hinv hcur hdinv hdinv2
    simp only at hd1
    rw [hc1, hn1] at h2
    rw [hn1] at hw1
    have hres := declsL_coh2 ns st1 cur (nid + sizeN n) out h2 hw1
      (Nat.lt_of_lt_of_le hcur hx1.len) hinv1 hd1
    exact hres.cmono (by simp only [sizeL]; omega)
termination_by 2 * sizeL ns + 1
decreasing_by
  all_goals simp only [sizeN, sizeL]
  all_goals (try omega)
  all_goals (have hsz := sizeN_pos head; omega)

end

/-! ### Precise accounting of the renaming phase -/

theorem generateNames_nodup (used : List String) : (generateNames used).Nodup :=
  List.Pairwise.imp (fun h => h.1) (generateNames_pairwise used)

theorem generateNames_short (used : List String) :
    ∀ nm ∈ generateNames used, nm.length ≤ 3 := by
  intro nm hm
  unfold generateNames names1 names2 names3 at hm
  rcases List.mem_append.mp hm with hm | hm3
  · rcases List.mem_append.mp hm with hm1 | hm2
    · have := mem_base1_length (List.mem_of_mem_filter hm1)
      omega
    · have := mem_base2_length (List.mem_of_mem_filter hm2)
      omega
  · have := mem_base3_length (List.mem_of_mem_filter hm3)
    omega

theorem arguments_not_pool (used : List String) : "arguments" ∉ generateNames used := by
  intro hm
  have hlen := generateNames_short used _ hm
  have h9 : ("arguments" : String).length = 9 := rfl
  omega

theorem nodup_keys_eq {T : List (String × Nat)} (hnd : (T.map Prod.fst).Nodup)
    {e1 e2 : String × Nat} (h1 : e1 ∈ T) (h2 : e2 ∈ T) (heq : e1.1 = e2.1) : e1 = e2 := by
  induction T with
  | nil => cases h1
  | cons a T ih =>
    simp only [List.map_cons, List.nodup_cons] at hnd
    rcases List.mem_cons.mp h1 with rfl | h1m
    · rcases List.mem_cons.mp h2 with rfl | h2m
      · rfl
      · exfalso
        apply hnd.1
        rw [heq]
        exact List.mem_map_of_mem Prod.fst h2m
    · rcases List.mem_cons.mp h2 with rfl | h2m
      · exfalso
        apply hnd.1
        rw [← heq]
        exact List.mem_map_of_mem Prod.fst h1m
      · exact ih hnd.2 h1m h2m

/-- Step facts of the renaming phase used for name accounting: the pool only
shrinks, any freshly written variable name was drawn from the old pool, and
the heap size is stable. -/
structure RStep (r r' : RSt) : Prop where
  pools : ∀ nm ∈ r'.variableNames, nm ∈ r.variableNames
  newname : ∀ vid : Nat, (r'.vars[vid]?.getD dummyVariable).name ≠
      (r.vars[vid]?.getD dummyVariable).name →
    (r'.vars[vid]?.getD dummyVariable).name ∈ r.variableNames
  vlen : r'.vars.length = r.vars.length

theorem RStep.rsrefl (r : RSt) : RStep r r :=
  ⟨fun _ h => h, fun _ hne => absurd rfl hne, rfl⟩

theorem RStep.rscomp {r r1 r' : RSt} (h : RStep r r1) (h' : RStep r1 r') : RStep r r' := by
  refine ⟨fun nm hm => h.pools nm (h'.pools nm hm), ?_, h'.vlen.trans h.vlen⟩
  intro vid hne
  rcases eq_or_ne ((r'.vars[vid]?.getD dummyVariable).name)
      ((r1.vars[vid]?.getD dummyVariable).name) with heq | hne1
  · rw [heq]
    exact h.newname vid (by rw [← heq]; exact hne)
  · exact h.pools _ (h'.newname vid hne1)

theorem renameEntry_rstep {r r' : RSt} {e : String × Nat}
    (h : renameEntry r e = Except.ok r') : RStep r r' := by
  unfold renameEntry at h
  split at h
  · rcases hpool : r.variableNames with _ | ⟨n, rest⟩
    · rw [hpool] at h
      cases h
    · rw [hpool] at h
      simp only [getVariableName, okBind, Except.ok.injEq] at h
      subst h
      refine ⟨?_, ?_, by simp⟩
      · intro nm hm
        rw [hpool]
        exact List.mem_cons_of_mem _ hm
      · intro vid hne
        simp only [getD_set] at hne ⊢
        by_cases hc : vid = e.2 ∧ e.2 < r.vars.length
        · rw [if_pos hc]
          rw [hpool]
          exact List.mem_cons_self _ _
        · rw [if_neg hc] at hne
          exact absurd rfl hne
  · simp only [Except.ok.injEq] at h
    subst h
    exact RStep.rsrefl r

theorem renameTable_rstep : ∀ {es : List (String × Nat)} {r r' : RSt},
    renameTable r es = Except.ok r' → RStep r r' := by
  intro es
  induction es with
  | nil =>
    intro r r' h
    simp only [renameTable, Except.ok.injEq] at h
    subst h
    exact RStep.rsrefl r
  | cons e es ih =>
    intro r r' h
    simp only [renameTable, bind_ok_iff] at h
    obtain ⟨r1, h1, h2⟩ := h
    exact (renameEntry_rstep h1).rscomp (ih h2)

theorem renameScope_rstep (scopes : List ScopeData) :
    ∀ (fuel sid : Nat) (r r' : RSt),
    renameScope scopes fuel sid r = Except.ok r' → RStep r r' := by
  intro fuel
  induction fuel with
  | zero =>
    intro sid r r' h
    simp only [renameScope, Except.ok.injEq] at h
    subst h
    exact RStep.rsrefl r
  | succ fuel ih =>
    intro sid r r' h
    have hfold : ∀ (cs : List Nat) (r1 r2 : RSt),
        List.foldlM (fun acc c => renameScope scopes fuel c acc) r1 cs = Except.ok r2 →
        RStep r1 r2 := by
      intro cs
      induction cs with
      | nil =>
        intro r1 r2 hf
        simp only [List.foldlM_nil, pure, Except.pure, Except.ok.injEq] at hf
        subst hf
        exact RStep.rsrefl r1
      | cons c cs ihc =>
        intro r1 r2 hf
        rw [List.foldlM_cons, bind_ok_iff] at hf
        obtain ⟨racc, hacc, hrest⟩ := hf
        exact (ih c r1 racc hacc).rscomp (ihc racc r2 hrest)
    unfold renameScope at h
    rw [bind_ok_iff] at h
    obtain ⟨r1, h1, h2⟩ := h
    exact (renameTable_rstep h1).rscomp (hfold _ r1 r' h2)

theorem foldlM_rstep (scopes : List ScopeData) (fuel : Nat) :
    ∀ (cs : List Nat) (r1 r2 : RSt),
    List.foldlM (fun acc c => renameScope scopes fuel c acc) r1 cs = Except.ok r2 →
    RStep r1 r2 := by
  intro cs
  induction cs with
  | nil =>
    intro r1 r2 hf
    simp only [List.foldlM_nil, pure, Except.pure, Except.ok.injEq] at hf
    subst hf
    exact RStep.rsrefl r1
  | cons c cs ihc =>
    intro r1 r2 hf
    rw [List.foldlM_cons, bind_ok_iff] at hf
    obtain ⟨racc, hacc, hrest⟩ := hf
    exact (renameScope_rstep scopes fuel c r1 racc hacc).rscomp (ihc racc r2 hrest)

theorem foldlM_member_rstep (scopes : List ScopeData) (fuel : Nat) :
    ∀ (cs : List Nat) (r1 r2 : RSt),
    List.foldlM (fun acc c => renameScope scopes fuel c acc) r1 cs = Except.ok r2 →
    ∀ c ∈ cs, ∃ rin rout, renameScope scopes fuel c rin = Except.ok rout ∧
      RStep r1 rin ∧ RStep rout r2 := by
  intro cs
  induction cs with
  | nil =>
    intro r1 r2 hf c hc
    cases hc
  | cons c0 cs ihc =>
    intro r1 r2 hf c hc
    rw [List.foldlM_cons, bind_ok_iff] at hf
    obtain ⟨racc, hacc, hrest⟩ := hf
    rcases List.mem_cons.mp hc with rfl | hc
    · exact ⟨r1, racc, hacc, RStep.rsrefl r1, foldlM_rstep scopes fuel cs racc r2 hrest⟩
    · obtain ⟨rin, rout, hok, s1, s2⟩ := ihc racc r2 hrest c hc
      exact ⟨rin, rout, hok, (renameScope_rstep scopes fuel c0 r1 racc hacc).rscomp s1, s2⟩

/-- Draw-accounting invariant of the renaming phase relative to the initial
heap `Bv` and full pool `pool`: the remaining pool is duplicate-free and
drawn from the full pool, every renamed variable carries a pool name no
longer available, and renamed variables carry pairwise distinct names. -/
structure RenD (Bv : List Variable) (pool : List String) (r : RSt) : Prop where
  nd : r.variableNames.Nodup
  sub : ∀ nm ∈ r.variableNames, nm ∈ pool
  chpool : ∀ vid : Nat, (r.vars[vid]?.getD dummyVariable).name ≠
      (Bv[vid]?.getD dummyVariable).name →
    (r.vars[vid]?.getD dummyVariable).name ∈ pool ∧
    (r.vars[vid]?.getD dummyVariable).name ∉ r.variableNames
  dist : ∀ u w : Nat, u ≠ w →
    (r.vars[u]?.getD dummyVariable).name ≠ (Bv[u]?.getD dummyVariable).name →
    (r.vars[w]?.getD dummyVariable).name ≠ (Bv[w]?.getD dummyVariable).name →
    (r.vars[u]?.getD dummyVariable).name ≠ (r.vars[w]?.getD dummyVariable).name

theorem renameEntry_renD {Bv : List Variable} {pool : List String} {r r' : RSt}
    {e : String × Nat} (h : renameEntry r e = Except.ok r')
    (hd : RenD Bv pool r) : RenD Bv pool r' := by
  unfold renameEntry at h
  split at h
  · rcases hpool : r.variableNames with _ | ⟨n, rest⟩
    · rw [hpool] at h
      cases h
    · rw [hpool] at h
      simp only [getVariableName, okBind, Except.ok.injEq] at h
      subst h
      have hnd := hd.nd
      rw [hpool] at hnd
      simp only [List.nodup_cons] at hnd
      have hn_mem : n ∈ r.variableNames := by
        rw [hpool]
        exact List.mem_cons_self _ _
      have hrest_sub : ∀ x ∈ rest, x ∈ r.variableNames := by
        intro x hx
        rw [hpool]
        exact List.mem_cons_of_mem _ hx
      refine ⟨hnd.2, fun nm hm => hd.sub nm (hrest_sub nm hm), ?_, ?_⟩
      · intro vid hne
        simp only [getD_set] at hne ⊢
        by_cases hc : vid = e.2 ∧ e.2 < r.vars.length
        · rw [if_pos hc] at hne ⊢
          exact ⟨hd.sub n hn_mem, hnd.1⟩
        · rw [if_neg hc] at hne ⊢
          obtain ⟨hp1, hp2⟩ := hd.chpool vid hne
          exact ⟨hp1, fun hx => hp2 (hrest_sub _ hx)⟩
      · intro u w hne hu hw
        simp only [getD_set] at hu hw ⊢
        by_cases hcu : u = e.2 ∧ e.2 < r.vars.length
        · by_cases hcw : w = e.2 ∧ e.2 < r.vars.length
          · exact absurd (hcu.1.trans hcw.1.symm) hne
          · rw [if_pos hcu]
            rw [if_neg hcw] at hw ⊢
            obtain ⟨-, hp2⟩ := hd.chpool w hw
            intro hcontra
            exact hp2 (by rw [← hcontra]; exact hn_mem)
        · by_cases hcw : w = e.2 ∧ e.2 < r.vars.length
          · rw [if_neg hcu] at hu ⊢
            rw [if_pos hcw]
            obtain ⟨-, hp2⟩ := hd.chpool u hu
            intro hcontra
            exact hp2 (by rw [hcontra]; exact hn_mem)
          · rw [if_neg hcu] at hu ⊢
            rw [if_neg hcw] at hw
            rw [if_neg hcw]
            exact hd.dist u w hne hu hw
  · simp only [Except.ok.injEq] at h
    subst h
    exact hd

theorem renameTable_renD {Bv : List Variable} {pool : List String} :
    ∀ {es : List (String × Nat)} {r r' : RSt},
    renameTable r es = Except.ok r' → RenD Bv pool r → RenD Bv pool r' := by
  intro es
  induction es with
  | nil =>
    intro r r' h hd
    simp only [renameTable, Except.ok.injEq] at h
    subst h
    exact hd
  | cons e es ih =>
    intro r r' h hd
    simp only [renameTable, bind_ok_iff] at h
    obtain ⟨r1, h1, h2⟩ := h
    exact ih h2 (renameEntry_renD h1 hd)

theorem renameScope_renD {Bv : List Variable} {pool : List String}
    (scopes : List ScopeData) :
    ∀ (fuel sid : Nat) (r r' : RSt),
    renameScope scopes fuel sid r = Except.ok r' → RenD Bv pool r → RenD Bv pool r' := by
  intro fuel
  induction fuel with
  | zero =>
    intro sid r r' h hd
    simp only [renameScope, Except.ok.injEq] at h
    subst h
    exact hd
  | succ fuel ih =>
    intro sid r r' h hd
    have hfold : ∀ (cs : List Nat) (r1 r2 : RSt),
        List.foldlM (fun acc c => renameScope scopes fuel c acc) r1 cs = Except.ok r2 →
        RenD Bv pool r1 → RenD Bv pool r2 := by
      intro cs
      induction cs with
      | nil =>
        intro r1 r2 hf hd1
        simp only [List.foldlM_nil, pure, Except.pure, Except.ok.injEq] at hf
        subst hf
        exact hd1
      | cons c cs ihc =>
        intro r1 r2 hf hd1
        rw [List.foldlM_cons, bind_ok_iff] at hf
        obtain ⟨racc, hacc, hrest⟩ := hf
        exact ihc racc r2 hrest (ih c r1 racc hacc hd1)
    unfold renameScope at h
    rw [bind_ok_iff] at h
    obtain ⟨r1, h1, h2⟩ := h
    exact hfold _ r1 r' h2 (renameTable_renD h1 hd)

/-- An eligible entry of the processed table ends up carrying a name drawn
from the pool the call started with. -/
theorem renameTable_hits : ∀ {es : List (String × Nat)} {r r' : RSt},
    renameTable r es = Except.ok r' →
    ∀ e ∈ es, shouldRename e.1 = true → e.2 < r.vars.length →
    (r'.vars[e.2]?.getD dummyVariable).name ∈ r.variableNames := by
  intro es
  induction es with
  | nil =>
    intro r r' h e he
    cases he
  | cons e0 es ih =>
    intro r r' h e he hpred hlt
    simp only [renameTable, bind_ok_iff] at h
    obtain ⟨r1, h1, h2⟩ := h
    have hs1 := renameEntry_rstep h1
    rcases List.mem_cons.mp he with rfl | hmem
    · -- the entry is processed right now
      unfold renameEntry at h1
      rw [hpred] at h1
      simp only [if_true] at h1
      rcases hpool : r.variableNames with _ | ⟨n, rest⟩
      · rw [hpool] at h1
        cases h1
      · rw [hpool] at h1
        simp only [getVariableName, okBind, Except.ok.injEq] at h1
        have hmid : (r1.vars[e.2]?.getD dummyVariable).name = n := by
          rw [← h1, getD_set, if_pos ⟨rfl, hlt⟩]
        have hs2 := renameTable_rstep h2
        rcases eq_or_ne ((r'.vars[e.2]?.getD dummyVariable).name)
            ((r1.vars[e.2]?.getD dummyVariable).name) with heq | hne
        · rw [heq, hmid]
          exact List.mem_cons_self _ _
        · have := hs2.newname e.2 hne
          have hp1 : ∀ nm ∈ r1.variableNames, nm ∈ n :: rest := by
            intro nm hm
            rw [← h1] at hm
            exact List.mem_cons_of_mem _ hm
          exact hp1 _ this
    · have hr := ih h2 e hmem hpred (by rw [hs1.vlen]; exact hlt)
      exact hs1.pools _ hr

/-- Within the fuel bound, every eligible entry of every scope reachable from
the start scope ends up carrying a name drawn from the call's initial pool. -/
theorem renameScope_hits (scopes : List ScopeData)
    (hP : ∀ i, i < scopes.length → ∀ p, (scopes[i]?.getD dummyScope).parent = some p → p < i) :
    ∀ (fuel sid : Nat) (r r' : RSt),
    renameScope scopes fuel sid r = Except.ok r' →
    ∀ j, Reaches scopes sid j → j - sid < fuel →
    ∀ e ∈ (scopes[j]?.getD dummyScope).table, shouldRename e.1 = true →
    e.2 < r.vars.length →
    (r'.vars[e.2]?.getD dummyVariable).name ∈ r.variableNames := by
  intro fuel
  induction fuel with
  | zero =>
    intro sid r r' h j hre hfu
    exact absurd hfu (Nat.not_lt_zero _)
  | succ fuel ih =>
    intro sid r r' h j hre hfu e he hpred hlt
    unfold renameScope at h
    rw [bind_ok_iff] at h
    obtain ⟨r1, h1, h2⟩ := h
    have hstab := renameTable_rstep h1
    rcases eq_or_ne j sid with rfl | hne
    · have hmid := renameTable_hits h1 e he hpred hlt
      have hs2 := foldlM_rstep scopes fuel _ r1 r' h2
      rcases eq_or_ne ((r'.vars[e.2]?.getD dummyVariable).name)
          ((r1.vars[e.2]?.getD dummyVariable).name) with heq | hne2
      · rw [heq]
        exact hmid
      · exact hstab.pools _ (hs2.newname e.2 hne2)
    · obtain ⟨c, hclen, hcp, hcre⟩ := reaches_split hre hne
      obtain ⟨rin, rout, hok, s1, s2⟩ :=
        foldlM_member_rstep scopes fuel _ r1 r' h2 c (mem_childScopes hclen hcp)
      have hslt : sid < c := hP c hclen sid hcp
      have hjge : c ≤ j := reaches_le hP hcre
      have hltin : e.2 < rin.vars.length := by
        rw [s1.vlen, hstab.vlen]
        exact hlt
      have hmid := ih c rin rout hok j hcre (by omega) e he hpred hltin
      have hsubin : ∀ nm ∈ rin.variableNames, nm ∈ r.variableNames :=
        fun nm hm => hstab.pools nm (s1.pools nm hm)
      rcases eq_or_ne ((r'.vars[e.2]?.getD dummyVariable).name)
          ((rout.vars[e.2]?.getD dummyVariable).name) with heq | hne2
      · rw [heq]
        exact hsubin _ hmid
      · have hrs := renameScope_rstep scopes fuel c rin rout hok
        exact hsubin _ (hrs.pools _ (s2.newname e.2 hne2))

/-- After a successful renaming phase, a variable registered only under an
ineligible key keeps its name, which equals that key. -/
theorem phi_ineligible {B : St} {pool : List String} {rst : RSt}
    (h : renameVariables B pool = Except.ok rst)
    (hvidU : ∀ i j : Nat, ∀ e1 ∈ (getScope B i).table, ∀ e2 ∈ (getScope B j).table,
      e1.2 = e2.2 → i = j ∧ e1 = e2)
    (hkeyName : ∀ i : Nat, ∀ e ∈ (getScope B i).table, (getVar B e.2).name = e.1) :
    ∀ i : Nat, ∀ e ∈ (getScope B i).table, shouldRename e.1 = false →
    (rst.vars[e.2]?.getD dummyVariable).name = e.1 := by
  intro i e he hp
  have hf := renameScope_facts B.scopes (B.scopes.length + 1) 0 ⟨B.vars, pool, []⟩ rst h
  rcases eq_or_ne ((rst.vars[e.2]?.getD dummyVariable).name)
      ((B.vars[e.2]?.getD dummyVariable).name) with heq | hne
  · rw [heq]
    exact hkeyName i e he
  · exfalso
    obtain ⟨i2, e2, he2, hv2, hp2⟩ := hf.change e.2 hne
    obtain ⟨-, he2e⟩ := hvidU i2 i e2 he2 e he hv2
    rw [he2e, hp] at hp2
    exact absurd hp2 (by decide)

/-- After a successful renaming phase, a variable registered under an
eligible key carries a name drawn from the pool. -/
theorem phi_eligible {B : St} {pool : List String} {rst : RSt}
    (h : renameVariables B pool = Except.ok rst)
    (hP : ∀ i, i < B.scopes.length → ∀ p, (getScope B i).parent = some p → p < i)
    (hrooted : ∀ i, 0 < i → i < B.scopes.length → ((getScope B i).parent).isSome = true)
    (hkeyLt : ∀ i : Nat, ∀ e ∈ (getScope B i).table, e.2 < B.vars.length) :
    ∀ i : Nat, ∀ e ∈ (getScope B i).table, shouldRename e.1 = true →
    (rst.vars[e.2]?.getD dummyVariable).name ∈ pool := by
  intro i e he hp
  have hilt : i < B.scopes.length := by
    by_contra hge
    rw [getScope_default B i (by omega)] at he
    cases he
  have hre : Reaches B.scopes 0 i := reaches_root hP hrooted i hilt
  exact renameScope_hits B.scopes hP (B.scopes.length + 1) 0 ⟨B.vars, pool, []⟩ rst h
    i hre (by omega) e he hp (hkeyLt i e he)

/-- After a successful renaming phase, two entries of one table whose
variables carry the same final name are the same entry. -/
theorem phi_injective {B : St} {pool : List String} {rst : RSt}
    (h : renameVariables B pool = Except.ok rst)
    (hP : ∀ i, i < B.scopes.length → ∀ p, (getScope B i).parent = some p → p < i)
    (hrooted : ∀ i, 0 < i → i < B.scopes.length → ((getScope B i).parent).isSome = true)
    (hND : pool.Nodup)
    (hpe : ∀ nm ∈ pool, shouldRename nm = false)
    (hpu : ∀ nm ∈ pool, B.usedVariableNames.contains nm = false)
    (hpa : "arguments" ∉ pool)
    (hkeyLt : ∀ i : Nat, ∀ e ∈ (getScope B i).table, e.2 < B.vars.length)
    (hkeyName : ∀ i : Nat, ∀ e ∈ (getScope B i).table, (getVar B e.2).name = e.1)
    (hvidU : ∀ i j : Nat, ∀ e1 ∈ (getScope B i).table, ∀ e2 ∈ (getScope B j).table,
      e1.2 = e2.2 → i = j ∧ e1 = e2)
    (hkeyND : ∀ i : Nat, ((getScope B i).table.map Prod.fst).Nodup)
    (hkeyU : ∀ i : Nat, ∀ e ∈ (getScope B i).table, shouldRename e.1 = false →
      e.1 = "arguments" ∨ B.usedVariableNames.contains e.1 = true) :
    ∀ d : Nat, ∀ e1 ∈ (getScope B d).table, ∀ e2 ∈ (getScope B d).table,
    (rst.vars[e1.2]?.getD dummyVariable).name = (rst.vars[e2.2]?.getD dummyVariable).name →
    e1 = e2 := by
  have hmix : ∀ d : Nat, ∀ e1 ∈ (getScope B d).table, ∀ e2 ∈ (getScope B d).table,
      shouldRename e1.1 = false → shouldRename e2.1 = true →
      (rst.vars[e1.2]?.getD dummyVariable).name =
        (rst.vars[e2.2]?.getD dummyVariable).name → False := by
    intro d e1 he1 e2 he2 hp1 hp2 heq
    have h1 := phi_ineligible h hvidU hkeyName d e1 he1 hp1
    have h2 := phi_eligible h hP hrooted hkeyLt d e2 he2 hp2
    rw [h1] at heq
    rcases hkeyU d e1 he1 hp1 with ha | hu
    · rw [ha] at heq
      rw [← heq] at h2
      exact absurd h2 hpa
    · have hcf := hpu _ h2
      rw [← heq, hu] at hcf
      exact absurd hcf (by decide)
  intro d e1 he1 e2 he2 heq
  rcases hp1 : shouldRename e1.1 with _ | _
  · rcases hp2 : shouldRename e2.1 with _ | _
    · have h1 := phi_ineligible h hvidU hkeyName d e1 he1 hp1
      have h2 := phi_ineligible h hvidU hkeyName d e2 he2 hp2
      rw [h1, h2] at heq
      exact nodup_keys_eq (hkeyND d) he1 he2 heq
    · exact absurd heq (fun hc => hmix d e1 he1 e2 he2 hp1 hp2 hc)
  · rcases hp2 : shouldRename e2.1 with _ | _
    · exact absurd heq.symm (fun hc => hmix d e2 he2 e1 he1 hp2 hp1 hc)
    · rcases eq_or_ne e1.2 e2.2 with hv | hv
      · exact (hvidU d d e1 he1 e2 he2 hv).2
      · exfalso
        have hd0 : RenD B.vars pool (⟨B.vars, pool, []⟩ : RSt) := by
          refine ⟨hND, fun _ hm => hm, ?_, ?_⟩
          · intro vid hne
            exact absurd rfl hne
          · intro u w hne hu hw
            exact absurd rfl hu
        have hdf : RenD B.vars pool rst :=
          renameScope_renD B.scopes (B.scopes.length + 1) 0 ⟨B.vars, pool, []⟩ rst h hd0
        have hch : ∀ e3 ∈ (getScope B d).table, shouldRename e3.1 = true →
            (rst.vars[e3.2]?.getD dummyVariable).name ≠
            (B.vars[e3.2]?.getD dummyVariable).name := by
          intro e3 he3 hp3
          have hmem := phi_eligible h hP hrooted hkeyLt d e3 he3 hp3
          have hBn : (B.vars[e3.2]?.getD dummyVariable).name = e3.1 := hkeyName d e3 he3
          intro hcontra
          rw [hcontra, hBn] at hmem
          have := hpe _ hmem
          rw [hp3] at this
          exact absurd this (by decide)
        exact absurd heq
          (hdf.dist e1.2 e2.2 hv (hch e1 he1 hp1) (hch e2 he2 hp2))

/-- The recorded sites of a variable in the reference-collection output
state, the site set the renaming phase patches. -/
def bSites (Bv : List Variable) (vid : Nat) : List Nat :=
  (Bv[vid]?.getD dummyVariable).declarations ++ (Bv[vid]?.getD dummyVariable).references

/-- Patch-value precision of one `renameEntry`: an eligible entry writes
patches carrying exactly the variable's new name over exactly its sites. -/
theorem renameEntry_pc {Bv : List Variable} {r r' : RSt} {e : String × Nat}
    (h : renameEntry r e = Except.ok r')
    (hsv : ∀ vid : Nat, (r.vars[vid]?.getD dummyVariable).declarations =
        (Bv[vid]?.getD dummyVariable).declarations ∧
      (r.vars[vid]?.getD dummyVariable).references =
        (Bv[vid]?.getD dummyVariable).references)
    (hlt : e.2 < r.vars.length)
    (hun : ∀ s ∈ bSites Bv e.2, r.patches.lookup s = none) :
    (shouldRename e.1 = true → ∀ s ∈ bSites Bv e.2,
      r'.patches.lookup s = some ((r'.vars[e.2]?.getD dummyVariable).name)) ∧
    (∃ ext, r'.patches = r.patches ++ ext ∧
      ∀ p ∈ ext, shouldRename e.1 = true ∧ p.1 ∈ bSites Bv e.2) ∧
    (∀ vid : Nat, (r'.vars[vid]?.getD dummyVariable).name ≠
        (r.vars[vid]?.getD dummyVariable).name → vid = e.2 ∧ shouldRename e.1 = true) := by
  unfold renameEntry at h
  split at h
  · rename_i hpred
    rcases hpool : r.variableNames with _ | ⟨n, rest⟩
    · rw [hpool] at h
      cases h
    · rw [hpool] at h
      simp only [getVariableName, okBind, Except.ok.injEq] at h
      have hpat : r'.patches = r.patches ++
          ((r.vars[e.2]?.getD dummyVariable).declarations ++
            (r.vars[e.2]?.getD dummyVariable).references).map (fun s2 => (s2, n)) := by
        rw [← h]
      have hvars : r'.vars =
          r.vars.set e.2 { r.vars[e.2]?.getD dummyVariable with name := n } := by
        rw [← h]
      have hname : (r'.vars[e.2]?.getD dummyVariable).name = n := by
        rw [hvars, getD_set, if_pos ⟨rfl, hlt⟩]
      refine ⟨?_, ?_, ?_⟩
      · intro _ s hs
        have hlook : (r.patches ++
            ((r.vars[e.2]?.getD dummyVariable).declarations ++
              (r.vars[e.2]?.getD dummyVariable).references).map
              (fun s2 => (s2, n))).lookup s = some n := by
          rw [lookup_append_none (hun s hs)]
          apply lookup_map_const
          rw [(hsv e.2).1, (hsv e.2).2]
          simp only [bSites] at hs
          exact hs
        rw [hpat, hname]
        exact hlook
      · refine ⟨((r.vars[e.2]?.getD dummyVariable).declarations ++
          (r.vars[e.2]?.getD dummyVariable).references).map (fun s2 => (s2, n)),
          hpat, ?_⟩
        intro p hp
        obtain ⟨s2, hs2, rfl⟩ := List.mem_map.mp hp
        refine ⟨hpred, ?_⟩
        simp only [bSites]
        rw [← (hsv e.2).1, ← (hsv e.2).2]
        exact hs2
      · intro vid hnm
        rw [hvars, getD_set] at hnm
        by_cases hc : vid = e.2 ∧ e.2 < r.vars.length
        · exact ⟨hc.1, hpred⟩
        · rw [if_neg hc] at hnm
          exact absurd rfl hnm
  · rename_i hpred
    simp only [Except.ok.injEq] at h
    subst h
    refine ⟨?_, ⟨[], by simp, ?_⟩, ?_⟩
    · intro hpredT
      exact absurd hpredT hpred
    · intro p hp
      cases hp
    · intro vid hnm
      exact absurd rfl hnm

/-- Patch-value precision of `renameTable`: over a duplicate-free table whose
entries carry distinct variables with disjoint site sets and no prior
patches, every eligible entry gets all of its sites patched to the entry
variable's final name. -/
theorem renameTable_pc {Bv : List Variable} : ∀ {es : List (String × Nat)} {r r' : RSt},
    renameTable r es = Except.ok r' →
    (∀ vid : Nat, (r.vars[vid]?.getD dummyVariable).declarations =
        (Bv[vid]?.getD dummyVariable).declarations ∧
      (r.vars[vid]?.getD dummyVariable).references =
        (Bv[vid]?.getD dummyVariable).references) →
    es.Nodup →
    (∀ e1 ∈ es, ∀ e2 ∈ es, e1.2 = e2.2 → e1 = e2) →
    (∀ e1 ∈ es, ∀ e2 ∈ es, e1 ≠ e2 → ∀ s ∈ bSites Bv e1.2, s ∉ bSites Bv e2.2) →
    (∀ e ∈ es, e.2 < r.vars.length) →
    (∀ e ∈ es, ∀ s ∈ bSites Bv e.2, r.patches.lookup s = none) →
    (∀ e ∈ es, shouldRename e.1 = true → ∀ s ∈ bSites Bv e.2,
      r'.patches.lookup s = some ((r'.vars[e.2]?.getD dummyVariable).name)) ∧
    (∃ ext, r'.patches = r.patches ++ ext ∧
      ∀ p ∈ ext, ∃ e ∈ es, shouldRename e.1 = true ∧ p.1 ∈ bSites Bv e.2) ∧
    (∀ vid : Nat, (r'.vars[vid]?.getD dummyVariable).name ≠
        (r.vars[vid]?.getD dummyVariable).name →
      ∃ e ∈ es, e.2 = vid ∧ shouldRename e.1 = true) := by
  intro es
  induction es with
  | nil =>
    intro r r' h hsv hnd hvds hdisjL hlt hun
    simp only [renameTable, Except.ok.injEq] at h
    subst h
    refine ⟨?_, ⟨[], by simp, ?_⟩, ?_⟩
    · intro e he
      cases he
    · intro p hp
      cases hp
    · intro vid hnm
      exact absurd rfl hnm
  | cons e0 es ih =>
    intro r r' h hsv hnd hvds hdisjL hlt hun
    simp only [renameTable, bind_ok_iff] at h
    obtain ⟨r1, h1, h2⟩ := h
    have hnotin : e0 ∉ es := (List.nodup_cons.mp hnd).1
    obtain ⟨ha0, ⟨ext0, hext0, hor0⟩, hc0⟩ :=
      renameEntry_pc h1 hsv (hlt e0 (List.mem_cons_self _ _))
        (hun e0 (List.mem_cons_self _ _))
    have hstep0 := renameEntry_rstep h1
    obtain ⟨-, -, -, hsites0, -, -⟩ := renameEntry_facts h1
    have hsv1 : ∀ vid : Nat, (r1.vars[vid]?.getD dummyVariable).declarations =
        (Bv[vid]?.getD dummyVariable).declarations ∧
        (r1.vars[vid]?.getD dummyVariable).references =
        (Bv[vid]?.getD dummyVariable).references := by
      intro vid
      exact ⟨((hsites0 vid).1).trans (hsv vid).1, ((hsites0 vid).2).trans (hsv vid).2⟩
    have hun1 : ∀ e ∈ es, ∀ s ∈ bSites Bv e.2, r1.patches.lookup s = none := by
      intro e he s hs
      rw [hext0, lookup_append_none (hun e (List.mem_cons_of_mem _ he) s hs)]
      apply lookup_none_of_keys
      intro p hp hsp
      obtain ⟨-, hps⟩ := hor0 p hp
      rw [hsp] at hs
      exact (hdisjL e0 (List.mem_cons_self _ _) e (List.mem_cons_of_mem _ he)
        (fun heq => hnotin (heq ▸ he)) p.1 hps) hs
    obtain ⟨haR, ⟨ext1, hext1, hor1⟩, hcR⟩ :=
      ih h2 hsv1 (List.Nodup.of_cons hnd)
        (fun e1 h1m e2 h2m => hvds e1 (List.mem_cons_of_mem _ h1m)
          e2 (List.mem_cons_of_mem _ h2m))
        (fun e1 h1m e2 h2m => hdisjL e1 (List.mem_cons_of_mem _ h1m)
          e2 (List.mem_cons_of_mem _ h2m))
        (fun e he => by rw [hstep0.vlen]; exact hlt e (List.mem_cons_of_mem _ he))
        hun1
    refine ⟨?_, ⟨ext0 ++ ext1, by rw [hext1, hext0, List.append_assoc], ?_⟩, ?_⟩
    · intro e he hpred s hs
      rcases List.mem_cons.mp he with rfl | hes
      · have hl1 := ha0 hpred s hs
        have hnm : (r'.vars[e.2]?.getD dummyVariable).name =
            (r1.vars[e.2]?.getD dummyVariable).name := by
          by_contra hcon
          obtain ⟨e2, he2, hv2, -⟩ := hcR e.2 hcon
          have he2e : e2 = e := hvds e2 (List.mem_cons_of_mem _ he2) e
            (List.mem_cons_self _ _) hv2
          rw [he2e] at he2
          exact hnotin he2
        rw [hext1, hnm]
        exact lookup_append_some hl1
      · exact haR e hes hpred s hs
    · intro p hp
      rcases List.mem_append.mp hp with hp0 | hp1
      · obtain ⟨hpr, hps⟩ := hor0 p hp0
        exact ⟨e0, List.mem_cons_self _ _, hpr, hps⟩
      · obtain ⟨e, he, hpr, hps⟩ := hor1 p hp1
        exact ⟨e, List.mem_cons_of_mem _ he, hpr, hps⟩
    · intro vid hnm
      rcases eq_or_ne ((r'.vars[vid]?.getD dummyVariable).name)
          ((r1.vars[vid]?.getD dummyVariable).name) with heq | hne2
      · rw [heq] at hnm
        obtain ⟨hv0, hp0⟩ := hc0 vid hnm
        exact ⟨e0, List.mem_cons_self _ _, hv0.symm, hp0⟩
      · obtain ⟨e, he, hv2, hp2⟩ := hcR vid hne2
        exact ⟨e, List.mem_cons_of_mem _ he, hv2, hp2⟩

/-- Patch-value precision of the renaming traversal: under the walk
invariants, each eligible entry of each scope reachable within the fuel bound
has every one of its variable's sites patched to the variable's final name;
all written patches trace back to eligible entries of reached scopes; and
variables renamed by the call have eligible entries in reached scopes. -/
theorem renameScope_pc (scopes : List ScopeData) (Bv : List Variable)
    (hP : ∀ i, i < scopes.length → ∀ p, (scopes[i]?.getD dummyScope).parent = some p → p < i)
    (hU : ∀ i j : Nat, ∀ e1 ∈ (scopes[i]?.getD dummyScope).table,
      ∀ e2 ∈ (scopes[j]?.getD dummyScope).table, e1.2 = e2.2 → i = j ∧ e1 = e2)
    (hdisj : ∀ i j : Nat, ∀ e1 ∈ (scopes[i]?.getD dummyScope).table,
      ∀ e2 ∈ (scopes[j]?.getD dummyScope).table, e1.2 ≠ e2.2 →
      ∀ s ∈ bSites Bv e1.2, s ∉ bSites Bv e2.2)
    (hkND : ∀ i : Nat, (((scopes[i]?.getD dummyScope).table).map Prod.fst).Nodup)
    (hkLt : ∀ i : Nat, ∀ e ∈ (scopes[i]?.getD dummyScope).table, e.2 < Bv.length) :
    ∀ (fuel sid : Nat) (r r' : RSt),
    renameScope scopes fuel sid r = Except.ok r' →
    (∀ vid : Nat, (r.vars[vid]?.getD dummyVariable).declarations =
        (Bv[vid]?.getD dummyVariable).declarations ∧
      (r.vars[vid]?.getD dummyVariable).references =
        (Bv[vid]?.getD dummyVariable).references) →
    r.vars.length = Bv.length →
    (∀ j, Reaches scopes sid j → ∀ e ∈ (scopes[j]?.getD dummyScope).table,
      ∀ s ∈ bSites Bv e.2, r.patches.lookup s = none) →
    (∀ j, Reaches scopes sid j → j - sid < fuel →
      ∀ e ∈ (scopes[j]?.getD dummyScope).table, shouldRename e.1 = true →
      ∀ s ∈ bSites Bv e.2,
      r'.patches.lookup s = some ((r'.vars[e.2]?.getD dummyVariable).name)) ∧
    (∃ ext, r'.patches = r.patches ++ ext ∧
      ∀ p ∈ ext, ∃ j, Reaches scopes sid j ∧
        ∃ e ∈ (scopes[j]?.getD dummyScope).table,
        shouldRename e.1 = true ∧ p.1 ∈ bSites Bv e.2) ∧
    (∀ vid : Nat, (r'.vars[vid]?.getD dummyVariable).name ≠
        (r.vars[vid]?.getD dummyVariable).name →
      ∃ j, Reaches scopes sid j ∧ ∃ e ∈ (scopes[j]?.getD dummyScope).table,
        e.2 = vid ∧ shouldRename e.1 = true) := by
  intro fuel
  induction fuel with
  | zero =>
    intro sid r r' h hsv hvlen hun
    simp only [renameScope, Except.ok.injEq] at h
    subst h
    refine ⟨?_, ⟨[], by simp, ?_⟩, ?_⟩
    · intro j hrj hfu
      exact absurd hfu (Nat.not_lt_zero _)
    · intro p hp
      cases hp
    · intro vid hnm
      exact absurd rfl hnm
  | succ fuel ih =>
    intro sid r r' h hsv hvlen hun
    unfold renameScope at h
    rw [bind_ok_iff] at h
    obtain ⟨r1, h1, h2⟩ := h
    have hndes : ((scopes[sid]?.getD dummyScope).table).Nodup :=
      List.Nodup.of_map _ (hkND sid)
    have hvds : ∀ e1 ∈ (scopes[sid]?.getD dummyScope).table,
        ∀ e2 ∈ (scopes[sid]?.getD dummyScope).table, e1.2 = e2.2 → e1 = e2 :=
      fun e1 h1m e2 h2m hv => (hU sid sid e1 h1m e2 h2m hv).2
    have hdisjL : ∀ e1 ∈ (scopes[sid]?.getD dummyScope).table,
        ∀ e2 ∈ (scopes[sid]?.getD dummyScope).table, e1 ≠ e2 →
        ∀ s ∈ bSites Bv e1.2, s ∉ bSites Bv e2.2 :=
      fun e1 h1m e2 h2m hne s hs =>
        hdisj sid sid e1 h1m e2 h2m (fun hveq => hne (hvds e1 h1m e2 h2m hveq)) s hs
    have hltes : ∀ e ∈ (scopes[sid]?.getD dummyScope).table, e.2 < r.vars.length :=
      fun e he => by rw [hvlen]; exact hkLt sid e he
    have hunes : ∀ e ∈ (scopes[sid]?.getD dummyScope).table,
        ∀ s ∈ bSites Bv e.2, r.patches.lookup s = none :=
      fun e he => hun sid (Reaches.here sid) e he
    obtain ⟨haT, ⟨extT, hextT, horT⟩, hcT⟩ :=
      renameTable_pc h1 hsv hndes hvds hdisjL hltes hunes
    have hstepT := renameTable_rstep h1
    have hF1 := @renameTable_facts scopes _ _ _ h1 (fun e2 he2 => ⟨sid, he2⟩)
    have hsv1 : ∀ vid : Nat, (r1.vars[vid]?.getD dummyVariable).declarations =
        (Bv[vid]?.getD dummyVariable).declarations ∧
        (r1.vars[vid]?.getD dummyVariable).references =
        (Bv[vid]?.getD dummyVariable).references :=
      fun vid => ⟨((hF1.sites vid).1).trans (hsv vid).1,
        ((hF1.sites vid).2).trans (hsv vid).2⟩
    have hvlen1 : r1.vars.length = Bv.length := hstepT.vlen.trans hvlen
    have hfold : ∀ (cs : List Nat), cs.Nodup →
        (∀ c ∈ cs, c < scopes.length ∧
          (scopes[c]?.getD dummyScope).parent = some sid) →
        ∀ (racc r2 : RSt),
        List.foldlM (fun acc c => renameScope scopes fuel c acc) racc cs = Except.ok r2 →
        (∀ vid : Nat, (racc.vars[vid]?.getD dummyVariable).declarations =
            (Bv[vid]?.getD dummyVariable).declarations ∧
          (racc.vars[vid]?.getD dummyVariable).references =
            (Bv[vid]?.getD dummyVariable).references) →
        racc.vars.length = Bv.length →
        (∀ c ∈ cs, ∀ j, Reaches scopes c j →
          ∀ e ∈ (scopes[j]?.getD dummyScope).table,
          ∀ s ∈ bSites Bv e.2, racc.patches.lookup s = none) →
        (∀ c ∈ cs, ∀ j, Reaches scopes c j → j - c < fuel →
          ∀ e ∈ (scopes[j]?.getD dummyScope).table, shouldRename e.1 = true →
          ∀ s ∈ bSites Bv e.2,
          r2.patches.lookup s = some ((r2.vars[e.2]?.getD dummyVariable).name)) ∧
        (∃ ext, r2.patches = racc.patches ++ ext ∧
          ∀ p ∈ ext, ∃ c ∈ cs, ∃ j, Reaches scopes c j ∧
            ∃ e ∈ (scopes[j]?.getD dummyScope).table,
            shouldRename e.1 = true ∧ p.1 ∈ bSites Bv e.2) ∧
        (∀ vid : Nat, (r2.vars[vid]?.getD dummyVariable).name ≠
            (racc.vars[vid]?.getD dummyVariable).name →
          ∃ c ∈ cs, ∃ j, Reaches scopes c j ∧
            ∃ e ∈ (scopes[j]?.getD dummyScope).table,
            e.2 = vid ∧ shouldRename e.1 = true) := by
      intro cs
      induction cs with
      | nil =>
        intro hcnd hcmem racc r2 hf hsvacc hvlacc hunacc
        simp only [List.foldlM_nil, pure, Except.pure, Except.ok.injEq] at hf
        subst hf
        refine ⟨?_, ⟨[], by simp, ?_⟩, ?_⟩
        · intro c hc
          cases hc
        · intro p hp
          cases hp
        · intro vid hnm
          exact absurd rfl hnm
      | cons c0 cs ihc =>
        intro hcnd hcmem racc r2 hf hsvacc hvlacc hunacc
        rw [List.foldlM_cons, bind_ok_iff] at hf
        obtain ⟨rmid, hmid, hrest⟩ := hf
        have hc0notin : c0 ∉ cs := (List.nodup_cons.mp hcnd).1
        obtain ⟨haC, ⟨extC, hextC, horC⟩, hcC⟩ :=
          ih c0 racc rmid hmid hsvacc hvlacc
            (fun j hrj => hunacc c0 (List.mem_cons_self _ _) j hrj)
        have hstepC := renameScope_rstep scopes fuel c0 racc rmid hmid
        have hFC := renameScope_facts scopes fuel c0 racc rmid hmid
        have hsvmid : ∀ vid : Nat, (rmid.vars[vid]?.getD dummyVariable).declarations =
            (Bv[vid]?.getD dummyVariable).declarations ∧
            (rmid.vars[vid]?.getD dummyVariable).references =
            (Bv[vid]?.getD dummyVariable).references :=
          fun vid => ⟨((hFC.sites vid).1).trans (hsvacc vid).1,
            ((hFC.sites vid).2).trans (hsvacc vid).2⟩
        have hvlmid : rmid.vars.length = Bv.length := hstepC.vlen.trans hvlacc
        have hunrest : ∀ c ∈ cs, ∀ j, Reaches scopes c j →
            ∀ e ∈ (scopes[j]?.getD dummyScope).table,
            ∀ s ∈ bSites Bv e.2, rmid.patches.lookup s = none := by
          intro c hc j hrj e he s hs
          rw [hextC, lookup_append_none
            (hunacc c (List.mem_cons_of_mem _ hc) j hrj e he s hs)]
          apply lookup_none_of_keys
          intro p hp hsp
          obtain ⟨j0, hrj0, e0, he0, hp0, hps⟩ := horC p hp
          rcases eq_or_ne e0.2 e.2 with hveq | hvne
          · obtain ⟨hjj, -⟩ := hU j0 j e0 he0 e he hveq
            rw [hjj] at hrj0
            exact siblings_disjoint hP (hcmem c0 (List.mem_cons_self _ _)).2
              (hcmem c (List.mem_cons_of_mem _ hc)).2
              (fun heq => hc0notin (heq ▸ hc)) hrj0 hrj
          · rw [hsp] at hs
            exact (hdisj j0 j e0 he0 e he hvne p.1 hps) hs
        obtain ⟨haR, ⟨extR, hextR, horR⟩, hcR⟩ :=
          ihc (List.Nodup.of_cons hcnd)
            (fun c hc => hcmem c (List.mem_cons_of_mem _ hc)) rmid r2 hrest
            hsvmid hvlmid hunrest
        refine ⟨?_, ⟨extC ++ extR, by rw [hextR, hextC, List.append_assoc], ?_⟩, ?_⟩
        · intro c hc j hrj hfu e he hpred s hs
          rcases List.mem_cons.mp hc with rfl | hcs
          · have hl1 := haC j hrj hfu e he hpred s hs
            have hnm : (r2.vars[e.2]?.getD dummyVariable).name =
                (rmid.vars[e.2]?.getD dummyVariable).name := by
              by_contra hcon
              obtain ⟨c2, hc2, j2, hrj2, e2, he2, hv2, -⟩ := hcR e.2 hcon
              obtain ⟨hjj, -⟩ := hU j2 j e2 he2 e he hv2
              rw [hjj] at hrj2
              exact siblings_disjoint hP (hcmem c2 (List.mem_cons_of_mem _ hc2)).2
                (hcmem c (List.mem_cons_self _ _)).2
                (fun heq => hc0notin (heq ▸ hc2)) hrj2 hrj
            rw [hextR, hnm]
            exact lookup_append_some hl1
          · exact haR c hcs j hrj hfu e he hpred s hs
        · intro p hp
          rcases List.mem_append.mp hp with hpc | hpr
          · obtain ⟨j0, hrj0, e0, he0, hp0, hps⟩ := horC p hpc
            exact ⟨c0, List.mem_cons_self _ _, j0, hrj0, e0, he0, hp0, hps⟩
          · obtain ⟨c, hc, j0, hrj0, e0, he0, hp0, hps⟩ := horR p hpr
            exact ⟨c, List.mem_cons_of_mem _ hc, j0, hrj0, e0, he0, hp0, hps⟩
        · intro vid hnm
          rcases eq_or_ne ((r2.vars[vid]?.getD dummyVariable).name)
              ((rmid.vars[vid]?.getD dummyVariable).name) with heq | hne2
          · rw [heq] at hnm
            obtain ⟨j0, hrj0, e0, he0, hv0, hp0⟩ := hcC vid hnm
            exact ⟨c0, List.mem_cons_self _ _, j0, hrj0, e0, he0, hv0, hp0⟩
          · obtain ⟨c, hc, j0, hrj0, e0, he0, hv0, hp0⟩ := hcR vid hne2
            exact ⟨c, List.mem_cons_of_mem _ hc, j0, hrj0, e0, he0, hv0, hp0⟩
    have hcsnd : (childScopes scopes sid).Nodup := by
      unfold childScopes
      exact (List.nodup_range _).filter _
    have hcsmem : ∀ c ∈ childScopes scopes sid, c < scopes.length ∧
        (scopes[c]?.getD dummyScope).parent = some sid := by
      intro c hc
      unfold childScopes at hc
      rw [List.mem_filter] at hc
      obtain ⟨hr, hp⟩ := hc
      exact ⟨List.mem_range.mp hr, by simpa using hp⟩
    have hun1 : ∀ c ∈ childScopes scopes sid, ∀ j, Reaches scopes c j →
        ∀ e ∈ (scopes[j]?.getD dummyScope).table,
        ∀ s ∈ bSites Bv e.2, r1.patches.lookup s = none := by
      intro c hc j hrj e he s hs
      have hrsj : Reaches scopes sid j :=
        reaches_trans (reaches_child (hcsmem c hc).2) hrj
      rw [hextT, lookup_append_none (hun j hrsj e he s hs)]
      apply lookup_none_of_keys
      intro p hp hsp
      obtain ⟨e0, he0, hp0, hps⟩ := horT p hp
      rcases eq_or_ne e0.2 e.2 with hveq | hvne
      · obtain ⟨hjj, -⟩ := hU sid j e0 he0 e he hveq
        rw [← hjj] at hrj
        have h1x := reaches_le hP hrj
        have h2x := hP c (hcsmem c hc).1 sid (hcsmem c hc).2
        omega
      · rw [hsp] at hs
        exact (hdisj sid j e0 he0 e he hvne p.1 hps) hs
    obtain ⟨haF, ⟨extF, hextF, horF⟩, hcF⟩ :=
      hfold (childScopes scopes sid) hcsnd hcsmem r1 r' h2 hsv1 hvlen1 hun1
    refine ⟨?_, ⟨extT ++ extF, by rw [hextF, hextT, List.append_assoc], ?_⟩, ?_⟩
    · intro j hrj hfu e he hpred s hs
      rcases eq_or_ne j sid with rfl | hne
      · have hl1 := haT e he hpred s hs
        have hnm : (r'.vars[e.2]?.getD dummyVariable).name =
            (r1.vars[e.2]?.getD dummyVariable).name := by
          by_contra hcon
          obtain ⟨c, hc, j2, hrj2, e2, he2, hv2, -⟩ := hcF e.2 hcon
          obtain ⟨hjj, -⟩ := hU j2 j e2 he2 e he hv2
          rw [hjj] at hrj2
          have h1x := reaches_le hP hrj2
          have h2x := hP c (hcsmem c hc).1 j (hcsmem c hc).2
          omega
        rw [hextF, hnm]
        exact lookup_append_some hl1
      · obtain ⟨c, hclen, hcp, hcre⟩ := reaches_split hrj hne
        have hcm : c ∈ childScopes scopes sid := mem_childScopes hclen hcp
        have hfu2 : j - c < fuel := by
          have h1x := hP c hclen sid hcp
          have h2x := reaches_le hP hcre
          omega
        exact haF c hcm j hcre hfu2 e he hpred s hs
    · intro p hp
      rcases List.mem_append.mp hp with hpT | hpF
      · obtain ⟨e0, he0, hp0, hps⟩ := horT p hpT
        exact ⟨sid, Reaches.here sid, e0, he0, hp0, hps⟩
      · obtain ⟨c, hc, j, hrj, e0, he0, hp0, hps⟩ := horF p hpF
        exact ⟨j, reaches_trans (reaches_child (hcsmem c hc).2) hrj, e0, he0, hp0, hps⟩
    · intro vid hnm
      rcases eq_or_ne ((r'.vars[vid]?.getD dummyVariable).name)
          ((r1.vars[vid]?.getD dummyVariable).name) with heq | hne2
      · rw [heq] at hnm
        obtain ⟨e0, he0, hv0, hp0⟩ := hcT vid hnm
        exact ⟨sid, Reaches.here sid, e0, he0, hv0, hp0⟩
      · obtain ⟨c, hc, j, hrj, e0, he0, hv0, hp0⟩ := hcF vid hne2
        exact ⟨j, reaches_trans (reaches_child (hcsmem c hc).2) hrj, e0, he0, hv0, hp0⟩

/-- Top-level patch coherence: after a successful renaming phase, each site
of a variable registered under an eligible key is patched to that variable's
final name. -/
theorem renameVariables_pc {B : St} {pool : List String} {rst : RSt}
    (h : renameVariables B pool = Except.ok rst)
    (hP : ∀ i, i < B.scopes.length → ∀ p, (getScope B i).parent = some p → p < i)
    (hrooted : ∀ i, 0 < i → i < B.scopes.length → ((getScope B i).parent).isSome = true)
    (hU : ∀ i j : Nat, ∀ e1 ∈ (getScope B i).table, ∀ e2 ∈ (getScope B j).table,
      e1.2 = e2.2 → i = j ∧ e1 = e2)
    (hdisj : ∀ i j : Nat, ∀ e1 ∈ (getScope B i).table, ∀ e2 ∈ (getScope B j).table,
      e1.2 ≠ e2.2 → ∀ s ∈ bSites B.vars e1.2, s ∉ bSites B.vars e2.2)
    (hkND : ∀ i : Nat, ((getScope B i).table.map Prod.fst).Nodup)
    (hkLt : ∀ i : Nat, ∀ e ∈ (getScope B i).table, e.2 < B.vars.length) :
    ∀ j : Nat, ∀ e ∈ (getScope B j).table, shouldRename e.1 = true →
    ∀ s ∈ bSites B.vars e.2,
    rst.patches.lookup s = some ((rst.vars[e.2]?.getD dummyVariable).name) := by
  intro j e he hpred s hs
  have hjlt : j < B.scopes.length := by
    by_contra hge
    rw [getScope_default B j (by omega)] at he
    cases he
  obtain ⟨ha, -, -⟩ := renameScope_pc B.scopes B.vars hP hU hdisj hkND hkLt
    (B.scopes.length + 1) 0 ⟨B.vars, pool, []⟩ rst h
    (fun vid => ⟨rfl, rfl⟩) rfl (fun j2 _ e2 _ s2 _ => rfl)
  exact ha j (reaches_root hP hrooted j hjlt) (by omega) e he hpred s hs

/-- Top-level non-patching: after a successful renaming phase, no site of a
variable registered under an ineligible key carries a patch. -/
theorem renameVariables_nopatch {B : St} {pool : List String} {rst : RSt}
    (h : renameVariables B pool = Except.ok rst)
    (hP : ∀ i, i < B.scopes.length → ∀ p, (getScope B i).parent = some p → p < i)
    (hU : ∀ i j : Nat, ∀ e1 ∈ (getScope B i).table, ∀ e2 ∈ (getScope B j).table,
      e1.2 = e2.2 → i = j ∧ e1 = e2)
    (hdisj : ∀ i j : Nat, ∀ e1 ∈ (getScope B i).table, ∀ e2 ∈ (getScope B j).table,
      e1.2 ≠ e2.2 → ∀ s ∈ bSites B.vars e1.2, s ∉ bSites B.vars e2.2)
    (hkND : ∀ i : Nat, ((getScope B i).table.map Prod.fst).Nodup)
    (hkLt : ∀ i : Nat, ∀ e ∈ (getScope B i).table, e.2 < B.vars.length) :
    ∀ j : Nat, ∀ e ∈ (getScope B j).table, shouldRename e.1 = false →
    ∀ s ∈ bSites B.vars e.2, rst.patches.lookup s = none := by
  intro j e he hpred s hs
  obtain ⟨-, ⟨ext, hext, hor⟩, -⟩ := renameScope_pc B.scopes B.vars hP hU hdisj hkND hkLt
    (B.scopes.length + 1) 0 ⟨B.vars, pool, []⟩ rst h
    (fun vid => ⟨rfl, rfl⟩) rfl (fun j2 _ e2 _ s2 _ => rfl)
  rcases hl : rst.patches.lookup s with _ | v
  · rfl
  · exfalso
    have hmem := lookup_mem_pair hl
    rw [hext] at hmem
    simp only [List.nil_append] at hmem
    obtain ⟨j2, -, e2, he2, hp2, hps⟩ := hor _ hmem
    rcases eq_or_ne e2.2 e.2 with hveq | hvne
    · obtain ⟨-, he2e⟩ := hU j2 j e2 he2 e he hveq
      rw [he2e, hpred] at hp2
      exact absurd hp2 (by decide)
    · exact (hdisj j2 j e2 he2 e he hvne s hps) hs

/-! ### Simulation of a second pass over the renamed tree -/

/-- The final name the renaming phase leaves on variable `vid`. -/
def phiOf (rst : RSt) (vid : Nat) : String :=
  (rst.vars[vid]?.getD dummyVariable).name

/-- Correspondence between a declaration-walk state `σ` over the renamed tree
and the state `st` of the same walk over the original tree: same scope
skeleton, tables renamed entry-wise by the final names, same heap size, same
variable kinds. -/
structure Sim (rst : RSt) (σ st : St) : Prop where
  shape : SameShape st σ
  stab : ∀ i : Nat, (getScope σ i).table =
    (getScope st i).table.map (fun e => (phiOf rst e.2, e.2))
  svlen : σ.vars.length = st.vars.length
  skind : ∀ vid : Nat, (getVar σ vid).kind = (getVar st vid).kind

theorem Sim_congr {rst : RSt} {σ σ2 st st2 : St}
    (hσ : σ2.scopes = σ.scopes) (hσv : σ2.vars = σ.vars)
    (hst : st2.scopes = st.scopes) (hstv : st2.vars = st.vars)
    (h : Sim rst σ st) : Sim rst σ2 st2 := by
  refine ⟨⟨?_, ?_, ?_, ?_⟩, ?_, ?_, ?_⟩
  · rw [hσ, hst]
    exact h.shape.len
  · intro i
    rw [getScope_scopes_eq hσ, getScope_scopes_eq hst]
    exact h.shape.node i
  · intro i
    rw [getScope_scopes_eq hσ, getScope_scopes_eq hst]
    exact h.shape.stype i
  · intro i
    rw [getScope_scopes_eq hσ, getScope_scopes_eq hst]
    exact h.shape.parent i
  · intro i
    rw [getScope_scopes_eq hσ, getScope_scopes_eq hst]
    exact h.stab i
  · rw [hσv, hstv]
    exact h.svlen
  · intro vid
    rw [getVar_vars_eq hσv, getVar_vars_eq hstv]
    exact h.skind vid

theorem getDeclarationScopeAux_shape {st σ : St} (hsh : SameShape st σ) :
    ∀ (fuel sid : Nat), getDeclarationScopeAux σ fuel sid =
      getDeclarationScopeAux st fuel sid := by
  intro fuel
  induction fuel with
  | zero =>
    intro sid
    rfl
  | succ fuel ih =>
    intro sid
    simp only [getDeclarationScopeAux]
    rw [hsh.parent sid, hsh.stype sid]
    rcases hp : (getScope st sid).parent with _ | p
    · rfl
    · simp only
      split
      · exact ih p
      · rfl

theorem getDeclarationScope_shape {st σ : St} (hsh : SameShape st σ)
    (sid : Nat) (kind : String) :
    getDeclarationScope σ sid kind = getDeclarationScope st sid kind := by
  unfold getDeclarationScope
  rw [hsh.len]
  split
  · rfl
  · exact getDeclarationScopeAux_shape hsh _ sid

theorem lookup_map_phi_some {Φ : Nat → String} :
    ∀ {T : List (String × Nat)} {TB : List (String × Nat)},
    (∀ e ∈ T, e ∈ TB) →
    (∀ e1 ∈ TB, ∀ e2 ∈ TB, Φ e1.2 = Φ e2.2 → e1 = e2) →
    ∀ {evid : Nat} {nm : String}, (nm, evid) ∈ T →
    (T.map (fun e => (Φ e.2, e.2))).lookup (Φ evid) = some evid := by
  intro T
  induction T with
  | nil =>
    intro TB hsub hinj evid nm hmem
    cases hmem
  | cons e0 T ih =>
    intro TB hsub hinj evid nm hmem
    rw [List.map_cons, List.lookup]
    rcases hb : (Φ evid == Φ e0.2) with _ | _
    · have hne : Φ evid ≠ Φ e0.2 := by simpa using hb
      rcases List.mem_cons.mp hmem with heq | hmem2
      · exfalso
        apply hne
        rw [← heq]
      · exact ih (fun e he => hsub e (List.mem_cons_of_mem _ he)) hinj hmem2
    · have heq : Φ evid = Φ e0.2 := by simpa using hb
      have he0 : e0 = (nm, evid) :=
        hinj e0 (hsub e0 (List.mem_cons_self _ _)) (nm, evid)
          (hsub _ hmem) heq.symm
      rw [he0]

theorem lookup_map_phi_none {Φ : Nat → String} :
    ∀ {T : List (String × Nat)} {TB : List (String × Nat)},
    (∀ e ∈ T, e ∈ TB) →
    (∀ e1 ∈ TB, ∀ e2 ∈ TB, Φ e1.2 = Φ e2.2 → e1 = e2) →
    ∀ {w : Nat} {nm : String}, (nm, w) ∈ TB →
    T.lookup nm = none →
    (T.map (fun e => (Φ e.2, e.2))).lookup (Φ w) = none := by
  intro T
  induction T with
  | nil =>
    intro TB hsub hinj w nm hw hnone
    rfl
  | cons e0 T ih =>
    intro TB hsub hinj w nm hw hnone
    rw [List.lookup] at hnone
    rcases hb0 : (nm == e0.1) with _ | _
    · rw [hb0] at hnone
      rw [List.map_cons, List.lookup]
      rcases hb : (Φ w == Φ e0.2) with _ | _
      · exact ih (fun e he => hsub e (List.mem_cons_of_mem _ he)) hinj hw hnone
      · exfalso
        have heq : Φ w = Φ e0.2 := by simpa using hb
        have he0 : e0 = (nm, w) :=
          hinj e0 (hsub e0 (List.mem_cons_self _ _)) (nm, w) hw heq.symm
        rw [he0] at hb0
        simp at hb0
    · rw [hb0] at hnone
      cases hnone

/-- Simulation of one `addVariable` over the renamed tree: when the original
walk declares a freshly allocated variable, the walk over the renamed tree
declares the correspondingly renamed variable, succeeds, and the resulting
states stay in correspondence.  `nmσ` is the renamed variable's name; the
caller certifies it as the final name of whichever variable ends up owning
the declaration. -/
theorem addVariable_sim {B : St} {rst : RSt} {st σ st' : St} {sid : Nat} {v : Variable}
    {nmσ : String}
    (h1 : addVariable { st with vars := st.vars ++ [v] } sid st.vars.length = Except.ok st')
    (hP : ∀ i, i < st.scopes.length → ∀ p, (getScope st i).parent = some p → p < i)
    (hs : sid < st.scopes.length)
    (hinv : DeclInv st)
    (hsim : Sim rst σ st)
    (hΦinj : ∀ d : Nat, ∀ e1 ∈ (getScope B d).table, ∀ e2 ∈ (getScope B d).table,
      phiOf rst e1.2 = phiOf rst e2.2 → e1 = e2)
    (hsubT : ∀ i : Nat, ∀ e ∈ (getScope st i).table, e ∈ (getScope B i).table)
    (hsubT2 : ∀ i : Nat, ∀ e ∈ (getScope st' i).table, e ∈ (getScope B i).table)
    (hnmσ : ∀ w : Nat,
      (v.name, w) ∈ (getScope st' (getDeclarationScope st sid v.kind)).table →
      (∀ s ∈ v.declarations, s ∈ (getVar st' w).declarations) →
      nmσ = phiOf rst w) :
    ∃ σ' : St,
      addVariable { σ with vars := σ.vars ++ [⟨nmσ, v.kind, v.declarations, []⟩] }
        sid σ.vars.length = Except.ok σ' ∧ Sim rst σ' st' := by
  have hdlt : getDeclarationScope st sid v.kind < st.scopes.length :=
    getDeclarationScope_lt hP hs v.kind
  have hdltσ : getDeclarationScope st sid v.kind < σ.scopes.length := by
    rw [hsim.shape.len]
    exact hdlt
  have hv1 : getVar { st with vars := st.vars ++ [v] } st.vars.length = v := getVar_concat st v
  have hv2 : getVar { σ with vars := σ.vars ++ [⟨nmσ, v.kind, v.declarations, []⟩] }
      σ.vars.length = (⟨nmσ, v.kind, v.declarations, []⟩ : Variable) := getVar_concat σ _
  have hgs : ∀ i, getScope { st with vars := st.vars ++ [v] } i = getScope st i :=
    fun i => getScope_scopes_eq rfl i
  have hgsσ : ∀ i, getScope { σ with vars := σ.vars ++ [⟨nmσ, v.kind, v.declarations, []⟩] } i =
      getScope σ i := fun i => getScope_scopes_eq rfl i
  have hcongr : getDeclarationScope { st with vars := st.vars ++ [v] } sid v.kind =
      getDeclarationScope st sid v.kind :=
    @getDeclarationScope_congr st { st with vars := st.vars ++ [v] } rfl sid v.kind
  have hcongrσ : getDeclarationScope
      { σ with vars := σ.vars ++ [⟨nmσ, v.kind, v.declarations, []⟩] } sid v.kind =
      getDeclarationScope st sid v.kind := by
    rw [@getDeclarationScope_congr σ
      { σ with vars := σ.vars ++ [⟨nmσ, v.kind, v.declarations, []⟩] } rfl sid v.kind]
    exact getDeclarationScope_shape hsim.shape sid v.kind
  unfold addVariable at h1
  rw [hv1] at h1
  rcases hl : (getScope st (getDeclarationScope st sid v.kind)).table.lookup v.name
    with _ | evid
  · -- fresh insertion
    simp only [hcongr, hgs, hl, Except.ok.injEq] at h1
    have hTabSt : ∀ i, getScope st' i =
        if i = getDeclarationScope st sid v.kind then
          { getScope st (getDeclarationScope st sid v.kind) with
            table := (getScope st (getDeclarationScope st sid v.kind)).table ++
              [(v.name, st.vars.length)] }
        else getScope st i := by
      intro i
      rw [← h1, getScope_setTable]
      rcases eq_or_ne i (getDeclarationScope st sid v.kind) with rfl | hne
      · rw [if_pos ⟨rfl, hdlt⟩, if_pos rfl, hgs]
      · rw [if_neg (fun hc2 => hne hc2.1), if_neg hne]
        exact hgs i
    have hVarSt : ∀ w, getVar st' w = getVar { st with vars := st.vars ++ [v] } w := by
      intro w
      rw [← h1]
      rfl
    have hmemNew : (v.name, st.vars.length) ∈
        (getScope st' (getDeclarationScope st sid v.kind)).table := by
      rw [hTabSt, if_pos rfl]
      simp
    have hdeclNew : ∀ s ∈ v.declarations, s ∈ (getVar st' st.vars.length).declarations := by
      intro s hs2
      rw [hVarSt, hv1]
      exact hs2
    have hΦnew : nmσ = phiOf rst st.vars.length := hnmσ st.vars.length hmemNew hdeclNew
    refine ⟨setTable { σ with vars := σ.vars ++ [⟨nmσ, v.kind, v.declarations, []⟩] }
      (getDeclarationScope st sid v.kind)
      (((getScope st (getDeclarationScope st sid v.kind)).table.map
        (fun e => (phiOf rst e.2, e.2))) ++ [(nmσ, σ.vars.length)]), ?_, ?_⟩
    · unfold addVariable
      rw [hv2]
      simp only [hcongrσ, hgsσ]
      rw [hsim.stab]
      rw [hΦnew, lookup_map_phi_none (fun e he => hsubT _ e he)
        (hΦinj _) (hsubT2 _ _ hmemNew) hl]
    · have hTabσ : ∀ i, getScope (setTable
          { σ with vars := σ.vars ++ [⟨nmσ, v.kind, v.declarations, []⟩] }
          (getDeclarationScope st sid v.kind)
          (((getScope st (getDeclarationScope st sid v.kind)).table.map
            (fun e => (phiOf rst e.2, e.2))) ++ [(nmσ, σ.vars.length)])) i =
          if i = getDeclarationScope st sid v.kind then
            { getScope σ (getDeclarationScope st sid v.kind) with
              table := ((getScope st (getDeclarationScope st sid v.kind)).table.map
                (fun e => (phiOf rst e.2, e.2))) ++ [(nmσ, σ.vars.length)] }
          else getScope σ i := by
        intro i
        rw [getScope_setTable]
        rcases eq_or_ne i (getDeclarationScope st sid v.kind) with rfl | hne
        · rw [if_pos ⟨rfl, hdltσ⟩, if_pos rfl, hgsσ]
        · rw [if_neg (fun hc2 => hne hc2.1), if_neg hne]
          exact hgsσ i
      have hVarσ : ∀ w, getVar (setTable
          { σ with vars := σ.vars ++ [⟨nmσ, v.kind, v.declarations, []⟩] }
          (getDeclarationScope st sid v.kind)
          (((getScope st (getDeclarationScope st sid v.kind)).table.map
            (fun e => (phiOf rst e.2, e.2))) ++ [(nmσ, σ.vars.length)])) w =
          getVar { σ with vars := σ.vars ++ [⟨nmσ, v.kind, v.declarations, []⟩] } w :=
        fun w => rfl
      refine ⟨⟨?_, ?_, ?_, ?_⟩, ?_, ?_, ?_⟩
      · rw [← h1]
        simp only [setTable, List.length_set]
        exact hsim.shape.len
      · intro i
        rw [hTabSt, hTabσ]
        rcases eq_or_ne i (getDeclarationScope st sid v.kind) with rfl | hne
        · rw [if_pos rfl, if_pos rfl]
          exact hsim.shape.node _
        · rw [if_neg hne, if_neg hne]
          exact hsim.shape.node i
      · intro i
        rw [hTabSt, hTabσ]
        rcases eq_or_ne i (getDeclarationScope st sid v.kind) with rfl | hne
        · rw [if_pos rfl, if_pos rfl]
          exact hsim.shape.stype _
        · rw [if_neg hne, if_neg hne]
          exact hsim.shape.stype i
      · intro i
        rw [hTabSt, hTabσ]
        rcases eq_or_ne i (getDeclarationScope st sid v.kind) with rfl | hne
        · rw [if_pos rfl, if_pos rfl]
          exact hsim.shape.parent _
        · rw [if_neg hne, if_neg hne]
          exact hsim.shape.parent i
      · intro i
        rw [hTabSt, hTabσ]
        rcases eq_or_ne i (getDeclarationScope st sid v.kind) with rfl | hne
        · rw [if_pos rfl, if_pos rfl]
          simp only [List.map_append, List.map_cons, List.map_nil]
          rw [hΦnew, hsim.svlen]
        · rw [if_neg hne, if_neg hne]
          exact hsim.stab i
      · rw [← h1]
        simp only [setTable]
        simp only [List.length_append, List.length_cons, List.length_nil]
        have hvl := hsim.svlen
        omega
      · intro vid
        rw [hVarσ, hVarSt]
        rcases Nat.lt_or_ge vid st.vars.length with hlt | hge
        · rw [getVar_append_lt st v hlt,
            getVar_append_lt σ _ (by rw [hsim.svlen]; exact hlt)]
          exact hsim.skind vid
        · rcases Nat.eq_or_lt_of_le hge with heq | hgt
          · subst heq
            rw [hv1]
            have hv2b : getVar { σ with vars :=
                σ.vars ++ [(⟨nmσ, v.kind, v.declarations, []⟩ : Variable)] }
                st.vars.length = (⟨nmσ, v.kind, v.declarations, []⟩ : Variable) := by
              rw [← hsim.svlen]
              exact hv2
            rw [hv2b]
          · have hge2 : ({ st with vars := st.vars ++ [v] } : St).vars.length ≤ vid := by
              simp only [List.length_append, List.length_cons, List.length_nil]
              omega
            have hge3 : ({ σ with vars :=
                σ.vars ++ [(⟨nmσ, v.kind, v.declarations, []⟩ : Variable)] } :
                St).vars.length ≤ vid := by
              simp only [List.length_append, List.length_cons, List.length_nil]
              rw [hsim.svlen]
              omega
            rw [getVar_default _ hge2, getVar_default _ hge3]
  · -- merge with the existing variable
    simp only [hcongr, hgs, hl] at h1
    have hmemE := lookup_mem hl
    have hevid : evid < st.vars.length := hinv.keyLt _ _ hmemE
    have hevidσ : evid < σ.vars.length := by
      rw [hsim.svlen]
      exact hevid
    have hA : getVar { st with vars := st.vars ++ [v] } evid = getVar st evid :=
      getVar_append_lt st v hevid
    have hAσ : getVar { σ with vars := σ.vars ++ [⟨nmσ, v.kind, v.declarations, []⟩] } evid =
        getVar σ evid := getVar_append_lt σ _ hevidσ
    rw [hA] at h1
    split at h1
    · cases h1
    · rename_i hbs
      simp only [Except.ok.injEq] at h1
      have hscSt : ∀ i, getScope st' i = getScope st i := by
        intro i
        rw [← h1, getScope_scopes_eq (setVar_scopes _ _ _)]
        exact hgs i
      have hgvSt : ∀ w2 : Nat, getVar st' w2 =
          if w2 = evid then
            { getVar st evid with
              declarations := (getVar st evid).declarations ++ v.declarations }
          else getVar { st with vars := st.vars ++ [v] } w2 := by
        intro w2
        rw [← h1, getVar_setVar]
        rcases eq_or_ne w2 evid with rfl | hne
        · rw [if_pos ⟨rfl, by simp only [List.length_append, List.length_cons,
            List.length_nil]; omega⟩, if_pos rfl]
        · rw [if_neg (fun hc2 => hne hc2.1), if_neg hne]
      have hdeclE : ∀ s ∈ v.declarations, s ∈ (getVar st' evid).declarations := by
        intro s hs2
        rw [hgvSt, if_pos rfl]
        exact List.mem_append_right _ hs2
      have hΦE : nmσ = phiOf rst evid := by
        refine hnmσ evid ?_ hdeclE
        rw [hscSt]
        exact hmemE
      have hcondσ : ((getVar { σ with vars :=
          σ.vars ++ [(⟨nmσ, v.kind, v.declarations, []⟩ : Variable)] } evid).isBlockScoped ||
          (⟨nmσ, v.kind, v.declarations, []⟩ : Variable).isBlockScoped) = false := by
        rw [hAσ]
        have hk1 : (getVar σ evid).isBlockScoped = (getVar st evid).isBlockScoped := by
          unfold Variable.isBlockScoped
          rw [hsim.skind evid]
        have hk2 : (⟨nmσ, v.kind, v.declarations, []⟩ : Variable).isBlockScoped =
            v.isBlockScoped := rfl
        rw [hk1, hk2]
        simp only [Bool.or_eq_false_iff]
        constructor
        · by_contra hcb
          apply hbs
          rw [Bool.not_eq_false] at hcb
          rw [hcb]
          rfl
        · by_contra hcb
          apply hbs
          rw [Bool.not_eq_false] at hcb
          rw [hcb]
          simp
      refine ⟨setVar { σ with vars := σ.vars ++ [⟨nmσ, v.kind, v.declarations, []⟩] } evid
        { getVar σ evid with
          declarations := (getVar σ evid).declarations ++ v.declarations }, ?_, ?_⟩
      · unfold addVariable
        rw [hv2]
        simp only [hcongrσ, hgsσ]
        rw [hsim.stab]
        rw [hΦE] at hcondσ hAσ
        rw [hΦE]
        simp only [lookup_map_phi_some (fun e he => hsubT _ e he) (hΦinj _) hmemE]
        rw [hcondσ]
        simp only [Bool.false_eq_true, if_false, Except.ok.injEq]
        rw [hAσ]
      · have hscσ : ∀ i, getScope (setVar
            { σ with vars := σ.vars ++ [⟨nmσ, v.kind, v.declarations, []⟩] } evid
            { getVar σ evid with
              declarations := (getVar σ evid).declarations ++ v.declarations }) i =
            getScope σ i := by
          intro i
          rw [getScope_scopes_eq (setVar_scopes _ _ _)]
          exact hgsσ i
        have hgvσ : ∀ w2 : Nat, getVar (setVar
            { σ with vars := σ.vars ++ [⟨nmσ, v.kind, v.declarations, []⟩] } evid
            { getVar σ evid with
              declarations := (getVar σ evid).declarations ++ v.declarations }) w2 =
            if w2 = evid then
              { getVar σ evid with
                declarations := (getVar σ evid).declarations ++ v.declarations }
            else getVar { σ with vars := σ.vars ++ [⟨nmσ, v.kind, v.declarations, []⟩] } w2 := by
          intro w2
          rw [getVar_setVar]
          rcases eq_or_ne w2 evid with rfl | hne
          · rw [if_pos ⟨rfl, by simp only [List.length_append, List.length_cons,
              List.length_nil]; omega⟩, if_pos rfl]
          · rw [if_neg (fun hc2 => hne hc2.1), if_neg hne]
        refine ⟨⟨?_, ?_, ?_, ?_⟩, ?_, ?_, ?_⟩
        · rw [← h1]
          simp only [setVar]
          exact hsim.shape.len
        · intro i
          rw [hscSt, hscσ]
          exact hsim.shape.node i
        · intro i
          rw [hscSt, hscσ]
          exact hsim.shape.stype i
        · intro i
          rw [hscSt, hscσ]
          exact hsim.shape.parent i
        · intro i
          rw [hscSt, hscσ]
          exact hsim.stab i
        · rw [← h1]
          simp only [setVar, List.length_set]
          simp only [List.length_append, List.length_cons, List.length_nil]
          have hvl := hsim.svlen
          omega
        · intro vid
          rw [hgvSt, hgvσ]
          rcases eq_or_ne vid evid with rfl | hne
          · rw [if_pos rfl, if_pos rfl]
            exact hsim.skind vid
          · rw [if_neg hne, if_neg hne]
            rcases Nat.lt_or_ge vid st.vars.length with hlt | hge
            · rw [getVar_append_lt st v hlt,
                getVar_append_lt σ _ (by rw [hsim.svlen]; exact hlt)]
              exact hsim.skind vid
            · rcases Nat.eq_or_lt_of_le hge with heq | hgt
              · have hveq : vid = σ.vars.length := by rw [hsim.svlen, ← heq]
                rw [heq] at hv1
                rw [← hveq] at hv2
                rw [hv1, hv2]
              · have hge2 : ({ st with vars := st.vars ++ [v] } : St).vars.length ≤ vid := by
                  simp only [List.length_append, List.length_cons, List.length_nil]
                  omega
                have hge3 : ({ σ with vars :=
                    σ.vars ++ [(⟨nmσ, v.kind, v.declarations, []⟩ : Variable)] } :
                    St).vars.length ≤ vid := by
                  simp only [List.length_append, List.length_cons, List.length_nil]
                  rw [hsim.svlen]
                  omega
                rw [getVar_default _ hge2, getVar_default _ hge3]

theorem Sim_addName {rst : RSt} {σ2 st2 : St} (h : Sim rst σ2 st2) (nmσ nm : String) :
    Sim rst (addName σ2 nmσ) (addName st2 nm) :=
  Sim_congr (addName_scopes _ _) (addName_vars _ _) (addName_scopes _ _) (addName_vars _ _) h

/-- Pushing the same site onto the declaration list of the variable at the
same heap index preserves the simulation relation. -/
theorem Sim_pushSite {rst : RSt} {σ2 st2 : St} (h : Sim rst σ2 st2) (L site : Nat) :
    Sim rst
      (setVar σ2 L { getVar σ2 L with
        declarations := (getVar σ2 L).declarations ++ [site] })
      (setVar st2 L { getVar st2 L with
        declarations := (getVar st2 L).declarations ++ [site] }) := by
  have hscσ : ∀ i, getScope (setVar σ2 L { getVar σ2 L with
      declarations := (getVar σ2 L).declarations ++ [site] }) i = getScope σ2 i :=
    fun i => getScope_scopes_eq (setVar_scopes _ _ _) i
  have hscSt : ∀ i, getScope (setVar st2 L { getVar st2 L with
      declarations := (getVar st2 L).declarations ++ [site] }) i = getScope st2 i :=
    fun i => getScope_scopes_eq (setVar_scopes _ _ _) i
  refine ⟨⟨?_, ?_, ?_, ?_⟩, ?_, ?_, ?_⟩
  · simp only [setVar]
    exact h.shape.len
  · intro i
    rw [hscσ, hscSt]
    exact h.shape.node i
  · intro i
    rw [hscσ, hscSt]
    exact h.shape.stype i
  · intro i
    rw [hscσ, hscSt]
    exact h.shape.parent i
  · intro i
    rw [hscσ, hscSt]
    exact h.stab i
  · simp only [setVar, List.length_set]
    exact h.svlen
  · intro vid
    rw [getVar_setVar, getVar_setVar]
    by_cases hc : vid = L ∧ L < st2.vars.length
    · rw [if_pos hc, if_pos ⟨hc.1, by rw [h.svlen]; exact hc.2⟩]
      exact h.skind L
    · have hc2 : ¬(vid = L ∧ L < σ2.vars.length) := by
        intro hx
        exact hc ⟨hx.1, by rw [← h.svlen]; exact hx.2⟩
      rw [if_neg hc, if_neg hc2]
      exact h.skind vid

/-- Simulation of one `declareBinding` over the renamed tree. -/
theorem declareBinding_sim {B : St} {rst : RSt} {st σ st' : St} {sid : Nat}
    {kind nm nmσ : String} {site : Nat}
    (h : declareBinding st sid kind nm site = Except.ok st')
    (hP : ∀ i, i < st.scopes.length → ∀ p, (getScope st i).parent = some p → p < i)
    (hs : sid < st.scopes.length)
    (hinv : DeclInv st)
    (hsim : Sim rst σ st)
    (hΦinj : ∀ d : Nat, ∀ e1 ∈ (getScope B d).table, ∀ e2 ∈ (getScope B d).table,
      phiOf rst e1.2 = phiOf rst e2.2 → e1 = e2)
    (hsubT : ∀ i : Nat, ∀ e ∈ (getScope st i).table, e ∈ (getScope B i).table)
    (hsubT2 : ∀ i : Nat, ∀ e ∈ (getScope st' i).table, e ∈ (getScope B i).table)
    (hnmσ : ∀ w : Nat, (nm, w) ∈ (getScope st' (getDeclarationScope st sid kind)).table →
      site ∈ (getVar st' w).declarations → nmσ = phiOf rst w) :
    ∃ σ' : St, declareBinding σ sid kind nmσ site = Except.ok σ' ∧ Sim rst σ' st' := by
  have hdlt : getDeclarationScope st sid kind < st.scopes.length :=
    getDeclarationScope_lt hP hs kind
  have hDσ : getDeclarationScope σ sid kind = getDeclarationScope st sid kind :=
    getDeclarationScope_shape hsim.shape sid kind
  unfold declareBinding at h
  rcases hl : (getScope st (getDeclarationScope st sid kind)).table.lookup nm with _ | evid
  · -- fresh declarator
    simp only [hl, bind_ok_iff] at h
    obtain ⟨st2, h2x, h⟩ := h
    simp only [Except.ok.injEq] at h
    have h2y : addVariable { st with vars := st.vars ++ [(⟨nm, kind, [], []⟩ : Variable)] }
        sid st.vars.length = Except.ok st2 := h2x
    -- characterize the intermediate and final first-pass states
    have hv := getVar_concat st (⟨nm, kind, [], []⟩ : Variable)
    have hcongr : getDeclarationScope (allocVar st ⟨nm, kind, [], []⟩).1 sid kind =
        getDeclarationScope st sid kind :=
      @getDeclarationScope_congr st (allocVar st ⟨nm, kind, [], []⟩).1 rfl sid kind
    have hgs : ∀ i, getScope (allocVar st ⟨nm, kind, [], []⟩).1 i = getScope st i :=
      fun i => getScope_scopes_eq rfl i
    have h2z := h2x
    unfold addVariable at h2z
    simp only [allocVar] at h2z hv hcongr hgs
    rw [hv] at h2z
    simp only [hcongr, hgs, hl, Except.ok.injEq] at h2z
    have hA1 : ∀ i, getScope st2 i =
        if i = getDeclarationScope st sid kind then
          { getScope st (getDeclarationScope st sid kind) with
            table := (getScope st (getDeclarationScope st sid kind)).table ++
              [(nm, st.vars.length)] }
        else getScope st i := by
      intro i
      rw [← h2z, getScope_setTable]
      rcases eq_or_ne i (getDeclarationScope st sid kind) with rfl | hne
      · rw [if_pos ⟨rfl, hdlt⟩, if_pos rfl, hgs]
      · rw [if_neg (fun hc2 => hne hc2.1), if_neg hne]
        exact hgs i
    have hTab : ∀ i, getScope st' i =
        if i = getDeclarationScope st sid kind then
          { getScope st (getDeclarationScope st sid kind) with
            table := (getScope st (getDeclarationScope st sid kind)).table ++
              [(nm, st.vars.length)] }
        else getScope st i := by
      intro i
      rw [← h, getScope_scopes_eq (setVar_scopes _ _ _),
        getScope_scopes_eq (addName_scopes _ _), hA1]
    have hVL : getVar (addName st2 nm) st.vars.length = (⟨nm, kind, [], []⟩ : Variable) := by
      rw [getVar_vars_eq (addName_vars _ _)]
      rw [← h2z]
      exact hv
    have hVarF : getVar st' st.vars.length = (⟨nm, kind, [site], []⟩ : Variable) := by
      have hlen : (addName st2 nm).vars.length = st.vars.length + 1 := by
        rw [addName_vars, ← h2z]
        simp [setTable]
      rw [← h, getVar_setVar, if_pos ⟨rfl, by omega⟩, hVL]
      rfl
    -- the renamed name is the final name of the inserted variable
    have hΦlen : nmσ = phiOf rst st.vars.length := by
      refine hnmσ st.vars.length ?_ ?_
      · rw [hTab, if_pos rfl]
        simp
      · rw [hVarF]
        simp
    have hmemB : (nm, st.vars.length) ∈
        (getScope B (getDeclarationScope st sid kind)).table := by
      refine hsubT2 _ _ ?_
      rw [hTab, if_pos rfl]
      simp
    -- simulate the inner addVariable
    have hnm2 : ∀ w : Nat,
        ((⟨nm, kind, [], []⟩ : Variable).name, w) ∈
          (getScope st2 (getDeclarationScope st sid
            (⟨nm, kind, [], []⟩ : Variable).kind)).table →
        (∀ s ∈ (⟨nm, kind, [], []⟩ : Variable).declarations,
          s ∈ (getVar st2 w).declarations) →
        nmσ = phiOf rst w := by
      intro w hw hdecl
      have hw2 : (nm, w) ∈ (getScope st2 (getDeclarationScope st sid kind)).table := hw
      rw [hA1, if_pos rfl] at hw2
      simp only at hw2
      rcases List.mem_append.mp hw2 with hm | hm
      · exact absurd rfl (lookup_none_keys hl (nm, w) hm)
      · simp only [List.mem_singleton, Prod.mk.injEq] at hm
        rw [hm.2]
        exact hΦlen
    obtain ⟨σ2, hσ2, hsim2⟩ := addVariable_sim h2y hP hs hinv hsim hΦinj hsubT
      (fun i e he => hsubT2 i e (by rw [hTab]; rw [hA1] at he; exact he)) hnm2
    -- assemble the second-pass run
    rw [hΦlen] at hσ2
    refine ⟨setVar (addName σ2 (phiOf rst st.vars.length)) σ.vars.length
      { getVar (addName σ2 (phiOf rst st.vars.length)) σ.vars.length with
        declarations := (getVar (addName σ2 (phiOf rst st.vars.length))
          σ.vars.length).declarations ++ [site] }, ?_, ?_⟩
    · unfold declareBinding
      rw [hΦlen, hDσ, hsim.stab,
        lookup_map_phi_none (fun e he => hsubT _ e he) (hΦinj _) hmemB hl]
      simp only [allocVar]
      rw [hσ2, okBind]
    · rw [← h]
      have hL : σ.vars.length = st.vars.length := hsim.svlen
      rw [hL]
      exact Sim_pushSite (Sim_addName hsim2 _ _) st.vars.length site
  · -- merge with the existing declarator
    simp only [hl] at h
    split at h
    · cases h
    · rename_i hbs
      simp only [Except.ok.injEq] at h
      have hscSt : ∀ i, getScope st' i = getScope st i := by
        intro i
        rw [← h, getScope_scopes_eq (setVar_scopes _ _ _)]
      have hmemE := lookup_mem hl
      have hevid : evid < st.vars.length := hinv.keyLt _ _ hmemE
      have hΦE : nmσ = phiOf rst evid := by
        refine hnmσ evid ?_ ?_
        · rw [hscSt]
          exact hmemE
        · rw [← h, getVar_setVar, if_pos ⟨rfl, hevid⟩]
          simp
      have hcondσ : ((getVar σ evid).isBlockScoped ||
          blockScopedTypes.contains kind) = false := by
        have hk1 : (getVar σ evid).isBlockScoped = (getVar st evid).isBlockScoped := by
          unfold Variable.isBlockScoped
          rw [hsim.skind evid]
        rw [hk1]
        rw [Bool.or_eq_false_iff]
        constructor
        · by_contra hcb
          apply hbs
          rw [Bool.not_eq_false] at hcb
          rw [hcb]
          rfl
        · by_contra hcb
          apply hbs
          rw [Bool.not_eq_false] at hcb
          rw [hcb]
          simp
      refine ⟨setVar σ evid { getVar σ evid with
        declarations := (getVar σ evid).declarations ++ [site] }, ?_, ?_⟩
      · unfold declareBinding
        rw [hΦE, hDσ, hsim.stab]
        simp only [lookup_map_phi_some (fun e he => hsubT _ e he) (hΦinj _) hmemE]
        rw [hcondσ]
        simp only [Bool.false_eq_true, if_false]
      · rw [← h]
        exact Sim_pushSite hsim evid site

theorem Sim_push {rst : RSt} {σ2 st2 : St} (h : Sim rst σ2 st2) (nid : Nat)
    (ty : ScopeType) (cur : Nat) :
    Sim rst (pushScope σ2 nid ty cur) (pushScope st2 nid ty cur) := by
  have hlen : σ2.scopes.length = st2.scopes.length := h.shape.len
  have hcase : ∀ i : Nat,
      (getScope (pushScope σ2 nid ty cur) i = getScope σ2 i ∧
        getScope (pushScope st2 nid ty cur) i = getScope st2 i) ∨
      (getScope (pushScope σ2 nid ty cur) i = (⟨nid, ty, some cur, []⟩ : ScopeData) ∧
        getScope (pushScope st2 nid ty cur) i = (⟨nid, ty, some cur, []⟩ : ScopeData)) ∨
      (getScope (pushScope σ2 nid ty cur) i = dummyScope ∧
        getScope (pushScope st2 nid ty cur) i = dummyScope) := by
    intro i
    rcases Nat.lt_or_ge i st2.scopes.length with hlt | hge
    · exact Or.inl ⟨getScope_pushScope_old σ2 nid ty cur i (by omega),
        getScope_pushScope_old st2 nid ty cur i hlt⟩
    · rcases Nat.eq_or_lt_of_le hge with heq | hgt
      · refine Or.inr (Or.inl ⟨?_, ?_⟩)
        · rw [← heq, ← hlen]
          exact getScope_pushScope_new σ2 nid ty cur
        · rw [← heq]
          exact getScope_pushScope_new st2 nid ty cur
      · exact Or.inr (Or.inr ⟨getScope_default _ i (by rw [pushScope_length]; omega),
          getScope_default _ i (by rw [pushScope_length]; omega)⟩)
  refine ⟨⟨?_, ?_, ?_, ?_⟩, ?_, ?_, ?_⟩
  · rw [pushScope_length, pushScope_length, hlen]
  · intro i
    rcases hcase i with ⟨hσ, hst⟩ | ⟨hσ, hst⟩ | ⟨hσ, hst⟩ <;> rw [hσ, hst]
    exact h.shape.node i
  · intro i
    rcases hcase i with ⟨hσ, hst⟩ | ⟨hσ, hst⟩ | ⟨hσ, hst⟩ <;> rw [hσ, hst]
    exact h.shape.stype i
  · intro i
    rcases hcase i with ⟨hσ, hst⟩ | ⟨hσ, hst⟩ | ⟨hσ, hst⟩ <;> rw [hσ, hst]
    exact h.shape.parent i
  · intro i
    rcases hcase i with ⟨hσ, hst⟩ | ⟨hσ, hst⟩ | ⟨hσ, hst⟩ <;> rw [hσ, hst]
    · exact h.stab i
    · rfl
    · rfl
  · simp only [pushScope]
    exact h.svlen
  · intro vid
    simp only [pushScope]
    exact h.skind vid

theorem leaveScope_shape {st σ : St} (hsh : SameShape st σ) (cur nid : Nat) :
    leaveScope σ cur nid = leaveScope st cur nid := by
  simp only [leaveScope]
  rw [hsh.parent cur, hsh.node cur]

/-- Simulation of the declarator loop over the renamed tree. -/
theorem processBindings_sim {B : St} {rst : RSt}
    (hΦinj : ∀ d : Nat, ∀ e1 ∈ (getScope B d).table, ∀ e2 ∈ (getScope B d).table,
      phiOf rst e1.2 = phiOf rst e2.2 → e1 = e2)
    (hPC : ∀ d : Nat, ∀ e ∈ (getScope B d).table,
      ∀ s ∈ (getVar B e.2).declarations ++ (getVar B e.2).references,
      patchName rst.patches s e.1 = phiOf rst e.2) :
    ∀ {bs : List Binding} {st σ st' : St} {sid : Nat} {kind : String} {i : Nat},
    processBindings st sid kind bs i = Except.ok st' →
    (∀ j, j < st.scopes.length → ∀ p, (getScope st j).parent = some p → p < j) →
    sid < st.scopes.length → DeclInv st → Sim rst σ st →
    (∀ j : Nat, ∀ e ∈ (getScope st' j).table, e ∈ (getScope B j).table) →
    (∀ w : Nat, ∀ s ∈ (getVar st' w).declarations, s ∈ (getVar B w).declarations) →
    ∃ σ' : St, processBindings σ sid kind (patchBindings rst.patches i bs) i =
      Except.ok σ' ∧ Sim rst σ' st' := by
  intro bs
  induction bs with
  | nil =>
    intro st σ st' sid kind i h hP hs hinv hsim hsubT2 hsubD2
    cases h
    exact ⟨σ, rfl, hsim⟩
  | cons b bs ih =>
    intro st σ st' sid kind i h hP hs hinv hsim hsubT2 hsubD2
    cases b with
    | pattern =>
      cases h
      exact ⟨σ, rfl, hsim⟩
    | bid nm =>
      unfold processBindings at h
      rcases hd : declareBinding st sid kind nm i with _ | st1
      · rw [hd] at h
        cases h
      · rw [hd] at h
        rw [okBind] at h
        obtain ⟨hinv1, hslen1, hvlen1, htm1, hdm1, hkn1, hcov1⟩ :=
          declareBinding_coh hd hP hs hinv
        have hsh1 := declareBinding_shape hd
        obtain ⟨hinv', hslen', hg', hcov'⟩ :=
          processBindings_coh h (parentLt_of_shape hsh1 hP) (by omega) hinv1
        have hsubT1 : ∀ j : Nat, ∀ e ∈ (getScope st1 j).table, e ∈ (getScope B j).table :=
          fun j e he => hsubT2 j e (hg'.tmono j e he)
        have hsubT0 : ∀ j : Nat, ∀ e ∈ (getScope st j).table, e ∈ (getScope B j).table :=
          fun j e he => hsubT1 j e (htm1 j e he)
        have hsubD1 : ∀ w : Nat, ∀ s ∈ (getVar st1 w).declarations,
            s ∈ (getVar B w).declarations :=
          fun w s hsx => hsubD2 w s (hg'.dmono w s hsx)
        have hnm : ∀ w : Nat,
            (nm, w) ∈ (getScope st1 (getDeclarationScope st sid kind)).table →
            i ∈ (getVar st1 w).declarations →
            patchName rst.patches i nm = phiOf rst w := by
          intro w hw hiw
          exact hPC _ _ (hsubT1 _ _ hw) i (List.mem_append_left _ (hsubD1 _ _ hiw))
        obtain ⟨σ1, hσ1, hsim1⟩ :=
          declareBinding_sim hd hP hs hinv hsim hΦinj hsubT0 hsubT1 hnm
        obtain ⟨σ', hσ', hsim'⟩ :=
          ih h (parentLt_of_shape hsh1 hP) (by omega) hinv1 hsim1 hsubT2 hsubD2
        refine ⟨σ', ?_, hsim'⟩
        show processBindings σ sid kind (Binding.bid (patchName rst.patches i nm) ::
          patchBindings rst.patches (i + 1) bs) i = Except.ok σ'
        unfold processBindings
        rw [hσ1, okBind]
        exact hσ'

/-- Simulation of the parameter loop over the renamed tree. -/
theorem addParams_sim {B : St} {rst : RSt}
    (hΦinj : ∀ d : Nat, ∀ e1 ∈ (getScope B d).table, ∀ e2 ∈ (getScope B d).table,
      phiOf rst e1.2 = phiOf rst e2.2 → e1 = e2)
    (hPC : ∀ d : Nat, ∀ e ∈ (getScope B d).table,
      ∀ s ∈ (getVar B e.2).declarations ++ (getVar B e.2).references,
      patchName rst.patches s e.1 = phiOf rst e.2) :
    ∀ {ps : List Binding} {st σ st' : St} {sid i : Nat},
    addParams st sid ps i = Except.ok st' →
    (∀ j, j < st.scopes.length → ∀ p, (getScope st j).parent = some p → p < j) →
    sid < st.scopes.length → DeclInv st → Sim rst σ st →
    (∀ j : Nat, ∀ e ∈ (getScope st' j).table, e ∈ (getScope B j).table) →
    (∀ w : Nat, ∀ s ∈ (getVar st' w).declarations, s ∈ (getVar B w).declarations) →
    ∃ σ' : St, addParams σ sid (patchBindings rst.patches i ps) i = Except.ok σ' ∧
      Sim rst σ' st' := by
  intro ps
  induction ps with
  | nil =>
    intro st σ st' sid i h hP hs hinv hsim hsubT2 hsubD2
    cases h
    exact ⟨σ, rfl, hsim⟩
  | cons b ps ih =>
    intro st σ st' sid i h hP hs hinv hsim hsubT2 hsubD2
    cases b with
    | pattern =>
      obtain ⟨σ', hσ', hsim'⟩ := ih h hP hs hinv hsim hsubT2 hsubD2
      exact ⟨σ', hσ', hsim'⟩
    | bid nm =>
      unfold addParams at h
      rcases hadd : addVariable (allocVar st ⟨nm, "var", [i], []⟩).1 sid
          (allocVar st ⟨nm, "var", [i], []⟩).2 with _ | st2
      · rw [hadd] at h
        cases h
      · rw [hadd] at h
        rw [okBind] at h
        have hPA : ∀ j, j < (allocVar st ⟨nm, "var", [i], []⟩).1.scopes.length → ∀ p,
            (getScope (allocVar st ⟨nm, "var", [i], []⟩).1 j).parent = some p → p < j :=
          parentLt_of_shape (sameShape_of_scopes_eq rfl) hP
        have hvidA : (allocVar st ⟨nm, "var", [i], []⟩).2 <
            (allocVar st ⟨nm, "var", [i], []⟩).1.vars.length := by
          simp [allocVar]
        obtain ⟨hinvA, hslenA, hvlenA, htmA, hdmA, hknA, -⟩ :=
          addVariable_coh hadd hPA hs hvidA (DeclInv_alloc _ hinv)
        have hsh2 : SameShape st st2 :=
          (allocVar_shape st _).strans (addVariable_shape hadd)
        have hsh3 : SameShape st (addName st2 nm) :=
          hsh2.strans (addName_shape st2 nm)
        have hinvN : DeclInv (addName st2 nm) :=
          DeclInv_congr (addName_scopes _ _) (addName_vars _ _) hinvA
        obtain ⟨hinv', hslen', hg', hcov'⟩ :=
          addParams_coh h (parentLt_of_shape hsh3 hP) (by rw [hsh3.len]; exact hs) hinvN
        have hsubT1 : ∀ j : Nat, ∀ e ∈ (getScope st2 j).table, e ∈ (getScope B j).table := by
          intro j e he
          refine hsubT2 j e (hg'.tmono j e ?_)
          rw [getScope_scopes_eq (addName_scopes _ _)]
          exact he
        have hsubT0 : ∀ j : Nat, ∀ e ∈ (getScope st j).table, e ∈ (getScope B j).table := by
          intro j e he
          refine hsubT1 j e (htmA j e ?_)
          rw [getScope_scopes_eq rfl]
          exact he
        have hsubD1 : ∀ w : Nat, ∀ s ∈ (getVar st2 w).declarations,
            s ∈ (getVar B w).declarations := by
          intro w s hsx
          refine hsubD2 w s (hg'.dmono w s ?_)
          rw [getVar_vars_eq (addName_vars _ _)]
          exact hsx
        have hadd2 : addVariable { st with vars :=
            st.vars ++ [(⟨nm, "var", [i], []⟩ : Variable)] } sid st.vars.length =
            Except.ok st2 := hadd
        have hnm : ∀ w : Nat,
            ((⟨nm, "var", [i], []⟩ : Variable).name, w) ∈
              (getScope st2 (getDeclarationScope st sid
                (⟨nm, "var", [i], []⟩ : Variable).kind)).table →
            (∀ s ∈ (⟨nm, "var", [i], []⟩ : Variable).declarations,
              s ∈ (getVar st2 w).declarations) →
            patchName rst.patches i nm = phiOf rst w := by
          intro w hw hiw
          exact hPC _ _ (hsubT1 _ _ hw) i
            (List.mem_append_left _ (hsubD1 _ _ (hiw i (List.mem_singleton_self i))))
        obtain ⟨σ2, hσ2, hsim2⟩ :=
          addVariable_sim hadd2 hP hs hinv hsim hΦinj hsubT0 hsubT1 hnm
        obtain ⟨σ', hσ', hsim'⟩ := ih h (parentLt_of_shape hsh3 hP)
          (by rw [hsh3.len]; exact hs) hinvN (Sim_addName hsim2 _ _) hsubT2 hsubD2
        refine ⟨σ', ?_, hsim'⟩
        show addParams σ sid (Binding.bid (patchName rst.patches i nm) ::
          patchBindings rst.patches (i + 1) ps) i = Except.ok σ'
        unfold addParams
        simp only [allocVar]
        rw [hσ2, okBind]
        exact hσ'

mutual

/-- The declaration walk over the renamed subtree follows the run over the
original subtree step for step: it succeeds with the same cursor and id
outputs, and its state stays in pointwise correspondence via `Sim`. -/
theorem declsN_sim (n : Node) :
    ∀ (B : St) (rst : RSt),
    (∀ d : Nat, ∀ e1 ∈ (getScope B d).table, ∀ e2 ∈ (getScope B d).table,
      phiOf rst e1.2 = phiOf rst e2.2 → e1 = e2) →
    (∀ d : Nat, ∀ e ∈ (getScope B d).table,
      ∀ s ∈ (getVar B e.2).declarations ++ (getVar B e.2).references,
      patchName rst.patches s e.1 = phiOf rst e.2) →
    (∀ d : Nat, ∀ e ∈ (getScope B d).table, shouldRename e.1 = false →
      phiOf rst e.2 = e.1) →
    ∀ (st σ : St) (cur nid : Nat) (out : St × Nat × Nat),
    declsN st cur nid n = Except.ok out →
    WalkInv st nid → cur < st.scopes.length → DeclInv st → Sim rst σ st →
    (∀ i : Nat, ∀ e ∈ (getScope out.1 i).table, e ∈ (getScope B i).table) →
    (∀ w : Nat, ∀ s ∈ (getVar out.1 w).declarations, s ∈ (getVar B w).declarations) →
    ∃ σout : St,
      declsN σ cur nid (patchN rst.patches nid n) = Except.ok (σout, out.2.1, out.2.2) ∧
      Sim rst σout out.1 := by
  cases n with
  | script body =>
    intro B rst hΦinj hPC hA st σ cur nid out h hinv hcur hdinv hsim hsubT2 hsubD2
    simp only [declsN, bind_ok_iff] at h
    obtain ⟨⟨st1, cur1, nid1⟩, hL, h⟩ := h
    simp only [Except.ok.injEq] at h
    subst h
    obtain ⟨σ1, hσL, hsimL⟩ := declsL_sim body B rst hΦinj hPC hA st σ cur (nid + 1)
      (st1, cur1, nid1) hL (hinv.mono (by omega)) hcur hdinv hsim hsubT2 hsubD2
    refine ⟨σ1, ?_, hsimL⟩
    simp only [patchN, declsN]
    rw [hσL, okBind, leaveScope_shape hsimL.shape]
  | functionDeclaration nm params body =>
    intro B rst hΦinj hPC hA st σ cur nid out h hinv hcur hdinv hsim hsubT2 hsubD2
    simp only [declsN, allocVar, bind_ok_iff] at h
    obtain ⟨st2, h2, h⟩ := h
    obtain ⟨st5, h5, h⟩ := h
    obtain ⟨st7, h7, h⟩ := h
    obtain ⟨⟨st8, cur8, nid8⟩, h8, h⟩ := h
    simp only [Except.ok.injEq] at h
    subst h
    obtain ⟨hinv2, hslen2, hvlen2, htm2, hdm2, hkn2, rvid, hre, hrd⟩ :=
      addVariable_coh h2 (parentLt_of_shape (sameShape_of_scopes_eq rfl) hinv.parentLt)
        hcur (by simp) (DeclInv_alloc _ hdinv)
    have hsh1 : SameShape st { st with vars := st.vars ++ [⟨nm, "var", [nid + 1], []⟩] } :=
      allocVar_shape st ⟨nm, "var", [nid + 1], []⟩
    have hsh2 : SameShape st (addName st2 nm) :=
      (hsh1.strans (addVariable_shape h2)).strans (addName_shape st2 nm)
    have hdinv3 : DeclInv (addName st2 nm) :=
      DeclInv_congr (addName_scopes _ _) (addName_vars _ _) hinv2
    have hw4 : WalkInv (pushScope (addName st2 nm) nid ScopeType.Function cur) (nid + 1) :=
      pushScope_inv _ (hinv.ofShape hsh2) (by rw [hsh2.len]; exact hcur)
    obtain ⟨hinv5, hslen5, hg5, hcov5⟩ :=
      addParams_coh h5 hw4.parentLt (by rw [pushScope_length]; omega)
        (DeclInv_push _ _ _ hdinv3)
    have hsh5 : SameShape (pushScope (addName st2 nm) nid ScopeType.Function cur) st5 :=
      addParams_shape h5
    obtain ⟨hinv7, hslen7, hvlen7, htm7, hdm7, hkn7, -⟩ :=
      addVariable_coh h7
        (parentLt_of_shape (hsh5.strans (allocVar_shape st5 ⟨"arguments", "var", [], []⟩))
          hw4.parentLt)
        (by rw [(hsh5.strans (allocVar_shape st5 ⟨"arguments", "var", [], []⟩)).len,
              pushScope_length]; omega)
        (by simp) (DeclInv_alloc _ hinv5)
    have hsh7 : SameShape (pushScope (addName st2 nm) nid ScopeType.Function cur) st7 :=
      hsh5.strans ((allocVar_shape st5 ⟨"arguments", "var", [], []⟩).strans
        (addVariable_shape h7))
    obtain ⟨hwc, hlenc⟩ := creating_setup hinv hcur hsh2 hsh7
    have hcurc : (addName st2 nm).scopes.length = st.scopes.length := hsh2.len
    rw [hcurc] at h8
    obtain ⟨hinvF, hgF, hcovF⟩ :=
      declsL_coh body st7 st.scopes.length (nid + 2 + params.length) (st8, cur8, nid8) h8
        (hwc.mono (by omega)) hlenc hinv7
    -- growth chain from `st2` to the final state, for persistence of entries
    have g3 : Grow st2 (addName st2 nm) ([] : List (Nat × String)) :=
      Grow_congr (addName_scopes _ _) (addName_vars _ _) []
    have g4 : Grow (addName st2 nm)
        (pushScope (addName st2 nm) nid ScopeType.Function cur) ([] : List (Nat × String)) :=
      Grow_push (addName st2 nm) nid ScopeType.Function cur []
    have g5 : Grow (pushScope (addName st2 nm) nid ScopeType.Function cur) st5
        (dsitesP (nid + 2) params) := hg5
    have g6 : Grow st5 { st5 with vars := st5.vars ++ [⟨"arguments", "var", [], []⟩] }
        ([] : List (Nat × String)) :=
      Grow_alloc st5 ⟨"arguments", "var", [], []⟩ []
    have g7 : Grow { st5 with vars := st5.vars ++ [⟨"arguments", "var", [], []⟩] } st7
        ([] : List (Nat × String)) := ⟨hvlen7.ge, htm7, hdm7, fun j e he => by
      rcases hkn7 j e he with hm | hm
      · exact Or.inl hm
      · exact Or.inr (Or.inl (by rw [hm, getVar_concat st5]))⟩
    have hsubTst7 : ∀ j : Nat, ∀ e ∈ (getScope st7 j).table, e ∈ (getScope B j).table :=
      fun j e he => hsubT2 j e (hgF.tmono j e he)
    have hsubDst7 : ∀ w : Nat, ∀ s ∈ (getVar st7 w).declarations,
        s ∈ (getVar B w).declarations :=
      fun w s hs2 => hsubD2 w s (hgF.dmono w s hs2)
    have hsubTst5 : ∀ j : Nat, ∀ e ∈ (getScope st5 j).table, e ∈ (getScope B j).table :=
      fun j e he => hsubTst7 j e (g7.tmono j e (g6.tmono j e he))
    have hsubDst5 : ∀ w : Nat, ∀ s ∈ (getVar st5 w).declarations,
        s ∈ (getVar B w).declarations :=
      fun w s hs2 => hsubDst7 w s (g7.dmono w s (g6.dmono w s hs2))
    have hsubTst2 : ∀ j : Nat, ∀ e ∈ (getScope st2 j).table, e ∈ (getScope B j).table :=
      fun j e he => hsubTst5 j e (g5.tmono j e (g4.tmono j e (g3.tmono j e he)))
    have hsubDst2 : ∀ w : Nat, ∀ s ∈ (getVar st2 w).declarations,
        s ∈ (getVar B w).declarations :=
      fun w s hs2 => hsubDst5 w s (g5.dmono w s (g4.dmono w s (g3.dmono w s hs2)))
    have hsubTst : ∀ j : Nat, ∀ e ∈ (getScope st j).table, e ∈ (getScope B j).table :=
      fun j e he => hsubTst2 j e (htm2 j e he)
    have h2y : addVariable
        { st with vars := st.vars ++ [(⟨nm, "var", [nid + 1], []⟩ : Variable)] }
        cur st.vars.length = Except.ok st2 := h2
    have hnmf : ∀ w : Nat,
        ((⟨nm, "var", [nid + 1], []⟩ : Variable).name, w) ∈
          (getScope st2 (getDeclarationScope st cur
            (⟨nm, "var", [nid + 1], []⟩ : Variable).kind)).table →
        (∀ s ∈ (⟨nm, "var", [nid + 1], []⟩ : Variable).declarations,
          s ∈ (getVar st2 w).declarations) →
        patchName rst.patches (nid + 1) nm = phiOf rst w := by
      intro w hw hiw
      exact hPC _ _ (hsubTst2 _ _ hw) (nid + 1)
        (List.mem_append_left _ (hsubDst2 _ _ (hiw (nid + 1) (List.mem_singleton_self _))))
    obtain ⟨σ2, hσ2, hsim2⟩ := addVariable_sim h2y hinv.parentLt hcur hdinv hsim hΦinj
      hsubTst hsubTst2 hnmf
    have hsimP : Sim rst
        (pushScope (addName σ2 (patchName rst.patches (nid + 1) nm)) nid ScopeType.Function cur)
        (pushScope (addName st2 nm) nid ScopeType.Function cur) :=
      Sim_push (Sim_addName hsim2 _ _) nid ScopeType.Function cur
    obtain ⟨σ5, hσ5, hsim5⟩ :=
      addParams_sim hΦinj hPC h5 hw4.parentLt (by rw [pushScope_length]; omega)
        (DeclInv_push _ _ _ hdinv3) hsimP hsubTst5 hsubDst5
    have hP5 : ∀ i, i < st5.scopes.length → ∀ p, (getScope st5 i).parent = some p → p < i :=
      parentLt_of_shape hsh5 hw4.parentLt
    have hs5 : (addName st2 nm).scopes.length < st5.scopes.length := by
      rw [hsh5.len, pushScope_length]
      omega
    have h7y : addVariable
        { st5 with vars := st5.vars ++ [(⟨"arguments", "var", [], []⟩ : Variable)] }
        ((addName st2 nm).scopes.length) st5.vars.length = Except.ok st7 := h7
    have hnma : ∀ w : Nat,
        ((⟨"arguments", "var", [], []⟩ : Variable).name, w) ∈
          (getScope st7 (getDeclarationScope st5 ((addName st2 nm).scopes.length)
            (⟨"arguments", "var", [], []⟩ : Variable).kind)).table →
        (∀ s ∈ (⟨"arguments", "var", [], []⟩ : Variable).declarations,
          s ∈ (getVar st7 w).declarations) →
        ("arguments" : String) = phiOf rst w := by
      intro w hw hiw2
      have hpred : shouldRename (⟨"arguments", "var", [], []⟩ : Variable).name = false := by
        decide
      exact (hA _ _ (hsubTst7 _ _ hw) hpred).symm
    obtain ⟨σ7, hσ7, hsim7⟩ := addVariable_sim h7y hP5 hs5 hinv5 hsim5 hΦinj
      hsubTst5 hsubTst7 hnma
    obtain ⟨σ8, hσ8, hsim8⟩ :=
      declsL_sim body B rst hΦinj hPC hA st7 σ7 st.scopes.length (nid + 2 + params.length)
        (st8, cur8, nid8) h8 (hwc.mono (by omega)) hlenc hinv7 hsim7 hsubT2 hsubD2
    refine ⟨σ8, ?_, hsim8⟩
    simp only [patchN, declsN, allocVar]
    rw [hσ2, okBind]
    have hsideq : (addName σ2 (patchName rst.patches (nid + 1) nm)).scopes.length =
        (addName st2 nm).scopes.length := by
      rw [addName_scopes, addName_scopes]
      exact hsim2.shape.len
    rw [hsideq, hσ5, okBind, patchBindings_length, hσ7, okBind, hcurc, hσ8, okBind,
      leaveScope_shape hsim8.shape]
  | functionExpression onm params body =>
    intro B rst hΦinj hPC hA st σ cur nid out h hinv hcur hdinv hsim hsubT2 hsubD2
    cases onm with
    | none =>
      simp only [declsN, allocVar, bind_ok_iff, Option.isSome_none, Bool.false_eq_true,
        if_false, pure, Except.pure] at h
      obtain ⟨st3, h3, h⟩ := h
      obtain ⟨st4, h4, h⟩ := h
      obtain ⟨st6, h6, h⟩ := h
      obtain ⟨⟨st7, cur7, nid7⟩, h7, h⟩ := h
      simp only [Except.ok.injEq] at h h3
      subst h
      subst h3
      have hw1 : WalkInv (pushScope st nid ScopeType.Function cur) (nid + 1) :=
        pushScope_inv _ hinv hcur
      have h4y : addParams (pushScope st nid ScopeType.Function cur) st.scopes.length
          params (nid + 1 + 0) = Except.ok st4 := by simpa using h4
      obtain ⟨hinv4, hslen4, hg4, hcov4⟩ :=
        addParams_coh h4y hw1.parentLt (by rw [pushScope_length]; omega)
          (DeclInv_push _ _ _ hdinv)
      have hsh4 : SameShape (pushScope st nid ScopeType.Function cur) st4 :=
        addParams_shape h4y
      obtain ⟨hinv6, hslen6, hvlen6, htm6, hdm6, hkn6, -⟩ :=
        addVariable_coh h6
          (parentLt_of_shape (hsh4.strans (allocVar_shape st4 ⟨"arguments", "var", [], []⟩))
            hw1.parentLt)
          (by rw [(hsh4.strans (allocVar_shape st4 ⟨"arguments", "var", [], []⟩)).len,
                pushScope_length]; omega)
          (by simp) (DeclInv_alloc _ hinv4)
      have hsh6 : SameShape (pushScope st nid ScopeType.Function cur) st6 :=
        (hsh4.strans (allocVar_shape st4 ⟨"arguments", "var", [], []⟩)).strans
          (addVariable_shape h6)
      obtain ⟨hwc, hlenc⟩ := creating_setup hinv hcur (SameShape.srefl st) hsh6
      have h7y : declsL st6 st.scopes.length (nid + 1 + 0 + params.length) body =
          Except.ok (st7, cur7, nid7) := by simpa using h7
      obtain ⟨hinvF, hgF, hcovF⟩ :=
        declsL_coh body st6 st.scopes.length (nid + 1 + 0 + params.length) (st7, cur7, nid7)
          h7y (hwc.mono (by omega)) hlenc hinv6
      have g3 : Grow st4 { st4 with vars := st4.vars ++ [⟨"arguments", "var", [], []⟩] }
          ([] : List (Nat × String)) :=
        Grow_alloc st4 ⟨"arguments", "var", [], []⟩ []
      have g4 : Grow { st4 with vars := st4.vars ++ [⟨"arguments", "var", [], []⟩] } st6
          ([] : List (Nat × String)) := ⟨hvlen6.ge, htm6, hdm6, fun j e he => by
        rcases hkn6 j e he with hm | hm
        · exact Or.inl hm
        · exact Or.inr (Or.inl (by rw [hm, getVar_concat st4]))⟩
      have hsubTst6 : ∀ j : Nat, ∀ e ∈ (getScope st6 j).table, e ∈ (getScope B j).table :=
        fun j e he => hsubT2 j e (hgF.tmono j e he)
      have hsubDst6 : ∀ w : Nat, ∀ s ∈ (getVar st6 w).declarations,
          s ∈ (getVar B w).declarations :=
        fun w s hs2 => hsubD2 w s (hgF.dmono w s hs2)
      have hsubTst4 : ∀ j : Nat, ∀ e ∈ (getScope st4 j).table, e ∈ (getScope B j).table :=
        fun j e he => hsubTst6 j e (g4.tmono j e (g3.tmono j e he))
      have hsubDst4 : ∀ w : Nat, ∀ s ∈ (getVar st4 w).declarations,
          s ∈ (getVar B w).declarations :=
        fun w s hs2 => hsubDst6 w s (g4.dmono w s (g3.dmono w s hs2))
      obtain ⟨σ4, hσ4, hsim4⟩ :=
        addParams_sim hΦinj hPC h4y hw1.parentLt (by rw [pushScope_length]; omega)
          (DeclInv_push _ _ _ hdinv) (Sim_push hsim nid ScopeType.Function cur)
          hsubTst4 hsubDst4
      have hP4 : ∀ i, i < st4.scopes.length → ∀ p, (getScope st4 i).parent = some p → p < i :=
        parentLt_of_shape hsh4 hw1.parentLt
      have hs4 : st.scopes.length < st4.scopes.length := by
        rw [hsh4.len, pushScope_length]
        omega
      have h6y : addVariable
          { st4 with vars := st4.vars ++ [(⟨"arguments", "var", [], []⟩ : Variable)] }
          st.scopes.length st4.vars.length = Except.ok st6 := h6
      have hnma : ∀ w : Nat,
          ((⟨"arguments", "var", [], []⟩ : Variable).name, w) ∈
            (getScope st6 (getDeclarationScope st4 st.scopes.length
              (⟨"arguments", "var", [], []⟩ : Variable).kind)).table →
          (∀ s ∈ (⟨"arguments", "var", [], []⟩ : Variable).declarations,
            s ∈ (getVar st6 w).declarations) →
          ("arguments" : String) = phiOf rst w := by
        intro w hw hiw2
        have hpred : shouldRename (⟨"arguments", "var", [], []⟩ : Variable).name = false := by
          decide
        exact (hA _ _ (hsubTst6 _ _ hw) hpred).symm
      obtain ⟨σ6, hσ6, hsim6⟩ := addVariable_sim h6y hP4 hs4 hinv4 hsim4 hΦinj
        hsubTst4 hsubTst6 hnma
      obtain ⟨σ7, hσ7, hsim7⟩ :=
        declsL_sim body B rst hΦinj hPC hA st6 σ6 st.scopes.length (nid + 1 + 0 + params.length)
          (st7, cur7, nid7) h7y (hwc.mono (by omega)) hlenc hinv6 hsim6 hsubT2 hsubD2
      refine ⟨σ7, ?_, hsim7⟩
      simp only [patchN, declsN, allocVar, Option.map_none', Option.isSome_none,
        Bool.false_eq_true, if_false, pure, Except.pure, okBind]
      have hlen : σ.scopes.length = st.scopes.length := hsim.shape.len
      rw [hlen, hσ4, okBind, patchBindings_length, hσ6, okBind, hσ7, okBind,
        leaveScope_shape hsim7.shape]
    | some nm =>
      simp only [declsN, allocVar, bind_ok_iff, Option.isSome_some, if_true, pure,
        Except.pure] at h
      obtain ⟨stb, hb, h⟩ := h
      obtain ⟨st3, h3, h⟩ := h
      obtain ⟨st4, h4, h⟩ := h
      obtain ⟨st6, h6, h⟩ := h
      obtain ⟨⟨st7, cur7, nid7⟩, h7, h⟩ := h
      simp only [Except.ok.injEq] at h h3
      subst h
      subst h3
      have hw1 : WalkInv (pushScope st nid ScopeType.Function cur) (nid + 1) :=
        pushScope_inv _ hinv hcur
      obtain ⟨hinvb, hslenb, hvlenb, htmb, hdmb, hknb, rvid, hre, hrd⟩ :=
        addVariable_coh hb (parentLt_of_shape (sameShape_of_scopes_eq rfl) hw1.parentLt)
          (by rw [pushScope_length]; omega) (by simp)
          (DeclInv_alloc _ (DeclInv_push _ _ _ hdinv))
      have hshb : SameShape (pushScope st nid ScopeType.Function cur) (addName stb nm) :=
        ((allocVar_shape (pushScope st nid ScopeType.Function cur)
            ⟨nm, "var", [nid + 1], []⟩).strans (addVariable_shape hb)).strans
          (addName_shape stb nm)
      have hdinvb : DeclInv (addName stb nm) :=
        DeclInv_congr (addName_scopes _ _) (addName_vars _ _) hinvb
      have h4y : addParams (addName stb nm) st.scopes.length params (nid + 1 + 1) =
          Except.ok st4 := by simpa using h4
      obtain ⟨hinv4, hslen4, hg4, hcov4⟩ :=
        addParams_coh h4y (parentLt_of_shape hshb hw1.parentLt)
          (by rw [hshb.len, pushScope_length]; omega) hdinvb
      have hsh4 : SameShape (pushScope st nid ScopeType.Function cur) st4 :=
        hshb.strans (addParams_shape h4y)
      obtain ⟨hinv6, hslen6, hvlen6, htm6, hdm6, hkn6, -⟩ :=
        addVariable_coh h6
          (parentLt_of_shape (hsh4.strans (allocVar_shape st4 ⟨"arguments", "var", [], []⟩))
            hw1.parentLt)
          (by rw [(hsh4.strans (allocVar_shape st4 ⟨"arguments", "var", [], []⟩)).len,
                pushScope_length]; omega)
          (by simp) (DeclInv_alloc _ hinv4)
      have hsh6 : SameShape (pushScope st nid ScopeType.Function cur) st6 :=
        (hsh4.strans (allocVar_shape st4 ⟨"arguments", "var", [], []⟩)).strans
          (addVariable_shape h6)
      obtain ⟨hwc, hlenc⟩ := creating_setup hinv hcur (SameShape.srefl st) hsh6
      have h7y : declsL st6 st.scopes.length (nid + 1 + 1 + params.length) body =
          Except.ok (st7, cur7, nid7) := by simpa using h7
      obtain ⟨hinvF, hgF, hcovF⟩ :=
        declsL_coh body st6 st.scopes.length (nid + 1 + 1 + params.length) (st7, cur7, nid7)
          h7y (hwc.mono (by omega)) hlenc hinv6
      have g4 : Grow stb (addName stb nm) ([] : List (Nat × String)) :=
        Grow_congr (addName_scopes _ _) (addName_vars _ _) []
      have g5 : Grow (addName stb nm) st4 (dsitesP (nid + 1 + 1) params) := hg4
      have g6 : Grow st4 { st4 with vars := st4.vars ++ [⟨"arguments", "var", [], []⟩] }
          ([] : List (Nat × String)) :=
        Grow_alloc st4 ⟨"arguments", "var", [], []⟩ []
      have g7 : Grow { st4 with vars := st4.vars ++ [⟨"arguments", "var", [], []⟩] } st6
          ([] : List (Nat × String)) := ⟨hvlen6.ge, htm6, hdm6, fun j e he => by
        rcases hkn6 j e he with hm | hm
        · exact Or.inl hm
        · exact Or.inr (Or.inl (by rw [hm, getVar_concat st4]))⟩
      have hsubTst6 : ∀ j : Nat, ∀ e ∈ (getScope st6 j).table, e ∈ (getScope B j).table :=
        fun j e he => hsubT2 j e (hgF.tmono j e he)
      have hsubDst6 : ∀ w : Nat, ∀ s ∈ (getVar st6 w).declarations,
          s ∈ (getVar B w).declarations :=
        fun w s hs2 => hsubD2 w s (hgF.dmono w s hs2)
      have hsubTst4 : ∀ j : Nat, ∀ e ∈ (getScope st4 j).table, e ∈ (getScope B j).table :=
        fun j e he => hsubTst6 j e (g7.tmono j e (g6.tmono j e he))
      have hsubDst4 : ∀ w : Nat, ∀ s ∈ (getVar st4 w).declarations,
          s ∈ (getVar B w).declarations :=
        fun w s hs2 => hsubDst6 w s (g7.dmono w s (g6.dmono w s hs2))
      have hsubTstb : ∀ j : Nat, ∀ e ∈ (getScope stb j).table, e ∈ (getScope B j).table :=
        fun j e he => hsubTst4 j e (g5.tmono j e (g4.tmono j e he))
      have hsubDstb : ∀ w : Nat, ∀ s ∈ (getVar stb w).declarations,
          s ∈ (getVar B w).declarations :=
        fun w s hs2 => hsubDst4 w s (g5.dmono w s (g4.dmono w s hs2))
      have hsubTp : ∀ j : Nat,
          ∀ e ∈ (getScope (pushScope st nid ScopeType.Function cur) j).table,
          e ∈ (getScope B j).table :=
        fun j e he => hsubTstb j e (htmb j e he)
      have hby : addVariable
          { pushScope st nid ScopeType.Function cur with
            vars := (pushScope st nid ScopeType.Function cur).vars ++
              [(⟨nm, "var", [nid + 1], []⟩ : Variable)] }
          st.scopes.length (pushScope st nid ScopeType.Function cur).vars.length =
          Except.ok stb := hb
      have hnmf : ∀ w : Nat,
          ((⟨nm, "var", [nid + 1], []⟩ : Variable).name, w) ∈
            (getScope stb (getDeclarationScope (pushScope st nid ScopeType.Function cur)
              st.scopes.length (⟨nm, "var", [nid + 1], []⟩ : Variable).kind)).table →
          (∀ s ∈ (⟨nm, "var", [nid + 1], []⟩ : Variable).declarations,
            s ∈ (getVar stb w).declarations) →
          patchName rst.patches (nid + 1) nm = phiOf rst w := by
        intro w hw hiw
        exact hPC _ _ (hsubTstb _ _ hw) (nid + 1)
          (List.mem_append_left _ (hsubDstb _ _ (hiw (nid + 1) (List.mem_singleton_self _))))
      obtain ⟨σb, hσb, hsimb⟩ := addVariable_sim hby hw1.parentLt
        (by rw [pushScope_length]; omega) (DeclInv_push _ _ _ hdinv)
        (Sim_push hsim nid ScopeType.Function cur) hΦinj hsubTp hsubTstb hnmf
      obtain ⟨σ4, hσ4, hsim4⟩ :=
        addParams_sim hΦinj hPC h4y (parentLt_of_shape hshb hw1.parentLt)
          (by rw [hshb.len, pushScope_length]; omega) hdinvb (Sim_addName hsimb _ _)
          hsubTst4 hsubDst4
      have hP4 : ∀ i, i < st4.scopes.length → ∀ p, (getScope st4 i).parent = some p → p < i :=
        parentLt_of_shape hsh4 hw1.parentLt
      have hs4 : st.scopes.length < st4.scopes.length := by
        rw [hsh4.len, pushScope_length]
        omega
      have h6y : addVariable
          { st4 with vars := st4.vars ++ [(⟨"arguments", "var", [], []⟩ : Variable)] }
          st.scopes.length st4.vars.length = Except.ok st6 := h6
      have hnma : ∀ w : Nat,
          ((⟨"arguments", "var", [], []⟩ : Variable).name, w) ∈
            (getScope st6 (getDeclarationScope st4 st.scopes.length
              (⟨"arguments", "var", [], []⟩ : Variable).kind)).table →
          (∀ s ∈ (⟨"arguments", "var", [], []⟩ : Variable).declarations,
            s ∈ (getVar st6 w).declarations) →
          ("arguments" : String) = phiOf rst w := by
        intro w hw hiw2
        have hpred : shouldRename (⟨"arguments", "var", [], []⟩ : Variable).name = false := by
          decide
        exact (hA _ _ (hsubTst6 _ _ hw) hpred).symm
      obtain ⟨σ6, hσ6, hsim6⟩ := addVariable_sim h6y hP4 hs4 hinv4 hsim4 hΦinj
        hsubTst4 hsubTst6 hnma
      obtain ⟨σ7, hσ7, hsim7⟩ :=
        declsL_sim body B rst hΦinj hPC hA st6 σ6 st.scopes.length (nid + 1 + 1 + params.length)
          (st7, cur7, nid7) h7y (hwc.mono (by omega)) hlenc hinv6 hsim6 hsubT2 hsubD2
      refine ⟨σ7, ?_, hsim7⟩
      simp only [patchN, declsN, allocVar, Option.map_some', Option.isSome_some, if_true,
        pure, Except.pure, okBind]
      have hlen : σ.scopes.length = st.scopes.length := hsim.shape.len
      rw [hlen, hσb]
      simp only [okBind, pure, Except.pure]
      rw [hσ4, okBind, patchBindings_length, hσ6, okBind, hσ7, okBind,
        leaveScope_shape hsim7.shape]
  | arrowExpression params body =>
    intro B rst hΦinj hPC hA st σ cur nid out h hinv hcur hdinv hsim hsubT2 hsubD2
    simp only [declsN, bind_ok_iff] at h
    obtain ⟨st2, h2, h⟩ := h
    obtain ⟨⟨st3, cur3, nid3⟩, h3, h⟩ := h
    simp only [Except.ok.injEq] at h
    subst h
    have hw1 : WalkInv (pushScope st nid ScopeType.Function cur) (nid + 1) :=
      pushScope_inv _ hinv hcur
    obtain ⟨hinv2, hslen2, hg2, hcov2⟩ :=
      addParams_coh h2 hw1.parentLt (by rw [pushScope_length]; omega)
        (DeclInv_push _ _ _ hdinv)
    have hsh2 : SameShape (pushScope st nid ScopeType.Function cur) st2 := addParams_shape h2
    obtain ⟨hwc, hlenc⟩ := creating_setup hinv hcur (SameShape.srefl st) hsh2
    obtain ⟨hinvF, hgF, hcovF⟩ :=
      declsL_coh body st2 st.scopes.length (nid + 1 + params.length) (st3, cur3, nid3) h3
        (hwc.mono (by omega)) hlenc hinv2
    have hsubTst2 : ∀ j : Nat, ∀ e ∈ (getScope st2 j).table, e ∈ (getScope B j).table :=
      fun j e he => hsubT2 j e (hgF.tmono j e he)
    have hsubDst2 : ∀ w : Nat, ∀ s ∈ (getVar st2 w).declarations,
        s ∈ (getVar B w).declarations :=
      fun w s hs2 => hsubD2 w s (hgF.dmono w s hs2)
    obtain ⟨σ2, hσ2, hsim2⟩ :=
      addParams_sim hΦinj hPC h2 hw1.parentLt (by rw [pushScope_length]; omega)
        (DeclInv_push _ _ _ hdinv) (Sim_push hsim nid ScopeType.Function cur)
        hsubTst2 hsubDst2
    obtain ⟨σ3, hσ3, hsim3⟩ :=
      declsL_sim body B rst hΦinj hPC hA st2 σ2 st.scopes.length (nid + 1 + params.length)
        (st3, cur3, nid3) h3 (hwc.mono (by omega)) hlenc hinv2 hsim2 hsubT2 hsubD2
    refine ⟨σ3, ?_, hsim3⟩
    simp only [patchN, declsN]
    have hlen : σ.scopes.length = st.scopes.length := hsim.shape.len
    rw [hlen, hσ2, okBind, patchBindings_length, hσ3, okBind, leaveScope_shape hsim3.shape]
  | catchClause ob body =>
    intro B rst hΦinj hPC hA st σ cur nid out h hinv hcur hdinv hsim hsubT2 hsubD2
    cases ob with
    | none =>
      simp only [declsN, pure, Except.pure, okBind, bind_ok_iff, Option.isSome_none,
        Bool.false_eq_true, if_false] at h
      obtain ⟨⟨st3, cur3, nid3⟩, h3, hout⟩ := h
      simp only [Except.ok.injEq] at hout
      subst hout
      obtain ⟨hwc, hlenc⟩ := creating_setup hinv hcur (SameShape.srefl st) (SameShape.srefl _)
      have h3y : declsL (pushScope st nid ScopeType.Other cur) st.scopes.length
          (nid + 1 + 0) body = Except.ok (st3, cur3, nid3) := by simpa using h3
      obtain ⟨σ3, hσ3, hsim3⟩ :=
        declsL_sim body B rst hΦinj hPC hA (pushScope st nid ScopeType.Other cur)
          (pushScope σ nid ScopeType.Other cur) st.scopes.length (nid + 1 + 0)
          (st3, cur3, nid3) h3y (hwc.mono (by omega)) hlenc (DeclInv_push _ _ _ hdinv)
          (Sim_push hsim nid ScopeType.Other cur) hsubT2 hsubD2
      refine ⟨σ3, ?_, hsim3⟩
      simp only [patchN, declsN, pure, Except.pure, okBind, Option.map_none',
        Option.isSome_none, Bool.false_eq_true, if_false]
      have hlen : σ.scopes.length = st.scopes.length := hsim.shape.len
      rw [hlen, hσ3, okBind, leaveScope_shape hsim3.shape]
    | some b =>
      cases b with
      | pattern =>
        simp only [declsN, pure, Except.pure, okBind, bind_ok_iff, Option.isSome_some,
          if_true] at h
        obtain ⟨⟨st3, cur3, nid3⟩, h3, hout⟩ := h
        simp only [Except.ok.injEq] at hout
        subst hout
        obtain ⟨hwc, hlenc⟩ :=
          creating_setup hinv hcur (SameShape.srefl st) (SameShape.srefl _)
        have h3y : declsL (pushScope st nid ScopeType.Other cur) st.scopes.length
            (nid + 1 + 1) body = Except.ok (st3, cur3, nid3) := by simpa using h3
        obtain ⟨σ3, hσ3, hsim3⟩ :=
          declsL_sim body B rst hΦinj hPC hA (pushScope st nid ScopeType.Other cur)
            (pushScope σ nid ScopeType.Other cur) st.scopes.length (nid + 1 + 1)
            (st3, cur3, nid3) h3y (hwc.mono (by omega)) hlenc (DeclInv_push _ _ _ hdinv)
            (Sim_push hsim nid ScopeType.Other cur) hsubT2 hsubD2
        refine ⟨σ3, ?_, hsim3⟩
        simp only [patchN, declsN, pure, Except.pure, okBind, Option.map_some',
          Option.isSome_some, if_true]
        have hlen : σ.scopes.length = st.scopes.length := hsim.shape.len
        rw [hlen, hσ3, okBind, leaveScope_shape hsim3.shape]
      | bid nm =>
        simp only [declsN, allocVar, bind_ok_iff, pure, Except.pure, Option.isSome_some,
          if_true] at h
        obtain ⟨stb, hb, h⟩ := h
        obtain ⟨stc, hc, h⟩ := h
        simp only [Except.ok.injEq] at hc
        subst hc
        obtain ⟨⟨st3, cur3, nid3⟩, h3, hout⟩ := h
        simp only [Except.ok.injEq] at hout
        subst hout
        obtain ⟨hinvb, hslenb, hvlenb, htmb, hdmb, hknb, rvid, hre, hrd⟩ :=
          addVariable_coh hb (parentLt_of_shape (sameShape_of_scopes_eq rfl) hinv.parentLt)
            hcur (by simp) (DeclInv_alloc _ hdinv)
        have hshb : SameShape st (addName stb nm) :=
          ((allocVar_shape st ⟨nm, "let", [nid + 1], []⟩).strans (addVariable_shape hb)).strans
            (addName_shape stb nm)
        have hdinvb : DeclInv (addName stb nm) :=
          DeclInv_congr (addName_scopes _ _) (addName_vars _ _) hinvb
        obtain ⟨hwc, hlenc⟩ := creating_setup hinv hcur hshb (SameShape.srefl _)
        have h3y : declsL (pushScope (addName stb nm) nid ScopeType.Other cur)
            ((addName stb nm).scopes.length) (nid + 1 + 1) body =
            Except.ok (st3, cur3, nid3) := by simpa using h3
        rw [hshb.len] at h3y
        obtain ⟨hinvF, hgF, hcovF⟩ :=
          declsL_coh body (pushScope (addName stb nm) nid ScopeType.Other cur)
            st.scopes.length (nid + 1 + 1) (st3, cur3, nid3) h3y (hwc.mono (by omega)) hlenc
            (DeclInv_push _ _ _ hdinvb)
        have gPre : Grow stb (pushScope (addName stb nm) nid ScopeType.Other cur)
            (dsitesL (nid + 1 + 1) body) :=
          (Grow_congr (addName_scopes stb nm) (addName_vars stb nm) _).gtrans
            (Grow_push (addName stb nm) nid ScopeType.Other cur _)
        have gPost : Grow stb st3 (dsitesL (nid + 1 + 1) body) := gPre.gtrans hgF
        have hsubTb : ∀ j : Nat, ∀ e ∈ (getScope stb j).table, e ∈ (getScope B j).table :=
          fun j e he => hsubT2 j e (gPost.tmono j e he)
        have hsubDb : ∀ w : Nat, ∀ s ∈ (getVar stb w).declarations,
            s ∈ (getVar B w).declarations :=
          fun w s hs2 => hsubD2 w s (gPost.dmono w s hs2)
        have hsubT0 : ∀ j : Nat, ∀ e ∈ (getScope st j).table, e ∈ (getScope B j).table :=
          fun j e he => hsubTb j e (htmb j e he)
        have hby : addVariable
            { st with vars := st.vars ++ [(⟨nm, "let", [nid + 1], []⟩ : Variable)] }
            cur st.vars.length = Except.ok stb := hb
        have hnmb : ∀ w : Nat,
            ((⟨nm, "let", [nid + 1], []⟩ : Variable).name, w) ∈
              (getScope stb (getDeclarationScope st cur
                (⟨nm, "let", [nid + 1], []⟩ : Variable).kind)).table →
            (∀ s ∈ (⟨nm, "let", [nid + 1], []⟩ : Variable).declarations,
              s ∈ (getVar stb w).declarations) →
            patchName rst.patches (nid + 1) nm = phiOf rst w := by
          intro w hw hiw
          exact hPC _ _ (hsubTb _ _ hw) (nid + 1)
            (List.mem_append_left _ (hsubDb _ _ (hiw (nid + 1) (List.mem_singleton_self _))))
        obtain ⟨σb, hσb, hsimb⟩ := addVariable_sim hby hinv.parentLt hcur hdinv hsim hΦinj
          hsubT0 hsubTb hnmb
        have hsimc : Sim rst (addName σb (patchName rst.patches (nid + 1) nm))
            (addName stb nm) := Sim_addName hsimb _ _
        obtain ⟨σ3, hσ3, hsim3⟩ :=
          declsL_sim body B rst hΦinj hPC hA
            (pushScope (addName stb nm) nid ScopeType.Other cur)
            (pushScope (addName σb (patchName rst.patches (nid + 1) nm)) nid
              ScopeType.Other cur)
            st.scopes.length (nid + 1 + 1) (st3, cur3, nid3) h3y (hwc.mono (by omega)) hlenc
            (DeclInv_push _ _ _ hdinvb) (Sim_push hsimc nid ScopeType.Other cur)
            hsubT2 hsubD2
        refine ⟨σ3, ?_, hsim3⟩
        simp only [patchN, declsN, allocVar, pure, Except.pure, okBind, Option.map_some',
          Option.isSome_some, if_true]
        rw [hσb]
        simp only [okBind, pure, Except.pure]
        have hsideq : (addName σb (patchName rst.patches (nid + 1) nm)).scopes.length =
            st.scopes.length := by
          rw [addName_scopes, hsimb.shape.len]
          have h2' := hshb.len
          rw [addName_scopes] at h2'
          exact h2'
        rw [hsideq, hσ3, okBind, leaveScope_shape hsim3.shape]
  | forStatement body =>
    intro B rst hΦinj hPC hA st σ cur nid out h hinv hcur hdinv hsim hsubT2 hsubD2
    simp only [declsN, bind_ok_iff] at h
    obtain ⟨⟨st2, cur2, nid2⟩, h2, h⟩ := h
    simp only [Except.ok.injEq] at h
    subst h
    obtain ⟨hwc, hlenc⟩ := creating_setup hinv hcur (SameShape.srefl st) (SameShape.srefl _)
    obtain ⟨σ2, hσ2, hsim2⟩ :=
      declsL_sim body B rst hΦinj hPC hA (pushScope st nid ScopeType.Other cur)
        (pushScope σ nid ScopeType.Other cur) st.scopes.length (nid + 1)
        (st2, cur2, nid2) h2 hwc hlenc (DeclInv_push _ _ _ hdinv)
        (Sim_push hsim nid ScopeType.Other cur) hsubT2 hsubD2
    refine ⟨σ2, ?_, hsim2⟩
    simp only [patchN, declsN]
    have hlen : σ.scopes.length = st.scopes.length := hsim.shape.len
    rw [hlen, hσ2, okBind, leaveScope_shape hsim2.shape]
  | blockStatement body =>
    intro B rst hΦinj hPC hA st σ cur nid out h hinv hcur hdinv hsim hsubT2 hsubD2
    simp only [declsN, bind_ok_iff] at h
    obtain ⟨⟨st2, cur2, nid2⟩, h2, h⟩ := h
    simp only [Except.ok.injEq] at h
    subst h
    obtain ⟨hwc, hlenc⟩ := creating_setup hinv hcur (SameShape.srefl st) (SameShape.srefl _)
    obtain ⟨σ2, hσ2, hsim2⟩ :=
      declsL_sim body B rst hΦinj hPC hA (pushScope st nid ScopeType.Other cur)
        (pushScope σ nid ScopeType.Other cur) st.scopes.length (nid + 1)
        (st2, cur2, nid2) h2 hwc hlenc (DeclInv_push _ _ _ hdinv)
        (Sim_push hsim nid ScopeType.Other cur) hsubT2 hsubD2
    refine ⟨σ2, ?_, hsim2⟩
    simp only [patchN, declsN]
    have hlen : σ.scopes.length = st.scopes.length := hsim.shape.len
    rw [hlen, hσ2, okBind, leaveScope_shape hsim2.shape]
  | variableDeclaration kind bindings inits =>
    intro B rst hΦinj hPC hA st σ cur nid out h hinv hcur hdinv hsim hsubT2 hsubD2
    simp only [declsN, bind_ok_iff] at h
    obtain ⟨st1, h1, h⟩ := h
    obtain ⟨⟨st2, cur2, nid2⟩, h2, h⟩ := h
    simp only [Except.ok.injEq] at h
    subst h
    obtain ⟨hinv1, hslen1, hg1, hcov1⟩ := processBindings_coh h1 hinv.parentLt hcur hdinv
    have hsh1 : SameShape st st1 := processBindings_shape h1
    obtain ⟨hinvF, hgF, hcovF⟩ :=
      declsL_coh inits st1 cur (nid + 1 + bindings.length) (st2, cur2, nid2) h2
        ((hinv.ofShape hsh1).mono (by omega)) (by rw [hsh1.len]; exact hcur) hinv1
    have hsubTst1 : ∀ j : Nat, ∀ e ∈ (getScope st1 j).table, e ∈ (getScope B j).table :=
      fun j e he => hsubT2 j e (hgF.tmono j e he)
    have hsubDst1 : ∀ w : Nat, ∀ s ∈ (getVar st1 w).declarations,
        s ∈ (getVar B w).declarations :=
      fun w s hs2 => hsubD2 w s (hgF.dmono w s hs2)
    obtain ⟨σ1, hσ1, hsim1⟩ :=
      processBindings_sim hΦinj hPC h1 hinv.parentLt hcur hdinv hsim hsubTst1 hsubDst1
    obtain ⟨σ2, hσ2, hsim2⟩ :=
      declsL_sim inits B rst hΦinj hPC hA st1 σ1 cur (nid + 1 + bindings.length)
        (st2, cur2, nid2) h2 ((hinv.ofShape hsh1).mono (by omega))
        (by rw [hsh1.len]; exact hcur) hinv1 hsim1 hsubT2 hsubD2
    refine ⟨σ2, ?_, hsim2⟩
    simp only [patchN, declsN]
    rw [hσ1, okBind, patchBindings_length, hσ2, okBind, leaveScope_shape hsim2.shape]
  | identifierExpression nm =>
    intro B rst hΦinj hPC hA st σ cur nid out h hinv hcur hdinv hsim hsubT2 hsubD2
    simp only [declsN, Except.ok.injEq] at h
    subst h
    refine ⟨σ, ?_, hsim⟩
    simp only [patchN, declsN]
    rw [leaveScope_shape hsim.shape]
  | other children =>
    intro B rst hΦinj hPC hA st σ cur nid out h hinv hcur hdinv hsim hsubT2 hsubD2
    simp only [declsN, bind_ok_iff] at h
    obtain ⟨⟨st1, cur1, nid1⟩, hL, h⟩ := h
    simp only [Except.ok.injEq] at h
    subst h
    obtain ⟨σ1, hσL, hsimL⟩ := declsL_sim children B rst hΦinj hPC hA st σ cur (nid + 1)
      (st1, cur1, nid1) hL (hinv.mono (by omega)) hcur hdinv hsim hsubT2 hsubD2
    refine ⟨σ1, ?_, hsimL⟩
    simp only [patchN, declsN]
    rw [hσL, okBind, leaveScope_shape hsimL.shape]
termination_by 2 * sizeN n
decreasing_by all_goals (simp only [sizeN, sizeL]; omega)

theorem declsL_sim (ns : List Node) :
    ∀ (B : St) (rst : RSt),
    (∀ d : Nat, ∀ e1 ∈ (getScope B d).table, ∀ e2 ∈ (getScope B d).table,
      phiOf rst e1.2 = phiOf rst e2.2 → e1 = e2) →
    (∀ d : Nat, ∀ e ∈ (getScope B d).table,
      ∀ s ∈ (getVar B e.2).declarations ++ (getVar B e.2).references,
      patchName rst.patches s e.1 = phiOf rst e.2) →
    (∀ d : Nat, ∀ e ∈ (getScope B d).table, shouldRename e.1 = false →
      phiOf rst e.2 = e.1) →
    ∀ (st σ : St) (cur nid : Nat) (out : St × Nat × Nat),
    declsL st cur nid ns = Except.ok out →
    WalkInv st nid → cur < st.scopes.length → DeclInv st → Sim rst σ st →
    (∀ i : Nat, ∀ e ∈ (getScope out.1 i).table, e ∈ (getScope B i).table) →
    (∀ w : Nat, ∀ s ∈ (getVar out.1 w).declarations, s ∈ (getVar B w).declarations) →
    ∃ σout : St,
      declsL σ cur nid (patchL rst.patches nid ns) = Except.ok (σout, out.2.1, out.2.2) ∧
      Sim rst σout out.1 := by
  cases ns with
  | nil =>
    intro B rst hΦinj hPC hA st σ cur nid out h hinv hcur hdinv hsim hsubT2 hsubD2
    simp only [declsL, Except.ok.injEq] at h
    subst h
    exact ⟨σ, rfl, hsim⟩
  | cons n ns =>
    intro B rst hΦinj hPC hA st σ cur nid out h hinv hcur hdinv hsim hsubT2 hsubD2
    simp only [declsL, bind_ok_iff] at h
    obtain ⟨⟨st1, cur1, nid1⟩, h1, h2⟩ := h
    obtain ⟨hc1, hn1, hw1, hx1⟩ := declsN_spec n st cur nid (st1, cur1, nid1) h1 hinv hcur
    simp only at hc1 hn1 hw1 hx1
    obtain ⟨hinv1, hg1, hcov1⟩ := declsN_coh n st cur nid (st1, cur1, nid1) h1 hinv hcur hdinv
    simp only at hinv1 hg1 hcov1
    rw [hc1, hn1] at h2
    rw [hn1] at hw1
    obtain ⟨hinvT, hgT, hcovT⟩ := declsL_coh ns st1 cur (nid + sizeN n) out h2 hw1
      (Nat.lt_of_lt_of_le hcur hx1.len) hinv1
    have hsubTst1 : ∀ i : Nat, ∀ e ∈ (getScope st1 i).table, e ∈ (getScope B i).table :=
      fun i e he => hsubT2 i e (hgT.tmono i e he)
    have hsubDst1 : ∀ w : Nat, ∀ s ∈ (getVar st1 w).declarations,
        s ∈ (getVar B w).declarations :=
      fun w s hs2 => hsubD2 w s (hgT.dmono w s hs2)
    obtain ⟨σ1, hσ1, hsim1⟩ := declsN_sim n B rst hΦinj hPC hA st σ cur nid
      (st1, cur1, nid1) h1 hinv hcur hdinv hsim hsubTst1 hsubDst1
    simp only at hσ1 hsim1
    rw [hc1, hn1] at hσ1
    obtain ⟨σT, hσT, hsimT⟩ := declsL_sim ns B rst hΦinj hPC hA st1 σ1 cur (nid + sizeN n)
      out h2 hw1 (Nat.lt_of_lt_of_le hcur hx1.len) hinv1 hsim1 hsubT2 hsubD2
    refine ⟨σT, ?_, hsimT⟩
    show declsL σ cur nid (patchN rst.patches nid n :: patchL rst.patches (nid + sizeN n) ns) =
      Except.ok (σT, out.2.1, out.2.2)
    simp only [declsL]
    rw [hσ1, okBind]
    exact hσT
termination_by 2 * sizeL ns + 1
decreasing_by
  all_goals simp only [sizeN, sizeL]
  all_goals (try omega)
  all_goals (have hsz := sizeN_pos head; omega)

end

end Renamer
